import Mathlib

set_option autoImplicit false

namespace Q2pro

/-!
# q2pro image manager (src/refresh/images.c): shallow embedding

The image manager keeps a fixed table of image records (`r_images`), a
256-bucket hash table of slot indices (`r_imageHash`) and a slot count
(`r_numImages`).  Handles are slot indices; slot 0 is `R_NOTEXTURE`.

Conventions of the embedding

* C strings are `List Char` without the terminating NUL; `len` is the
  list length (both callers of `find_or_load_image` pass `strlen`).
* `qerror_t` results are `Except qerror_t _`: the negative error codes are
  the `error` side, `ret < 0` is the `error` case.
* Image formats are the indices of the `img_loaders` table, built with
  TGA, JPG and PNG support enabled: pcx 0, wal 1, tga 2, jpg 3, png 4.
* Constants, macros and helpers declared in headers that are not part of
  the two source files are fields of `Cfg` (fixed for a run) or of `World`
  (the external collaborators: file system, decoders, renderer upload,
  configuration variables).
* Every file-system load, decoder call and renderer upload is recorded in a
  trace of `Event`s, so that "no decoder is invoked" is a statement about
  the trace.
* `SCR_ParseColor` of src/cl_scrn.c is embedded in the section on colour
  parsing; its helpers from outside the source files are fields of `ScrEnv`.
-/

/-! ## Data model -/

/-- Error codes of `qerror_t` that the image manager produces or forwards. -/
inductive qerror_t where
  | Q_ERR_NOENT
  | Q_ERR_NAMETOOSHORT
  | Q_ERR_NAMETOOLONG
  | Q_ERR_INVALID_PATH
  | Q_ERR_FILE_TOO_SMALL
  | Q_ERR_UNKNOWN_FORMAT
  | Q_ERR_INVALID_FORMAT
  | Q_ERR_BAD_EXTENT
  | Q_ERR_BAD_RLE_PACKET
  | Q_ERR_OUT_OF_SLOTS
  | Q_ERR_AGAIN
  | Q_ERR_LIBRARY_ERROR
  | Q_ERR_FAILURE
  deriving DecidableEq, Repr

deriving instance DecidableEq for Except

/-- The fields of `image_t` the image manager reads or writes.  The
renderer-side fields are represented by the upload dimensions. -/
structure image_t where
  name : List Char
  baselen : Nat
  type : Nat
  flags : Nat
  width : Int
  height : Int
  upload_width : Int
  upload_height : Int
  registration_sequence : Nat
  deriving DecidableEq, Repr

/-- The record left by `memset(image, 0, sizeof(*image))`, which is also the
content of every slot of the zero-initialised global array. -/
def image_zero : image_t :=
  { name := [], baselen := 0, type := 0, flags := 0, width := 0, height := 0,
    upload_width := 0, upload_height := 0, registration_sequence := 0 }

/-- Global state of the image manager: `r_images`, `r_imageHash`,
`r_numImages` and the renderer's `registration_sequence` (the epoch).  A
bucket is the sequence of slot indices linked in it, head first. -/
structure State where
  r_images : Nat → image_t
  r_imageHash : Nat → List Nat
  r_numImages : Nat
  registration_sequence : Nat

/-- Constants and helpers that the source takes from headers outside the two
source files.  `hashfn` is the mixing function of `FS_HashPathLen`; the three
path helpers are those used by `R_RegisterImage`; `LittleShort` and
`LittleLong` convert a raw little-endian field value to the C value;
`MIPSIZE` is the macro of that name and `size_t_bits` the width of
`size_t`. -/
structure Cfg where
  MAX_RIMAGES : Nat
  MAX_QPATH : Nat
  MAX_PALETTED_PIXELS : Nat
  MAX_TEXTURE_SIZE : Nat
  MIPSIZE : Nat → Nat
  size_t_bits : Nat
  sizeof_dpcx_t : Nat
  sizeof_miptex_t : Nat
  IF_PERMANENT : Nat
  IF_SCRAP : Nat
  IF_PALETTED : Nat
  IT_SKIN : Nat
  IT_WALL : Nat
  hashfn : List Char → Nat
  LittleShort : Nat → Int
  LittleLong : Nat → Int
  FS_NormalizePath : List Char → List Char
  COM_DefaultExtension : List Char → List Char → List Char

/-- Observable calls to the collaborators. -/
inductive Event where
  | FS_LoadFile (path : List Char)
  | decode (fmt : Nat) (path : List Char)
  | FS_FOpenFile (path : List Char)
  | IMG_Load (slot : Nat)
  deriving DecidableEq, Repr

/-- External collaborators of one lookup: the virtual file system, the
`load` members of `img_loaders`, the two configuration variables (the
parsed search order `img_search[0 .. img_total)` and `r_override_textures`)
and the renderer upload.

Modelled from the spec: `IMG_Load` (renderer upload, not part of the source
files) owns the upload dimensions and may set flag bits of the record; it
returns the new flags and the upload width and height. -/
structure World where
  FS_LoadFile : List Char → Except qerror_t (List Nat)
  load : Nat → List Nat → List Char → Except qerror_t (List Nat × Int × Int)
  r_override_textures : Bool
  img_search : List Nat
  IMG_Load : image_t → List Nat → Int → Int → Nat × Int × Int

def RIMAGES_HASH : Nat := 256

def IM_PCX : Nat := 0
def IM_WAL : Nat := 1
def IM_TGA : Nat := 2
def IM_JPG : Nat := 3
def IM_PNG : Nat := 4
def IM_MAX : Nat := 5

/-- The `ext` member of `img_loaders[fmt]`. -/
def img_ext : Nat → List Char
  | 0 => ['p', 'c', 'x']
  | 1 => ['w', 'a', 'l']
  | 2 => ['t', 'g', 'a']
  | 3 => ['j', 'p', 'g']
  | 4 => ['p', 'n', 'g']
  | _ => []

/-! ## Path helpers -/

/-- Modelled from the spec: `Q_tolower` (shared.h is not part of the source
files) is ASCII lower-casing, the "case-insensitive" of the cache key. -/
def Q_tolower (c : Char) : Char := c.toLower

/-- Modelled from the spec: the per-character normalisation shared by
`FS_pathcmpn` and `FS_HashPathLen` ("case-insensitive, separator-normalized").
-/
def normChar (c : Char) : Char := if c = '\\' then '/' else Q_tolower c

/-- The normalised first `n` characters of a name. -/
def normBase (s : List Char) (n : Nat) : List Char := (s.take n).map normChar

/-- Modelled from the spec: `FS_pathcmpn` (common/files.c is not part of the
source files) compares the first `n` characters case-insensitively with
separators normalised; it returns 0 exactly when they agree. -/
def FS_pathcmpn (s1 s2 : List Char) (n : Nat) : Int :=
  if normBase s1 n = normBase s2 n then 0 else 1

/-- Modelled from the spec: `FS_HashPathLen` (common/files.c is not part of
the source files) hashes "the same prefix" that `FS_pathcmpn` compares and
reduces it to a bucket index below `size`. -/
def FS_HashPathLen (c : Cfg) (s : List Char) (len size : Nat) : Nat :=
  c.hashfn (normBase s len) % size

/-- Modelled from the spec: `Q_stricmp` is case-insensitive string
comparison, 0 when equal. -/
def Q_stricmp (s1 s2 : List Char) : Int :=
  if s1.map Q_tolower = s2.map Q_tolower then 0 else 1

/-- The effect of `memcpy(ext, ldr->ext, 4)` on `buffer`, where the pointer
`ext` is `buffer + extpos`: the buffer keeps its first `extpos` characters and
ends with the new extension. -/
def replace_ext (buffer : List Char) (extpos : Nat) (e : List Char) : List Char :=
  buffer.take extpos ++ e

/-! ## Slot allocation and lookup -/

/-- The scan of `alloc_image`: `for (i = 1; i < r_numImages; i++) if
(!image->registration_sequence) break;`.  `k` is the number of indices left
below `r_numImages`; the result is the value of `i` after the loop. -/
def alloc_image_scan (imgs : Nat → image_t) : Nat → Nat → Nat
  | 0, i => i
  | k + 1, i =>
    if (imgs i).registration_sequence = 0 then i
    else alloc_image_scan imgs k (i + 1)

/-- Function `alloc_image`: the index of the slot handed out and the new slot
count, or `none` for `NULL`. -/
def alloc_image (c : Cfg) (s : State) : Option (Nat × Nat) :=
  let i := alloc_image_scan s.r_images (s.r_numImages - 1) 1
  if i = s.r_numImages then
    if s.r_numImages = c.MAX_RIMAGES then none
    else some (i, s.r_numImages + 1)
  else some (i, s.r_numImages)

/-- The test in the body of `lookup_image`'s loop. -/
def image_matches (img : image_t) (name : List Char) (type baselen : Nat) : Bool :=
  img.type = type && img.baselen = baselen && FS_pathcmpn img.name name baselen = 0

/-- Function `lookup_image`: the first slot linked in bucket `hash` that has
the type, the base length and the base name asked for. -/
def lookup_image (s : State) (name : List Char) (type hash baselen : Nat) :
    Option Nat :=
  (s.r_imageHash hash).find? (fun i => image_matches (s.r_images i) name type baselen)

/-! ## Format resolver -/

/-- What a successful `try_image_format` leaves in `ret`, `*pic`, `*width`
and `*height`. -/
structure Loaded where
  fmt : Nat
  pic : List Nat
  width : Int
  height : Int
  deriving DecidableEq, Repr

/-- Function `try_image_format`: load the file, then decode it with loader
`fmt`.  A missing file returns the file system's error without calling the
decoder. -/
def try_image_format (w : World) (fmt : Nat) (filename : List Char) :
    Except qerror_t Loaded × List Event :=
  match w.FS_LoadFile filename with
  | .error e => (.error e, [Event.FS_LoadFile filename])
  | .ok data =>
    match w.load fmt data filename with
    | .error e => (.error e, [Event.FS_LoadFile filename, Event.decode fmt filename])
    | .ok (pic, width, height) =>
      (.ok { fmt := fmt, pic := pic, width := width, height := height },
       [Event.FS_LoadFile filename, Event.decode fmt filename])

/-- Result of the resolver: the return value, the file name left in `buffer`
and the collaborator calls made. -/
structure Attempt where
  ret : Except qerror_t Loaded
  buffer : List Char
  trace : List Event

/-- Function `try_other_formats`, by recursion on the part of `img_search`
still to be walked; the empty list is the code after the loop (fall back to
the 8-bit format of the image type).  `extpos` is the offset of the pointer
`ext` in `buffer`. -/
def try_other_formats (c : Cfg) (w : World) (orig type extpos : Nat) :
    List Nat → List Char → List Event → Attempt
  | [], buffer, tr =>
    let fmt := if type = c.IT_WALL then IM_WAL else IM_PCX
    if fmt = orig then
      { ret := .error .Q_ERR_NOENT, buffer := buffer, trace := tr }
    else
      let buffer1 := replace_ext buffer extpos (img_ext fmt)
      let r := try_image_format w fmt buffer1
      { ret := r.1, buffer := buffer1, trace := tr ++ r.2 }
  | fmt :: rest, buffer, tr =>
    if fmt = orig then try_other_formats c w orig type extpos rest buffer tr
    else
      let buffer1 := replace_ext buffer extpos (img_ext fmt)
      let r := try_image_format w fmt buffer1
      match r.1 with
      | .error .Q_ERR_NOENT =>
        try_other_formats c w orig type extpos rest buffer1 (tr ++ r.2)
      | ret => { ret := ret, buffer := buffer1, trace := tr ++ r.2 }

/-- The loop "find out original extension" of `find_or_load_image`: the
first format whose extension equals `ext` ignoring case, `IM_MAX` if none.
`k` is the number of formats left. -/
def find_format (ext : List Char) : Nat → Nat → Nat
  | 0, fmt => fmt
  | k + 1, fmt =>
    if Q_stricmp ext (img_ext fmt) = 0 then fmt else find_format ext k (fmt + 1)

/-- The section "load the pic from disk" of `find_or_load_image` (the branch
compiled when a 32-bit format is enabled). -/
def load_pic (c : Cfg) (w : World) (buffer : List Char) (type : Nat) : Attempt :=
  let extpos := buffer.length - 3
  let ext := buffer.drop extpos
  let fmt := find_format ext IM_MAX 0
  if fmt = IM_MAX then
    let a := try_other_formats c w IM_MAX type extpos w.img_search buffer []
    match a.ret with
    | .error .Q_ERR_NOENT => { a with ret := .error .Q_ERR_INVALID_PATH }
    | _ => a
  else if w.r_override_textures then
    try_other_formats c w IM_MAX type extpos w.img_search buffer []
  else
    let r := try_image_format w fmt buffer
    match r.1 with
    | .error .Q_ERR_NOENT => try_other_formats c w fmt type extpos w.img_search buffer r.2
    | ret => { ret := ret, buffer := buffer, trace := r.2 }

/-- The first `n` bytes of a file, as `FS_FOpenFile` followed by
`FS_Read(.., n, f)` returns them when the file holds at least `n` bytes. -/
def read_header (w : World) (path : List Char) (n : Nat) : Option (List Nat) :=
  match w.FS_LoadFile path with
  | .error _ => none
  | .ok data => if n ≤ data.length then some (data.take n) else none

/-- A little-endian field of `n` bytes at offset `off`. -/
def le_field (data : List Nat) (off : Nat) : Nat → Nat
  | 0 => 0
  | n + 1 => data.getD off 0 + 256 * le_field data (off + 1) n

/-- The first part of `get_image_dimensions`: the values of `w` and `h` read
from the header of the original 8-bit file, `(0, 0)` when the file is missing
or shorter than its header.  The values are `unsigned`, hence the reduction
modulo 2^32. -/
def declared_dimensions (c : Cfg) (w : World) (fmt : Nat) (path : List Char) : Int × Int :=
  if fmt = IM_WAL then
    match read_header w path c.sizeof_miptex_t with
    | some hd => (c.LittleLong (le_field hd 32 4) % 4294967296,
                  c.LittleLong (le_field hd 36 4) % 4294967296)
    | none => (0, 0)
  else
    match read_header w path c.sizeof_dpcx_t with
    | some hd => ((c.LittleShort (le_field hd 8 2) + 1) % 4294967296,
                  (c.LittleShort (le_field hd 10 2) + 1) % 4294967296)
    | none => (0, 0)

/-- Function `get_image_dimensions`: the dimensions declared by the header of
the original 8-bit file replace those of the record when they are plausible.
`extpos` is the offset of the pointer `ext` in `buffer`. -/
def get_image_dimensions (c : Cfg) (w : World) (image : image_t) (fmt : Nat)
    (buffer : List Char) (extpos : Nat) : image_t × List Event :=
  let path := replace_ext buffer extpos (if fmt = IM_WAL then img_ext IM_WAL else img_ext IM_PCX)
  let wh := declared_dimensions c w fmt path
  if wh.1 < 1 ∨ wh.2 < 1 ∨ wh.1 > 512 ∨ wh.2 > 512 ∨
      (wh.1 * wh.2) % 4294967296 > c.MAX_PALETTED_PIXELS then
    (image, [Event.FS_FOpenFile path])
  else
    ({ image with width := wh.1, height := wh.2 }, [Event.FS_FOpenFile path])

/-! ## Search order -/

/-- The `switch` of `r_texture_formats_changed`, with TGA, JPG and PNG support
enabled: the format a letter of the configuration string names, `none` for
the `default: continue` case. -/
def format_letter (ch : Char) : Option Nat :=
  if ch = 't' ∨ ch = 'T' then some IM_TGA
  else if ch = 'j' ∨ ch = 'J' then some IM_JPG
  else if ch = 'p' ∨ ch = 'P' then some IM_PNG
  else none

/-- The globals `img_search` (an array of `IM_MAX` entries) and `img_total`. -/
structure search_t where
  img_search : List Nat
  img_total : Nat
  deriving DecidableEq, Repr

/-- How `r_texture_formats_changed` ends: with the new globals, or with a store
`img_search[img_total++] = i` outside the array. -/
inductive formats_result where
  | done (st : search_t)
  | oob_write
  deriving DecidableEq, Repr

/-- The loop `for (s = self->string; *s; s++)` of `r_texture_formats_changed`
over the rest of the string. -/
def r_texture_formats_loop : List Char → search_t → formats_result
  | [], st => .done st
  | ch :: rest, st =>
    match format_letter ch with
    | none => r_texture_formats_loop rest st
    | some i =>
      if st.img_total < st.img_search.length then
        let st1 : search_t :=
          { img_search := st.img_search.set st.img_total i, img_total := st.img_total + 1 }
        if st1.img_total = IM_MAX then .done st1
        else r_texture_formats_loop rest st1
      else .oob_write

/-- Function `r_texture_formats_changed` on the configuration string `s`:
`img_total` is reset, the array keeps its old content until overwritten. -/
def r_texture_formats_changed (s : List Char) (old : search_t) : formats_result :=
  r_texture_formats_loop s { old with img_total := 0 }

/-- The search order that the resolver walks: `img_search[0 .. img_total)`. -/
def search_order (st : search_t) : List Nat := st.img_search.take st.img_total

/-! ## Lookup -/

/-- Result of `find_or_load_image`: the return value (`ok i` when `*image_p`
is slot `i`), the state afterwards and the collaborator calls made. -/
structure FindResult where
  ret : Except qerror_t Nat
  state : State
  trace : List Event

/-- Writing slot `i` of `r_images`. -/
def set_image (s : State) (i : Nat) (img : image_t) : State :=
  { s with r_images := Function.update s.r_images i img }

/-- The effect of `List_Append(&r_imageHash[hash], &image->entry)`: the slot
is linked at the tail of the bucket.  The list helpers are declared in a
header outside the source files; a bucket is kept as the sequence of the slot
indices linked in it.  This represents the intrusive list as long as a slot
is linked at most once, which is the case whenever lookups run with a nonzero
epoch (only a slot filled while the epoch is 0 can be handed out again while
it is still linked). -/
def List_Append (s : State) (hash i : Nat) : State :=
  { s with r_imageHash := Function.update s.r_imageHash hash (s.r_imageHash hash ++ [i]) }

/-- The effect of `List_Remove(&image->entry)`: the entry leaves the list it
is linked in. -/
def List_Remove (s : State) (i : Nat) : State :=
  { s with r_imageHash := fun h => (s.r_imageHash h).filter (fun j => j ≠ i) }

/-- The part of `find_or_load_image` from "fill in some basic info" to the
upload: the record written into the allocated slot (whose previous content is
`old`) and the collaborator calls of `get_image_dimensions`.  `a` is the
outcome of the resolver, `ld` what it decoded, `epoch` the current
`registration_sequence`. -/
def fill_image (c : Cfg) (w : World) (old : image_t) (name : List Char)
    (type flags epoch : Nat) (a : Attempt) (ld : Loaded) : image_t × List Event :=
  let img0 : image_t :=
    { old with
      name := a.buffer, baselen := name.length - 4, type := type, flags := flags,
      width := ld.width, height := ld.height,
      registration_sequence := epoch }
  let img1 : image_t :=
    if ld.fmt ≤ IM_WAL then { img0 with flags := img0.flags ||| c.IF_PALETTED } else img0
  let fmt := find_format (name.drop (name.length - 3)) IM_MAX 0
  let d : image_t × List Event :=
    if fmt ≤ IM_WAL ∧ ld.fmt > IM_WAL then
      get_image_dimensions c w img1 fmt a.buffer (name.length - 3)
    else (img1, [])
  let up := w.IMG_Load d.1 ld.pic ld.width ld.height
  ({ d.1 with flags := up.1, upload_width := up.2.1, upload_height := up.2.2 }, d.2)

/-- The part of `find_or_load_image` after a cache miss: resolve and decode,
allocate a slot, fill it in, link it and upload it. -/
def load_image (c : Cfg) (w : World) (s : State) (name : List Char)
    (type flags hash : Nat) : FindResult :=
  let a := load_pic c w name type
  match a.ret with
  | .error e => { ret := .error e, state := s, trace := a.trace }
  | .ok ld =>
    match alloc_image c s with
    | none => { ret := .error .Q_ERR_OUT_OF_SLOTS, state := s, trace := a.trace }
    | some (i, n) =>
      let f := fill_image c w (s.r_images i) name type flags s.registration_sequence a ld
      { ret := .ok i,
        state := set_image (List_Append { s with r_numImages := n } hash i) i f.1,
        trace := a.trace ++ f.2 ++ [Event.IMG_Load i] }

/-- Function `find_or_load_image`. -/
def find_or_load_image (c : Cfg) (w : World) (s : State) (name : List Char)
    (type flags : Nat) : FindResult :=
  if name.length ≤ 4 then
    { ret := .error .Q_ERR_NAMETOOSHORT, state := s, trace := [] }
  else if name.getD (name.length - 4) ' ' ≠ '.' then
    { ret := .error .Q_ERR_INVALID_PATH, state := s, trace := [] }
  else
    let hash := FS_HashPathLen c name (name.length - 4) RIMAGES_HASH
    match lookup_image s name type hash (name.length - 4) with
    | some i =>
      let img := s.r_images i
      { ret := .ok i,
        state := set_image s i
          { img with flags := img.flags ||| (flags &&& c.IF_PERMANENT),
                     registration_sequence := s.registration_sequence },
        trace := [] }
    | none => load_image c w s name type flags hash

/-- Result of the two entry points: the handle returned, the error reported
(if any), the state afterwards and the collaborator calls made. -/
structure Found where
  handle : Nat
  err : Option qerror_t
  state : State
  trace : List Event

/-- The tail shared by the two entry points: a record found gives its
handle, a failure gives handle 0 (`R_NOTEXTURE`) and the error. -/
def found_of (r : FindResult) : Found :=
  match r.ret with
  | .ok i => { handle := i, err := none, state := r.state, trace := r.trace }
  | .error e => { handle := 0, err := some e, state := r.state, trace := r.trace }

/-- Function `IMG_Find`; `none` is the fatal path (`Com_Error(ERR_FATAL)`) taken
for an oversize name.  Failures return `R_NOTEXTURE`, slot 0. -/
def IMG_Find (c : Cfg) (w : World) (s : State) (name : List Char) (type : Nat) :
    Option Found :=
  if name.length ≥ c.MAX_QPATH then none
  else some (found_of (find_or_load_image c w s name type 0))

/-- The path defaulting of `R_RegisterImage` for the non-empty name
`c0 :: rest`: the full name handed to `find_or_load_image`, or the error of
the first length check. -/
def register_fullname (c : Cfg) (c0 : Char) (rest : List Char) (type : Nat) :
    Except qerror_t (List Char) :=
  if type = c.IT_SKIN then .ok (c.FS_NormalizePath (c0 :: rest))
  else if c0 = '/' ∨ c0 = '\\' then .ok (c.FS_NormalizePath rest)
  else
    let cat := ['p', 'i', 'c', 's', '/'] ++ (c0 :: rest)
    if cat.length ≥ c.MAX_QPATH then .error .Q_ERR_NAMETOOLONG
    else .ok (c.COM_DefaultExtension (c.FS_NormalizePath cat) ['.', 'p', 'c', 'x'])

/-- Function `R_RegisterImage`.  The returned handle is 0 on every failure. -/
def R_RegisterImage (c : Cfg) (w : World) (s : State) (name : List Char)
    (type flags : Nat) : Found :=
  match name with
  | [] => { handle := 0, err := some .Q_ERR_NAMETOOSHORT, state := s, trace := [] }
  | c0 :: rest =>
    if s.r_numImages = 0 then
      { handle := 0, err := some .Q_ERR_AGAIN, state := s, trace := [] }
    else
      match register_fullname c c0 rest type with
      | .error e => { handle := 0, err := some e, state := s, trace := [] }
      | .ok fullname =>
        if fullname.length ≥ c.MAX_QPATH then
          { handle := 0, err := some .Q_ERR_NAMETOOLONG, state := s, trace := [] }
        else found_of (find_or_load_image c w s fullname type flags)

/-! ## Lifecycle -/

/-- The body of the loop of `IMG_FreeUnused` for slot `i`. -/
def IMG_FreeUnused_body (c : Cfg) (s : State) (i : Nat) : State :=
  let image := s.r_images i
  if image.registration_sequence = s.registration_sequence then s
  else if image.registration_sequence = 0 then s
  else if image.flags &&& (c.IF_PERMANENT ||| c.IF_SCRAP) ≠ 0 then s
  else set_image (List_Remove s i) i image_zero

/-- The loop of `IMG_FreeUnused` from index `i`, with `k` indices left below
`r_numImages`. -/
def IMG_FreeUnused_loop (c : Cfg) : Nat → Nat → State → State
  | 0, _, s => s
  | k + 1, i, s => IMG_FreeUnused_loop c k (i + 1) (IMG_FreeUnused_body c s i)

/-- Function `IMG_FreeUnused`. -/
def IMG_FreeUnused (c : Cfg) (s : State) : State :=
  IMG_FreeUnused_loop c (s.r_numImages - 1) 1 s

/-- The body of the first loop of `IMG_FreeAll` for slot `i`. -/
def IMG_FreeAll_body (s : State) (i : Nat) : State :=
  if (s.r_images i).registration_sequence = 0 then s
  else set_image s i image_zero

/-- The first loop of `IMG_FreeAll` from index `i`, with `k` indices left. -/
def IMG_FreeAll_loop : Nat → Nat → State → State
  | 0, _, s => s
  | k + 1, i, s => IMG_FreeAll_loop k (i + 1) (IMG_FreeAll_body s i)

/-- Function `IMG_FreeAll`: free the live slots, re-initialise every bucket,
reset the slot count to 1. -/
def IMG_FreeAll (s : State) : State :=
  let s1 := IMG_FreeAll_loop (s.r_numImages - 1) 1 s
  { s1 with r_imageHash := fun _ => [], r_numImages := 1 }

/-- The zero-initialised globals at program start, with the renderer's epoch
counter at `epoch`. -/
def boot (epoch : Nat) : State :=
  { r_images := fun _ => image_zero, r_imageHash := fun _ => [], r_numImages := 0,
    registration_sequence := epoch }

/-- Function `IMG_Init`; `none` is the fatal path "images not freed". -/
def IMG_Init (s : State) : Option State :=
  if s.r_numImages ≠ 0 then none
  else some { s with r_imageHash := fun _ => [], r_numImages := 1 }

/-- The external caller advances the epoch once per registration phase. -/
def advance_epoch (s : State) : State :=
  { s with registration_sequence := s.registration_sequence + 1 }

/-- States reachable from `IMG_Init` on the zero-initialised globals by
lookups through either entry point (with any file system, decoders and
configuration at each call), epoch advances, `IMG_FreeUnused` and
`IMG_FreeAll`. -/
inductive Reachable (c : Cfg) : State → Prop where
  | init (epoch : Nat) (s : State) (h : IMG_Init (boot epoch) = some s) : Reachable c s
  | find (w : World) (s : State) (name : List Char) (type : Nat) (r : Found)
      (hs : Reachable c s) (h : IMG_Find c w s name type = some r) : Reachable c r.state
  | register (w : World) (s : State) (name : List Char) (type flags : Nat)
      (hs : Reachable c s) : Reachable c (R_RegisterImage c w s name type flags).state
  | advance (s : State) (hs : Reachable c s) : Reachable c (advance_epoch s)
  | freeUnused (s : State) (hs : Reachable c s) : Reachable c (IMG_FreeUnused c s)
  | freeAll (s : State) (hs : Reachable c s) : Reachable c (IMG_FreeAll s)

/-! ## PCX loading -/

/-- The header fields of `dpcx_t` that `_IMG_LoadPCX` reads, as raw
little-endian values. -/
structure dpcx_t where
  manufacturer : Nat
  version : Nat
  encoding : Nat
  bits_per_pixel : Nat
  xmin : Nat
  ymin : Nat
  xmax : Nat
  ymax : Nat
  color_planes : Nat
  bytes_per_line : Nat
  deriving DecidableEq, Repr

/-- The cast `pcx = (dpcx_t *)rawdata`.  The structure is declared in
format/pcx.h, which is not part of the source files; the offsets are those of
the PCX file header (four one-byte fields, the window as four 16-bit
fields at offset 4, `color_planes` at 65, `bytes_per_line` at 66). -/
def dpcx_of (rawdata : List Nat) : dpcx_t :=
  { manufacturer := rawdata.getD 0 0, version := rawdata.getD 1 0,
    encoding := rawdata.getD 2 0, bits_per_pixel := rawdata.getD 3 0,
    xmin := le_field rawdata 4 2, ymin := le_field rawdata 6 2,
    xmax := le_field rawdata 8 2, ymax := le_field rawdata 10 2,
    color_planes := rawdata.getD 65 0, bytes_per_line := le_field rawdata 66 2 }

/-- Offset of the member `data` of `dpcx_t`: the pixel data follow the 128-byte
PCX header. -/
def dpcx_data : Nat := 128

/-- Arithmetic on C `int`: the result reduced to 32-bit two's complement. -/
def int32 (x : Int) : Int := (x + 2147483648) % 4294967296 - 2147483648

/-- Checked values of the header: width, height and scanline stride. -/
structure pcx_dims where
  w : Int
  h : Int
  scan : Int
  deriving DecidableEq, Repr

/-- The section "parse the PCX file" of `_IMG_LoadPCX`: the checks on the
header, in the order of the source. -/
def pcx_parse (c : Cfg) (rawdata : List Nat) : Except qerror_t pcx_dims :=
  if rawdata.length < c.sizeof_dpcx_t then .error .Q_ERR_FILE_TOO_SMALL
  else
    let pcx := dpcx_of rawdata
    if pcx.manufacturer ≠ 10 ∨ pcx.version ≠ 5 then .error .Q_ERR_UNKNOWN_FORMAT
    else if pcx.encoding ≠ 1 ∨ pcx.bits_per_pixel ≠ 8 then .error .Q_ERR_INVALID_FORMAT
    else
      let w := (c.LittleShort pcx.xmax - c.LittleShort pcx.xmin) + 1
      let h := (c.LittleShort pcx.ymax - c.LittleShort pcx.ymin) + 1
      if w > 640 ∨ h > 480 ∨ int32 (w * h) > c.MAX_PALETTED_PIXELS then
        .error .Q_ERR_INVALID_FORMAT
      else if pcx.color_planes ≠ 1 then .error .Q_ERR_INVALID_FORMAT
      else
        let scan := c.LittleShort pcx.bytes_per_line
        if scan < w then .error .Q_ERR_INVALID_FORMAT
        else .ok { w := w, h := h, scan := scan }

/-- How a loop of the pixel decoder ends: it goes on with the source at `raw`
and the raster `out`, it jumps to `fail`, it would read the source at or
beyond `end`, it would write outside the raster, or the iteration budget of
the embedding is used up. -/
inductive pcx_step where
  | next (raw : Nat) (out : List Nat)
  | fail
  | oob_read
  | oob_write
  | out_of_fuel
  deriving DecidableEq, Repr

/-- The store `pix[x] = dataByte` where `pix = out + row`: `none` when the
index lies outside the raster. -/
def pcx_store (out : List Nat) (row : Int) (x : Nat) (dataByte : Nat) :
    Option (List Nat) :=
  if 0 ≤ row + x ∧ row + x < out.length then some (out.set (row + x).toNat dataByte)
  else none

/-- The loop `while (runLength--) { if (x < w) pix[x] = dataByte; x++; }`:
the column and the raster afterwards, `none` for a store outside the raster. -/
def pcx_run (w row : Int) (dataByte : Nat) : Nat → Nat → List Nat → Option (Nat × List Nat)
  | 0, x, out => some (x, out)
  | runLength + 1, x, out =>
    if (x : Int) < w then
      match pcx_store out row x dataByte with
      | none => none
      | some out1 => pcx_run w row dataByte runLength (x + 1) out1
    else pcx_run w row dataByte runLength (x + 1) out

/-- The loop `for (x = 0; x < scan;)` over one scanline, from column `x` with
the source pointer at index `raw`.  `end` is `rawdata.length`.  Every
iteration that goes on has consumed a source byte; `fuel` bounds the number
of iterations. -/
def pcx_scanline (rawdata : List Nat) (w scan row : Int) :
    Nat → Nat → Nat → List Nat → pcx_step
  | 0, _, _, _ => .out_of_fuel
  | fuel + 1, raw, x, out =>
    if (x : Int) < scan then
      if raw ≥ rawdata.length then .fail
      else
        match rawdata[raw]? with
        | none => .oob_read
        | some dataByte =>
          if dataByte &&& 0xC0 = 0xC0 then
            let runLength := dataByte &&& 0x3F
            if (x : Int) + runLength > scan then .fail
            else if raw + 1 ≥ rawdata.length then .fail
            else
              match rawdata[raw + 1]? with
              | none => .oob_read
              | some dataByte1 =>
                match pcx_run w row dataByte1 runLength x out with
                | none => .oob_write
                | some (x1, out1) => pcx_scanline rawdata w scan row fuel (raw + 2) x1 out1
          else
            match pcx_run w row dataByte 1 x out with
            | none => .oob_write
            | some (x1, out1) => pcx_scanline rawdata w scan row fuel (raw + 1) x1 out1
    else .next raw out

/-- The loop `for (y = 0; y < h; y++, pix += w)`, with `k` scanlines left
from scanline `y`.  A scanline is given one iteration more than the source
bytes left. -/
def pcx_rows (rawdata : List Nat) (w scan : Int) : Nat → Nat → Nat → List Nat → pcx_step
  | 0, _, raw, out => .next raw out
  | k + 1, y, raw, out =>
    match pcx_scanline rawdata w scan (y * w) (rawdata.length - raw + 1) raw 0 out with
    | .next raw1 out1 => pcx_rows rawdata w scan k (y + 1) raw1 out1
    | r => r

/-- What `_IMG_LoadPCX` stores through its out-parameters on success. -/
structure pcx_out where
  pic : Option (List Nat)
  palette : Option (List Nat)
  width : Int
  height : Int
  deriving DecidableEq, Repr

/-- How `_IMG_LoadPCX` ends: with a return value, or with one of the events
that the source must exclude (an access outside a buffer, or the embedding
running out of iterations). -/
inductive pcx_result where
  | ok (o : pcx_out)
  | error (e : qerror_t)
  | oob_read
  | oob_write
  | out_of_fuel
  deriving DecidableEq, Repr

/-- Function `_IMG_LoadPCX`; `want_pic` and `want_palette` say whether the
pointers `pic` and `palette` are non-null.  The raster from
`IMG_AllocPixels(w * h)` starts zero-filled. -/
def _IMG_LoadPCX (c : Cfg) (rawdata : List Nat) (want_pic want_palette : Bool) :
    pcx_result :=
  match pcx_parse c rawdata with
  | .error e => .error e
  | .ok d =>
    if want_palette ∧ rawdata.length < 768 then .error .Q_ERR_FILE_TOO_SMALL
    else
      let palette : Option (List Nat) :=
        if want_palette then some (rawdata.drop (rawdata.length - 768)) else none
      if want_pic then
        let out := List.replicate (int32 (d.w * d.h)).toNat 0
        match pcx_rows rawdata d.w d.scan d.h.toNat 0 dpcx_data out with
        | .next _ out1 =>
          .ok { pic := some out1, palette := palette, width := d.w, height := d.h }
        | .fail => .error .Q_ERR_BAD_RLE_PACKET
        | .oob_read => .oob_read
        | .oob_write => .oob_write
        | .out_of_fuel => .out_of_fuel
      else .ok { pic := none, palette := palette, width := d.w, height := d.h }

/-- Function `IMG_LoadPCX`, the `load` member of `img_loaders[IM_PCX]`. -/
def IMG_LoadPCX (c : Cfg) (rawdata : List Nat) : pcx_result :=
  _IMG_LoadPCX c rawdata true false

/-- Reference for the run-length stream, following the words of the
specification: walking the packets of `data` from column `x` with `rows`
scanlines of `scan` bytes still to fill, a bad packet is met before all
scanlines are filled.  A packet is bad when the source is exhausted where a
packet byte or the value byte of a run is needed, or when it is a run of
count `c` at column `x` with `x + c > scan`.  A byte with its top two bits
set is a run whose count is its low six bits; any other byte is a literal. -/
def pcx_bad_rle (scan : Nat) : List Nat → Nat → Nat → Bool
  | [], rows, _ => decide (0 < rows ∧ 0 < scan)
  | b :: rest, rows, x =>
    if rows = 0 ∨ scan = 0 then false
    else if b &&& 0xC0 = 0xC0 then
      if x + (b &&& 0x3F) > scan then true
      else
        match rest with
        | [] => true
        | _ :: rest2 =>
          if x + (b &&& 0x3F) = scan then pcx_bad_rle scan rest2 (rows - 1) 0
          else pcx_bad_rle scan rest2 rows (x + (b &&& 0x3F))
    else if x + 1 = scan then pcx_bad_rle scan rest (rows - 1) 0
    else pcx_bad_rle scan rest rows (x + 1)

/-- Reference for the pixel content, following the words of the
specification: the run-length expansion of a byte stream.  A byte `b` with
`(b AND 0xC0) = 0xC0` expands to `b AND 0x3F` copies of the next byte, any
other byte is a literal. -/
def pcx_expand : List Nat → List Nat
  | [] => []
  | b :: rest =>
    if b &&& 0xC0 = 0xC0 then
      match rest with
      | [] => []
      | v :: rest2 => List.replicate (b &&& 0x3F) v ++ pcx_expand rest2
    else b :: pcx_expand rest

/-! ## WAL loading -/

/-- Conversion of a C value to `size_t`. -/
def to_size_t (c : Cfg) (x : Int) : Nat := (x % ((2 ^ c.size_t_bits : Nat) : Int)).toNat

/-- What `IMG_LoadWAL` stores on success.  `*pic` is `(byte *)mt + offset`, a
pointer into the file buffer and not a copy: it is kept as the offset of
the pixels in the input. -/
structure wal_out where
  offset : Nat
  width : Nat
  height : Nat
  deriving DecidableEq, Repr

/-- Function `IMG_LoadWAL`.  The fields of `miptex_t` (format/wal.h, not part
of the source files) are read at their offsets in the WAL file header: `width`
at 32, `height` at 36 and `offsets[0]` at 40, after the 32-byte name.  All
arithmetic is on `size_t`. -/
def IMG_LoadWAL (c : Cfg) (rawdata : List Nat) : Except qerror_t wal_out :=
  if rawdata.length < c.sizeof_miptex_t then .error .Q_ERR_FILE_TOO_SMALL
  else
    let w := to_size_t c (c.LittleLong (le_field rawdata 32 4))
    let h := to_size_t c (c.LittleLong (le_field rawdata 36 4))
    let offset := to_size_t c (c.LittleLong (le_field rawdata 40 4))
    if w < 1 ∨ h < 1 ∨ w > 512 ∨ h > 512 ∨
        (w * h) % 2 ^ c.size_t_bits > c.MAX_PALETTED_PIXELS then
      .error .Q_ERR_INVALID_FORMAT
    else
      let size := c.MIPSIZE ((w * h) % 2 ^ c.size_t_bits) % 2 ^ c.size_t_bits
      let endpos := (offset + size) % 2 ^ c.size_t_bits
      if endpos < offset ∨ endpos > rawdata.length then .error .Q_ERR_BAD_EXTENT
      else .ok { offset := offset, width := w, height := h }

/-- The pixels that `*pic` points at after `IMG_LoadWAL`: the input itself from
byte `offset` on. -/
def wal_pixels (rawdata : List Nat) (o : wal_out) : List Nat := rawdata.drop o.offset

/-! ## TGA loading -/

def TARGA_HEADER_SIZE : Nat := 18

/-- One output pixel: the four bytes stored at `out_row[0 .. 3]`. -/
structure rgba where
  r : Nat
  g : Nat
  b : Nat
  a : Nat
  deriving DecidableEq, Repr

/-- The reads `in[2]`, `in[1]`, `in[0]` (and `in[3]` when the alpha channel
comes from the input, else 255) of one source pixel at index `inn`; `none`
when one of them lies outside the input.

Modelled from the spec: `MakeColor(r, g, b, a)` (shared.h, not part of the
source files) packs the word whose bytes in memory are r, g, b, a ("channel
reorder BGR[A] to RGBA"), so a run packet stores the same four bytes as a raw
packet. -/
def tga_read_pixel (rawdata : List Nat) (inn : Nat) (alpha : Bool) : Option rgba :=
  match rawdata[inn + 2]?, rawdata[inn + 1]?, rawdata[inn]? with
  | some r, some g, some b =>
    if alpha then
      match rawdata[inn + 3]? with
      | some a => some { r := r, g := g, b := b, a := a }
      | none => none
    else some { r := r, g := g, b := b, a := 255 }
  | _, _, _ => none

/-- The offset of the pointer `out + row * cols * 4` from `out`.  `row` and
`cols` are `int`, so the product is computed on `int`. -/
def tga_row_ptr (row cols : Nat) : Int := int32 ((row : Int) * (cols : Int) * 4)

/-- The four stores `out_row[0] .. out_row[3]` with `out_row = out + idx`;
`none` when they do not lie inside the raster. -/
def tga_store (out : List Nat) (idx : Int) (px : rgba) : Option (List Nat) :=
  if 0 ≤ idx ∧ idx + 4 ≤ out.length then
    some ((((out.set idx.toNat px.r).set (idx.toNat + 1) px.g).set (idx.toNat + 2) px.b).set
      (idx.toNat + 3) px.a)
  else none

/-- How a pixel loop of the uncompressed decoders ends. -/
inductive tga_loop where
  | next (inn : Nat) (out : List Nat)
  | oob_read
  | oob_write
  deriving DecidableEq, Repr

/-- How the pixel loop of one run-length packet ends: it goes on with the
next packet, it jumps to `break_out`, or an access falls outside a buffer. -/
inductive tga_packet where
  | cont (inn row col : Nat) (out_row : Int) (out : List Nat)
  | break_out (out : List Nat)
  | oob_read
  | oob_write
  deriving DecidableEq, Repr

/-- How a `tga_decode_*` function ends: it returns `Q_ERR_SUCCESS` with the
raster filled as `out`, it returns an error, or one of the events that the
source must exclude happens. -/
inductive tga_decoded where
  | ok (out : List Nat)
  | error (e : qerror_t)
  | oob_read
  | oob_write
  | out_of_fuel
  deriving DecidableEq, Repr

/-- The loop `for (col = 0; col < cols; col++, out_row += 4, in += stride)` of
the uncompressed decoders, with `n` pixels left; also the single loop of the
flipped decoders. -/
def tga_decode_cols (rawdata : List Nat) (stride : Nat) (alpha : Bool) :
    Nat → Nat → Int → List Nat → tga_loop
  | 0, inn, _, out => .next inn out
  | n + 1, inn, out_row, out =>
    match tga_read_pixel rawdata inn alpha with
    | none => .oob_read
    | some px =>
      match tga_store out out_row px with
      | none => .oob_write
      | some out1 => tga_decode_cols rawdata stride alpha n (inn + stride) (out_row + 4) out1

/-- The loop `for (row = rows - 1; row >= 0; row--)` of `tga_decode_bgr` and
`tga_decode_bgra`, with `k` rows left: the row handled is `k - 1`, and
`out_row = out + row * cols * 4`. -/
def tga_decode_rows (rawdata : List Nat) (stride : Nat) (alpha : Bool) (cols : Nat) :
    Nat → Nat → List Nat → tga_decoded
  | 0, _, out => .ok out
  | row + 1, inn, out =>
    match tga_decode_cols rawdata stride alpha cols inn (tga_row_ptr row cols) out with
    | .next inn1 out1 => tga_decode_rows rawdata stride alpha cols row inn1 out1
    | .oob_read => .oob_read
    | .oob_write => .oob_write

/-- Function `tga_decode_bgr`. -/
def tga_decode_bgr (rawdata : List Nat) (inn : Nat) (out : List Nat) (cols rows : Nat) :
    tga_decoded :=
  tga_decode_rows rawdata 3 false cols rows inn out

/-- Function `tga_decode_bgra`. -/
def tga_decode_bgra (rawdata : List Nat) (inn : Nat) (out : List Nat) (cols rows : Nat) :
    tga_decoded :=
  tga_decode_rows rawdata 4 true cols rows inn out

/-- The end of a flipped decoder. -/
def tga_decoded_of_loop : tga_loop → tga_decoded
  | .next _ out => .ok out
  | .oob_read => .oob_read
  | .oob_write => .oob_write

/-- The value `count = rows * cols` of the flipped decoders, computed on `int`;
the loop `for (i = 0; i < count; i++)` makes no iteration when it is
negative. -/
def tga_flip_count (cols rows : Nat) : Nat := (int32 ((rows : Int) * (cols : Int))).toNat

/-- Function `tga_decode_bgr_flip`. -/
def tga_decode_bgr_flip (rawdata : List Nat) (inn : Nat) (out : List Nat) (cols rows : Nat) :
    tga_decoded :=
  tga_decoded_of_loop (tga_decode_cols rawdata 3 false (tga_flip_count cols rows) inn 0 out)

/-- Function `tga_decode_bgra_flip`.  As in the source, the input pointer
advances by 3 per pixel while four bytes are read. -/
def tga_decode_bgra_flip (rawdata : List Nat) (inn : Nat) (out : List Nat) (cols rows : Nat) :
    tga_decoded :=
  tga_decoded_of_loop (tga_decode_cols rawdata 3 true (tga_flip_count cols rows) inn 0 out)

/-- The loop `for (j = 0; j < packet_size; j++)` of a run-length packet, with
`j` pixels left: store the colour, and at the end of a row go to the row
above, or to `break_out` when row 0 is filled. -/
def tga_rle_run (cols : Nat) (color : rgba) (inn : Nat) :
    Nat → Nat → Nat → Int → List Nat → tga_packet
  | 0, row, col, out_row, out => .cont inn row col out_row out
  | j + 1, row, col, out_row, out =>
    match tga_store out out_row color with
    | none => .oob_write
    | some out1 =>
      if col + 1 = cols then
        if row > 0 then
          tga_rle_run cols color inn j (row - 1) 0 (tga_row_ptr (row - 1) cols) out1
        else .break_out out1
      else tga_rle_run cols color inn j row (col + 1) (out_row + 4) out1

/-- The loop `for (j = 0; j < packet_size; j++)` of a raw packet, with `j`
pixels left: copy one pixel, advance `in` by `bpp`, and at the end of a row
go to the row above, or to `break_out` when row 0 is filled. -/
def tga_rle_raw (rawdata : List Nat) (alpha : Bool) (bpp cols : Nat) :
    Nat → Nat → Nat → Nat → Int → List Nat → tga_packet
  | 0, inn, row, col, out_row, out => .cont inn row col out_row out
  | j + 1, inn, row, col, out_row, out =>
    match tga_read_pixel rawdata inn alpha with
    | none => .oob_read
    | some px =>
      match tga_store out out_row px with
      | none => .oob_write
      | some out1 =>
        if col + 1 = cols then
          if row > 0 then
            tga_rle_raw rawdata alpha bpp cols j (inn + bpp) (row - 1) 0
              (tga_row_ptr (row - 1) cols) out1
          else .break_out out1
        else tga_rle_raw rawdata alpha bpp cols j (inn + bpp) row (col + 1) (out_row + 4) out1

/-- The two nested `for` loops of `tga_decode_bgr_rle` and
`tga_decode_bgra_rle`, entered at the test `col < cols` of the inner loop
with the state `in`, `row`, `col`, `out_row`.  `max_in` is
`rawdata.length`.  The packet header is read without a test against
`max_in`, as in the source.  When the inner loop ends, the outer loop steps
to the row above and sets `out_row = out + row * cols * 4`.  `fuel` bounds
the number of iterations. -/
def tga_rle_loop (rawdata : List Nat) (alpha : Bool) (bpp cols : Nat) :
    Nat → Nat → Nat → Nat → Int → List Nat → tga_decoded
  | 0, _, _, _, _, _ => .out_of_fuel
  | fuel + 1, inn, row, col, out_row, out =>
    if col < cols then
      match rawdata[inn]? with
      | none => .oob_read
      | some packet_header =>
        let packet_size := 1 + (packet_header &&& 0x7f)
        if packet_header &&& 0x80 ≠ 0 then
          if inn + 1 + bpp > rawdata.length then .error .Q_ERR_BAD_RLE_PACKET
          else
            match tga_read_pixel rawdata (inn + 1) alpha with
            | none => .oob_read
            | some color =>
              match tga_rle_run cols color (inn + 1 + bpp) packet_size row col out_row out with
              | .cont inn1 row1 col1 out_row1 out1 =>
                tga_rle_loop rawdata alpha bpp cols fuel inn1 row1 col1 out_row1 out1
              | .break_out out1 => .ok out1
              | .oob_read => .oob_read
              | .oob_write => .oob_write
        else
          if inn + 1 + bpp * packet_size > rawdata.length then .error .Q_ERR_BAD_RLE_PACKET
          else
            match tga_rle_raw rawdata alpha bpp cols packet_size (inn + 1) row col out_row out with
            | .cont inn1 row1 col1 out_row1 out1 =>
              tga_rle_loop rawdata alpha bpp cols fuel inn1 row1 col1 out_row1 out1
            | .break_out out1 => .ok out1
            | .oob_read => .oob_read
            | .oob_write => .oob_write
    else if row > 0 then
      tga_rle_loop rawdata alpha bpp cols fuel inn (row - 1) 0 (tga_row_ptr (row - 1) cols) out
    else .ok out

/-- The run-length decoders from their entry: the outer loop starts at row
`rows - 1`.  Every packet stores at least one pixel, so `rows * cols + rows + 1`
iterations are enough. -/
def tga_decode_rle (rawdata : List Nat) (alpha : Bool) (bpp : Nat) (inn : Nat)
    (out : List Nat) (cols rows : Nat) : tga_decoded :=
  if rows ≥ 1 then
    tga_rle_loop rawdata alpha bpp cols (rows * cols + rows + 1) inn (rows - 1) 0
      (tga_row_ptr (rows - 1) cols) out
  else .ok out

/-- Function `tga_decode_bgr_rle`. -/
def tga_decode_bgr_rle (rawdata : List Nat) (inn : Nat) (out : List Nat) (cols rows : Nat) :
    tga_decoded :=
  tga_decode_rle rawdata false 3 inn out cols rows

/-- Function `tga_decode_bgra_rle`. -/
def tga_decode_bgra_rle (rawdata : List Nat) (inn : Nat) (out : List Nat) (cols rows : Nat) :
    tga_decoded :=
  tga_decode_rle rawdata true 4 inn out cols rows

/-- The values `IMG_LoadTGA` takes from the header once it is accepted. -/
structure tga_header where
  offset : Nat
  w : Nat
  h : Nat
  bpp : Nat
  image_type : Nat
  attributes : Nat
  deriving DecidableEq, Repr

/-- The header checks of `IMG_LoadTGA` (up to the choice of the decoder), in
the order of the source.  `w * h * bpp` is `unsigned` arithmetic, hence the
reduction modulo 2^32; the sum with `offset` is on `size_t`. -/
def tga_parse (c : Cfg) (rawdata : List Nat) : Except qerror_t tga_header :=
  if rawdata.length < TARGA_HEADER_SIZE then .error .Q_ERR_FILE_TOO_SMALL
  else
    let id_length := rawdata.getD 0 0
    let image_type := rawdata.getD 2 0
    let w := le_field rawdata 12 2
    let h := le_field rawdata 14 2
    let pixel_size := rawdata.getD 16 0
    let attributes := rawdata.getD 17 0
    let offset := TARGA_HEADER_SIZE + id_length
    if offset + 4 > rawdata.length then .error .Q_ERR_BAD_EXTENT
    else if pixel_size ≠ 32 ∧ pixel_size ≠ 24 then .error .Q_ERR_INVALID_FORMAT
    else
      let bpp := if pixel_size = 32 then 4 else 3
      if w < 1 ∨ h < 1 ∨ w > c.MAX_TEXTURE_SIZE ∨ h > c.MAX_TEXTURE_SIZE then
        .error .Q_ERR_INVALID_FORMAT
      else if image_type = 2 then
        if (offset + (w * h * bpp) % 4294967296) % 2 ^ c.size_t_bits > rawdata.length then
          .error .Q_ERR_BAD_EXTENT
        else .ok { offset := offset, w := w, h := h, bpp := bpp, image_type := 2,
                   attributes := attributes }
      else if image_type = 10 then
        if attributes &&& 32 ≠ 0 then .error .Q_ERR_INVALID_FORMAT
        else .ok { offset := offset, w := w, h := h, bpp := bpp, image_type := 10,
                   attributes := attributes }
      else .error .Q_ERR_INVALID_FORMAT

/-- The decoder `IMG_LoadTGA` selects for an accepted header, applied to the
input from `offset` and to the raster. -/
def tga_decode (rawdata : List Nat) (hd : tga_header) (pixels : List Nat) : tga_decoded :=
  if hd.image_type = 2 then
    if hd.attributes &&& 32 ≠ 0 then
      if hd.bpp = 4 then tga_decode_bgra_flip rawdata hd.offset pixels hd.w hd.h
      else tga_decode_bgr_flip rawdata hd.offset pixels hd.w hd.h
    else
      if hd.bpp = 4 then tga_decode_bgra rawdata hd.offset pixels hd.w hd.h
      else tga_decode_bgr rawdata hd.offset pixels hd.w hd.h
  else
    if hd.bpp = 4 then tga_decode_bgra_rle rawdata hd.offset pixels hd.w hd.h
    else tga_decode_bgr_rle rawdata hd.offset pixels hd.w hd.h

/-- How `IMG_LoadTGA` ends. -/
inductive tga_result where
  | ok (pic : List Nat) (width height : Nat)
  | error (e : qerror_t)
  | oob_read
  | oob_write
  | out_of_fuel
  deriving DecidableEq, Repr

/-- Function `IMG_LoadTGA`.  The raster from `IMG_AllocPixels(w * h * 4)` starts
zero-filled. -/
def IMG_LoadTGA (c : Cfg) (rawdata : List Nat) : tga_result :=
  match tga_parse c rawdata with
  | .error e => .error e
  | .ok hd =>
    let pixels := List.replicate ((hd.w * hd.h * 4) % 4294967296) 0
    match tga_decode rawdata hd pixels with
    | .ok out => .ok out hd.w hd.h
    | .error e => .error e
    | .oob_read => .oob_read
    | .oob_write => .oob_write
    | .out_of_fuel => .out_of_fuel

/-! ## TGA saving -/

/-- The 18-byte header that `IMG_SaveTGA` builds: zero-filled, then
`header[2] = 2`, `header[12] = width & 255`, `header[13] = width >> 8`,
`header[14] = height & 255`, `header[15] = height >> 8`, `header[16] = 24`.
`width` and `height` are `int`; a store into a `byte` keeps the low eight
bits. -/
def tga_save_header (width height : Int) : List Nat :=
  [0, 0, 2, 0, 0, 0, 0, 0, 0, 0, 0, 0,
    (width % 256).toNat, ((width / 256) % 256).toNat,
    (height % 256).toNat, ((height / 256) % 256).toNat, 24, 0]

/-- How `IMG_SaveTGA` ends: it returns `Q_ERR_SUCCESS` or the error of a
write, or the second write is handed more bytes than the pixel array holds.
`file` is what the successful calls of `FS_Write` were handed, in order. -/
inductive tga_saved where
  | ok (file : List Nat)
  | error (e : qerror_t) (file : List Nat)
  | oob_read (file : List Nat)
  deriving DecidableEq, Repr

/-- Function `IMG_SaveTGA`.  `FS_Write file data` is the result of handing
`data` to `FS_Write` when `file` was written before; the error side is a
negative return value.  `len = width * height * 3` is computed on `int` and
converted to `size_t`. -/
def IMG_SaveTGA (c : Cfg) (FS_Write : List Nat → List Nat → Except qerror_t Unit)
    (pic : List Nat) (width height : Int) : tga_saved :=
  let header := tga_save_header width height
  match FS_Write [] header with
  | .error e => .error e []
  | .ok _ =>
    let len := to_size_t c (int32 (int32 (width * height) * 3))
    if len > pic.length then .oob_read header
    else
      match FS_Write header (pic.take len) with
      | .error e => .error e header
      | .ok _ => .ok (header ++ pic.take len)

/-- The source pixel whose bytes start at index `i` of the input: bytes B, G,
R, and A when `alpha` is set (else the alpha value is 255), reordered to
R, G, B, A. -/
def tga_source_pixel (rawdata : List Nat) (i : Nat) (alpha : Bool) : rgba :=
  { r := rawdata.getD (i + 2) 0, g := rawdata.getD (i + 1) 0, b := rawdata.getD i 0,
    a := if alpha then rawdata.getD (i + 3) 0 else 255 }

/-- The output pixel whose four bytes start at index `idx` of the raster. -/
def raster_pixel (out : List Nat) (idx : Nat) : rgba :=
  { r := out.getD idx 0, g := out.getD (idx + 1) 0, b := out.getD (idx + 2) 0,
    a := out.getD (idx + 3) 0 }

/-- Reference for the run-length stream, following the words of the
specification: the packets from index `inn` are expanded in order into a pixel
stream until `need` pixels are there.  A packet has the header byte `p` and
the count `(p AND 0x7F) + 1`; if `p AND 0x80` the next pixel is repeated count
times, else count literal pixels follow.  The result is `none` when a packet
that is needed does not lie inside the input.  Every packet yields at least
one pixel, so `fuel = need` is enough. -/
def tga_expand (rawdata : List Nat) (alpha : Bool) (bpp : Nat) :
    Nat → Nat → Nat → Option (List rgba)
  | _, _, 0 => some []
  | 0, _, _ + 1 => none
  | fuel + 1, inn, need + 1 =>
    match rawdata[inn]? with
    | none => none
    | some p =>
      let count := (p &&& 0x7F) + 1
      if p &&& 0x80 ≠ 0 then
        if inn + 1 + bpp ≤ rawdata.length then
          match tga_expand rawdata alpha bpp fuel (inn + 1 + bpp) (need + 1 - count) with
          | none => none
          | some rest =>
            some (List.replicate count (tga_source_pixel rawdata (inn + 1) alpha) ++ rest)
        else none
      else
        if inn + 1 + bpp * count ≤ rawdata.length then
          match tga_expand rawdata alpha bpp fuel (inn + 1 + bpp * count)
              (need + 1 - count) with
          | none => none
          | some rest =>
            some ((List.range count).map
              (fun i => tga_source_pixel rawdata (inn + 1 + bpp * i) alpha) ++ rest)
        else none

/-- The raster index of the first byte of the `k`-th pixel of a run-length
stream: the pixel lies in row `h - 1 - k / w`, column `k % w` of a raster with
rows of `w` pixels of four bytes. -/
def tga_stream_index (w h k : Nat) : Nat := ((h - 1 - k / w) * w + k % w) * 4

/-- Reference for bad run-length packets, following the words of the
specification: walking the packets from index `inn` while `need` pixels of the
raster are still missing, a packet is met whose payload would extend beyond
the end of the input: the single pixel of a run packet, or the
`count * bpp` bytes of a raw packet.  A packet has the header byte `p` and
the count `(p AND 0x7F) + 1`; it is a run packet if `p AND 0x80`.  The walk
ends without a bad packet when the raster is complete or when no header byte
is left.  Every packet yields at least one pixel, so `fuel = need` is
enough. -/
def tga_bad_packet (rawdata : List Nat) (bpp : Nat) : Nat → Nat → Nat → Bool
  | _, _, 0 => false
  | 0, _, _ + 1 => false
  | fuel + 1, inn, need + 1 =>
    match rawdata[inn]? with
    | none => false
    | some p =>
      let count := (p &&& 0x7F) + 1
      if p &&& 0x80 ≠ 0 then
        if inn + 1 + bpp > rawdata.length then true
        else tga_bad_packet rawdata bpp fuel (inn + 1 + bpp) (need + 1 - count)
      else
        if inn + 1 + bpp * count > rawdata.length then true
        else tga_bad_packet rawdata bpp fuel (inn + 1 + bpp * count) (need + 1 - count)

/-! ## Palette -/

/-- The name `colormap` of `IMG_GetPalette`: "pics/colormap.pcx". -/
def colormap : List Char :=
  ['p', 'i', 'c', 's', '/', 'c', 'o', 'l', 'o', 'r', 'm', 'a', 'p', '.', 'p', 'c', 'x']

/-- The value `MakeColor(src[0], src[1], src[2], a)` for `src = pal + off`;
`none` when a read lies outside `pal`. -/
def palette_entry (pal : List Nat) (off a : Nat) : Option rgba :=
  match pal[off]?, pal[off + 1]?, pal[off + 2]? with
  | some r, some g, some b => some { r := r, g := g, b := b, a := a }
  | _, _, _ => none

/-- How the loop of `IMG_GetPalette` ends: with the table filled so far, with a
read outside `pal`, or with a store outside `d_8to24table`. -/
inductive palette_step where
  | next (table : List rgba)
  | oob_read
  | oob_write
  deriving DecidableEq, Repr

/-- The loop `for (i = 0, src = pal; i < 255; i++, src += 3)` with `k`
iterations left from index `i`; `src` is `pal + 3 * i`. -/
def palette_loop (pal : List Nat) : Nat → Nat → List rgba → palette_step
  | 0, _, table => .next table
  | k + 1, i, table =>
    match palette_entry pal (3 * i) 255 with
    | none => .oob_read
    | some px =>
      if i < table.length then palette_loop pal k (i + 1) (table.set i px)
      else .oob_write

/-- How `IMG_GetPalette` ends: in `Com_Error(ERR_FATAL, ...)` with the error
code, with the table `d_8to24table` filled, or with one of the events that
the source must exclude. -/
inductive palette_result where
  | fatal (e : qerror_t)
  | ok (d_8to24table : List rgba)
  | oob_read
  | oob_write
  | out_of_fuel
  deriving DecidableEq, Repr

/-- Function `IMG_GetPalette`; `table` is `d_8to24table` before the call. -/
def IMG_GetPalette (c : Cfg) (w : World) (table : List rgba) : palette_result :=
  match w.FS_LoadFile colormap with
  | .error e => .fatal e
  | .ok data =>
    match _IMG_LoadPCX c data false true with
    | .error e => .fatal e
    | .oob_read => .oob_read
    | .oob_write => .oob_write
    | .out_of_fuel => .out_of_fuel
    | .ok o =>
      let pal := o.palette.getD []
      match palette_loop pal 255 0 table with
      | .oob_read => .oob_read
      | .oob_write => .oob_write
      | .next table1 =>
        match palette_entry pal (3 * 255) 0 with
        | none => .oob_read
        | some px =>
          if 255 < table1.length then .ok (table1.set 255 px) else .oob_write

/-! ## Colour parsing (src/cl_scrn.c) -/

/-- Helpers and constants of `SCR_ParseColor` that are declared outside the
source files: the hexadecimal value of a character (`-1` when it has none),
the colour-name parser and its two constants. -/
structure ScrEnv where
  Q_charhex : Char → Int
  Com_ParseColor : List Char → Int → Int
  COLOR_WHITE : Int
  COLOR_NONE : Int

/-- The table `colorTable` of cl_scrn.c. -/
def colorTable : List (List Nat) :=
  [[0, 0, 0, 255], [255, 0, 0, 255], [0, 255, 0, 255], [255, 255, 0, 255],
   [0, 0, 255, 255], [0, 255, 255, 255], [255, 0, 255, 255], [255, 255, 255, 255]]

/-- How the loop over the hexadecimal digits ends: at the end of the string
with `i` digits stored in `c`, with `return qfalse` at a character that is no
digit, or with a store outside the array `c`. -/
inductive hex_result where
  | done (i : Nat) (c : List Int)
  | reject
  | oob_write
  deriving DecidableEq, Repr

/-- The loop `for (i = 0; s[i]; i++) { c[i] = Q_charhex(s[i]); if (c[i] == -1)
return qfalse; }` from index `i`, over the characters left before the
terminating NUL.  The store `c[i]` is outside the array when `i` is not below
its length. -/
def SCR_ParseColor_loop (Q_charhex : Char → Int) : List Char → Nat → List Int → hex_result
  | [], i, c => .done i c
  | ch :: rest, i, c =>
    if i < c.length then
      let c1 := c.set i (Q_charhex ch)
      if c1.getD i 0 = -1 then .reject
      else SCR_ParseColor_loop Q_charhex rest (i + 1) c1
    else .oob_write

/-- The conversion of an `int` to `byte` in a store to `color[k]`. -/
def to_byte (x : Int) : Nat := (x % 256).toNat

/-- The expression `lo | (hi << 4)` stored to a colour component; the shift of
the `int` by 4 is the product with 16. -/
def hex_pair (hi lo : Int) : Nat := to_byte (Int.lor lo (hi * 16))

/-- How `SCR_ParseColor` ends: with its return value and the contents of
`color` afterwards, with a store outside the array `c`, or with a read
outside `colorTable`. -/
inductive color_result where
  | ret (ok : Bool) (color : List Nat)
  | oob_write
  | oob_read
  deriving DecidableEq, Repr

/-- The `switch (i)` of `SCR_ParseColor` on the number of digits. -/
def SCR_ParseColor_switch (i : Nat) (c : List Int) (color : List Nat) : color_result :=
  if i = 3 then
    .ret true [hex_pair (c.getD 0 0) (c.getD 0 0), hex_pair (c.getD 1 0) (c.getD 1 0),
      hex_pair (c.getD 2 0) (c.getD 2 0), 255]
  else if i = 6 then
    .ret true [hex_pair (c.getD 0 0) (c.getD 1 0), hex_pair (c.getD 2 0) (c.getD 3 0),
      hex_pair (c.getD 4 0) (c.getD 5 0), 255]
  else if i = 8 then
    .ret true [hex_pair (c.getD 0 0) (c.getD 1 0), hex_pair (c.getD 2 0) (c.getD 3 0),
      hex_pair (c.getD 4 0) (c.getD 5 0), hex_pair (c.getD 6 0) (c.getD 7 0)]
  else .ret false color

/-- The branch of `SCR_ParseColor` for a string that does not start with `#`:
the colour name is looked up and the entry of `colorTable` is copied. -/
def SCR_ParseColor_name (e : ScrEnv) (s : List Char) (color : List Nat) : color_result :=
  let i := e.Com_ParseColor s e.COLOR_WHITE
  if i = e.COLOR_NONE then .ret false color
  else if 0 ≤ i then
    match colorTable[i.toNat]? with
    | some entry => .ret true entry
    | none => .oob_read
  else .oob_read

/-- Function `SCR_ParseColor` of cl_scrn.c.  `color` is the contents of the
destination before the call; the local array `int c[8]` has 8 entries, which
are written before they are read. -/
def SCR_ParseColor (e : ScrEnv) (s : List Char) (color : List Nat) : color_result :=
  match s with
  | [] => SCR_ParseColor_name e s color
  | ch :: s1 =>
    if ch = '#' then
      match SCR_ParseColor_loop e.Q_charhex s1 0 [0, 0, 0, 0, 0, 0, 0, 0] with
      | .done i c => SCR_ParseColor_switch i c color
      | .reject => .ret false color
      | .oob_write => .oob_write
    else SCR_ParseColor_name e s color

/-! ## Predicates and abbreviations used in the statements and proofs -/

/-- Reference for the resolver, following the words of the specification:
walk the search order; for each format different from `orig`, substitute its
extension after the base `base` and try it; the first result that is not
not-found is the result.  If every candidate is not-found, the result is
that of the type default (WAL when the type is wall texture, PCX otherwise),
except that a default equal to `orig` is not tried and gives not-found. -/
def try_other_formats_ref (c : Cfg) (w : World) (orig type : Nat) (base : List Char)
    (search : List Nat) : Except qerror_t Loaded :=
  let attempt := fun fmt => (try_image_format w fmt (base ++ img_ext fmt)).1
  match ((search.filter (fun fmt => decide (fmt ≠ orig))).map attempt).find?
      (fun r => decide (r ≠ .error .Q_ERR_NOENT)) with
  | some r => r
  | none =>
    let dflt := if type = c.IT_WALL then IM_WAL else IM_PCX
    if dflt = orig then .error .Q_ERR_NOENT else attempt dflt

/-- The file-system probes of the formats `pre` of the search order for the
request `name`, each under the base name with its own extension. -/
def probe_trace (name : List Char) (pre : List Nat) : List Event :=
  pre.map (fun g => Event.FS_LoadFile (replace_ext name (name.length - 3) (img_ext g)))

/-- The paths handed to `FS_LoadFile` in a trace, in order. -/
def loaded_paths (tr : List Event) : List (List Char) :=
  tr.filterMap (fun e => match e with
    | .FS_LoadFile p => some p
    | _ => none)

/-- The candidate paths of `try_other_formats` in the order of the walk: the
base name with the extension of every format of the search order other than
`orig`, then with that of the 8-bit format of the type unless it is `orig`. -/
def candidate_paths (c : Cfg) (orig type : Nat) (base : List Char) (search : List Nat) :
    List (List Char) :=
  (search.filter (fun g => decide (g ≠ orig))).map (fun g => base ++ img_ext g) ++
    (if (if type = c.IT_WALL then IM_WAL else IM_PCX) = orig then []
     else [base ++ img_ext (if type = c.IT_WALL then IM_WAL else IM_PCX)])

/-- The dimensions that `get_image_dimensions` takes over from the header of
the original file `path` of format `fmt`; `none` when it leaves the record as
it is. -/
def recovered_dimensions (c : Cfg) (w : World) (fmt : Nat) (path : List Char) :
    Option (Int × Int) :=
  if (declared_dimensions c w fmt path).1 < 1 ∨ (declared_dimensions c w fmt path).2 < 1 ∨
      (declared_dimensions c w fmt path).1 > 512 ∨ (declared_dimensions c w fmt path).2 > 512 ∨
      ((declared_dimensions c w fmt path).1 * (declared_dimensions c w fmt path).2) % 4294967296
        > c.MAX_PALETTED_PIXELS then none
  else some (declared_dimensions c w fmt path)

/-- The bucket a name hashes to in `find_or_load_image`. -/
def name_hash (c : Cfg) (name : List Char) : Nat :=
  FS_HashPathLen c name (name.length - 4) RIMAGES_HASH

/-- The record written by a hit. -/
def hit_image (c : Cfg) (s : State) (i flags : Nat) : image_t :=
  { s.r_images i with
    flags := (s.r_images i).flags ||| (flags &&& c.IF_PERMANENT),
    registration_sequence := s.registration_sequence }

/-- The condition under which `IMG_FreeUnused` frees a slot: it is live, was not
touched in the current epoch and is neither permanent nor in the scrap. -/
def swept (c : Cfg) (s : State) (j : Nat) : Bool :=
  decide ((s.r_images j).registration_sequence ≠ s.registration_sequence ∧
    (s.r_images j).registration_sequence ≠ 0 ∧
    (s.r_images j).flags &&& (c.IF_PERMANENT ||| c.IF_SCRAP) = 0)

/-- The bucket in which a record belongs: the hash of its own base name. -/
def hashOf (c : Cfg) (img : image_t) : Nat :=
  FS_HashPathLen c img.name img.baselen RIMAGES_HASH

/-- Slot `i` is linked in the bucket of its own base name, so a lookup of that
base name walks over it. -/
def Linked (c : Cfg) (s : State) (i : Nat) : Prop :=
  i ∈ s.r_imageHash (hashOf c (s.r_images i))

/-- Two records have the same cache key. -/
def same_key (a b : image_t) : Prop :=
  a.type = b.type ∧ a.baselen = b.baselen ∧
    normBase a.name a.baselen = normBase b.name b.baselen

/-- Invariant of the slot table and the hash buckets. -/
structure Inv (c : Cfg) (s : State) : Prop where
  count_pos : 1 ≤ s.r_numImages
  bucket_range : ∀ b i, i ∈ s.r_imageHash b → 1 ≤ i ∧ i < s.r_numImages
  live_linked : ∀ i, (s.r_images i).registration_sequence ≠ 0 → Linked c s i
  base_le : ∀ b i, i ∈ s.r_imageHash b →
    (s.r_images i).baselen ≤ (s.r_images i).name.length
  unique : ∀ i j, Linked c s i → Linked c s j →
    same_key (s.r_images i) (s.r_images j) → i = j

/-- States reachable as in `Reachable`, with the epoch counter nonzero at
every lookup through either entry point. -/
inductive ReachableNonzero (c : Cfg) : State → Prop where
  | init (epoch : Nat) (s : State) (h : IMG_Init (boot epoch) = some s) :
      ReachableNonzero c s
  | find (w : World) (s : State) (name : List Char) (type : Nat) (r : Found)
      (hs : ReachableNonzero c s) (hnz : s.registration_sequence ≠ 0)
      (h : IMG_Find c w s name type = some r) : ReachableNonzero c r.state
  | register (w : World) (s : State) (name : List Char) (type flags : Nat)
      (hs : ReachableNonzero c s) (hnz : s.registration_sequence ≠ 0) :
      ReachableNonzero c (R_RegisterImage c w s name type flags).state
  | advance (s : State) (hs : ReachableNonzero c s) : ReachableNonzero c (advance_epoch s)
  | freeUnused (s : State) (hs : ReachableNonzero c s) :
      ReachableNonzero c (IMG_FreeUnused c s)
  | freeAll (s : State) (hs : ReachableNonzero c s) : ReachableNonzero c (IMG_FreeAll s)

/-- Invariant of the hash buckets when lookups run with a nonzero epoch: a
linked slot is live, it is linked in the bucket of its own base name, and no
bucket holds a slot twice. -/
structure LinkInv (c : Cfg) (s : State) : Prop where
  linked_live : ∀ b i, i ∈ s.r_imageHash b → (s.r_images i).registration_sequence ≠ 0
  linked_own : ∀ b i, i ∈ s.r_imageHash b → b = hashOf c (s.r_images i)
  nodup : ∀ b, (s.r_imageHash b).Nodup

/-- Slot `j` lies in the range walked by the sweep and is freed by it. -/
def swept_in_range (c : Cfg) (s : State) (j : Nat) : Bool :=
  decide (1 ≤ j ∧ j < s.r_numImages) && swept c s j

/-- What the end of a scanline loop started at column `x` with the source at
`raw` says about the reference walk with `rows` scanlines to fill. -/
def scanline_post (rawdata : List Nat) (scanN rows raw x : Nat) (out : List Nat) :
    pcx_step → Prop
  | .next raw1 out1 =>
    out1.length = out.length ∧
      pcx_bad_rle scanN (rawdata.drop raw) rows x
        = pcx_bad_rle scanN (rawdata.drop raw1) (rows - 1) 0
  | .fail => pcx_bad_rle scanN (rawdata.drop raw) rows x = true
  | _ => False

/-- What the end of the loop over `k` scanlines started with the source at
`raw` says about the reference walk. -/
def rows_post (rawdata : List Nat) (scanN k raw : Nat) (out : List Nat) : pcx_step → Prop
  | .next _ out1 =>
    out1.length = out.length ∧ pcx_bad_rle scanN (rawdata.drop raw) k 0 = false
  | .fail => pcx_bad_rle scanN (rawdata.drop raw) k 0 = true
  | _ => False

/-! ## Concrete configuration, file system and tables -/

/-- A small configuration: three slots, one flag bit per flag, identity path
helpers. -/
def demo_cfg : Cfg :=
  { MAX_RIMAGES := 3, MAX_QPATH := 64, MAX_PALETTED_PIXELS := 131072,
    MAX_TEXTURE_SIZE := 2048, MIPSIZE := fun n => n * 340 / 256, size_t_bits := 64,
    sizeof_dpcx_t := 130, sizeof_miptex_t := 100,
    IF_PERMANENT := 1, IF_SCRAP := 8, IF_PALETTED := 4,
    IT_SKIN := 2, IT_WALL := 4,
    hashfn := fun l => l.length,
    LittleShort := fun n => n, LittleLong := fun n => n,
    FS_NormalizePath := fun l => l,
    COM_DefaultExtension := fun l e => if '.' ∈ l then l else l ++ e }

def name_a : List Char := ['a', '.', 'p', 'c', 'x']
def name_A_tga : List Char := ['A', '.', 't', 'g', 'a']
def name_b : List Char := ['b', '.', 'p', 'c', 'x']
def name_bad : List Char := ['b', 'a', 'd', '.', 'p', 'c', 'x']

/-- A file system holding `a.pcx` and `b.pcx` (each decodes to a 1 x 1 picture)
and `bad.pcx` (an empty file, which every decoder rejects). -/
def demo_world : World :=
  { FS_LoadFile := fun p =>
      if p = name_a ∨ p = name_b then .ok [1]
      else if p = name_bad then .ok []
      else .error .Q_ERR_NOENT,
    load := fun _ data _ =>
      if data = [] then .error .Q_ERR_FILE_TOO_SMALL else .ok ([0], 1, 1),
    r_override_textures := false,
    img_search := [IM_PNG, IM_JPG, IM_TGA],
    IMG_Load := fun img _ wd ht => (img.flags, wd, ht) }

/-- The state left by `IMG_Init` when the epoch counter is `epoch`. -/
def demo_init (epoch : Nat) : State :=
  { r_images := fun _ => image_zero, r_imageHash := fun _ => [], r_numImages := 1,
    registration_sequence := epoch }

/-- The table after `a.pcx` was loaded into slot 1 at epoch 1. -/
def demo_loaded : State :=
  (find_or_load_image demo_cfg demo_world (demo_init 1) name_a 0 0).state

/-- The table after `a.pcx`, `A.tga` and `b.pcx` were looked up in turn. -/
def demo_three : State :=
  (found_of (find_or_load_image demo_cfg demo_world
    (found_of (find_or_load_image demo_cfg demo_world
      (found_of (find_or_load_image demo_cfg demo_world (demo_init 1) name_a 0 0)).state
      name_A_tga 0 0)).state
    name_b 0 0)).state

/-- The table `demo_three` one epoch later: slots 1 and 2 are stale. -/
def demo_stale_epoch : State := advance_epoch demo_three

/-- The table after `a.pcx` was looked up while the epoch counter was 0: slot 1
holds the record but its stamp is 0, so it counts as a free slot. -/
def demo_epoch0 : State :=
  (found_of (find_or_load_image demo_cfg demo_world (demo_init 0) name_a 0 0)).state

/-- The small configuration with room for the sentinel and one image. -/
def demo_cfg_small : Cfg := { demo_cfg with MAX_RIMAGES := 2 }

/-- The table of capacity 2 after `a.pcx` was loaded into slot 1. -/
def demo_full : State :=
  (find_or_load_image demo_cfg_small demo_world (demo_init 1) name_a 0 0).state

/-- A PCX header of 128 bytes for a window from (0, 0) to (`xmax`, `ymax`) with
`bpl` bytes per scanline. -/
def demo_pcx_header (xmax ymax bpl : Nat) : List Nat :=
  [10, 5, 1, 8, 0, 0, 0, 0, xmax, 0, ymax, 0] ++ List.replicate 53 0 ++ [1, bpl, 0]
    ++ List.replicate 60 0

/-- A 3 x 2 picture with 4 bytes per scanline whose second scanline is a run of
4 that is cut off before its value byte. -/
def demo_pcx_truncated : List Nat := demo_pcx_header 2 1 4 ++ [7, 0xC2, 9, 5, 0xC4]

/-- A PCX header of 128 bytes for a window from (`xmin`, 0) to (`xmax`, `ymax`)
with `bpl` bytes per scanline. -/
def demo_pcx_header_from (xmin xmax ymax bpl : Nat) : List Nat :=
  [10, 5, 1, 8, xmin, 0, 0, 0, xmax, 0, ymax, 0] ++ List.replicate 53 0 ++ [1, bpl, 0]
    ++ List.replicate 60 0

/-- A PCX file whose window has `xmin = 1` and `xmax = 0`, hence width 0, with a
one-line stream of one byte per scanline. -/
def demo_pcx_zero_width : List Nat := demo_pcx_header_from 1 0 0 1 ++ [5, 0]

/-- A 3 x 2 PCX picture with 4 bytes per scanline: a literal, a run of two, a
literal, then a run of four. -/
def demo_pcx_good : List Nat := demo_pcx_header 2 1 4 ++ [7, 0xC2, 9, 5, 0xC4, 3]

/-- A WAL file header of 100 bytes with the given width, height and offset
(each below 256). -/
def demo_wal_header (w h off : Nat) : List Nat :=
  List.replicate 32 0 ++ [w, 0, 0, 0, h, 0, 0, 0, off, 0, 0, 0] ++ List.replicate 56 0

/-- A 2 x 2 WAL texture whose five bytes of mip data follow the header. -/
def demo_wal_good : List Nat := demo_wal_header 2 2 100 ++ [1, 2, 3, 4, 5]

/-- A TGA header of 18 bytes without comment, for image type `ty`, width `w`,
height `h` (each below 256), pixel size `ps` and attributes `attr`. -/
def demo_tga_header (ty w h ps attr : Nat) : List Nat :=
  [0, 0, ty, 0, 0, 0, 0, 0, 0, 0, 0, 0, w, 0, h, 0, ps, attr]

/-- An uncompressed 24-bit TGA of 2 x 2 pixels. -/
def demo_tga_raw : List Nat :=
  demo_tga_header 2 2 2 24 0 ++ [1, 2, 3, 4, 5, 6, 7, 8, 9, 10, 11, 12]

/-- A run-length 24-bit TGA of 2 x 1 pixels that ends after a raw packet of one
pixel: the packet of the second pixel is missing. -/
def demo_tga_rle_short : List Nat := demo_tga_header 10 2 1 24 0 ++ [0x00, 1, 2, 3]

/-- A run-length 24-bit TGA of 2 x 2 pixels: a run of three, then a raw packet
of one pixel. -/
def demo_tga_rle_good : List Nat :=
  demo_tga_header 10 2 2 24 0 ++ [0x82, 1, 2, 3, 0x00, 7, 8, 9]

/-- A run-length 24-bit TGA of 2 x 2 pixels: a raw packet of one pixel, then a
run packet whose pixel is cut off after one byte. -/
def demo_tga_rle_cut : List Nat :=
  demo_tga_header 10 2 2 24 0 ++ [0x00, 1, 2, 3, 0x81, 5]

/-- An `FS_Write` that accepts every buffer. -/
def demo_write : List Nat → List Nat → Except qerror_t Unit := fun _ _ => .ok ()

/-- An `FS_Write` that accepts the header and fails on the pixels. -/
def demo_write_fails : List Nat → List Nat → Except qerror_t Unit :=
  fun file _ => if file = [] then .ok () else .error .Q_ERR_FAILURE

def name_c_xyz : List Char := ['c', '.', 'x', 'y', 'z']
def name_a_png : List Char := ['a', '.', 'p', 'n', 'g']
def name_a_tga : List Char := ['a', '.', 't', 'g', 'a']

/-- The file system of `demo_world` with `a.tga` added, in override mode. -/
def demo_world_override : World :=
  { demo_world with
    FS_LoadFile := fun p =>
      if p = name_a ∨ p = name_a_tga then .ok [1] else .error .Q_ERR_NOENT,
    r_override_textures := true }

/-- A PCX file whose window runs from (2, 0) to (5, 3): a 4 x 4 picture with 4
bytes per scanline, each scanline one run of four. -/
def demo_pcx_window : List Nat :=
  demo_pcx_header_from 2 5 3 4 ++ [0xC4, 1, 0xC4, 2, 0xC4, 3, 0xC4, 4]

/-- The decoders of this development as `load` members of `img_loaders`: PCX
through `IMG_LoadPCX`, TGA through `IMG_LoadTGA`; the other formats fail. -/
def demo_load (fmt : Nat) (data : List Nat) (_ : List Char) :
    Except qerror_t (List Nat × Int × Int) :=
  if fmt = IM_PCX then
    match IMG_LoadPCX demo_cfg data with
    | .ok o => .ok (o.pic.getD [], o.width, o.height)
    | .error e => .error e
    | _ => .error .Q_ERR_FAILURE
  else if fmt = IM_TGA then
    match IMG_LoadTGA demo_cfg data with
    | .ok pic wd ht => .ok (pic, wd, ht)
    | .error e => .error e
    | _ => .error .Q_ERR_FAILURE
  else .error .Q_ERR_LIBRARY_ERROR

/-- A file system holding the PCX file `demo_pcx_window` as `a.pcx` and the
2 x 2 picture `demo_tga_raw` as `a.tga`, in override mode with the search
order tga. -/
def demo_world_sub : World :=
  { FS_LoadFile := fun p =>
      if p = name_a then .ok demo_pcx_window
      else if p = name_a_tga then .ok demo_tga_raw
      else .error .Q_ERR_NOENT,
    load := demo_load,
    r_override_textures := true,
    img_search := [IM_TGA],
    IMG_Load := fun img _ wd ht => (img.flags, wd, ht) }

/-- An uncompressed 32-bit TGA of 2 x 1 pixels with the vertical-flip
attribute set. -/
def demo_tga_flip32 : List Nat :=
  demo_tga_header 2 2 1 32 32 ++ [1, 2, 3, 4, 5, 6, 7, 8]

/-- A 1 x 1 PCX picture with 1 byte per scanline whose stream is three runs of
length zero. -/
def demo_pcx_zero_runs : List Nat := demo_pcx_header 0 0 1 ++ [0xC0, 0, 0xC0, 0, 0xC0, 0]

/-- Modelled from the spec: the value of a hexadecimal digit, `-1` for any
other character. -/
def demo_charhex (ch : Char) : Int :=
  if '0'.toNat ≤ ch.toNat ∧ ch.toNat ≤ '9'.toNat then (ch.toNat - '0'.toNat : Nat)
  else if 'a'.toNat ≤ ch.toNat ∧ ch.toNat ≤ 'f'.toNat then (ch.toNat - 'a'.toNat + 10 : Nat)
  else if 'A'.toNat ≤ ch.toNat ∧ ch.toNat ≤ 'F'.toNat then (ch.toNat - 'A'.toNat + 10 : Nat)
  else -1

/-- An environment for `SCR_ParseColor` whose name parser knows no colour. -/
def demo_scr : ScrEnv :=
  { Q_charhex := demo_charhex, Com_ParseColor := fun _ _ => 8, COLOR_WHITE := 7,
    COLOR_NONE := 8 }

/-- The string `#123456789`: nine hexadecimal digits. -/
def color_nine_digits : List Char := ['#', '1', '2', '3', '4', '5', '6', '7', '8', '9']

/-- A palette file: a 1 x 1 PCX picture followed by a palette of 768 bytes
that ends in 1, 2, 3. -/
def demo_colormap : List Nat :=
  demo_pcx_header 0 0 1 ++ [5] ++ List.replicate 765 9 ++ [1, 2, 3]

/-- A file system that holds the palette file only. -/
def demo_world_palette : World :=
  { demo_world with
    FS_LoadFile := fun p => if p = colormap then .ok demo_colormap else .error .Q_ERR_NOENT }

/-- The search order that the configuration string `tt` gives. -/
def demo_search_tt : formats_result :=
  r_texture_formats_changed ['t', 't'] { img_search := [0, 0, 0, 0, 0], img_total := 0 }

/-- An empty file system whose search order is TGA, TGA. -/
def demo_world_tt : World :=
  { demo_world with
    FS_LoadFile := fun _ => .error .Q_ERR_NOENT,
    img_search := [IM_TGA, IM_TGA] }

/-- A PCX file of 130 bytes: the 128-byte header for a window from
(`xmin`, `ymin`) to (`xmax`, `ymax`), each a 16-bit field, with `bpl` bytes
per scanline (below 256), followed by the data bytes 5, 0. -/
def demo_pcx_dims (xmin ymin xmax ymax bpl : Nat) : List Nat :=
  [10, 5, 1, 8, xmin % 256, xmin / 256, ymin % 256, ymin / 256, xmax % 256, xmax / 256,
    ymax % 256, ymax / 256] ++ List.replicate 53 0 ++ [1, bpl, 0] ++ List.replicate 60 0
    ++ [5, 0]

/-- A file of 896 bytes whose header has the window from (65535, 65535) to
(0, 0). -/
def demo_pcx_negative : List Nat := demo_pcx_dims 65535 65535 0 0 0 ++ List.replicate 766 9

/-- A file of 896 bytes whose header has the window from (32767, 32767) to
(32768, 32768) as raw 16-bit values. -/
def demo_pcx_negative_signed : List Nat :=
  demo_pcx_dims 32767 32767 32768 32768 0 ++ List.replicate 766 9

/-- The configuration `demo_cfg` with a `LittleShort` that sign-extends the
16-bit value. -/
def demo_cfg_signed : Cfg :=
  { demo_cfg with LittleShort := fun n => if n < 32768 then (n : Int) else (n : Int) - 65536 }

/-- A header for a picture of 640 x 480 pixels. -/
def demo_pcx_640 : List Nat := demo_pcx_dims 0 0 639 479 200

/-! # Theorems -/

/-! ## Lemmas: slot allocation -/

theorem alloc_image_scan_ge (imgs : Nat → image_t) (k i : Nat) :
    i ≤ alloc_image_scan imgs k i := by
  induction k generalizing i with
  | zero => simp [alloc_image_scan]
  | succ k ih =>
    simp only [alloc_image_scan]
    split
    · exact le_refl i
    · exact le_trans (Nat.le_succ i) (ih (i + 1))

theorem alloc_image_scan_le (imgs : Nat → image_t) (k i : Nat) :
    alloc_image_scan imgs k i ≤ i + k := by
  induction k generalizing i with
  | zero => simp [alloc_image_scan]
  | succ k ih =>
    simp only [alloc_image_scan]
    split
    · omega
    · have := ih (i + 1); omega

theorem alloc_image_scan_live (imgs : Nat → image_t) (k i j : Nat)
    (hij : i ≤ j) (hj : j < alloc_image_scan imgs k i) :
    (imgs j).registration_sequence ≠ 0 := by
  induction k generalizing i with
  | zero => simp [alloc_image_scan] at hj; omega
  | succ k ih =>
    simp only [alloc_image_scan] at hj
    split at hj
    · omega
    · rename_i hne
      by_cases h : i = j
      · subst h; exact hne
      · exact ih (i + 1) (by omega) hj

theorem alloc_image_scan_free (imgs : Nat → image_t) (k i : Nat)
    (h : alloc_image_scan imgs k i < i + k) :
    (imgs (alloc_image_scan imgs k i)).registration_sequence = 0 := by
  induction k generalizing i with
  | zero => simp [alloc_image_scan] at h
  | succ k ih =>
    simp only [alloc_image_scan] at h ⊢
    split
    · assumption
    · rename_i hne
      simp only [hne, if_false] at h
      exact ih (i + 1) (by omega)

theorem alloc_image_range (c : Cfg) (s : State) (i n : Nat)
    (hpos : 1 ≤ s.r_numImages) (h : alloc_image c s = some (i, n)) :
    1 ≤ i ∧ i < n ∧
      (n = s.r_numImages ∨ (n = s.r_numImages + 1 ∧ s.r_numImages ≠ c.MAX_RIMAGES)) := by
  have hge := alloc_image_scan_ge s.r_images (s.r_numImages - 1) 1
  have hle := alloc_image_scan_le s.r_images (s.r_numImages - 1) 1
  simp only [alloc_image] at h
  split at h
  · split at h
    · exact absurd h (by simp)
    · rename_i hi hne
      simp only [Option.some.injEq, Prod.mk.injEq] at h
      omega
  · simp only [Option.some.injEq, Prod.mk.injEq] at h
    omega

/-! ## Lemmas: resolver buffer -/

theorem take_replace_ext (buffer : List Char) (extpos : Nat) (e : List Char)
    (h : extpos ≤ buffer.length) :
    (replace_ext buffer extpos e).take extpos = buffer.take extpos := by
  unfold replace_ext
  rw [List.take_append_of_le_length (by simp [h])]
  simp

theorem length_replace_ext (buffer : List Char) (extpos : Nat) (e : List Char)
    (h : extpos ≤ buffer.length) :
    extpos ≤ (replace_ext buffer extpos e).length := by
  unfold replace_ext
  simp [h]

theorem try_other_formats_buffer (c : Cfg) (w : World) (orig type extpos : Nat)
    (search : List Nat) (buffer : List Char) (tr : List Event)
    (h : extpos ≤ buffer.length) :
    (try_other_formats c w orig type extpos search buffer tr).buffer.take extpos
        = buffer.take extpos ∧
      extpos ≤ (try_other_formats c w orig type extpos search buffer tr).buffer.length := by
  induction search generalizing buffer tr with
  | nil =>
    simp only [try_other_formats]
    split_ifs <;> first
      | exact ⟨rfl, h⟩
      | exact ⟨take_replace_ext _ _ _ h, length_replace_ext _ _ _ h⟩
  | cons fmt rest ih =>
    simp only [try_other_formats]
    split
    · exact ih buffer tr h
    · split
      · have := ih (replace_ext buffer extpos (img_ext fmt))
          (tr ++ (try_image_format w fmt (replace_ext buffer extpos (img_ext fmt))).2)
          (length_replace_ext _ _ _ h)
        exact ⟨this.1.trans (take_replace_ext _ _ _ h), this.2⟩
      · exact ⟨take_replace_ext _ _ _ h, length_replace_ext _ _ _ h⟩

theorem load_pic_buffer (c : Cfg) (w : World) (name : List Char) (type : Nat) :
    (load_pic c w name type).buffer.take (name.length - 3) = name.take (name.length - 3) ∧
      name.length - 3 ≤ (load_pic c w name type).buffer.length := by
  have h : name.length - 3 ≤ name.length := Nat.sub_le _ _
  unfold load_pic
  simp only
  split
  · have := try_other_formats_buffer c w IM_MAX type (name.length - 3) w.img_search name [] h
    split <;> exact this
  · split
    · exact try_other_formats_buffer c w IM_MAX type (name.length - 3) w.img_search name [] h
    · split
      · exact try_other_formats_buffer c w _ type (name.length - 3) w.img_search name _ h
      · exact ⟨rfl, h⟩

theorem normBase_of_take (a b : List Char) (m n : Nat) (hmn : n ≤ m)
    (h : a.take m = b.take m) : normBase a n = normBase b n := by
  unfold normBase
  have ha : a.take n = (a.take m).take n := by rw [List.take_take, Nat.min_eq_left hmn]
  have hb : b.take n = (b.take m).take n := by rw [List.take_take, Nat.min_eq_left hmn]
  rw [ha, hb, h]

/-! ## Lemmas: lookup -/

theorem image_matches_iff (img : image_t) (name : List Char) (type baselen : Nat) :
    image_matches img name type baselen = true ↔
      img.type = type ∧ img.baselen = baselen ∧
        normBase img.name baselen = normBase name baselen := by
  unfold image_matches FS_pathcmpn
  by_cases h : normBase img.name baselen = normBase name baselen <;> simp [h, and_assoc]

theorem lookup_image_some (s : State) (name : List Char) (type hash baselen i : Nat)
    (h : lookup_image s name type hash baselen = some i) :
    i ∈ s.r_imageHash hash ∧ image_matches (s.r_images i) name type baselen = true := by
  unfold lookup_image at h
  exact ⟨List.mem_of_find?_eq_some h, by simpa using List.find?_some h⟩

theorem lookup_image_none (s : State) (name : List Char) (type hash baselen : Nat)
    (h : lookup_image s name type hash baselen = none) :
    ∀ j ∈ s.r_imageHash hash, image_matches (s.r_images j) name type baselen = false := by
  unfold lookup_image at h
  intro j hj
  have := List.find?_eq_none.mp h j hj
  simpa using this

theorem find?_congr_mem (l : List Nat) (p q : Nat → Bool)
    (h : ∀ j ∈ l, p j = q j) : l.find? p = l.find? q := by
  induction l with
  | nil => rfl
  | cons a t ih =>
    have ha : p a = q a := h a (List.mem_cons_self a t)
    have ht : t.find? p = t.find? q := ih (fun j hj => h j (List.mem_cons_of_mem a hj))
    simp only [List.find?, ha, ht]

theorem find?_eq_some_of_unique (l : List Nat) (p : Nat → Bool) (i : Nat)
    (hu : ∀ j ∈ l, p j = true → j = i) (hi : i ∈ l) (hp : p i = true) :
    l.find? p = some i := by
  induction l with
  | nil => simp at hi
  | cons a t ih =>
    by_cases ha : p a = true
    · have : a = i := hu a (List.mem_cons_self a t) ha
      subst this
      simp [List.find?, hp]
    · have hat : a ≠ i := fun e => ha (e ▸ hp)
      have hit : i ∈ t := by
        rcases List.mem_cons.mp hi with e | e
        · exact absurd e.symm hat
        · exact e
      have hf : p a = false := by simpa using ha
      simp only [List.find?, hf]
      exact ih (fun j hj => hu j (List.mem_cons_of_mem a hj)) hit

/-! ## Lemmas: outcomes of `find_or_load_image` -/

theorem get_image_dimensions_fields (c : Cfg) (w : World) (img : image_t) (fmt : Nat)
    (buffer : List Char) (extpos : Nat) :
    (get_image_dimensions c w img fmt buffer extpos).1.name = img.name ∧
      (get_image_dimensions c w img fmt buffer extpos).1.baselen = img.baselen ∧
      (get_image_dimensions c w img fmt buffer extpos).1.type = img.type ∧
      (get_image_dimensions c w img fmt buffer extpos).1.registration_sequence
        = img.registration_sequence := by
  unfold get_image_dimensions
  simp only
  split_ifs <;> exact ⟨rfl, rfl, rfl, rfl⟩

theorem fill_image_fields (c : Cfg) (w : World) (old : image_t) (name : List Char)
    (type flags epoch : Nat) (a : Attempt) (ld : Loaded) :
    (fill_image c w old name type flags epoch a ld).1.name = a.buffer ∧
      (fill_image c w old name type flags epoch a ld).1.baselen = name.length - 4 ∧
      (fill_image c w old name type flags epoch a ld).1.type = type ∧
      (fill_image c w old name type flags epoch a ld).1.registration_sequence = epoch := by
  unfold fill_image
  simp only
  split_ifs <;>
    simp [(get_image_dimensions_fields c w _ _ _ _).1, (get_image_dimensions_fields c w _ _ _ _).2.1,
      (get_image_dimensions_fields c w _ _ _ _).2.2.1, (get_image_dimensions_fields c w _ _ _ _).2.2.2]

theorem find_or_load_image_hit (c : Cfg) (w : World) (s : State) (name : List Char)
    (type flags i : Nat) (hlen : 4 < name.length)
    (hdot : name.getD (name.length - 4) ' ' = '.')
    (hhit : lookup_image s name type (name_hash c name) (name.length - 4) = some i) :
    find_or_load_image c w s name type flags
      = { ret := .ok i, state := set_image s i (hit_image c s i flags), trace := [] } := by
  unfold name_hash at hhit
  unfold find_or_load_image
  rw [if_neg (Nat.not_le.mpr hlen), if_neg (not_not.mpr hdot)]
  simp only [hhit, hit_image]

theorem find_or_load_image_miss (c : Cfg) (w : World) (s : State) (name : List Char)
    (type flags : Nat) (hlen : 4 < name.length)
    (hdot : name.getD (name.length - 4) ' ' = '.')
    (hmiss : lookup_image s name type (name_hash c name) (name.length - 4) = none) :
    find_or_load_image c w s name type flags
      = load_image c w s name type flags (name_hash c name) := by
  unfold name_hash at hmiss ⊢
  unfold find_or_load_image
  rw [if_neg (Nat.not_le.mpr hlen), if_neg (not_not.mpr hdot)]
  simp only [hmiss]

theorem find_or_load_image_invalid (c : Cfg) (w : World) (s : State) (name : List Char)
    (type flags : Nat)
    (h : name.length ≤ 4 ∨ name.getD (name.length - 4) ' ' ≠ '.') :
    (find_or_load_image c w s name type flags).state = s ∧
      (find_or_load_image c w s name type flags).trace = [] ∧
      ∃ e, (find_or_load_image c w s name type flags).ret = .error e := by
  unfold find_or_load_image
  split_ifs with h1 h2
  · exact ⟨rfl, rfl, _, rfl⟩
  · exact ⟨rfl, rfl, _, rfl⟩
  · rcases h with h | h
    · exact absurd h h1
    · exact absurd h h2

theorem load_image_error (c : Cfg) (w : World) (s : State) (name : List Char)
    (type flags hash : Nat) (e : qerror_t)
    (h : (load_image c w s name type flags hash).ret = .error e) :
    (load_image c w s name type flags hash).state = s := by
  unfold load_image at h ⊢
  simp only at h ⊢
  cases hr : (load_pic c w name type).ret with
  | error e1 => simp only [hr]
  | ok ld =>
    simp only [hr] at h ⊢
    cases ha : alloc_image c s with
    | none => simp only [ha]
    | some p =>
      obtain ⟨j, n⟩ := p
      simp only [ha] at h
      simp at h

theorem load_image_ok (c : Cfg) (w : World) (s : State) (name : List Char)
    (type flags hash i : Nat)
    (h : (load_image c w s name type flags hash).ret = .ok i) :
    ∃ n ld, (load_pic c w name type).ret = .ok ld ∧ alloc_image c s = some (i, n) ∧
      load_image c w s name type flags hash
        = { ret := .ok i,
            state := set_image (List_Append { s with r_numImages := n } hash i) i
              (fill_image c w (s.r_images i) name type flags s.registration_sequence
                (load_pic c w name type) ld).1,
            trace := (load_pic c w name type).trace ++
              (fill_image c w (s.r_images i) name type flags s.registration_sequence
                (load_pic c w name type) ld).2 ++ [Event.IMG_Load i] } := by
  unfold load_image at h ⊢
  simp only at h ⊢
  cases hr : (load_pic c w name type).ret with
  | error e1 => simp [hr] at h
  | ok ld =>
    simp only [hr] at h ⊢
    cases ha : alloc_image c s with
    | none => simp [ha] at h
    | some p =>
      obtain ⟨j, n⟩ := p
      simp only [ha] at h ⊢
      simp only [Except.ok.injEq] at h
      subst h
      exact ⟨n, ld, rfl, rfl, rfl⟩

theorem find_or_load_image_error (c : Cfg) (w : World) (s : State) (name : List Char)
    (type flags : Nat) (e : qerror_t)
    (h : (find_or_load_image c w s name type flags).ret = .error e) :
    (find_or_load_image c w s name type flags).state = s := by
  by_cases hv : name.length ≤ 4 ∨ name.getD (name.length - 4) ' ' ≠ '.'
  · exact (find_or_load_image_invalid c w s name type flags hv).1
  · have hlen : 4 < name.length := by omega
    have hdot : name.getD (name.length - 4) ' ' = '.' := by
      by_contra hd; exact hv (Or.inr hd)
    cases hl : lookup_image s name type (name_hash c name) (name.length - 4) with
    | some j =>
      rw [find_or_load_image_hit c w s name type flags j hlen hdot hl] at h
      simp at h
    | none =>
      rw [find_or_load_image_miss c w s name type flags hlen hdot hl] at h ⊢
      exact load_image_error c w s name type flags _ e h

theorem find_or_load_image_ok (c : Cfg) (w : World) (s : State) (name : List Char)
    (type flags i : Nat)
    (h : (find_or_load_image c w s name type flags).ret = .ok i) :
    4 < name.length ∧ name.getD (name.length - 4) ' ' = '.' ∧
    ((lookup_image s name type (name_hash c name) (name.length - 4) = some i ∧
        (find_or_load_image c w s name type flags).trace = [] ∧
        (find_or_load_image c w s name type flags).state
          = set_image s i (hit_image c s i flags)) ∨
      (lookup_image s name type (name_hash c name) (name.length - 4) = none ∧
        ∃ n img, alloc_image c s = some (i, n) ∧
          (find_or_load_image c w s name type flags).state
            = set_image (List_Append { s with r_numImages := n } (name_hash c name) i) i img ∧
          img.type = type ∧ img.baselen = name.length - 4 ∧
          img.registration_sequence = s.registration_sequence ∧
          normBase img.name (name.length - 4) = normBase name (name.length - 4) ∧
          name.length - 4 ≤ img.name.length ∧
          (find_or_load_image c w s name type flags).trace ≠ [])) := by
  by_cases hv : name.length ≤ 4 ∨ name.getD (name.length - 4) ' ' ≠ '.'
  · obtain ⟨_, _, e, he⟩ := find_or_load_image_invalid c w s name type flags hv
    rw [he] at h
    simp at h
  · have hlen : 4 < name.length := by omega
    have hdot : name.getD (name.length - 4) ' ' = '.' := by
      by_contra hd; exact hv (Or.inr hd)
    refine ⟨hlen, hdot, ?_⟩
    cases hl : lookup_image s name type (name_hash c name) (name.length - 4) with
    | some j =>
      left
      rw [find_or_load_image_hit c w s name type flags j hlen hdot hl] at h ⊢
      simp only [Except.ok.injEq] at h
      subst h
      exact ⟨rfl, rfl, rfl⟩
    | none =>
      right
      rw [find_or_load_image_miss c w s name type flags hlen hdot hl] at h ⊢
      obtain ⟨n, ld, _, ha, heq⟩ := load_image_ok c w s name type flags _ i h
      have hf := fill_image_fields c w (s.r_images i) name type flags s.registration_sequence
        (load_pic c w name type) ld
      have hb := load_pic_buffer c w name type
      refine ⟨rfl, n, _, ha, by rw [heq], hf.2.2.1, hf.2.1, hf.2.2.2, ?_, ?_, ?_⟩
      · rw [hf.1]
        exact normBase_of_take _ name (name.length - 3) (name.length - 4) (by omega) hb.1
      · rw [hf.1]
        have := hb.2
        omega
      · rw [heq]
        simp

/-! ## Lemmas: a found image is found again -/

theorem image_matches_congr (img : image_t) (n1 n2 : List Char) (type baselen : Nat)
    (h : normBase n2 baselen = normBase n1 baselen) :
    image_matches img n2 type baselen = image_matches img n1 type baselen := by
  unfold image_matches FS_pathcmpn
  rw [h]

theorem name_hash_congr (c : Cfg) (n1 n2 : List Char) (hlen : n2.length = n1.length)
    (h : normBase n2 (n1.length - 4) = normBase n1 (n1.length - 4)) :
    name_hash c n2 = name_hash c n1 := by
  unfold name_hash FS_HashPathLen
  rw [hlen, h]

theorem lookup_after_find (c : Cfg) (w : World) (s : State) (name : List Char)
    (type flags i : Nat)
    (h : (find_or_load_image c w s name type flags).ret = .ok i)
    (name2 : List Char) (hlen2 : name2.length = name.length)
    (hb : normBase name2 (name.length - 4) = normBase name (name.length - 4)) :
    lookup_image (find_or_load_image c w s name type flags).state name2 type
      (name_hash c name2) (name2.length - 4) = some i := by
  obtain ⟨_, _, hcase⟩ := find_or_load_image_ok c w s name type flags i h
  rw [name_hash_congr c name name2 hlen2 hb, hlen2]
  rcases hcase with ⟨hl, _, hst⟩ | ⟨hl, n, img, _, hst, hty, hbl, _, hnb, _, _⟩
  · rw [hst]
    have hm := (lookup_image_some s name type _ _ i hl).2
    unfold lookup_image at hl ⊢
    rw [← hl]
    apply find?_congr_mem
    intro j _
    simp only [set_image, Function.update_apply]
    by_cases hji : j = i
    · subst hji
      simp only [if_true]
      rw [hm, image_matches_iff]
      rw [image_matches_iff] at hm
      exact ⟨hm.1, hm.2.1, hm.2.2.trans hb.symm⟩
    · simp only [hji, if_false]
      exact image_matches_congr _ name name2 type _ hb
  · rw [hst]
    have hn := lookup_image_none s name type _ _ hl
    unfold lookup_image
    apply find?_eq_some_of_unique
    · intro j hj hp
      by_contra hji
      simp only [set_image, List_Append, Function.update_apply, hji, if_false] at hp
      simp only [set_image, List_Append, Function.update_same, List.mem_append,
        List.mem_singleton, hji, or_false] at hj
      rw [image_matches_congr _ name name2 type _ hb, hn j hj] at hp
      exact absurd hp (by simp)
    · simp [set_image, List_Append]
    · simp only [set_image, Function.update_same]
      rw [image_matches_iff]
      exact ⟨hty, hbl, hnb.trans hb.symm⟩

/-! ## Lemmas: the sweep in closed form -/

theorem IMG_FreeUnused_body_eq (c : Cfg) (s : State) (i : Nat) :
    IMG_FreeUnused_body c s i
      = if swept c s i then set_image (List_Remove s i) i image_zero else s := by
  unfold IMG_FreeUnused_body swept
  simp only
  split_ifs with h1 h2 h3 h4 h4 h4 h4 <;> first
    | rfl
    | (exfalso; simp only [decide_eq_true_eq] at *; tauto)

theorem swept_body (c : Cfg) (s : State) (i j : Nat) (hij : i ≠ j) :
    swept c (IMG_FreeUnused_body c s i) j = swept c s j := by
  rw [IMG_FreeUnused_body_eq]
  split_ifs
  · simp [swept, set_image, List_Remove, Function.update_apply, Ne.symm hij]
  · rfl

theorem IMG_FreeUnused_loop_spec (c : Cfg) (k i : Nat) (s : State) :
    (IMG_FreeUnused_loop c k i s).r_numImages = s.r_numImages ∧
    (IMG_FreeUnused_loop c k i s).registration_sequence = s.registration_sequence ∧
    (∀ j, (IMG_FreeUnused_loop c k i s).r_images j
        = if i ≤ j ∧ j < i + k ∧ swept c s j = true then image_zero else s.r_images j) ∧
    (∀ h, (IMG_FreeUnused_loop c k i s).r_imageHash h
        = (s.r_imageHash h).filter
            (fun j => !(decide (i ≤ j ∧ j < i + k) && swept c s j))) := by
  induction k generalizing i s with
  | zero =>
    refine ⟨rfl, rfl, fun j => ?_, fun h => ?_⟩
    · have : ¬ (i ≤ j ∧ j < i + 0 ∧ swept c s j = true) := by omega
      simp only [IMG_FreeUnused_loop, this, if_false]
    · simp only [IMG_FreeUnused_loop]
      symm
      apply List.filter_eq_self.mpr
      intro j _
      have : decide (i ≤ j ∧ j < i + 0) = false := by
        apply decide_eq_false; omega
      rw [this]; rfl
  | succ k ih =>
    obtain ⟨h1, h2, h3, h4⟩ := ih (i + 1) (IMG_FreeUnused_body c s i)
    simp only [IMG_FreeUnused_loop]
    have hb := IMG_FreeUnused_body_eq c s i
    refine ⟨?_, ?_, fun j => ?_, fun h => ?_⟩
    · rw [h1, hb]; split_ifs <;> rfl
    · rw [h2, hb]; split_ifs <;> rfl
    · rw [h3]
      by_cases hij : i = j
      · subst hij
        have : ¬ (i + 1 ≤ i) := by omega
        simp only [this, false_and, if_false]
        rw [hb]
        by_cases hs : swept c s i = true
        · simp [hs, set_image]
        · simp [hs]
      · rw [swept_body c s i j hij]
        have hj : (IMG_FreeUnused_body c s i).r_images j = s.r_images j := by
          rw [hb]; split_ifs
          · simp [set_image, List_Remove, Function.update_apply, Ne.symm hij]
          · rfl
        rw [hj]
        have hiff : (i + 1 ≤ j ∧ j < i + 1 + k ∧ swept c s j = true) ↔
            (i ≤ j ∧ j < i + (k + 1) ∧ swept c s j = true) := by
          constructor
          · rintro ⟨a, b, d⟩; exact ⟨by omega, by omega, d⟩
          · rintro ⟨a, b, d⟩; exact ⟨by omega, by omega, d⟩
        simp only [hiff]
    · rw [h4]
      have hh : (IMG_FreeUnused_body c s i).r_imageHash h
          = (s.r_imageHash h).filter (fun j => !(decide (j = i) && swept c s i)) := by
        rw [hb]
        by_cases hs : swept c s i = true
        · simp [hs, set_image, List_Remove]
        · simp [hs]
      rw [hh, List.filter_filter]
      apply List.filter_congr
      intro j _
      by_cases hij : i = j
      · subst hij
        have : ¬ (i + 1 ≤ i) := by omega
        simp [this]
      · rw [swept_body c s i j hij]
        have e1 : decide (j = i) = false := by simp [Ne.symm hij]
        have e2 : decide (i + 1 ≤ j ∧ j < i + 1 + k) = decide (i ≤ j ∧ j < i + (k + 1)) := by
          apply decide_eq_decide.mpr
          constructor
          · rintro ⟨a, b⟩; exact ⟨by omega, by omega⟩
          · rintro ⟨a, b⟩; exact ⟨by omega, by omega⟩
        simp [e1, e2]

theorem IMG_FreeAll_loop_spec (k i : Nat) (s : State) :
    (IMG_FreeAll_loop k i s).r_numImages = s.r_numImages ∧
    (IMG_FreeAll_loop k i s).registration_sequence = s.registration_sequence ∧
    (IMG_FreeAll_loop k i s).r_imageHash = s.r_imageHash ∧
    (∀ j, (IMG_FreeAll_loop k i s).r_images j
        = if i ≤ j ∧ j < i + k ∧ (s.r_images j).registration_sequence ≠ 0
          then image_zero else s.r_images j) := by
  induction k generalizing i s with
  | zero =>
    refine ⟨rfl, rfl, rfl, fun j => ?_⟩
    have : ¬ (i ≤ j ∧ j < i + 0 ∧ (s.r_images j).registration_sequence ≠ 0) := by omega
    simp only [IMG_FreeAll_loop, this, if_false]
  | succ k ih =>
    obtain ⟨h1, h2, h3, h4⟩ := ih (i + 1) (IMG_FreeAll_body s i)
    simp only [IMG_FreeAll_loop]
    refine ⟨?_, ?_, ?_, fun j => ?_⟩
    · rw [h1]; unfold IMG_FreeAll_body; split_ifs <;> rfl
    · rw [h2]; unfold IMG_FreeAll_body; split_ifs <;> rfl
    · rw [h3]; unfold IMG_FreeAll_body; split_ifs <;> rfl
    · rw [h4]
      by_cases hij : i = j
      · subst hij
        have : ¬ (i + 1 ≤ i) := by omega
        simp only [this, false_and, if_false]
        unfold IMG_FreeAll_body
        by_cases hs : (s.r_images i).registration_sequence = 0
        · simp [hs]
        · simp [hs, set_image]
      · have hj : (IMG_FreeAll_body s i).r_images j = s.r_images j := by
          unfold IMG_FreeAll_body; split_ifs
          · rfl
          · simp [set_image, Function.update_apply, Ne.symm hij]
        rw [hj]
        have hiff : (i + 1 ≤ j ∧ j < i + 1 + k ∧ (s.r_images j).registration_sequence ≠ 0) ↔
            (i ≤ j ∧ j < i + (k + 1) ∧ (s.r_images j).registration_sequence ≠ 0) := by
          constructor
          · rintro ⟨a, b, d⟩; exact ⟨by omega, by omega, d⟩
          · rintro ⟨a, b, d⟩; exact ⟨by omega, by omega, d⟩
        simp only [hiff]

/-! ## The table invariant -/

theorem hashOf_of_matches (c : Cfg) (img : image_t) (name : List Char) (type : Nat)
    (h : image_matches img name type (name.length - 4) = true) :
    hashOf c img = name_hash c name := by
  rw [image_matches_iff] at h
  unfold hashOf name_hash FS_HashPathLen
  rw [h.2.1, h.2.2]

theorem Inv_init (c : Cfg) (epoch : Nat) (s : State)
    (h : IMG_Init (boot epoch) = some s) : Inv c s := by
  simp only [IMG_Init, boot, ne_eq, not_true_eq_false, if_false, Option.some.injEq] at h
  subst h
  refine ⟨le_refl 1, ?_, ?_, ?_, ?_⟩
  · intro b i hi; simp at hi
  · intro i hi; simp [image_zero] at hi
  · intro b i hi; simp at hi
  · intro i j hi; simp [Linked] at hi

theorem Inv_find_or_load_image (c : Cfg) (w : World) (s : State) (name : List Char)
    (type flags : Nat) (hinv : Inv c s) :
    Inv c (find_or_load_image c w s name type flags).state := by
  cases hr : (find_or_load_image c w s name type flags).ret with
  | error e => rw [find_or_load_image_error c w s name type flags e hr]; exact hinv
  | ok i =>
    obtain ⟨_, _, hcase⟩ := find_or_load_image_ok c w s name type flags i hr
    rcases hcase with ⟨hl, _, hst⟩ | ⟨hl, n, img, halloc, hst, hty, hbl, _, hnb, hle, _⟩
    · -- hit: only the flags and the stamp of slot i change
      rw [hst]
      obtain ⟨hmem, hm⟩ := lookup_image_some s name type _ _ i hl
      have hkey : ∀ j, ((set_image s i (hit_image c s i flags)).r_images j).name
            = (s.r_images j).name ∧
          ((set_image s i (hit_image c s i flags)).r_images j).baselen
            = (s.r_images j).baselen ∧
          ((set_image s i (hit_image c s i flags)).r_images j).type
            = (s.r_images j).type := by
        intro j
        by_cases hji : j = i
        · subst hji; simp [set_image, hit_image]
        · simp [set_image, Function.update_apply, hji]
      have hlink : ∀ j, Linked c (set_image s i (hit_image c s i flags)) j ↔ Linked c s j := by
        intro j
        unfold Linked hashOf
        rw [(hkey j).1, (hkey j).2.1]
        rfl
      refine ⟨hinv.count_pos, hinv.bucket_range, ?_, ?_, ?_⟩
      · intro j hj
        rw [hlink]
        by_cases hji : j = i
        · subst hji
          unfold Linked
          rw [hashOf_of_matches c _ name type hm]
          exact hmem
        · apply hinv.live_linked
          simpa [set_image, Function.update_apply, hji] using hj
      · intro b j hj
        rw [(hkey j).1, (hkey j).2.1]
        exact hinv.base_le b j hj
      · intro j k hj hk hsame
        rw [hlink] at hj hk
        apply hinv.unique j k hj hk
        unfold same_key at hsame ⊢
        rw [(hkey j).1, (hkey j).2.1, (hkey j).2.2, (hkey k).1, (hkey k).2.1, (hkey k).2.2]
          at hsame
        exact hsame
    · -- miss: slot i is filled and appended to the bucket of the name
      rw [hst]
      obtain ⟨hi1, hin, hn⟩ := alloc_image_range c s i n hinv.count_pos halloc
      have hnone := lookup_image_none s name type _ _ hl
      have himg : ∀ j, j ≠ i →
          (set_image (List_Append { s with r_numImages := n } (name_hash c name) i) i img).r_images j
            = s.r_images j := by
        intro j hji
        simp [set_image, List_Append, Function.update_apply, hji]
      have himgi :
          (set_image (List_Append { s with r_numImages := n } (name_hash c name) i) i img).r_images i
            = img := by
        simp [set_image, List_Append]
      have hmem : ∀ b j, j ≠ i →
          (j ∈ (set_image (List_Append { s with r_numImages := n } (name_hash c name) i) i
            img).r_imageHash b ↔ j ∈ s.r_imageHash b) := by
        intro b j hji
        by_cases hb : b = name_hash c name
        · subst hb; simp [set_image, List_Append, hji]
        · simp [set_image, List_Append, Function.update_apply, hb]
      have hmemi : i ∈ (set_image (List_Append { s with r_numImages := n } (name_hash c name) i)
          i img).r_imageHash (name_hash c name) := by
        simp [set_image, List_Append]
      have hhash : hashOf c img = name_hash c name := by
        unfold hashOf name_hash FS_HashPathLen
        rw [hbl, hnb]
      have hcount : (set_image (List_Append { s with r_numImages := n } (name_hash c name) i)
          i img).r_numImages = n := rfl
      refine ⟨?_, ?_, ?_, ?_, ?_⟩
      · rw [hcount]; omega
      · intro b j hj
        rw [hcount]
        by_cases hji : j = i
        · subst hji; exact ⟨hi1, hin⟩
        · have := hinv.bucket_range b j ((hmem b j hji).mp hj)
          omega
      · intro j hj
        unfold Linked
        by_cases hji : j = i
        · subst hji
          rw [himgi, hhash]
          exact hmemi
        · rw [himg j hji] at hj ⊢
          exact (hmem _ j hji).mpr (hinv.live_linked j hj)
      · intro b j hj
        by_cases hji : j = i
        · subst hji
          rw [himgi, hbl]
          exact hle
        · rw [himg j hji]
          exact hinv.base_le b j ((hmem b j hji).mp hj)
      · -- a linked slot with the key of the new record would have been found
        have hnew : ∀ k, k ≠ i →
            Linked c (set_image (List_Append { s with r_numImages := n } (name_hash c name) i)
              i img) k →
            same_key img (s.r_images k) → False := by
          intro k hki hk hsame
          unfold Linked at hk
          rw [himg k hki] at hk
          have hk2 := (hmem _ k hki).mp hk
          obtain ⟨h1, h2, h3⟩ := hsame
          have hmk : image_matches (s.r_images k) name type (name.length - 4) = true := by
            rw [image_matches_iff]
            have e : (s.r_images k).baselen = name.length - 4 := h2.symm.trans hbl
            rw [e, hbl] at h3
            exact ⟨h1.symm.trans hty, e, h3.symm.trans hnb⟩
          rw [hashOf_of_matches c _ name type hmk] at hk2
          have := hnone k hk2
          rw [hmk] at this
          exact absurd this (by simp)
        intro j k hj hk hsame
        by_cases hji : j = i
        · by_cases hki : k = i
          · rw [hji, hki]
          · exfalso
            subst hji
            rw [himgi, himg k hki] at hsame
            exact hnew k hki hk hsame
        · by_cases hki : k = i
          · exfalso
            subst hki
            rw [himgi, himg j hji] at hsame
            exact hnew j hji hj ⟨hsame.1.symm, hsame.2.1.symm, hsame.2.2.symm⟩
          · rw [himg j hji, himg k hki] at hsame
            unfold Linked at hj hk
            rw [himg j hji] at hj
            rw [himg k hki] at hk
            exact hinv.unique j k ((hmem _ j hji).mp hj) ((hmem _ k hki).mp hk) hsame

theorem IMG_FreeUnused_spec (c : Cfg) (s : State) :
    (IMG_FreeUnused c s).r_numImages = s.r_numImages ∧
    (IMG_FreeUnused c s).registration_sequence = s.registration_sequence ∧
    (∀ j, (IMG_FreeUnused c s).r_images j
        = if swept_in_range c s j = true then image_zero else s.r_images j) ∧
    (∀ h, (IMG_FreeUnused c s).r_imageHash h
        = (s.r_imageHash h).filter (fun j => !swept_in_range c s j)) := by
  obtain ⟨h1, h2, h3, h4⟩ := IMG_FreeUnused_loop_spec c (s.r_numImages - 1) 1 s
  have hr : ∀ j, (1 ≤ j ∧ j < 1 + (s.r_numImages - 1)) ↔ (1 ≤ j ∧ j < s.r_numImages) := by
    intro j; omega
  refine ⟨h1, h2, fun j => ?_, fun h => ?_⟩
  · unfold IMG_FreeUnused
    rw [h3]
    unfold swept_in_range
    by_cases hs : swept c s j = true
    · by_cases hj : 1 ≤ j ∧ j < s.r_numImages
      · have hj2 := (hr j).mpr hj
        simp [hs, hj, hj2.2]
      · have hj2 : ¬ (1 ≤ j ∧ j < 1 + (s.r_numImages - 1)) := fun h => hj ((hr j).mp h)
        have e1 : ¬ (1 ≤ j ∧ j < 1 + (s.r_numImages - 1) ∧ swept c s j = true) :=
          fun h => hj2 ⟨h.1, h.2.1⟩
        have e2 : decide (1 ≤ j ∧ j < s.r_numImages) = false := decide_eq_false hj
        simp only [e1, if_false, e2, Bool.false_and]
        simp
    · have e1 : ¬ (1 ≤ j ∧ j < 1 + (s.r_numImages - 1) ∧ swept c s j = true) :=
        fun h => hs h.2.2
      have e2 : swept c s j = false := by simpa using hs
      simp only [e1, if_false, e2, Bool.and_false]
      simp
  · unfold IMG_FreeUnused
    rw [h4]
    apply List.filter_congr
    intro j _
    unfold swept_in_range
    rw [decide_eq_decide.mpr (hr j)]

theorem IMG_FreeAll_spec (s : State) :
    (IMG_FreeAll s).r_numImages = 1 ∧
    (IMG_FreeAll s).registration_sequence = s.registration_sequence ∧
    (∀ h, (IMG_FreeAll s).r_imageHash h = []) ∧
    (∀ j, (IMG_FreeAll s).r_images j
        = if 1 ≤ j ∧ j < s.r_numImages ∧ (s.r_images j).registration_sequence ≠ 0
          then image_zero else s.r_images j) := by
  obtain ⟨_, h2, _, h4⟩ := IMG_FreeAll_loop_spec (s.r_numImages - 1) 1 s
  refine ⟨rfl, h2, fun _ => rfl, fun j => ?_⟩
  show (IMG_FreeAll_loop (s.r_numImages - 1) 1 s).r_images j = _
  rw [h4]
  have hr : (1 ≤ j ∧ j < 1 + (s.r_numImages - 1) ∧ (s.r_images j).registration_sequence ≠ 0) ↔
      (1 ≤ j ∧ j < s.r_numImages ∧ (s.r_images j).registration_sequence ≠ 0) := by
    constructor
    · rintro ⟨a, b, d⟩; exact ⟨a, by omega, d⟩
    · rintro ⟨a, b, d⟩; exact ⟨a, by omega, d⟩
  simp only [hr]

theorem Inv_IMG_FreeUnused (c : Cfg) (s : State) (hinv : Inv c s) :
    Inv c (IMG_FreeUnused c s) := by
  obtain ⟨h1, _, h3, h4⟩ := IMG_FreeUnused_spec c s
  have hkeep : ∀ b j, j ∈ (IMG_FreeUnused c s).r_imageHash b →
      j ∈ s.r_imageHash b ∧ (IMG_FreeUnused c s).r_images j = s.r_images j := by
    intro b j hj
    rw [h4, List.mem_filter] at hj
    have hns : swept_in_range c s j = false := by simpa using hj.2
    refine ⟨hj.1, ?_⟩
    rw [h3, hns]
    simp
  have hlinked : ∀ j, Linked c (IMG_FreeUnused c s) j →
      Linked c s j ∧ (IMG_FreeUnused c s).r_images j = s.r_images j := by
    intro j hj
    unfold Linked at hj ⊢
    obtain ⟨hm, he⟩ := hkeep _ j hj
    rw [he] at hm
    exact ⟨hm, he⟩
  refine ⟨by rw [h1]; exact hinv.count_pos, ?_, ?_, ?_, ?_⟩
  · intro b j hj
    rw [h1]
    exact hinv.bucket_range b j (hkeep b j hj).1
  · intro j hj
    have hns : swept_in_range c s j = false := by
      by_contra hs
      have hs2 : swept_in_range c s j = true := by simpa using hs
      rw [h3, hs2] at hj
      simp [image_zero] at hj
    have he : (IMG_FreeUnused c s).r_images j = s.r_images j := by
      rw [h3, hns]; simp
    rw [he] at hj
    unfold Linked
    rw [he, h4, List.mem_filter]
    exact ⟨hinv.live_linked j hj, by simp [hns]⟩
  · intro b j hj
    obtain ⟨hm, he⟩ := hkeep b j hj
    rw [he]
    exact hinv.base_le b j hm
  · intro j k hj hk hsame
    obtain ⟨hj1, hj2⟩ := hlinked j hj
    obtain ⟨hk1, hk2⟩ := hlinked k hk
    rw [hj2, hk2] at hsame
    exact hinv.unique j k hj1 hk1 hsame

theorem Inv_IMG_FreeAll (c : Cfg) (s : State) (hinv : Inv c s) :
    Inv c (IMG_FreeAll s) := by
  obtain ⟨h1, _, h3, h4⟩ := IMG_FreeAll_spec s
  refine ⟨by rw [h1], ?_, ?_, ?_, ?_⟩
  · intro b j hj; rw [h3] at hj; simp at hj
  · intro j hj
    exfalso
    rw [h4] at hj
    by_cases hc : 1 ≤ j ∧ j < s.r_numImages ∧ (s.r_images j).registration_sequence ≠ 0
    · simp only [hc, ne_eq, not_false_eq_true, and_self, if_true] at hj
      exact hj rfl
    · rw [if_neg hc] at hj
      have := hinv.bucket_range _ j (hinv.live_linked j hj)
      exact hc ⟨this.1, this.2, hj⟩
  · intro b j hj; rw [h3] at hj; simp at hj
  · intro j k hj; unfold Linked at hj; rw [h3] at hj; simp at hj

theorem found_of_state (r : FindResult) : (found_of r).state = r.state := by
  unfold found_of; split <;> rfl

theorem IMG_Find_eq (c : Cfg) (w : World) (s : State) (name : List Char) (type : Nat)
    (h : name.length < c.MAX_QPATH) :
    IMG_Find c w s name type = some (found_of (find_or_load_image c w s name type 0)) := by
  unfold IMG_Find
  rw [if_neg (Nat.not_le.mpr h)]

theorem IMG_Find_state (c : Cfg) (w : World) (s : State) (name : List Char) (type : Nat)
    (r : Found) (h : IMG_Find c w s name type = some r) :
    r.state = (find_or_load_image c w s name type 0).state := by
  unfold IMG_Find at h
  split_ifs at h
  simp only [Option.some.injEq] at h
  rw [← h, found_of_state]

theorem R_RegisterImage_state (c : Cfg) (w : World) (s : State) (name : List Char)
    (type flags : Nat) :
    (R_RegisterImage c w s name type flags).state = s ∨
      ∃ fullname, (R_RegisterImage c w s name type flags).state
        = (find_or_load_image c w s fullname type flags).state := by
  unfold R_RegisterImage
  split
  · left; rfl
  · rename_i c0 rest
    split_ifs
    · left; rfl
    · cases register_fullname c c0 rest type with
      | error e => left; rfl
      | ok fullname =>
        simp only
        split_ifs
        · left; rfl
        · right; exact ⟨fullname, found_of_state _⟩

theorem Inv_advance_epoch (c : Cfg) (s : State) (hinv : Inv c s) :
    Inv c (advance_epoch s) :=
  ⟨hinv.count_pos, hinv.bucket_range, hinv.live_linked, hinv.base_le, hinv.unique⟩

theorem Reachable_Inv (c : Cfg) (s : State) (hs : Reachable c s) : Inv c s := by
  induction hs with
  | init epoch s h => exact Inv_init c epoch s h
  | find w s name type r _ h ih =>
    rw [IMG_Find_state c w s name type r h]
    exact Inv_find_or_load_image c w s name type 0 ih
  | register w s name type flags _ ih =>
    rcases R_RegisterImage_state c w s name type flags with h | ⟨fullname, h⟩
    · rw [h]; exact ih
    · rw [h]; exact Inv_find_or_load_image c w s fullname type flags ih
  | advance s _ ih => exact Inv_advance_epoch c s ih
  | freeUnused s _ ih => exact Inv_IMG_FreeUnused c s ih
  | freeAll s _ ih => exact Inv_IMG_FreeAll c s ih

theorem find_or_load_image_count (c : Cfg) (w : World) (s : State) (name : List Char)
    (type flags : Nat) (hpos : 1 ≤ s.r_numImages) (hle : s.r_numImages ≤ c.MAX_RIMAGES) :
    (find_or_load_image c w s name type flags).state.r_numImages ≤ c.MAX_RIMAGES ∧
      s.r_numImages ≤ (find_or_load_image c w s name type flags).state.r_numImages := by
  cases hr : (find_or_load_image c w s name type flags).ret with
  | error e => rw [find_or_load_image_error c w s name type flags e hr]; exact ⟨hle, le_refl _⟩
  | ok i =>
    obtain ⟨_, _, hcase⟩ := find_or_load_image_ok c w s name type flags i hr
    rcases hcase with ⟨_, _, hst⟩ | ⟨_, n, img, halloc, hst, _⟩
    · rw [hst]; exact ⟨hle, le_refl _⟩
    · rw [hst]
      obtain ⟨_, _, hn⟩ := alloc_image_range c s i n hpos halloc
      show n ≤ c.MAX_RIMAGES ∧ s.r_numImages ≤ n
      omega

theorem Reachable_count_le (c : Cfg) (hM : 1 ≤ c.MAX_RIMAGES) (s : State)
    (hs : Reachable c s) : s.r_numImages ≤ c.MAX_RIMAGES := by
  induction hs with
  | init epoch s h =>
    simp only [IMG_Init, boot, ne_eq, not_true_eq_false, if_false, Option.some.injEq] at h
    subst h
    exact hM
  | find w s name type r hs h ih =>
    rw [IMG_Find_state c w s name type r h]
    exact (find_or_load_image_count c w s name type 0 (Reachable_Inv c s hs).count_pos ih).1
  | register w s name type flags hs ih =>
    rcases R_RegisterImage_state c w s name type flags with h | ⟨fullname, h⟩
    · rw [h]; exact ih
    · rw [h]
      exact (find_or_load_image_count c w s fullname type flags
        (Reachable_Inv c s hs).count_pos ih).1
  | advance s _ ih => exact ih
  | freeUnused s _ ih => rw [(IMG_FreeUnused_spec c s).1]; exact ih
  | freeAll s _ _ => rw [(IMG_FreeAll_spec s).1]; exact hM

theorem found_slot_key (c : Cfg) (w : World) (s : State) (name : List Char)
    (type flags i : Nat)
    (h : (find_or_load_image c w s name type flags).ret = .ok i) :
    ((find_or_load_image c w s name type flags).state.r_images i).type = type ∧
    ((find_or_load_image c w s name type flags).state.r_images i).baselen = name.length - 4 ∧
    normBase ((find_or_load_image c w s name type flags).state.r_images i).name
      (name.length - 4) = normBase name (name.length - 4) ∧
    ((find_or_load_image c w s name type flags).state.r_images i).registration_sequence
      = s.registration_sequence := by
  obtain ⟨_, _, hcase⟩ := find_or_load_image_ok c w s name type flags i h
  rcases hcase with ⟨hl, _, hst⟩ | ⟨_, n, img, _, hst, hty, hbl, hseq, hnb, _, _⟩
  · rw [hst]
    have hm := (lookup_image_some s name type _ _ i hl).2
    rw [image_matches_iff] at hm
    simp only [set_image, Function.update_same, hit_image]
    exact ⟨hm.1, hm.2.1, hm.2.2, trivial⟩
  · rw [hst]
    simp only [set_image, Function.update_same]
    exact ⟨hty, hbl, hnb, hseq⟩

/-! ## Reachability of the concrete tables -/

theorem Reachable_demo_init (c : Cfg) (epoch : Nat) : Reachable c (demo_init epoch) :=
  Reachable.init epoch (demo_init epoch) rfl

/-! ## C1: repeated lookups -/

/-- C1 (as stated) fails: the claim that for every state, path and type two
consecutive `IMG_Find` calls return the same handle and the second invokes no
decoder is false.  With `bad.pcx` present but rejected by its decoder, the
first call fails, nothing is cached, and the second call decodes again. -/
theorem C1_counterexample :
    ¬ (∀ (c : Cfg) (w : World) (s : State) (name : List Char) (type : Nat) (r1 r2 : Found),
        IMG_Find c w s name type = some r1 →
        IMG_Find c w r1.state name type = some r2 →
        r2.handle = r1.handle ∧ ∀ fmt path, Event.decode fmt path ∉ r2.trace) := by
  intro h
  have h2 := (h demo_cfg demo_world (demo_init 1) name_bad 0
    (found_of (find_or_load_image demo_cfg demo_world (demo_init 1) name_bad 0 0))
    (found_of (find_or_load_image demo_cfg demo_world
      (found_of (find_or_load_image demo_cfg demo_world (demo_init 1) name_bad 0 0)).state
      name_bad 0 0))
    (IMG_Find_eq _ _ _ _ _ (by decide)) (IMG_Find_eq _ _ _ _ _ (by decide))).2 IM_PCX name_bad
  exact h2 (by decide)

/-- C1 (amended): two consecutive `IMG_Find` calls for the same path and type
in the same epoch return the same handle.  When the first call succeeded the
second one is a pure cache hit: it calls neither the file system nor a
decoder.  When the first call failed, nothing was cached and the second call
repeats it: same error, same collaborator calls.  So the second call invokes
a decoder exactly when the first call failed after invoking one. -/
theorem C1_find_twice (c : Cfg) (w : World) (s : State) (name : List Char) (type : Nat)
    (r1 r2 : Found)
    (h1 : IMG_Find c w s name type = some r1)
    (h2 : IMG_Find c w r1.state name type = some r2) :
    r2.handle = r1.handle ∧ (r1.err = none → r2.trace = []) ∧
    (r1.err ≠ none → r2.trace = r1.trace ∧ r2.err = r1.err) ∧
    ((∃ fmt path, Event.decode fmt path ∈ r2.trace) ↔
      (r1.err ≠ none ∧ ∃ fmt path, Event.decode fmt path ∈ r1.trace)) := by
  unfold IMG_Find at h1 h2
  split_ifs at h1 h2 with hq
  simp only [Option.some.injEq] at h1 h2
  cases hr : (find_or_load_image c w s name type 0).ret with
  | error e =>
    have hst := find_or_load_image_error c w s name type 0 e hr
    have hs1 : r1.state = s := by rw [← h1, found_of_state, hst]
    rw [hs1] at h2
    have h21 : r2 = r1 := by rw [← h2, ← h1]
    have herr : r1.err = some e := by
      rw [← h1]
      unfold found_of
      rw [hr]
    rw [h21]
    refine ⟨rfl, ?_, fun _ => ⟨rfl, rfl⟩, ?_⟩
    · intro hn
      rw [herr] at hn
      exact absurd hn (by simp)
    · constructor
      · intro hd
        refine ⟨?_, hd⟩
        rw [herr]
        simp
      · intro hd
        exact hd.2
  | ok i =>
    have hl := lookup_after_find c w s name type 0 i hr name rfl rfl
    obtain ⟨hlen, hdot, _⟩ := find_or_load_image_ok c w s name type 0 i hr
    have hs1 : r1.state = (find_or_load_image c w s name type 0).state := by
      rw [← h1, found_of_state]
    rw [hs1, find_or_load_image_hit c w _ name type 0 i hlen hdot hl] at h2
    have herr : r1.err = none := by
      rw [← h1]
      unfold found_of
      rw [hr]
    have htr : r2.trace = [] := by
      rw [← h2]
      rfl
    refine ⟨?_, fun _ => htr, fun hne => absurd herr hne, ?_⟩
    · rw [← h2, ← h1]
      unfold found_of
      rw [hr]
    · constructor
      · rintro ⟨fmt, path, hmem⟩
        rw [htr] at hmem
        exact absurd hmem (List.not_mem_nil _)
      · rintro ⟨hne, _⟩
        exact absurd herr hne

/-- Witness for C1 (amended): `a.pcx` looked up twice from the initial table. -/
theorem C1_find_twice_witness :
    (found_of (find_or_load_image demo_cfg demo_world
      (found_of (find_or_load_image demo_cfg demo_world (demo_init 1) name_a 0 0)).state
      name_a 0 0)).handle = 1 ∧
    (found_of (find_or_load_image demo_cfg demo_world
      (found_of (find_or_load_image demo_cfg demo_world (demo_init 1) name_a 0 0)).state
      name_a 0 0)).trace = [] := by
  have h := C1_find_twice demo_cfg demo_world (demo_init 1) name_a 0
    (found_of (find_or_load_image demo_cfg demo_world (demo_init 1) name_a 0 0))
    (found_of (find_or_load_image demo_cfg demo_world
      (found_of (find_or_load_image demo_cfg demo_world (demo_init 1) name_a 0 0)).state
      name_a 0 0))
    (IMG_Find_eq _ _ _ _ _ (by decide)) (IMG_Find_eq _ _ _ _ _ (by decide))
  exact ⟨h.1.trans (by decide), h.2.1 (by decide)⟩

/-! ## C2: frame of a cache hit -/

/-- C2: on a cache hit (the lookup finds slot `i`), `find_or_load_image`
returns slot `i`, sets its stamp to the current epoch and its flags to
`old | (flags & IF_PERMANENT)`, and changes nothing else: the other fields of
the record, every other slot, every bucket, the slot count and the epoch are
as before, and no collaborator (file system, decoder, renderer) is called. -/
theorem C2_hit_frame (c : Cfg) (w : World) (s : State) (name : List Char)
    (type flags i : Nat) (hlen : 4 < name.length)
    (hdot : name.getD (name.length - 4) ' ' = '.')
    (hhit : lookup_image s name type
      (FS_HashPathLen c name (name.length - 4) RIMAGES_HASH) (name.length - 4) = some i) :
    (find_or_load_image c w s name type flags).ret = .ok i ∧
    (find_or_load_image c w s name type flags).trace = [] ∧
    (find_or_load_image c w s name type flags).state.r_images i
      = { s.r_images i with
          flags := (s.r_images i).flags ||| (flags &&& c.IF_PERMANENT),
          registration_sequence := s.registration_sequence } ∧
    (∀ j, j ≠ i →
      (find_or_load_image c w s name type flags).state.r_images j = s.r_images j) ∧
    (find_or_load_image c w s name type flags).state.r_imageHash = s.r_imageHash ∧
    (find_or_load_image c w s name type flags).state.r_numImages = s.r_numImages ∧
    (find_or_load_image c w s name type flags).state.registration_sequence
      = s.registration_sequence := by
  rw [find_or_load_image_hit c w s name type flags i hlen hdot hhit]
  refine ⟨rfl, rfl, ?_, ?_, rfl, rfl, rfl⟩
  · simp [set_image, hit_image]
  · intro j hj
    simp [set_image, Function.update_apply, hj]

/-- Witness for C2: `a.pcx` is looked up again, with the permanent flag, after
it was loaded into slot 1. -/
theorem C2_hit_frame_witness :
    (find_or_load_image demo_cfg demo_world demo_loaded name_a 0 1).ret = .ok 1 ∧
    (find_or_load_image demo_cfg demo_world demo_loaded name_a 0 1).trace = [] ∧
    (find_or_load_image demo_cfg demo_world demo_loaded name_a 0 1).state.r_numImages = 2 := by
  have h := C2_hit_frame demo_cfg demo_world demo_loaded name_a 0 1 1
    (by decide) (by decide) (by decide)
  exact ⟨h.1, h.2.1, h.2.2.2.2.2.1.trans (by decide)⟩

/-! ## C3: the cache key -/

/-- C3: cache identity is case- and extension-insensitive.  After a successful
lookup of `name` with `type` gave slot `i`, every name of the same length
that has a dot before its three-character extension and whose base (the first
`length - 4` characters) agrees with that of `name` under case-insensitive,
separator-normalised comparison is a hit on slot `i` for the same type: slot
`i` is returned and no collaborator is called.  A lookup that differs in type
or in base name is not a hit on slot `i`: `lookup_image` does not return it,
and if `find_or_load_image` returns slot `i` at all, it loaded it afresh. -/
theorem C3_cache_key (c : Cfg) (w : World) (s : State) (name : List Char)
    (type flags i : Nat)
    (h : (find_or_load_image c w s name type flags).ret = .ok i) :
    (∀ (w2 : World) (name2 : List Char) (flags2 : Nat),
      name2.length = name.length →
      name2.getD (name2.length - 4) ' ' = '.' →
      normBase name2 (name2.length - 4) = normBase name (name.length - 4) →
      (find_or_load_image c w2 (find_or_load_image c w s name type flags).state
          name2 type flags2).ret = .ok i ∧
      (find_or_load_image c w2 (find_or_load_image c w s name type flags).state
          name2 type flags2).trace = []) ∧
    (∀ (w3 : World) (name3 : List Char) (type3 flags3 : Nat),
      ¬ (type3 = type ∧ name3.length = name.length ∧
          normBase name3 (name3.length - 4) = normBase name (name.length - 4)) →
      lookup_image (find_or_load_image c w s name type flags).state name3 type3
          (FS_HashPathLen c name3 (name3.length - 4) RIMAGES_HASH) (name3.length - 4)
        ≠ some i ∧
      ((find_or_load_image c w3 (find_or_load_image c w s name type flags).state
          name3 type3 flags3).ret = .ok i →
        (find_or_load_image c w3 (find_or_load_image c w s name type flags).state
          name3 type3 flags3).trace ≠ [])) := by
  obtain ⟨hlen, _, _⟩ := find_or_load_image_ok c w s name type flags i h
  constructor
  · intro w2 name2 flags2 hl2 hdot2 hb2
    rw [hl2] at hb2
    have hl := lookup_after_find c w s name type flags i h name2 hl2 hb2
    rw [find_or_load_image_hit c w2 _ name2 type flags2 i (by omega) hdot2 hl]
    exact ⟨rfl, rfl⟩
  · intro w3 name3 type3 flags3 hdiff
    have hkey := found_slot_key c w s name type flags i h
    have hno : lookup_image (find_or_load_image c w s name type flags).state name3 type3
        (name_hash c name3) (name3.length - 4) ≠ some i := by
      intro hl3
      have hm := (lookup_image_some _ name3 type3 _ _ i hl3).2
      rw [image_matches_iff] at hm
      apply hdiff
      have hbl : name3.length - 4 = name.length - 4 := hm.2.1.symm.trans hkey.2.1
      refine ⟨hm.1.symm.trans hkey.1, by omega, ?_⟩
      rw [← hm.2.2, hbl]
      exact hkey.2.2.1
    refine ⟨hno, ?_⟩
    intro h3
    obtain ⟨_, _, hcase⟩ := find_or_load_image_ok c w3 _ name3 type3 flags3 i h3
    rcases hcase with ⟨hl, _, _⟩ | ⟨_, n, img, _, _, _, _, _, _, _, htr⟩
    · exact absurd hl hno
    · exact htr

/-- Witness for C3: after `a.pcx` is loaded, `A.tga` is a hit on the same slot. -/
theorem C3_cache_key_witness :
    (find_or_load_image demo_cfg demo_world demo_loaded name_A_tga 0 0).ret = .ok 1 ∧
    (find_or_load_image demo_cfg demo_world demo_loaded name_A_tga 0 0).trace = [] :=
  (C3_cache_key demo_cfg demo_world (demo_init 1) name_a 0 0 1 (by decide)).1
    demo_world name_A_tga 0 (by decide) (by decide) (by decide)

/-! ## C4: uniqueness of the cache key -/

/-- C4: in every state reachable from `IMG_Init` by lookups through `IMG_Find`
and `R_RegisterImage`, epoch advances, `IMG_FreeUnused` and `IMG_FreeAll`, two
live slots (nonzero stamp) with the same type and the same normalised base
name are the same slot. -/
theorem C4_cache_unique (c : Cfg) (s : State) (hs : Reachable c s) (i j : Nat)
    (hi : (s.r_images i).registration_sequence ≠ 0)
    (hj : (s.r_images j).registration_sequence ≠ 0)
    (htype : (s.r_images i).type = (s.r_images j).type)
    (hbase : normBase (s.r_images i).name (s.r_images i).baselen
      = normBase (s.r_images j).name (s.r_images j).baselen) :
    i = j := by
  have hinv := Reachable_Inv c s hs
  have hli := hinv.live_linked i hi
  have hlj := hinv.live_linked j hj
  have hbi := hinv.base_le _ i hli
  have hbj := hinv.base_le _ j hlj
  have hlen : (s.r_images i).baselen = (s.r_images j).baselen := by
    have := congrArg List.length hbase
    simp only [normBase, List.length_map, List.length_take] at this
    omega
  exact hinv.unique i j hli hlj ⟨htype, hlen, hbase⟩

theorem Reachable_demo_three : Reachable demo_cfg demo_three :=
  Reachable.find demo_world _ name_b 0 _
    (Reachable.find demo_world _ name_A_tga 0 _
      (Reachable.find demo_world _ name_a 0 _ (Reachable_demo_init demo_cfg 1)
        (IMG_Find_eq _ _ _ _ _ (by decide)))
      (IMG_Find_eq _ _ _ _ _ (by decide)))
    (IMG_Find_eq _ _ _ _ _ (by decide))

/-- Witness for C4: in the table reached by looking up `a.pcx`, `A.tga` and
`b.pcx`, slots 1 and 2 are live and differ, so their keys differ. -/
theorem C4_cache_unique_witness :
    (demo_three.r_images 1).registration_sequence ≠ 0 ∧
    (demo_three.r_images 2).registration_sequence ≠ 0 ∧
    ¬ (normBase (demo_three.r_images 1).name (demo_three.r_images 1).baselen
      = normBase (demo_three.r_images 2).name (demo_three.r_images 2).baselen) := by
  refine ⟨by decide, by decide, fun hb => ?_⟩
  have := C4_cache_unique demo_cfg demo_three Reachable_demo_three 1 2
    (by decide) (by decide) (by decide) hb
  exact absurd this (by decide)

/-! ## C5: the sweep -/

theorem Reachable_live_range (c : Cfg) (s : State) (hs : Reachable c s) (i : Nat)
    (hi : (s.r_images i).registration_sequence ≠ 0) : 1 ≤ i ∧ i < s.r_numImages :=
  (Reachable_Inv c s hs).bucket_range _ i ((Reachable_Inv c s hs).live_linked i hi)

/-- C5: `IMG_FreeUnused` on a table whose live slots all lie below the slot
count (as in every reachable state).  Afterwards every slot of index at least
1 that is still live has the current epoch as stamp or has the permanent or
scrap flag.  A slot of index at least 1 is zeroed and unlinked from every
bucket exactly when it was live, its stamp differed from the current epoch
and it had neither flag; every other slot (slot 0 included) keeps its record
and its bucket membership, each bucket keeps the order of the slots that
stay, and the slot count and the epoch are unchanged. -/
theorem C5_free_unused (c : Cfg) (s : State)
    (hlive : ∀ i, s.r_numImages ≤ i → (s.r_images i).registration_sequence = 0) :
    (∀ i, 1 ≤ i → ((IMG_FreeUnused c s).r_images i).registration_sequence ≠ 0 →
      ((IMG_FreeUnused c s).r_images i).registration_sequence
          = (IMG_FreeUnused c s).registration_sequence ∨
        ((IMG_FreeUnused c s).r_images i).flags &&& (c.IF_PERMANENT ||| c.IF_SCRAP) ≠ 0) ∧
    (∀ i, 1 ≤ i →
      (s.r_images i).registration_sequence ≠ 0 →
      (s.r_images i).registration_sequence ≠ s.registration_sequence →
      (s.r_images i).flags &&& (c.IF_PERMANENT ||| c.IF_SCRAP) = 0 →
      (IMG_FreeUnused c s).r_images i = image_zero ∧
        ∀ b, i ∉ (IMG_FreeUnused c s).r_imageHash b) ∧
    (∀ i, ¬ (1 ≤ i ∧ (s.r_images i).registration_sequence ≠ 0 ∧
        (s.r_images i).registration_sequence ≠ s.registration_sequence ∧
        (s.r_images i).flags &&& (c.IF_PERMANENT ||| c.IF_SCRAP) = 0) →
      (IMG_FreeUnused c s).r_images i = s.r_images i ∧
        ∀ b, (i ∈ (IMG_FreeUnused c s).r_imageHash b ↔ i ∈ s.r_imageHash b)) ∧
    (∀ b, (IMG_FreeUnused c s).r_imageHash b
      = (s.r_imageHash b).filter (fun j => !(decide (1 ≤ j) && swept c s j))) ∧
    (IMG_FreeUnused c s).r_images 0 = s.r_images 0 ∧
    (IMG_FreeUnused c s).r_numImages = s.r_numImages ∧
    (IMG_FreeUnused c s).registration_sequence = s.registration_sequence := by
  obtain ⟨h1, h2, h3, h4⟩ := IMG_FreeUnused_spec c s
  have hsw : ∀ j, swept c s j = true ↔
      ((s.r_images j).registration_sequence ≠ 0 ∧
        (s.r_images j).registration_sequence ≠ s.registration_sequence ∧
        (s.r_images j).flags &&& (c.IF_PERMANENT ||| c.IF_SCRAP) = 0) := by
    intro j
    unfold swept
    rw [decide_eq_true_iff]
    tauto
  have hrange : ∀ j, swept_in_range c s j = true ↔ (1 ≤ j ∧ swept c s j = true) := by
    intro j
    unfold swept_in_range
    rw [Bool.and_eq_true, decide_eq_true_iff]
    constructor
    · rintro ⟨a, b⟩; exact ⟨a.1, b⟩
    · rintro ⟨a, b⟩
      refine ⟨⟨a, ?_⟩, b⟩
      by_contra hn
      exact ((hsw j).mp b).1 (hlive j (by omega))
  have hzero : ∀ i, swept_in_range c s i = true →
      (IMG_FreeUnused c s).r_images i = image_zero ∧
        ∀ b, i ∉ (IMG_FreeUnused c s).r_imageHash b := by
    intro i hi
    refine ⟨by rw [h3, hi]; simp, fun b hb => ?_⟩
    rw [h4, List.mem_filter] at hb
    simp [hi] at hb
  have hkeep : ∀ i, ¬ swept_in_range c s i = true →
      (IMG_FreeUnused c s).r_images i = s.r_images i ∧
        ∀ b, (i ∈ (IMG_FreeUnused c s).r_imageHash b ↔ i ∈ s.r_imageHash b) := by
    intro i hi
    refine ⟨by rw [h3, if_neg hi], fun b => ?_⟩
    rw [h4, List.mem_filter]
    have : swept_in_range c s i = false := by simpa using hi
    simp [this]
  refine ⟨?_, ?_, ?_, ?_, ?_, h1, h2⟩
  · intro i _ hl
    by_cases hi : swept_in_range c s i = true
    · rw [(hzero i hi).1] at hl
      exact absurd rfl hl
    · rw [(hkeep i hi).1] at hl ⊢
      rw [h2]
      by_contra hcon
      rw [not_or, not_not] at hcon
      exact hi ((hrange i).mpr ⟨by assumption, (hsw i).mpr ⟨hl, hcon.1, hcon.2⟩⟩)
  · intro i hi1 ha hb hc
    exact hzero i ((hrange i).mpr ⟨hi1, (hsw i).mpr ⟨ha, hb, hc⟩⟩)
  · intro i hi
    apply hkeep i
    intro hsi
    obtain ⟨a, b⟩ := (hrange i).mp hsi
    exact hi ⟨a, (hsw i).mp b⟩
  · intro b
    rw [h4]
    apply List.filter_congr
    intro j _
    have e : swept_in_range c s j = (decide (1 ≤ j) && swept c s j) := by
      rw [Bool.eq_iff_iff, hrange j, Bool.and_eq_true, decide_eq_true_iff]
    rw [e]
  · exact (hkeep 0 (fun h => absurd ((hrange 0).mp h).1 (by omega))).1

/-- Witness for C5: the sweep one epoch after `a.pcx` and `b.pcx` were loaded
zeroes slot 1. -/
theorem C5_free_unused_witness :
    (IMG_FreeUnused demo_cfg demo_stale_epoch).r_images 1 = image_zero := by
  have hlive : ∀ i, demo_stale_epoch.r_numImages ≤ i →
      (demo_stale_epoch.r_images i).registration_sequence = 0 := by
    intro i hi
    by_contra hne
    have := Reachable_live_range demo_cfg demo_stale_epoch
      (Reachable.advance _ Reachable_demo_three) i hne
    omega
  exact ((C5_free_unused demo_cfg demo_stale_epoch hlive).2.1 1 (by decide) (by decide)
    (by decide) (by decide)).1

/-! ## C6: full reset -/

/-- C6 (as stated) fails: `IMG_FreeAll` skips every slot whose stamp is 0, so it
does not zero every slot below the old count regardless of stamp.  In the
table reached from `IMG_Init` by one lookup of `a.pcx` at epoch 0, slot 1 lies
below the slot count and still holds the record of `a.pcx` after
`IMG_FreeAll`. -/
theorem C6_counterexample :
    Reachable demo_cfg demo_epoch0 ∧ 1 < demo_epoch0.r_numImages ∧
      (IMG_FreeAll demo_epoch0).r_images 1 ≠ image_zero ∧
      ((IMG_FreeAll demo_epoch0).r_images 1).name = name_a :=
  ⟨Reachable.find demo_world _ name_a 0 _ (Reachable_demo_init demo_cfg 0)
      (IMG_Find_eq _ _ _ _ _ (by decide)),
    by decide, by decide, by decide⟩

/-- C6 (amended): after `IMG_FreeAll`, for every prior state, the slot count is
1, all buckets are empty, every slot of index at least 1 below the old count
that was live is zeroed whatever its flags and its stamp, every slot whose
stamp was 0 and every slot outside that range is left as it was, no slot of
index at least 1 below the old count is live, and every subsequent lookup is a
miss. -/
theorem C6_free_all (c : Cfg) (s : State) :
    (IMG_FreeAll s).r_numImages = 1 ∧
    (∀ b, (IMG_FreeAll s).r_imageHash b = []) ∧
    (∀ i, 1 ≤ i → i < s.r_numImages → (s.r_images i).registration_sequence ≠ 0 →
      (IMG_FreeAll s).r_images i = image_zero) ∧
    (∀ i, (s.r_images i).registration_sequence = 0 ∨ i = 0 ∨ s.r_numImages ≤ i →
      (IMG_FreeAll s).r_images i = s.r_images i) ∧
    (∀ i, 1 ≤ i → i < s.r_numImages →
      ((IMG_FreeAll s).r_images i).registration_sequence = 0) ∧
    (IMG_FreeAll s).registration_sequence = s.registration_sequence ∧
    (∀ (name : List Char) (type hash baselen : Nat),
      lookup_image (IMG_FreeAll s) name type hash baselen = none) ∧
    (∀ (w : World) (name : List Char) (type flags : Nat),
      4 < name.length → name.getD (name.length - 4) ' ' = '.' →
      find_or_load_image c w (IMG_FreeAll s) name type flags
        = load_image c w (IMG_FreeAll s) name type flags (name_hash c name)) := by
  obtain ⟨h1, h2, h3, h4⟩ := IMG_FreeAll_spec s
  have hlook : ∀ (name : List Char) (type hash baselen : Nat),
      lookup_image (IMG_FreeAll s) name type hash baselen = none := by
    intro name type hash baselen
    unfold lookup_image
    rw [h3]
    rfl
  refine ⟨h1, h3, ?_, ?_, ?_, h2, hlook, ?_⟩
  · intro i hi1 hin hl
    rw [h4, if_pos ⟨hi1, hin, hl⟩]
  · intro i hi
    rw [h4, if_neg]
    rintro ⟨a, b, d⟩
    rcases hi with hi | hi | hi
    · exact d hi
    · omega
    · omega
  · intro i hi1 hin
    rw [h4]
    by_cases hl : (s.r_images i).registration_sequence = 0
    · rw [if_neg (fun h => h.2.2 hl)]; exact hl
    · rw [if_pos ⟨hi1, hin, hl⟩]; rfl
  · intro w name type flags hlen hdot
    exact find_or_load_image_miss c w _ name type flags hlen hdot (hlook _ _ _ _)

/-- Witness for C6 (amended): in the table holding `a.pcx` and `b.pcx`, slot 1 is
live and is zeroed by `IMG_FreeAll`. -/
theorem C6_free_all_witness : (IMG_FreeAll demo_three).r_images 1 = image_zero :=
  (C6_free_all demo_cfg demo_three).2.2.1 1 (by decide) (by decide) (by decide)

/-! ## C7: slot allocation -/

/-- C7: `alloc_image` is first-fit with a hard capacity.  With at least the
sentinel in the table: it returns the lowest index `i` with `1 ≤ i < count`
whose stamp is 0 and leaves the count alone; if there is none and the count
is below `MAX_RIMAGES` it returns index `count` and increments the count; if
there is none and the count equals `MAX_RIMAGES` it returns no slot.
Consequently the slot count never exceeds `MAX_RIMAGES` in a reachable
state. -/
theorem C7_alloc_image (c : Cfg) (s : State) (hM : 1 ≤ c.MAX_RIMAGES)
    (hpos : 1 ≤ s.r_numImages) :
    (∀ i, 1 ≤ i → i < s.r_numImages → (s.r_images i).registration_sequence = 0 →
      (∀ j, 1 ≤ j → j < i → (s.r_images j).registration_sequence ≠ 0) →
      alloc_image c s = some (i, s.r_numImages)) ∧
    ((∀ j, 1 ≤ j → j < s.r_numImages → (s.r_images j).registration_sequence ≠ 0) →
      s.r_numImages < c.MAX_RIMAGES →
      alloc_image c s = some (s.r_numImages, s.r_numImages + 1)) ∧
    ((∀ j, 1 ≤ j → j < s.r_numImages → (s.r_images j).registration_sequence ≠ 0) →
      s.r_numImages = c.MAX_RIMAGES →
      alloc_image c s = none) ∧
    (∀ t, Reachable c t → t.r_numImages ≤ c.MAX_RIMAGES) := by
  have hge := alloc_image_scan_ge s.r_images (s.r_numImages - 1) 1
  have hle := alloc_image_scan_le s.r_images (s.r_numImages - 1) 1
  have hfree := alloc_image_scan_free s.r_images (s.r_numImages - 1) 1
  have hlv := alloc_image_scan_live s.r_images (s.r_numImages - 1) 1
  have hfull : (∀ j, 1 ≤ j → j < s.r_numImages → (s.r_images j).registration_sequence ≠ 0) →
      alloc_image_scan s.r_images (s.r_numImages - 1) 1 = s.r_numImages := by
    intro hall
    by_contra hne
    have hlt : alloc_image_scan s.r_images (s.r_numImages - 1) 1 < 1 + (s.r_numImages - 1) := by
      omega
    exact hall _ hge (by omega) (hfree hlt)
  refine ⟨?_, ?_, ?_, fun t ht => Reachable_count_le c hM t ht⟩
  · intro i hi1 hin hz hmin
    have hscan : alloc_image_scan s.r_images (s.r_numImages - 1) 1 = i := by
      have h1 : alloc_image_scan s.r_images (s.r_numImages - 1) 1 ≤ i := by
        by_contra hgt
        exact hlv i hi1 (by omega) hz
      have h2 : i ≤ alloc_image_scan s.r_images (s.r_numImages - 1) 1 := by
        by_contra hlt
        exact hmin _ hge (by omega) (hfree (by omega))
      omega
    unfold alloc_image
    simp only [hscan]
    rw [if_neg (by omega)]
  · intro hall hlt
    unfold alloc_image
    simp only [hfull hall]
    rw [if_pos trivial, if_neg (by omega)]
  · intro hall heq
    unfold alloc_image
    simp only [hfull hall]
    rw [if_pos trivial, if_pos heq]

/-- Witness for C7: in the table holding `a.pcx` and `b.pcx` (capacity 3, count
3, both slots live) there is no slot left. -/
theorem C7_alloc_image_witness : alloc_image demo_cfg demo_three = none := by
  have h := (C7_alloc_image demo_cfg demo_three (by decide) (by decide)).2.2.1
  apply h
  · intro j h1 h2
    have h3 : j < 3 := h2
    interval_cases j <;> decide
  · decide

/-! ## C8: table exhaustion -/

/-- C8: when the table is full (the count equals `MAX_RIMAGES` and every slot
from 1 to `MAX_RIMAGES - 1` is live), a cache miss whose file is resolved and
decoded successfully returns `Q_ERR_OUT_OF_SLOTS` with no handle, and the
state (slot table, buckets, slot count, epoch) is exactly the state before
the call. -/
theorem C8_out_of_slots (c : Cfg) (w : World) (s : State) (name : List Char)
    (type flags : Nat) (ld : Loaded) (hM : 1 ≤ c.MAX_RIMAGES)
    (hcount : s.r_numImages = c.MAX_RIMAGES)
    (hlive : ∀ j, 1 ≤ j → j < c.MAX_RIMAGES → (s.r_images j).registration_sequence ≠ 0)
    (hlen : 4 < name.length) (hdot : name.getD (name.length - 4) ' ' = '.')
    (hmiss : lookup_image s name type
      (FS_HashPathLen c name (name.length - 4) RIMAGES_HASH) (name.length - 4) = none)
    (hdec : (load_pic c w name type).ret = .ok ld) :
    (find_or_load_image c w s name type flags).ret = .error .Q_ERR_OUT_OF_SLOTS ∧
      (find_or_load_image c w s name type flags).state = s := by
  have hscan : alloc_image_scan s.r_images (s.r_numImages - 1) 1 = s.r_numImages := by
    have hge := alloc_image_scan_ge s.r_images (s.r_numImages - 1) 1
    have hle := alloc_image_scan_le s.r_images (s.r_numImages - 1) 1
    by_contra hne
    have hlt : alloc_image_scan s.r_images (s.r_numImages - 1) 1 < 1 + (s.r_numImages - 1) := by
      omega
    exact hlive _ hge (by omega) (alloc_image_scan_free s.r_images _ 1 hlt)
  have halloc : alloc_image c s = none := by
    unfold alloc_image
    simp only [hscan]
    rw [if_pos trivial, if_pos hcount]
  rw [find_or_load_image_miss c w s name type flags hlen hdot hmiss]
  unfold load_image
  simp only [hdec, halloc, and_self]

/-- Witness for C8: with capacity 2 and `a.pcx` in slot 1, looking up `b.pcx`
decodes the file and then fails for lack of a slot. -/
theorem C8_out_of_slots_witness :
    (find_or_load_image demo_cfg_small demo_world demo_full name_b 0 0).ret
        = .error .Q_ERR_OUT_OF_SLOTS ∧
      (find_or_load_image demo_cfg_small demo_world demo_full name_b 0 0).state = demo_full :=
  C8_out_of_slots demo_cfg_small demo_world demo_full name_b 0 0
    { fmt := IM_PCX, pic := [0], width := 1, height := 1 }
    (by decide) (by decide)
    (by intro j h1 h2; have h3 : j < 2 := h2; interval_cases j; decide)
    (by decide) (by decide) (by decide) (by decide)

/-! ## C9: the sentinel slot -/

theorem find_or_load_image_handle (c : Cfg) (w : World) (s : State) (name : List Char)
    (type flags i : Nat) (hinv : Inv c s)
    (h : (find_or_load_image c w s name type flags).ret = .ok i) :
    1 ≤ i ∧ i < (find_or_load_image c w s name type flags).state.r_numImages := by
  obtain ⟨_, _, hcase⟩ := find_or_load_image_ok c w s name type flags i h
  rcases hcase with ⟨hl, _, hst⟩ | ⟨_, n, img, halloc, hst, _⟩
  · rw [hst]
    exact hinv.bucket_range _ i (lookup_image_some s name type _ _ i hl).1
  · rw [hst]
    obtain ⟨h1, h2, _⟩ := alloc_image_range c s i n hinv.count_pos halloc
    exact ⟨h1, h2⟩

theorem find_or_load_image_slot0 (c : Cfg) (w : World) (s : State) (name : List Char)
    (type flags : Nat) (hinv : Inv c s) :
    (find_or_load_image c w s name type flags).state.r_images 0 = s.r_images 0 := by
  cases hr : (find_or_load_image c w s name type flags).ret with
  | error e => rw [find_or_load_image_error c w s name type flags e hr]
  | ok i =>
    have hi := (find_or_load_image_handle c w s name type flags i hinv hr).1
    have h0 : (0 : Nat) ≠ i := by omega
    obtain ⟨_, _, hcase⟩ := find_or_load_image_ok c w s name type flags i hr
    rcases hcase with ⟨_, _, hst⟩ | ⟨_, n, img, _, hst, _⟩
    · rw [hst]; simp [set_image, Function.update_apply, h0]
    · rw [hst]; simp [set_image, List_Append, Function.update_apply, h0]

/-- C9: slot 0 is a permanent sentinel.  In every reachable state, no lookup
through `find_or_load_image`, `IMG_Find` or `R_RegisterImage` (hit or miss)
modifies slot 0, `alloc_image` never hands out slot 0, `IMG_FreeUnused` and
`IMG_FreeAll` leave slot 0 as it is, and every handle returned by a successful
`R_RegisterImage` is at least 1 and below the slot count. -/
theorem C9_sentinel (c : Cfg) (s : State) (hs : Reachable c s) :
    (∀ (w : World) (name : List Char) (type flags : Nat),
      (find_or_load_image c w s name type flags).state.r_images 0 = s.r_images 0) ∧
    (∀ (w : World) (name : List Char) (type : Nat) (r : Found),
      IMG_Find c w s name type = some r → r.state.r_images 0 = s.r_images 0) ∧
    (∀ (w : World) (name : List Char) (type flags : Nat),
      (R_RegisterImage c w s name type flags).state.r_images 0 = s.r_images 0) ∧
    (∀ i n, alloc_image c s = some (i, n) → 1 ≤ i) ∧
    (IMG_FreeUnused c s).r_images 0 = s.r_images 0 ∧
    (IMG_FreeAll s).r_images 0 = s.r_images 0 ∧
    (∀ (w : World) (name : List Char) (type flags : Nat),
      (R_RegisterImage c w s name type flags).err = none →
      1 ≤ (R_RegisterImage c w s name type flags).handle ∧
        (R_RegisterImage c w s name type flags).handle
          < (R_RegisterImage c w s name type flags).state.r_numImages) := by
  have hinv := Reachable_Inv c s hs
  refine ⟨?_, ?_, ?_, ?_, ?_, ?_, ?_⟩
  · intro w name type flags
    exact find_or_load_image_slot0 c w s name type flags hinv
  · intro w name type r hr
    rw [IMG_Find_state c w s name type r hr]
    exact find_or_load_image_slot0 c w s name type 0 hinv
  · intro w name type flags
    rcases R_RegisterImage_state c w s name type flags with h | ⟨fullname, h⟩
    · rw [h]
    · rw [h]; exact find_or_load_image_slot0 c w s fullname type flags hinv
  · intro i n h
    exact (alloc_image_range c s i n hinv.count_pos h).1
  · rw [(IMG_FreeUnused_spec c s).2.2.1 0]
    have : swept_in_range c s 0 = false := by simp [swept_in_range]
    rw [this]; simp
  · rw [(IMG_FreeAll_spec s).2.2.2 0, if_neg]
    intro h
    exact absurd h.1 (by omega)
  · intro w name type flags
    unfold R_RegisterImage
    split
    · intro h; simp at h
    · rename_i c0 rest
      split_ifs
      · intro h; simp at h
      · cases register_fullname c c0 rest type with
        | error e => intro h; simp at h
        | ok fullname =>
          simp only
          split_ifs
          · intro h; simp at h
          · cases hr : (find_or_load_image c w s fullname type flags).ret with
            | error e =>
              intro h
              unfold found_of at h
              rw [hr] at h
              simp at h
            | ok i =>
              intro _
              have := find_or_load_image_handle c w s fullname type flags i hinv hr
              unfold found_of
              rw [hr]
              exact this

/-- Witness for C9: registering `/a.pcx` in the initial table returns handle 1
and the slot count becomes 2. -/
theorem C9_sentinel_witness :
    1 ≤ (R_RegisterImage demo_cfg demo_world (demo_init 1) ('/' :: name_a) 0 0).handle ∧
      (R_RegisterImage demo_cfg demo_world (demo_init 1) ('/' :: name_a) 0 0).handle
        < (R_RegisterImage demo_cfg demo_world (demo_init 1)
            ('/' :: name_a) 0 0).state.r_numImages :=
  (C9_sentinel demo_cfg (demo_init 1) (Reachable_demo_init demo_cfg 1)).2.2.2.2.2.2
    demo_world ('/' :: name_a) 0 0 (by decide)

/-! ## C10: bad run-length packets in PCX -/

theorem pcx_store_ok (out : List Nat) (row : Int) (x v : Nat)
    (h : 0 ≤ row + x ∧ row + x < out.length) :
    ∃ out1, pcx_store out row x v = some out1 ∧ out1.length = out.length := by
  unfold pcx_store
  rw [if_pos h]
  exact ⟨_, rfl, by simp⟩

theorem pcx_run_ok (w row : Int) (v : Nat) (n x : Nat) (out : List Nat)
    (hw : ∀ x1 : Nat, (x1 : Int) < w → 0 ≤ row + x1 ∧ row + x1 < out.length) :
    ∃ out1, pcx_run w row v n x out = some (x + n, out1) ∧ out1.length = out.length := by
  induction n generalizing x out with
  | zero => exact ⟨out, rfl, rfl⟩
  | succ n ih =>
    simp only [pcx_run]
    split_ifs with hx
    · obtain ⟨out1, h1, hl1⟩ := pcx_store_ok out row x v (hw x hx)
      rw [h1]
      obtain ⟨out2, h2, hl2⟩ := ih (x + 1) out1 (by rw [hl1]; exact hw)
      refine ⟨out2, ?_, hl2.trans hl1⟩
      simp only [h2]
      congr 2
      omega
    · obtain ⟨out2, h2, hl2⟩ := ih (x + 1) out hw
      refine ⟨out2, ?_, hl2⟩
      rw [h2]
      congr 2
      omega

theorem pcx_bad_rle_no_rows (scan : Nat) (data : List Nat) (x : Nat) :
    pcx_bad_rle scan data 0 x = false := by
  rw [pcx_bad_rle.eq_def]
  cases data <;> simp

theorem pcx_bad_rle_no_scan (data : List Nat) (rows x : Nat) :
    pcx_bad_rle 0 data rows x = false := by
  rw [pcx_bad_rle.eq_def]
  cases data <;> simp

theorem pcx_bad_rle_nil (scan rows x : Nat) (hrows : rows ≠ 0) (hscan : scan ≠ 0) :
    pcx_bad_rle scan [] rows x = true := by
  rw [pcx_bad_rle.eq_def]
  simp [Nat.pos_of_ne_zero hrows, Nat.pos_of_ne_zero hscan]

theorem pcx_bad_rle_overflow (scan b : Nat) (rest : List Nat) (rows x : Nat)
    (hrows : rows ≠ 0) (hscan : scan ≠ 0) (hrun : b &&& 0xC0 = 0xC0)
    (hover : x + (b &&& 0x3F) > scan) :
    pcx_bad_rle scan (b :: rest) rows x = true := by
  rw [pcx_bad_rle.eq_def]
  simp [hrows, hscan, hrun, hover]

theorem pcx_bad_rle_no_value (scan b rows x : Nat)
    (hrows : rows ≠ 0) (hscan : scan ≠ 0) (hrun : b &&& 0xC0 = 0xC0) :
    pcx_bad_rle scan [b] rows x = true := by
  rw [pcx_bad_rle.eq_def]
  simp [hrows, hscan, hrun]

theorem pcx_bad_rle_run (scan b v : Nat) (rest : List Nat) (rows x : Nat)
    (hrows : rows ≠ 0) (hscan : scan ≠ 0) (hrun : b &&& 0xC0 = 0xC0)
    (hfit : ¬ x + (b &&& 0x3F) > scan) :
    pcx_bad_rle scan (b :: v :: rest) rows x
      = (if x + (b &&& 0x3F) = scan then pcx_bad_rle scan rest (rows - 1) 0
          else pcx_bad_rle scan rest rows (x + (b &&& 0x3F))) := by
  rw [pcx_bad_rle.eq_def]
  simp [hrows, hscan, hrun, hfit]

theorem pcx_bad_rle_literal (scan b : Nat) (rest : List Nat) (rows x : Nat)
    (hrows : rows ≠ 0) (hscan : scan ≠ 0) (hrun : ¬ b &&& 0xC0 = 0xC0) :
    pcx_bad_rle scan (b :: rest) rows x
      = (if x + 1 = scan then pcx_bad_rle scan rest (rows - 1) 0
          else pcx_bad_rle scan rest rows (x + 1)) := by
  rw [pcx_bad_rle.eq_def]
  simp [hrows, hscan, hrun]

theorem pcx_scanline_done (rawdata : List Nat) (w scan row : Int) (fuel raw x : Nat)
    (out : List Nat) (hx : ¬ (x : Int) < scan) :
    pcx_scanline rawdata w scan row (fuel + 1) raw x out = .next raw out := by
  simp only [pcx_scanline]
  rw [if_neg hx]

theorem pcx_scanline_ok (rawdata : List Nat) (w scan row : Int) (rows : Nat)
    (hrows : 0 < rows) (fuel raw x : Nat) (out : List Nat)
    (hfuel : rawdata.length - raw < fuel) (hx : x < scan.toNat)
    (hw : ∀ x1 : Nat, (x1 : Int) < w → 0 ≤ row + x1 ∧ row + x1 < out.length) :
    scanline_post rawdata scan.toNat rows raw x out
      (pcx_scanline rawdata w scan row fuel raw x out) := by
  induction fuel generalizing raw x out with
  | zero => omega
  | succ fuel ih =>
    have hxs : (x : Int) < scan := by omega
    have hscan0 : scan.toNat ≠ 0 := by omega
    have hrows0 : rows ≠ 0 := by omega
    simp only [pcx_scanline]
    rw [if_pos hxs]
    by_cases hend : raw ≥ rawdata.length
    · rw [if_pos hend]
      simp only [scanline_post]
      rw [List.drop_eq_nil_of_le hend]
      exact pcx_bad_rle_nil _ _ _ hrows0 hscan0
    · rw [if_neg hend]
      have hlt : raw < rawdata.length := by omega
      have hget : rawdata[raw]? = some rawdata[raw] := List.getElem?_eq_getElem hlt
      have hdrop : rawdata.drop raw = rawdata[raw] :: rawdata.drop (raw + 1) :=
        List.drop_eq_getElem_cons hlt
      rw [hget]
      simp only
      -- what happens after a packet that moves the column to `x1`
      have hnext : ∀ (x1 raw1 : Nat) (out1 : List Nat), x < x1 ∨ raw + 2 ≤ raw1 →
          raw < raw1 → raw1 ≤ rawdata.length → x1 ≤ scan.toNat →
          out1.length = out.length →
          (match pcx_scanline rawdata w scan row fuel raw1 x1 out1 with
            | .next raw2 out2 =>
              out2.length = out.length ∧
                (if x1 = scan.toNat then pcx_bad_rle scan.toNat (rawdata.drop raw1) (rows - 1) 0
                  else pcx_bad_rle scan.toNat (rawdata.drop raw1) rows x1)
                  = pcx_bad_rle scan.toNat (rawdata.drop raw2) (rows - 1) 0
            | .fail =>
              (if x1 = scan.toNat then pcx_bad_rle scan.toNat (rawdata.drop raw1) (rows - 1) 0
                else pcx_bad_rle scan.toNat (rawdata.drop raw1) rows x1) = true
            | _ => False) := by
        intro x1 raw1 out1 _ hr1 hr2 hx1 hl1
        by_cases he : x1 = scan.toNat
        · obtain ⟨f, hf⟩ : ∃ f, fuel = f + 1 := ⟨fuel - 1, by omega⟩
          rw [hf, pcx_scanline_done rawdata w scan row f raw1 x1 out1 (by omega)]
          simp only [he, if_true]
          exact ⟨hl1, trivial⟩
        · have := ih raw1 x1 out1 (by omega) (by omega) (by rw [hl1]; exact hw)
          simp only [he, if_false]
          revert this
          cases pcx_scanline rawdata w scan row fuel raw1 x1 out1 with
          | next raw2 out2 =>
            intro this
            simp only [scanline_post] at this
            exact ⟨this.1.trans hl1, this.2⟩
          | fail => intro this; simpa [scanline_post] using this
          | oob_read => intro this; exact this
          | oob_write => intro this; exact this
          | out_of_fuel => intro this; exact this
      by_cases hrun : rawdata[raw] &&& 0xC0 = 0xC0
      · rw [if_pos hrun]
        by_cases hover : (x : Int) + ((rawdata[raw] &&& 0x3F : Nat) : Int) > scan
        · rw [if_pos hover]
          simp only [scanline_post]
          rw [hdrop]
          have : x + (rawdata[raw] &&& 0x3F) > scan.toNat := by omega
          exact pcx_bad_rle_overflow _ _ _ _ _ hrows0 hscan0 hrun this
        · rw [if_neg hover]
          have hle : x + (rawdata[raw] &&& 0x3F) ≤ scan.toNat := by omega
          by_cases hend2 : raw + 1 ≥ rawdata.length
          · rw [if_pos hend2]
            simp only [scanline_post]
            rw [hdrop, List.drop_eq_nil_of_le hend2]
            exact pcx_bad_rle_no_value _ _ _ _ hrows0 hscan0 hrun
          · rw [if_neg hend2]
            have hlt2 : raw + 1 < rawdata.length := by omega
            have hget2 : rawdata[raw + 1]? = some rawdata[raw + 1] :=
              List.getElem?_eq_getElem hlt2
            have hdrop2 : rawdata.drop (raw + 1)
                = rawdata[raw + 1] :: rawdata.drop (raw + 2) :=
              List.drop_eq_getElem_cons hlt2
            rw [hget2]
            simp only
            obtain ⟨out1, hrun1, hl1⟩ :=
              pcx_run_ok w row rawdata[raw + 1] (rawdata[raw] &&& 0x3F) x out hw
            rw [hrun1]
            simp only
            have hn := hnext (x + (rawdata[raw] &&& 0x3F)) (raw + 2) out1 (Or.inr (le_refl _))
              (by omega) (by omega) hle hl1
            have href : pcx_bad_rle scan.toNat (rawdata.drop raw) rows x
                = (if x + (rawdata[raw] &&& 0x3F) = scan.toNat
                    then pcx_bad_rle scan.toNat (rawdata.drop (raw + 2)) (rows - 1) 0
                    else pcx_bad_rle scan.toNat (rawdata.drop (raw + 2)) rows
                      (x + (rawdata[raw] &&& 0x3F))) := by
              rw [hdrop, hdrop2]
              exact pcx_bad_rle_run _ _ _ _ _ _ hrows0 hscan0 hrun (Nat.not_lt.mpr hle)
            revert hn
            cases pcx_scanline rawdata w scan row fuel (raw + 2)
                (x + (rawdata[raw] &&& 0x3F)) out1 with
            | next raw2 out2 =>
              intro hn
              simp only [scanline_post]
              exact ⟨hn.1, href.trans hn.2⟩
            | fail =>
              intro hn
              simp only [scanline_post]
              exact href.trans hn
            | oob_read => intro hn; exact hn
            | oob_write => intro hn; exact hn
            | out_of_fuel => intro hn; exact hn
      · rw [if_neg hrun]
        obtain ⟨out1, hrun1, hl1⟩ := pcx_run_ok w row rawdata[raw] 1 x out hw
        rw [hrun1]
        simp only
        have hn := hnext (x + 1) (raw + 1) out1 (Or.inl (by omega))
          (by omega) (by omega) (by omega) hl1
        have href : pcx_bad_rle scan.toNat (rawdata.drop raw) rows x
            = (if x + 1 = scan.toNat
                then pcx_bad_rle scan.toNat (rawdata.drop (raw + 1)) (rows - 1) 0
                else pcx_bad_rle scan.toNat (rawdata.drop (raw + 1)) rows (x + 1)) := by
          rw [hdrop]
          exact pcx_bad_rle_literal _ _ _ _ _ hrows0 hscan0 hrun
        revert hn
        cases pcx_scanline rawdata w scan row fuel (raw + 1) (x + 1) out1 with
        | next raw2 out2 =>
          intro hn
          simp only [scanline_post]
          exact ⟨hn.1, href.trans hn.2⟩
        | fail =>
          intro hn
          simp only [scanline_post]
          exact href.trans hn
        | oob_read => intro hn; exact hn
        | oob_write => intro hn; exact hn
        | out_of_fuel => intro hn; exact hn

theorem pcx_rows_ok (rawdata : List Nat) (w scan : Int) (k y raw : Nat) (out : List Nat)
    (hw : ∀ y1 : Nat, y ≤ y1 → y1 < y + k → ∀ x1 : Nat, (x1 : Int) < w →
      0 ≤ (y1 : Int) * w + x1 ∧ (y1 : Int) * w + x1 < out.length) :
    rows_post rawdata scan.toNat k raw out (pcx_rows rawdata w scan k y raw out) := by
  induction k generalizing y raw out with
  | zero =>
    simp only [pcx_rows, rows_post]
    exact ⟨trivial, pcx_bad_rle_no_rows _ _ _⟩
  | succ k ih =>
    simp only [pcx_rows]
    by_cases hs : scan.toNat = 0
    · -- nothing to fill in a scanline of no bytes
      rw [pcx_scanline_done rawdata w scan _ _ raw 0 out (by omega)]
      simp only
      have := ih (y + 1) raw out (fun y1 h1 h2 => hw y1 (by omega) (by omega))
      rw [hs] at this ⊢
      revert this
      cases pcx_rows rawdata w scan k (y + 1) raw out with
      | next raw2 out2 =>
        intro this
        exact ⟨this.1, pcx_bad_rle_no_scan _ _ _⟩
      | fail =>
        intro this
        simp only [rows_post] at this
        rw [pcx_bad_rle_no_scan] at this
        exact absurd this (by simp)
      | oob_read => intro this; exact this
      | oob_write => intro this; exact this
      | out_of_fuel => intro this; exact this
    · have hline := pcx_scanline_ok rawdata w scan ((y : Int) * w) (k + 1) (by omega)
        (rawdata.length - raw + 1) raw 0 out (by omega) (by omega)
        (hw y (le_refl y) (by omega))
      revert hline
      cases pcx_scanline rawdata w scan ((y : Int) * w) (rawdata.length - raw + 1) raw 0 out with
      | next raw1 out1 =>
        intro hline
        simp only [scanline_post, Nat.add_sub_cancel] at hline
        simp only
        have := ih (y + 1) raw1 out1
          (fun y1 h1 h2 => by rw [hline.1]; exact hw y1 (by omega) (by omega))
        revert this
        cases pcx_rows rawdata w scan k (y + 1) raw1 out1 with
        | next raw2 out2 =>
          intro this
          exact ⟨this.1.trans hline.1, hline.2.trans this.2⟩
        | fail =>
          intro this
          exact hline.2.trans this
        | oob_read => intro this; exact this
        | oob_write => intro this; exact this
        | out_of_fuel => intro this; exact this
      | fail => intro hline; exact hline
      | oob_read => intro hline; exact hline
      | oob_write => intro hline; exact hline
      | out_of_fuel => intro hline; exact hline

theorem pcx_parse_ok (c : Cfg) (rawdata : List Nat) (d : pcx_dims)
    (h : pcx_parse c rawdata = .ok d) : d.w ≤ 640 ∧ d.h ≤ 480 ∧ d.w ≤ d.scan := by
  unfold pcx_parse at h
  simp only at h
  split_ifs at h with h1 h2 h3 h4 h5 h6
  simp only [Except.ok.injEq] at h
  subst h
  simp only
  omega

theorem int32_of_small (x : Int) (h0 : 0 ≤ x) (h1 : x ≤ 307200) : int32 x = x := by
  unfold int32
  omega

/-- C10: for every PCX input whose header passes validation (`pcx_parse` gives
the dimensions `d`) and for which pixels are requested, `_IMG_LoadPCX`
returns `Q_ERR_BAD_RLE_PACKET` exactly when the reference walk of the
run-length stream meets a bad packet before all scanlines are filled: a run
at column `x` with count `c` and `x + c > bytes_per_line`, or the source
exhausted where a packet byte or the value byte of a run is needed.
Otherwise it succeeds, with a raster of `w * h` bytes and the dimensions of
the header.  (A palette may be requested as well, provided the file holds the
768 bytes it is read from.) -/
theorem C10_pcx_bad_rle (c : Cfg) (rawdata : List Nat) (d : pcx_dims) (want_palette : Bool)
    (hhdr : pcx_parse c rawdata = .ok d)
    (hpal : want_palette = true → 768 ≤ rawdata.length) :
    (_IMG_LoadPCX c rawdata true want_palette = .error .Q_ERR_BAD_RLE_PACKET ↔
      pcx_bad_rle d.scan.toNat (rawdata.drop dpcx_data) d.h.toNat 0 = true) ∧
    (pcx_bad_rle d.scan.toNat (rawdata.drop dpcx_data) d.h.toNat 0 = false →
      ∃ out, out.length = (int32 (d.w * d.h)).toNat ∧
        _IMG_LoadPCX c rawdata true want_palette
          = .ok { pic := some out,
                  palette := if want_palette then some (rawdata.drop (rawdata.length - 768))
                    else none,
                  width := d.w, height := d.h }) := by
  obtain ⟨hw640, hh480, _⟩ := pcx_parse_ok c rawdata d hhdr
  have hbounds : ∀ y1 : Nat, 0 ≤ y1 → y1 < 0 + d.h.toNat → ∀ x1 : Nat, (x1 : Int) < d.w →
      0 ≤ (y1 : Int) * d.w + x1 ∧
        (y1 : Int) * d.w + x1
          < ((List.replicate (int32 (d.w * d.h)).toNat 0 : List Nat).length : Int) := by
    intro y1 _ hy x1 hx
    have hy1 : (y1 : Int) + 1 ≤ d.h := by omega
    have hx0 : (0 : Int) ≤ x1 := Int.ofNat_nonneg x1
    have hy0 : (0 : Int) ≤ y1 := Int.ofNat_nonneg y1
    have hwpos : 0 < d.w := by omega
    have hmul : ((y1 : Int) + 1) * d.w ≤ d.h * d.w :=
      Int.mul_le_mul_of_nonneg_right hy1 (le_of_lt hwpos)
    have hprod : d.h * d.w ≤ 480 * 640 := by
      calc d.h * d.w ≤ 480 * d.w := Int.mul_le_mul_of_nonneg_right hh480 (le_of_lt hwpos)
        _ ≤ 480 * 640 := Int.mul_le_mul_of_nonneg_left hw640 (by norm_num)
    have hpos : 0 ≤ (y1 : Int) * d.w := Int.mul_nonneg hy0 (le_of_lt hwpos)
    have hwh : d.w * d.h = d.h * d.w := Int.mul_comm _ _
    have h32 : int32 (d.w * d.h) = d.w * d.h := by
      apply int32_of_small
      · rw [hwh]; nlinarith
      · rw [hwh]; omega
    rw [List.length_replicate, h32, hwh]
    have hexp : ((y1 : Int) + 1) * d.w = (y1 : Int) * d.w + d.w := by ring
    constructor
    · omega
    · have : (0 : Int) ≤ d.h * d.w := by nlinarith
      rw [Int.toNat_of_nonneg this]
      omega
  have hrows := pcx_rows_ok rawdata d.w d.scan d.h.toNat 0 dpcx_data
    (List.replicate (int32 (d.w * d.h)).toNat 0)
    (fun y1 h1 h2 x1 hx => hbounds y1 h1 h2 x1 hx)
  have hp : ¬ (want_palette = true ∧ rawdata.length < 768) := by
    rintro ⟨a, b⟩
    have := hpal a
    omega
  unfold _IMG_LoadPCX
  simp only [hhdr, hp, if_false, if_true]
  revert hrows
  cases pcx_rows rawdata d.w d.scan d.h.toNat 0 dpcx_data
      (List.replicate (int32 (d.w * d.h)).toNat 0) with
  | next raw1 out1 =>
    intro hrows
    simp only [rows_post] at hrows
    refine ⟨?_, fun _ => ⟨out1, by rw [hrows.1, List.length_replicate], rfl⟩⟩
    rw [hrows.2]
    simp
  | fail =>
    intro hrows
    simp only [rows_post] at hrows
    refine ⟨by simp [hrows], fun hf => ?_⟩
    rw [hrows] at hf
    exact absurd hf (by simp)
  | oob_read => intro hrows; exact absurd hrows (by simp [rows_post])
  | oob_write => intro hrows; exact absurd hrows (by simp [rows_post])
  | out_of_fuel => intro hrows; exact absurd hrows (by simp [rows_post])

set_option maxRecDepth 100000 in
/-- Witness for C10: the truncated picture has a valid header and is rejected
with `Q_ERR_BAD_RLE_PACKET`. -/
theorem C10_pcx_bad_rle_witness :
    _IMG_LoadPCX demo_cfg demo_pcx_truncated true false = .error .Q_ERR_BAD_RLE_PACKET :=
  (C10_pcx_bad_rle demo_cfg demo_pcx_truncated { w := 3, h := 2, scan := 4 } false
    (by decide) (by decide)).1.mpr (by decide)

/-! ## C13: PCX header validation -/

theorem pcx_header_checks (c : Cfg) (rawdata : List Nat) (want_pic want_palette : Bool) :
    (rawdata.length < c.sizeof_dpcx_t →
      _IMG_LoadPCX c rawdata want_pic want_palette = .error .Q_ERR_FILE_TOO_SMALL) ∧
    (c.sizeof_dpcx_t ≤ rawdata.length →
      (dpcx_of rawdata).manufacturer ≠ 10 ∨ (dpcx_of rawdata).version ≠ 5 →
      _IMG_LoadPCX c rawdata want_pic want_palette = .error .Q_ERR_UNKNOWN_FORMAT) ∧
    (c.sizeof_dpcx_t ≤ rawdata.length →
      (dpcx_of rawdata).manufacturer = 10 → (dpcx_of rawdata).version = 5 →
      ((dpcx_of rawdata).encoding ≠ 1 ∨ (dpcx_of rawdata).bits_per_pixel ≠ 8 ∨
        (dpcx_of rawdata).color_planes ≠ 1 ∨
        c.LittleShort (dpcx_of rawdata).bytes_per_line
          < c.LittleShort (dpcx_of rawdata).xmax - c.LittleShort (dpcx_of rawdata).xmin + 1 ∨
        c.LittleShort (dpcx_of rawdata).xmax - c.LittleShort (dpcx_of rawdata).xmin + 1 > 640 ∨
        c.LittleShort (dpcx_of rawdata).ymax - c.LittleShort (dpcx_of rawdata).ymin + 1 > 480 ∨
        int32 ((c.LittleShort (dpcx_of rawdata).xmax - c.LittleShort (dpcx_of rawdata).xmin + 1)
          * (c.LittleShort (dpcx_of rawdata).ymax - c.LittleShort (dpcx_of rawdata).ymin + 1))
          > c.MAX_PALETTED_PIXELS ∨
        ((c.LittleShort (dpcx_of rawdata).xmax - c.LittleShort (dpcx_of rawdata).xmin + 1)
            * (c.LittleShort (dpcx_of rawdata).ymax - c.LittleShort (dpcx_of rawdata).ymin + 1)
            > c.MAX_PALETTED_PIXELS ∧
          (c.LittleShort (dpcx_of rawdata).xmax - c.LittleShort (dpcx_of rawdata).xmin + 1)
            * (c.LittleShort (dpcx_of rawdata).ymax - c.LittleShort (dpcx_of rawdata).ymin + 1)
            < 2147483648)) →
      _IMG_LoadPCX c rawdata want_pic want_palette = .error .Q_ERR_INVALID_FORMAT) ∧
    (∀ d, pcx_parse c rawdata = .ok d → want_palette = true → rawdata.length < 768 →
      _IMG_LoadPCX c rawdata want_pic want_palette = .error .Q_ERR_FILE_TOO_SMALL) ∧
    (∀ d, pcx_parse c rawdata = .ok d → want_palette = true → 768 ≤ rawdata.length →
      (∀ o, _IMG_LoadPCX c rawdata want_pic want_palette = .ok o →
        o.palette = some (rawdata.drop (rawdata.length - 768)) ∧
        (rawdata.drop (rawdata.length - 768)).length = 768) ∧
      _IMG_LoadPCX c rawdata false want_palette
        = .ok { pic := none, palette := some (rawdata.drop (rawdata.length - 768)),
                width := d.w, height := d.h }) ∧
    (∀ o, _IMG_LoadPCX c rawdata want_pic want_palette = .ok o →
      (o.pic.isSome = want_pic)) := by
  refine ⟨?_, ?_, ?_, ?_, ?_, ?_⟩
  · intro h
    simp [_IMG_LoadPCX, pcx_parse, h]
  · intro h hm
    have h1 : ¬ rawdata.length < c.sizeof_dpcx_t := by omega
    simp only [_IMG_LoadPCX, pcx_parse, h1, if_false, hm, if_true]
  · intro h hm hv hbad
    have h1 : ¬ rawdata.length < c.sizeof_dpcx_t := by omega
    have h2 : ¬ ((dpcx_of rawdata).manufacturer ≠ 10 ∨ (dpcx_of rawdata).version ≠ 5) := by
      simp [hm, hv]
    simp only [_IMG_LoadPCX, pcx_parse, h1, if_false, h2]
    by_cases he : (dpcx_of rawdata).encoding ≠ 1 ∨ (dpcx_of rawdata).bits_per_pixel ≠ 8
    · rw [if_pos he]
    · rw [if_neg he]
      by_cases hd : c.LittleShort (dpcx_of rawdata).xmax - c.LittleShort (dpcx_of rawdata).xmin
            + 1 > 640 ∨
          c.LittleShort (dpcx_of rawdata).ymax - c.LittleShort (dpcx_of rawdata).ymin + 1 > 480 ∨
          int32 ((c.LittleShort (dpcx_of rawdata).xmax - c.LittleShort (dpcx_of rawdata).xmin + 1)
            * (c.LittleShort (dpcx_of rawdata).ymax - c.LittleShort (dpcx_of rawdata).ymin + 1))
            > c.MAX_PALETTED_PIXELS
      · rw [if_pos hd]
      · rw [if_neg hd]
        by_cases hp : (dpcx_of rawdata).color_planes ≠ 1
        · rw [if_pos hp]
        · rw [if_neg hp]
          by_cases hs : c.LittleShort (dpcx_of rawdata).bytes_per_line
              < c.LittleShort (dpcx_of rawdata).xmax - c.LittleShort (dpcx_of rawdata).xmin + 1
          · rw [if_pos hs]
          · exfalso
            rcases hbad with hb | hb | hb | hb | hb | hb | hb | ⟨hb1, hb2⟩
            · exact he (Or.inl hb)
            · exact he (Or.inr hb)
            · exact hp hb
            · exact hs hb
            · exact hd (Or.inl hb)
            · exact hd (Or.inr (Or.inl hb))
            · exact hd (Or.inr (Or.inr hb))
            · apply hd
              right; right
              have hnn : (0 : Int) ≤ (c.MAX_PALETTED_PIXELS : Int) := Int.ofNat_nonneg _
              have : int32 ((c.LittleShort (dpcx_of rawdata).xmax
                  - c.LittleShort (dpcx_of rawdata).xmin + 1)
                  * (c.LittleShort (dpcx_of rawdata).ymax
                  - c.LittleShort (dpcx_of rawdata).ymin + 1))
                  = (c.LittleShort (dpcx_of rawdata).xmax
                  - c.LittleShort (dpcx_of rawdata).xmin + 1)
                  * (c.LittleShort (dpcx_of rawdata).ymax
                  - c.LittleShort (dpcx_of rawdata).ymin + 1) := by
                unfold int32
                omega
              rw [this]
              exact hb1
  · intro d hd hp hl
    simp [_IMG_LoadPCX, hd, hp, hl]
  · intro d hd hp hl
    have hnl : ¬ rawdata.length < 768 := by omega
    refine ⟨?_, ?_⟩
    · intro o ho
      refine ⟨?_, by simp; omega⟩
      simp only [_IMG_LoadPCX, hd, hp, hnl, and_false, if_false, if_true] at ho
      split at ho
      · split at ho <;> first
          | (simp only [pcx_result.ok.injEq] at ho; rw [← ho])
          | exact absurd ho (by simp)
      · simp only [pcx_result.ok.injEq] at ho; rw [← ho]
    · simp [_IMG_LoadPCX, hd, hp, hnl]
  · intro o ho
    unfold _IMG_LoadPCX at ho
    split at ho
    · exact absurd ho (by simp)
    · split at ho
      · exact absurd ho (by simp)
      · simp only at ho
        split at ho
        · rename_i hw
          split at ho <;> first
            | (simp only [pcx_result.ok.injEq] at ho; rw [← ho]; simp [hw])
            | exact absurd ho (by simp)
        · rename_i hw
          simp only [pcx_result.ok.injEq] at ho; rw [← ho]; simp [hw]

set_option maxRecDepth 100000 in
/-- C13 fails on the code in its clause on width times height.  The header
`demo_pcx_negative` has `xmin = ymin = 65535` and `xmax = ymax = 0`: width and
height are both -65534, their product 4294705156 is above
`MAX_PALETTED_PIXELS`, and the header is accepted, because the test
`w * h > MAX_PALETTED_PIXELS` is made on the `int` product, which wraps to
-262140, and no test rejects a negative extent; the palette-only call, as
made by `IMG_GetPalette`, succeeds.  With a `LittleShort` that sign-extends,
the raw values 32767 and 32768 (`demo_pcx_negative_signed`) give the same
extents and the same result.  What holds, for every configuration and input,
whatever is requested: an input shorter than `dpcx_t` gives
`Q_ERR_FILE_TOO_SMALL`;
otherwise a manufacturer other than 10 or a version other than 5 gives
`Q_ERR_UNKNOWN_FORMAT`; otherwise each of encoding other than 1, bits per
pixel other than 8, colour planes other than 1, bytes per line below the
width, width above 640, height above 480 and width times height above
`MAX_PALETTED_PIXELS` gives `Q_ERR_INVALID_FORMAT`, the last for the `int`
product of the source and for the exact product whenever that fits in an
`int`.  With a valid header and a palette requested, fewer than 768 bytes
give `Q_ERR_FILE_TOO_SMALL`, and otherwise every success returns as palette
exactly the last 768 bytes of the input; the palette-only call then
succeeds.  A failure is the outcome `error`, which carries no pixel buffer,
and a success carries one exactly when it was requested. -/
theorem C13_pcx_header :
    (pcx_parse demo_cfg demo_pcx_negative = .ok { w := -65534, h := -65534, scan := 0 } ∧
      ((-65534 : Int) * (-65534 : Int) = 4294705156 ∧
        (4294705156 : Int) > demo_cfg.MAX_PALETTED_PIXELS) ∧
      _IMG_LoadPCX demo_cfg demo_pcx_negative false true
        = .ok { pic := none, palette := some ([5, 0] ++ List.replicate 766 9),
                width := -65534, height := -65534 } ∧
      pcx_parse demo_cfg_signed demo_pcx_negative_signed
        = .ok { w := -65534, h := -65534, scan := 0 } ∧
      _IMG_LoadPCX demo_cfg_signed demo_pcx_negative_signed false true
        = .ok { pic := none, palette := some ([5, 0] ++ List.replicate 766 9),
                width := -65534, height := -65534 }) ∧
    (∀ (c : Cfg) (rawdata : List Nat) (want_pic want_palette : Bool),
      (rawdata.length < c.sizeof_dpcx_t →
        _IMG_LoadPCX c rawdata want_pic want_palette = .error .Q_ERR_FILE_TOO_SMALL) ∧
      (c.sizeof_dpcx_t ≤ rawdata.length →
        (dpcx_of rawdata).manufacturer ≠ 10 ∨ (dpcx_of rawdata).version ≠ 5 →
        _IMG_LoadPCX c rawdata want_pic want_palette = .error .Q_ERR_UNKNOWN_FORMAT) ∧
      (c.sizeof_dpcx_t ≤ rawdata.length →
        (dpcx_of rawdata).manufacturer = 10 → (dpcx_of rawdata).version = 5 →
        ((dpcx_of rawdata).encoding ≠ 1 ∨ (dpcx_of rawdata).bits_per_pixel ≠ 8 ∨
          (dpcx_of rawdata).color_planes ≠ 1 ∨
          c.LittleShort (dpcx_of rawdata).bytes_per_line
            < c.LittleShort (dpcx_of rawdata).xmax - c.LittleShort (dpcx_of rawdata).xmin + 1 ∨
          c.LittleShort (dpcx_of rawdata).xmax - c.LittleShort (dpcx_of rawdata).xmin + 1 > 640 ∨
          c.LittleShort (dpcx_of rawdata).ymax - c.LittleShort (dpcx_of rawdata).ymin + 1 > 480 ∨
          int32 ((c.LittleShort (dpcx_of rawdata).xmax - c.LittleShort (dpcx_of rawdata).xmin + 1)
            * (c.LittleShort (dpcx_of rawdata).ymax - c.LittleShort (dpcx_of rawdata).ymin + 1))
            > c.MAX_PALETTED_PIXELS ∨
          ((c.LittleShort (dpcx_of rawdata).xmax - c.LittleShort (dpcx_of rawdata).xmin + 1)
              * (c.LittleShort (dpcx_of rawdata).ymax - c.LittleShort (dpcx_of rawdata).ymin + 1)
              > c.MAX_PALETTED_PIXELS ∧
            (c.LittleShort (dpcx_of rawdata).xmax - c.LittleShort (dpcx_of rawdata).xmin + 1)
              * (c.LittleShort (dpcx_of rawdata).ymax - c.LittleShort (dpcx_of rawdata).ymin + 1)
              < 2147483648)) →
        _IMG_LoadPCX c rawdata want_pic want_palette = .error .Q_ERR_INVALID_FORMAT) ∧
      (∀ d, pcx_parse c rawdata = .ok d → want_palette = true → rawdata.length < 768 →
        _IMG_LoadPCX c rawdata want_pic want_palette = .error .Q_ERR_FILE_TOO_SMALL) ∧
      (∀ d, pcx_parse c rawdata = .ok d → want_palette = true → 768 ≤ rawdata.length →
        (∀ o, _IMG_LoadPCX c rawdata want_pic want_palette = .ok o →
          o.palette = some (rawdata.drop (rawdata.length - 768)) ∧
          (rawdata.drop (rawdata.length - 768)).length = 768) ∧
        _IMG_LoadPCX c rawdata false want_palette
          = .ok { pic := none, palette := some (rawdata.drop (rawdata.length - 768)),
                  width := d.w, height := d.h }) ∧
      (∀ o, _IMG_LoadPCX c rawdata want_pic want_palette = .ok o →
        (o.pic.isSome = want_pic))) :=
  ⟨by decide,
    fun c rawdata want_pic want_palette => pcx_header_checks c rawdata want_pic want_palette⟩

set_option maxRecDepth 100000 in
/-- Witness for C13: the header of a 640 x 480 picture is rejected by the
clause on width times height. -/
theorem C13_pcx_header_witness :
    _IMG_LoadPCX demo_cfg demo_pcx_640 true false = .error .Q_ERR_INVALID_FORMAT :=
  (C13_pcx_header.2 demo_cfg demo_pcx_640 true false).2.2.1 (by decide) (by decide) (by decide)
    (by decide)

/-! ## C14: PCX dimensions -/

set_option maxRecDepth 100000 in
/-- C14 fails on the code: `_IMG_LoadPCX` has no lower bound on the extent.  The
file `demo_pcx_zero_width` has `xmax = 0` below `xmin = 1`, so its width is 0;
every header check passes and the decoder returns success with width 0 and
height 1. -/
theorem C14_pcx_zero_width_accepted :
    pcx_parse demo_cfg demo_pcx_zero_width = .ok { w := 0, h := 1, scan := 1 } ∧
    _IMG_LoadPCX demo_cfg demo_pcx_zero_width true false
      = .ok { pic := some [], palette := none, width := 0, height := 1 } := by
  constructor <;> decide

/-! ## C15 and C16: WAL -/

theorem to_size_t_lt (c : Cfg) (x : Int) : to_size_t c x < 2 ^ c.size_t_bits := by
  unfold to_size_t
  have hpos : (0 : Int) < ((2 ^ c.size_t_bits : Nat) : Int) := by
    have : 0 < 2 ^ c.size_t_bits := Nat.two_pow_pos _
    exact_mod_cast this
  have h1 := Int.emod_lt_of_pos x hpos
  have h2 := Int.emod_nonneg x (ne_of_gt hpos)
  omega

theorem pow_size_t_bits_ge (c : Cfg) (hbits : 32 ≤ c.size_t_bits) :
    4294967296 ≤ 2 ^ c.size_t_bits := by
  have : (2 : Nat) ^ 32 ≤ 2 ^ c.size_t_bits := Nat.pow_le_pow_right (by norm_num) hbits
  simpa using this

theorem wal_area_mod (c : Cfg) (w h : Nat) (hbits : 32 ≤ c.size_t_bits)
    (hw : w ≤ 512) (hh : h ≤ 512) : (w * h) % 2 ^ c.size_t_bits = w * h := by
  apply Nat.mod_eq_of_lt
  have hp := pow_size_t_bits_ge c hbits
  have : w * h ≤ 512 * 512 := Nat.mul_le_mul hw hh
  omega

/-- C16: header validation of `IMG_LoadWAL` (for a `size_t` of at least 32
bits).  An input shorter than `miptex_t` gives `Q_ERR_FILE_TOO_SMALL`;
otherwise width below 1, height below 1, width above 512, height above 512 or
width times height above `MAX_PALETTED_PIXELS` gives `Q_ERR_INVALID_FORMAT`,
whatever the offset: the dimension check is decided before the extent
check. -/
theorem C16_wal_header (c : Cfg) (rawdata : List Nat) (hbits : 32 ≤ c.size_t_bits) :
    (rawdata.length < c.sizeof_miptex_t →
      IMG_LoadWAL c rawdata = .error .Q_ERR_FILE_TOO_SMALL) ∧
    (c.sizeof_miptex_t ≤ rawdata.length →
      (to_size_t c (c.LittleLong (le_field rawdata 32 4)) < 1 ∨
        to_size_t c (c.LittleLong (le_field rawdata 36 4)) < 1 ∨
        to_size_t c (c.LittleLong (le_field rawdata 32 4)) > 512 ∨
        to_size_t c (c.LittleLong (le_field rawdata 36 4)) > 512 ∨
        to_size_t c (c.LittleLong (le_field rawdata 32 4))
          * to_size_t c (c.LittleLong (le_field rawdata 36 4)) > c.MAX_PALETTED_PIXELS) →
      IMG_LoadWAL c rawdata = .error .Q_ERR_INVALID_FORMAT) := by
  constructor
  · intro h
    simp [IMG_LoadWAL, h]
  · intro h hbad
    have h1 : ¬ rawdata.length < c.sizeof_miptex_t := by omega
    simp only [IMG_LoadWAL, h1, if_false]
    rw [if_pos]
    rcases hbad with hb | hb | hb | hb | hb
    · exact Or.inl hb
    · exact Or.inr (Or.inl hb)
    · exact Or.inr (Or.inr (Or.inl hb))
    · exact Or.inr (Or.inr (Or.inr (Or.inl hb)))
    · by_cases hw : to_size_t c (c.LittleLong (le_field rawdata 32 4)) > 512
      · exact Or.inr (Or.inr (Or.inl hw))
      · by_cases hh : to_size_t c (c.LittleLong (le_field rawdata 36 4)) > 512
        · exact Or.inr (Or.inr (Or.inr (Or.inl hh)))
        · right; right; right; right
          rw [wal_area_mod c _ _ hbits (by omega) (by omega)]
          exact hb

/-- Witness for C16: a WAL header of width 0 whose offset also points far
beyond the file is rejected for its dimensions. -/
theorem C16_wal_header_witness :
    IMG_LoadWAL demo_cfg (demo_wal_header 0 2 250) = .error .Q_ERR_INVALID_FORMAT :=
  (C16_wal_header demo_cfg (demo_wal_header 0 2 250) (by decide)).2 (by decide)
    (Or.inl (by decide))

/-- C15: the extent check of `IMG_LoadWAL` (for a `size_t` of at least 32 bits
and a `MIPSIZE` that fits in it).  For an input at least as long as the
header and with valid dimensions `w` and `h`, the result is `Q_ERR_BAD_EXTENT`
exactly when `offset + MIPSIZE(w * h)` overflows `size_t` or exceeds the input
length.  Otherwise the call succeeds with the width and height of the header
and with a pixel pointer that is the input itself at byte `offset` (no copy):
byte `i` of the pixels is byte `offset + i` of the input, and the whole region
of `MIPSIZE(w * h)` bytes lies inside the input. -/
theorem C15_wal_extent (c : Cfg) (rawdata : List Nat) (hbits : 32 ≤ c.size_t_bits)
    (hlen : c.sizeof_miptex_t ≤ rawdata.length)
    (hw : 1 ≤ to_size_t c (c.LittleLong (le_field rawdata 32 4)) ∧
      to_size_t c (c.LittleLong (le_field rawdata 32 4)) ≤ 512)
    (hh : 1 ≤ to_size_t c (c.LittleLong (le_field rawdata 36 4)) ∧
      to_size_t c (c.LittleLong (le_field rawdata 36 4)) ≤ 512)
    (harea : to_size_t c (c.LittleLong (le_field rawdata 32 4))
      * to_size_t c (c.LittleLong (le_field rawdata 36 4)) ≤ c.MAX_PALETTED_PIXELS)
    (hmip : c.MIPSIZE (to_size_t c (c.LittleLong (le_field rawdata 32 4))
      * to_size_t c (c.LittleLong (le_field rawdata 36 4))) < 2 ^ c.size_t_bits) :
    (IMG_LoadWAL c rawdata = .error .Q_ERR_BAD_EXTENT ↔
      (to_size_t c (c.LittleLong (le_field rawdata 40 4))
          + c.MIPSIZE (to_size_t c (c.LittleLong (le_field rawdata 32 4))
            * to_size_t c (c.LittleLong (le_field rawdata 36 4))) ≥ 2 ^ c.size_t_bits ∨
        to_size_t c (c.LittleLong (le_field rawdata 40 4))
          + c.MIPSIZE (to_size_t c (c.LittleLong (le_field rawdata 32 4))
            * to_size_t c (c.LittleLong (le_field rawdata 36 4))) > rawdata.length)) ∧
    (to_size_t c (c.LittleLong (le_field rawdata 40 4))
        + c.MIPSIZE (to_size_t c (c.LittleLong (le_field rawdata 32 4))
          * to_size_t c (c.LittleLong (le_field rawdata 36 4))) < 2 ^ c.size_t_bits →
      to_size_t c (c.LittleLong (le_field rawdata 40 4))
        + c.MIPSIZE (to_size_t c (c.LittleLong (le_field rawdata 32 4))
          * to_size_t c (c.LittleLong (le_field rawdata 36 4))) ≤ rawdata.length →
      ∃ o, IMG_LoadWAL c rawdata = .ok o ∧
        o.offset = to_size_t c (c.LittleLong (le_field rawdata 40 4)) ∧
        o.width = to_size_t c (c.LittleLong (le_field rawdata 32 4)) ∧
        o.height = to_size_t c (c.LittleLong (le_field rawdata 36 4)) ∧
        (∀ i, (wal_pixels rawdata o)[i]? = rawdata[o.offset + i]?) ∧
        (∀ i, i < c.MIPSIZE (o.width * o.height) → o.offset + i < rawdata.length)) := by
  have h1 : ¬ rawdata.length < c.sizeof_miptex_t := by omega
  have harea_mod := wal_area_mod c _ _ hbits hw.2 hh.2
  have hdims : ¬ (to_size_t c (c.LittleLong (le_field rawdata 32 4)) < 1 ∨
      to_size_t c (c.LittleLong (le_field rawdata 36 4)) < 1 ∨
      to_size_t c (c.LittleLong (le_field rawdata 32 4)) > 512 ∨
      to_size_t c (c.LittleLong (le_field rawdata 36 4)) > 512 ∨
      (to_size_t c (c.LittleLong (le_field rawdata 32 4))
        * to_size_t c (c.LittleLong (le_field rawdata 36 4))) % 2 ^ c.size_t_bits
        > c.MAX_PALETTED_PIXELS) := by
    rw [harea_mod]
    omega
  have hoff := to_size_t_lt c (c.LittleLong (le_field rawdata 40 4))
  have hsize : c.MIPSIZE (to_size_t c (c.LittleLong (le_field rawdata 32 4))
      * to_size_t c (c.LittleLong (le_field rawdata 36 4))) % 2 ^ c.size_t_bits
      = c.MIPSIZE (to_size_t c (c.LittleLong (le_field rawdata 32 4))
      * to_size_t c (c.LittleLong (le_field rawdata 36 4))) := Nat.mod_eq_of_lt hmip
  have heval : IMG_LoadWAL c rawdata
      = (if (to_size_t c (c.LittleLong (le_field rawdata 40 4))
              + c.MIPSIZE (to_size_t c (c.LittleLong (le_field rawdata 32 4))
                * to_size_t c (c.LittleLong (le_field rawdata 36 4)))) % 2 ^ c.size_t_bits
            < to_size_t c (c.LittleLong (le_field rawdata 40 4)) ∨
          (to_size_t c (c.LittleLong (le_field rawdata 40 4))
              + c.MIPSIZE (to_size_t c (c.LittleLong (le_field rawdata 32 4))
                * to_size_t c (c.LittleLong (le_field rawdata 36 4)))) % 2 ^ c.size_t_bits
            > rawdata.length
        then .error .Q_ERR_BAD_EXTENT
        else .ok { offset := to_size_t c (c.LittleLong (le_field rawdata 40 4)),
                   width := to_size_t c (c.LittleLong (le_field rawdata 32 4)),
                   height := to_size_t c (c.LittleLong (le_field rawdata 36 4)) }) := by
    unfold IMG_LoadWAL
    rw [if_neg h1]
    simp only
    rw [if_neg hdims, harea_mod, hsize]
  rw [heval]
  clear heval hdims harea_mod hw hh harea
  generalize to_size_t c (c.LittleLong (le_field rawdata 32 4)) = W at *
  generalize to_size_t c (c.LittleLong (le_field rawdata 36 4)) = H at *
  generalize to_size_t c (c.LittleLong (le_field rawdata 40 4)) = off at *
  generalize hsz : c.MIPSIZE (W * H) = size at *
  generalize 2 ^ c.size_t_bits = P at *
  have hend : (off + size < P → (off + size) % P = off + size) ∧
      (P ≤ off + size → (off + size) % P = off + size - P) := by
    constructor
    · intro h; exact Nat.mod_eq_of_lt h
    · intro h
      rw [Nat.mod_eq_sub_mod h]
      exact Nat.mod_eq_of_lt (by omega)
  constructor
  · by_cases hov : P ≤ off + size
    · have := hend.2 hov
      have hlt : (off + size) % P < off := by omega
      rw [if_pos (Or.inl hlt)]
      simp [hov]
    · have := hend.1 (by omega)
      rw [this]
      by_cases hex : off + size > rawdata.length
      · rw [if_pos (Or.inr hex)]
        simp [hex]
      · have hnl : ¬ (off + size < off ∨ off + size > rawdata.length) := by omega
        rw [if_neg hnl]
        simp only [false_iff, reduceCtorEq]
        omega
  · intro hfit hin
    have := hend.1 hfit
    have hok : ¬ ((off + size) % P < off ∨ (off + size) % P > rawdata.length) := by
      rw [this]; omega
    rw [if_neg hok]
    refine ⟨{ offset := off, width := W, height := H }, rfl, rfl, rfl, rfl, ?_, ?_⟩
    · intro i
      simp [wal_pixels]
    · intro i hi
      simp only at hi ⊢
      rw [hsz] at hi
      omega

/-- Witness for C15: a 2 x 2 texture whose five bytes of mip data end exactly at
the end of the file is accepted, with its pixels at offset 100 of the input. -/
theorem C15_wal_extent_witness :
    ∃ o, IMG_LoadWAL demo_cfg demo_wal_good = .ok o ∧ o.offset = 100 := by
  obtain ⟨o, h1, h2, _⟩ := (C15_wal_extent demo_cfg demo_wal_good (by decide) (by decide)
    (by decide) (by decide) (by decide) (by decide)).2 (by decide) (by decide)
  exact ⟨o, h1, h2.trans (by decide)⟩

/-! ## C11: the PCX decoder stays inside its buffers -/

theorem pcx_rows_of_parse (c : Cfg) (rawdata : List Nat) (d : pcx_dims)
    (hhdr : pcx_parse c rawdata = .ok d) :
    rows_post rawdata d.scan.toNat d.h.toNat dpcx_data
      (List.replicate (int32 (d.w * d.h)).toNat 0)
      (pcx_rows rawdata d.w d.scan d.h.toNat 0 dpcx_data
        (List.replicate (int32 (d.w * d.h)).toNat 0)) := by
  obtain ⟨hw640, hh480, _⟩ := pcx_parse_ok c rawdata d hhdr
  apply pcx_rows_ok
  intro y1 _ hy x1 hx
  have hy1 : (y1 : Int) + 1 ≤ d.h := by omega
  have hx0 : (0 : Int) ≤ x1 := Int.ofNat_nonneg x1
  have hy0 : (0 : Int) ≤ y1 := Int.ofNat_nonneg y1
  have hwpos : 0 < d.w := by omega
  have hmul : ((y1 : Int) + 1) * d.w ≤ d.h * d.w :=
    Int.mul_le_mul_of_nonneg_right hy1 (le_of_lt hwpos)
  have hprod : d.h * d.w ≤ 480 * 640 := by
    calc d.h * d.w ≤ 480 * d.w := Int.mul_le_mul_of_nonneg_right hh480 (le_of_lt hwpos)
      _ ≤ 480 * 640 := Int.mul_le_mul_of_nonneg_left hw640 (by norm_num)
  have hpos : 0 ≤ (y1 : Int) * d.w := Int.mul_nonneg hy0 (le_of_lt hwpos)
  have hwh : d.w * d.h = d.h * d.w := Int.mul_comm _ _
  have hexp : ((y1 : Int) + 1) * d.w = (y1 : Int) * d.w + d.w := by ring
  have h32 : int32 (d.w * d.h) = d.w * d.h := by
    apply int32_of_small
    · rw [hwh]; omega
    · rw [hwh]; omega
  rw [List.length_replicate, h32, hwh]
  constructor
  · omega
  · have : (0 : Int) ≤ d.h * d.w := by omega
    rw [Int.toNat_of_nonneg this]
    omega

/-- C11: for every input and every combination of requests, `_IMG_LoadPCX` ends
with a return value: it never reads the source at an index at or beyond the
input length, never stores outside the raster of `w * h` bytes it allocated,
and never runs out of iterations; the out-of-range branch of every index
operation of the pixel loops is unreachable.  Whenever the result is not
`Q_ERR_FILE_TOO_SMALL` the input is at least as long as `dpcx_t`, which holds
the header fields read; a success with a palette requested has read it from
an input of at least 768 bytes; and a raster returned has the length
`w * h` that was allocated. -/
theorem C11_pcx_safety (c : Cfg) (rawdata : List Nat) (want_pic want_palette : Bool) :
    _IMG_LoadPCX c rawdata want_pic want_palette ≠ .oob_read ∧
    _IMG_LoadPCX c rawdata want_pic want_palette ≠ .oob_write ∧
    _IMG_LoadPCX c rawdata want_pic want_palette ≠ .out_of_fuel ∧
    ((∃ o, _IMG_LoadPCX c rawdata want_pic want_palette = .ok o) ∨
      (∃ e, _IMG_LoadPCX c rawdata want_pic want_palette = .error e)) ∧
    (_IMG_LoadPCX c rawdata want_pic want_palette ≠ .error .Q_ERR_FILE_TOO_SMALL →
      c.sizeof_dpcx_t ≤ rawdata.length ∧
        ((∃ o, _IMG_LoadPCX c rawdata want_pic want_palette = .ok o) →
          want_palette = true → 768 ≤ rawdata.length)) ∧
    (∀ o out, _IMG_LoadPCX c rawdata want_pic want_palette = .ok o → o.pic = some out →
      out.length = (int32 (o.width * o.height)).toNat) := by
  have hmain : ((∃ o, _IMG_LoadPCX c rawdata want_pic want_palette = .ok o) ∨
      (∃ e, _IMG_LoadPCX c rawdata want_pic want_palette = .error e)) ∧
      (_IMG_LoadPCX c rawdata want_pic want_palette ≠ .error .Q_ERR_FILE_TOO_SMALL →
        c.sizeof_dpcx_t ≤ rawdata.length ∧
          ((∃ o, _IMG_LoadPCX c rawdata want_pic want_palette = .ok o) →
            want_palette = true → 768 ≤ rawdata.length)) ∧
      (∀ o out, _IMG_LoadPCX c rawdata want_pic want_palette = .ok o → o.pic = some out →
        out.length = (int32 (o.width * o.height)).toNat) := by
    cases hparse : pcx_parse c rawdata with
    | error e =>
      have hres : _IMG_LoadPCX c rawdata want_pic want_palette = .error e := by
        simp [_IMG_LoadPCX, hparse]
      rw [hres]
      refine ⟨Or.inr ⟨e, rfl⟩, ?_, ?_⟩
      · intro hne
        refine ⟨?_, fun ⟨o, ho⟩ => absurd ho (by simp)⟩
        by_contra hlt
        have hsmall : pcx_parse c rawdata = .error .Q_ERR_FILE_TOO_SMALL := by
          simp [pcx_parse, Nat.lt_of_not_le hlt]
        rw [hsmall] at hparse
        simp only [Except.error.injEq] at hparse
        exact hne (by rw [hparse])
      · intro o out ho; exact absurd ho (by simp)
    | ok d =>
      have hlen : c.sizeof_dpcx_t ≤ rawdata.length := by
        unfold pcx_parse at hparse
        split_ifs at hparse with h1
        · omega
      by_cases hpal : want_palette = true ∧ rawdata.length < 768
      · have hres : _IMG_LoadPCX c rawdata want_pic want_palette
            = .error .Q_ERR_FILE_TOO_SMALL := by
          simp [_IMG_LoadPCX, hparse, hpal.1, hpal.2]
        rw [hres]
        exact ⟨Or.inr ⟨_, rfl⟩, fun h => absurd rfl h, fun o out ho => absurd ho (by simp)⟩
      · have hpal2 : want_palette = true → 768 ≤ rawdata.length := by
          intro h
          by_contra hlt
          exact hpal ⟨h, by omega⟩
        cases want_pic with
        | false =>
          have hres : _IMG_LoadPCX c rawdata false want_palette
              = .ok { pic := none,
                      palette := if want_palette = true
                        then some (rawdata.drop (rawdata.length - 768)) else none,
                      width := d.w, height := d.h } := by
            simp [_IMG_LoadPCX, hparse, hpal]
          rw [hres]
          refine ⟨Or.inl ⟨_, rfl⟩, fun _ => ⟨hlen, fun _ => hpal2⟩, ?_⟩
          intro o out ho hp
          simp only [pcx_result.ok.injEq] at ho
          rw [← ho] at hp
          simp at hp
        | true =>
          have hrows := pcx_rows_of_parse c rawdata d hparse
          unfold _IMG_LoadPCX
          simp only [hparse, hpal, if_false, if_true]
          revert hrows
          cases pcx_rows rawdata d.w d.scan d.h.toNat 0 dpcx_data
              (List.replicate (int32 (d.w * d.h)).toNat 0) with
          | next raw1 out1 =>
            intro hrows
            simp only [rows_post] at hrows
            refine ⟨Or.inl ⟨_, rfl⟩, fun _ => ⟨hlen, fun _ => hpal2⟩, ?_⟩
            intro o out ho hp
            simp only [pcx_result.ok.injEq] at ho
            rw [← ho] at hp ⊢
            simp only [Option.some.injEq] at hp
            rw [← hp, hrows.1, List.length_replicate]
          | fail =>
            intro _
            exact ⟨Or.inr ⟨_, rfl⟩, fun _ => ⟨hlen, fun _ => hpal2⟩, fun o out ho => absurd ho (by simp)⟩
          | oob_read => intro hrows; exact absurd hrows (by simp [rows_post])
          | oob_write => intro hrows; exact absurd hrows (by simp [rows_post])
          | out_of_fuel => intro hrows; exact absurd hrows (by simp [rows_post])
  refine ⟨?_, ?_, ?_, hmain⟩
  · rcases hmain.1 with ⟨o, h⟩ | ⟨e, h⟩ <;> rw [h] <;> simp
  · rcases hmain.1 with ⟨o, h⟩ | ⟨e, h⟩ <;> rw [h] <;> simp
  · rcases hmain.1 with ⟨o, h⟩ | ⟨e, h⟩ <;> rw [h] <;> simp

set_option maxRecDepth 100000 in
/-- Witness for C11: the truncated picture of C10 ends with an error value and
not with an access outside a buffer. -/
theorem C11_pcx_safety_witness :
    _IMG_LoadPCX demo_cfg demo_pcx_truncated true false ≠ .oob_read :=
  (C11_pcx_safety demo_cfg demo_pcx_truncated true false).1

/-! ## C17: TGA header validation -/

theorem tga_extent_mod (c : Cfg) (offset w h bpp : Nat) (hbits : 32 ≤ c.size_t_bits)
    (hoff : offset < 274) (hw : w ≤ 32767) (hh : h ≤ 32767) (hbpp : bpp ≤ 4) :
    (offset + (w * h * bpp) % 4294967296) % 2 ^ c.size_t_bits = offset + w * h * bpp := by
  have hp := pow_size_t_bits_ge c hbits
  have h1 : w * h ≤ 32767 * 32767 := Nat.mul_le_mul hw hh
  have h2 : w * h * bpp ≤ 32767 * 32767 * 4 := Nat.mul_le_mul h1 hbpp
  rw [Nat.mod_eq_of_lt (by omega : w * h * bpp < 4294967296)]
  exact Nat.mod_eq_of_lt (by omega)

theorem tga_parse_ok (c : Cfg) (rawdata : List Nat) (hd : tga_header)
    (h : tga_parse c rawdata = .ok hd) :
    TARGA_HEADER_SIZE ≤ rawdata.length ∧
    hd.offset = TARGA_HEADER_SIZE + rawdata.getD 0 0 ∧
    hd.offset + 4 ≤ rawdata.length ∧
    hd.w = le_field rawdata 12 2 ∧ hd.h = le_field rawdata 14 2 ∧
    hd.attributes = rawdata.getD 17 0 ∧
    1 ≤ hd.w ∧ hd.w ≤ c.MAX_TEXTURE_SIZE ∧ 1 ≤ hd.h ∧ hd.h ≤ c.MAX_TEXTURE_SIZE ∧
    ((rawdata.getD 16 0 = 32 ∧ hd.bpp = 4) ∨ (rawdata.getD 16 0 = 24 ∧ hd.bpp = 3)) ∧
    ((hd.image_type = 2 ∧ rawdata.getD 2 0 = 2 ∧
        (hd.offset + (hd.w * hd.h * hd.bpp) % 4294967296) % 2 ^ c.size_t_bits
          ≤ rawdata.length) ∨
      (hd.image_type = 10 ∧ rawdata.getD 2 0 = 10 ∧ hd.attributes &&& 32 = 0)) := by
  unfold tga_parse at h
  simp only at h
  split_ifs at h <;>
    (simp only [Except.ok.injEq] at h; subst h; simp only [TARGA_HEADER_SIZE] at *) <;>
    refine ⟨by omega, by first | rfl | trivial, by omega, by first | rfl | trivial,
      by first | rfl | trivial, by first | rfl | trivial, by omega, by omega, by omega,
      by omega, ?_, ?_⟩ <;>
    first
      | exact Or.inl ⟨by assumption, by first | rfl | trivial⟩
      | exact Or.inr ⟨by omega, by first | rfl | trivial⟩
      | exact Or.inl ⟨by first | rfl | trivial, by assumption, Nat.not_lt.mp (by assumption)⟩
      | exact Or.inr ⟨by first | rfl | trivial, by assumption,
          Classical.not_not.mp (by assumption)⟩

theorem IMG_LoadTGA_error_of_parse (c : Cfg) (rawdata : List Nat) (e : qerror_t)
    (h : tga_parse c rawdata = .error e) : IMG_LoadTGA c rawdata = .error e := by
  simp [IMG_LoadTGA, h]

/-- C17: header validation of `IMG_LoadTGA`, for a byte sequence, a
`MAX_TEXTURE_SIZE` below 32768 and a `size_t` of at least 32 bits.  With
`id`, `ty`, `w`, `h`, `ps` and `attr` the header fields (comment length, image
type, width, height, pixel size, attributes) and `bpp` the bytes per pixel:
fewer than 18 bytes give `Q_ERR_FILE_TOO_SMALL`; then `18 + id + 4` above the
length gives `Q_ERR_BAD_EXTENT`; then a pixel size other than 24 and 32 gives
`Q_ERR_INVALID_FORMAT`; then a width or height of 0 or above
`MAX_TEXTURE_SIZE` gives `Q_ERR_INVALID_FORMAT`; then an image type other than
2 and 10, or type 10 with attribute bit 5 set, gives `Q_ERR_INVALID_FORMAT`,
and type 2 with `18 + id + w * h * bpp` above the length gives
`Q_ERR_BAD_EXTENT`.  A failure is the outcome `error`, which carries no pixel
buffer.  On success the width and height reported are those of the header and
lie between 1 and `MAX_TEXTURE_SIZE`. -/
theorem C17_tga_header (c : Cfg) (rawdata : List Nat)
    (hT : c.MAX_TEXTURE_SIZE ≤ 32767) (hbits : 32 ≤ c.size_t_bits)
    (hbytes : ∀ b ∈ rawdata, b < 256)
    (id ty w h ps attr bpp : Nat)
    (hid : id = rawdata.getD 0 0) (hty : ty = rawdata.getD 2 0)
    (hw : w = le_field rawdata 12 2) (hh : h = le_field rawdata 14 2)
    (hps : ps = rawdata.getD 16 0) (hattr : attr = rawdata.getD 17 0)
    (hbpp : bpp = if ps = 32 then 4 else 3) :
    (rawdata.length < 18 → IMG_LoadTGA c rawdata = .error .Q_ERR_FILE_TOO_SMALL) ∧
    (18 ≤ rawdata.length → 18 + id + 4 > rawdata.length →
      IMG_LoadTGA c rawdata = .error .Q_ERR_BAD_EXTENT) ∧
    (18 ≤ rawdata.length → 18 + id + 4 ≤ rawdata.length → ps ≠ 24 → ps ≠ 32 →
      IMG_LoadTGA c rawdata = .error .Q_ERR_INVALID_FORMAT) ∧
    (18 ≤ rawdata.length → 18 + id + 4 ≤ rawdata.length → ps = 24 ∨ ps = 32 →
      (w = 0 ∨ h = 0 ∨ w > c.MAX_TEXTURE_SIZE ∨ h > c.MAX_TEXTURE_SIZE) →
      IMG_LoadTGA c rawdata = .error .Q_ERR_INVALID_FORMAT) ∧
    (18 ≤ rawdata.length → 18 + id + 4 ≤ rawdata.length → ps = 24 ∨ ps = 32 →
      1 ≤ w → w ≤ c.MAX_TEXTURE_SIZE → 1 ≤ h → h ≤ c.MAX_TEXTURE_SIZE →
      ((ty ≠ 2 → ty ≠ 10 → IMG_LoadTGA c rawdata = .error .Q_ERR_INVALID_FORMAT) ∧
        (ty = 10 → attr &&& 32 ≠ 0 →
          IMG_LoadTGA c rawdata = .error .Q_ERR_INVALID_FORMAT) ∧
        (ty = 2 → 18 + id + w * h * bpp > rawdata.length →
          IMG_LoadTGA c rawdata = .error .Q_ERR_BAD_EXTENT))) ∧
    (∀ pic width height, IMG_LoadTGA c rawdata = .ok pic width height →
      width = w ∧ height = h ∧ 1 ≤ width ∧ width ≤ c.MAX_TEXTURE_SIZE ∧
        1 ≤ height ∧ height ≤ c.MAX_TEXTURE_SIZE) := by
  subst hid hty hw hh hps hattr
  refine ⟨?_, ?_, ?_, ?_, ?_, ?_⟩
  · intro h0
    apply IMG_LoadTGA_error_of_parse
    simp [tga_parse, TARGA_HEADER_SIZE, h0]
  · intro h0 h1
    apply IMG_LoadTGA_error_of_parse
    have h0n : ¬ rawdata.length < 18 := by omega
    simp only [tga_parse, TARGA_HEADER_SIZE, h0n, if_false, h1, if_true]
  · intro h0 h1 h24 h32
    apply IMG_LoadTGA_error_of_parse
    have h0n : ¬ rawdata.length < 18 := by omega
    have h1n : ¬ 18 + rawdata.getD 0 0 + 4 > rawdata.length := by omega
    simp only [tga_parse, TARGA_HEADER_SIZE, h0n, if_false, h1n]
    rw [if_pos ⟨h32, h24⟩]
  · intro h0 h1 hps hdim
    apply IMG_LoadTGA_error_of_parse
    have h0n : ¬ rawdata.length < 18 := by omega
    have h1n : ¬ 18 + rawdata.getD 0 0 + 4 > rawdata.length := by omega
    have h2n : ¬ (rawdata.getD 16 0 ≠ 32 ∧ rawdata.getD 16 0 ≠ 24) := by omega
    simp only [tga_parse, TARGA_HEADER_SIZE, h0n, if_false, h1n, h2n]
    rw [if_pos]
    rcases hdim with hz | hz | hz | hz
    · left; omega
    · right; left; omega
    · right; right; left; exact hz
    · right; right; right; exact hz
  · intro h0 h1 hps hw1 hw2 hh1 hh2
    have h0n : ¬ rawdata.length < 18 := by omega
    have h1n : ¬ 18 + rawdata.getD 0 0 + 4 > rawdata.length := by omega
    have h2n : ¬ (rawdata.getD 16 0 ≠ 32 ∧ rawdata.getD 16 0 ≠ 24) := by omega
    have h3n : ¬ (le_field rawdata 12 2 < 1 ∨ le_field rawdata 14 2 < 1 ∨
        le_field rawdata 12 2 > c.MAX_TEXTURE_SIZE ∨
        le_field rawdata 14 2 > c.MAX_TEXTURE_SIZE) := by omega
    refine ⟨?_, ?_, ?_⟩
    · intro ht2 ht10
      apply IMG_LoadTGA_error_of_parse
      simp only [tga_parse, TARGA_HEADER_SIZE, h0n, if_false, h1n, h2n, h3n, ht2, ht10]
    · intro ht10 hflip
      apply IMG_LoadTGA_error_of_parse
      have ht2 : ¬ rawdata.getD 2 0 = 2 := by omega
      simp only [tga_parse, TARGA_HEADER_SIZE, h0n, if_false, h1n, h2n, h3n, ht2, ht10,
        if_true, hflip, ne_eq, not_false_eq_true]
      rw [if_neg (by decide)]
    · intro ht2 hext
      apply IMG_LoadTGA_error_of_parse
      have hidlt : rawdata.getD 0 0 < 256 := by
        have hpos : 0 < rawdata.length := by omega
        rw [List.getD_eq_getElem _ _ hpos]
        exact hbytes _ (List.getElem_mem _)
      have hbpp4 : bpp ≤ 4 := by rw [hbpp]; split_ifs <;> omega
      have hmod := tga_extent_mod c (18 + rawdata.getD 0 0) (le_field rawdata 12 2)
        (le_field rawdata 14 2) bpp hbits (by omega) (by omega) (by omega) hbpp4
      rw [hbpp] at hmod hext
      simp only [tga_parse, TARGA_HEADER_SIZE, h0n, if_false, h1n, h2n, h3n, ht2, if_true,
        hmod]
      rw [if_pos hext]
  · intro pic width height hok
    unfold IMG_LoadTGA at hok
    cases hp : tga_parse c rawdata with
    | error e => simp [hp] at hok
    | ok hd =>
      simp only [hp] at hok
      have hpo := tga_parse_ok c rawdata hd hp
      cases hdec : tga_decode rawdata hd
          (List.replicate ((hd.w * hd.h * 4) % 4294967296) 0) with
      | ok out =>
        simp only [hdec, tga_result.ok.injEq] at hok
        obtain ⟨_, hw', hh'⟩ := hok
        subst hw' hh'
        exact ⟨hpo.2.2.2.1, hpo.2.2.2.2.1, hpo.2.2.2.2.2.2.1, hpo.2.2.2.2.2.2.2.1,
          hpo.2.2.2.2.2.2.2.2.1, hpo.2.2.2.2.2.2.2.2.2.1⟩
      | error e => simp [hdec] at hok
      | oob_read => simp [hdec] at hok
      | oob_write => simp [hdec] at hok
      | out_of_fuel => simp [hdec] at hok

/-- Witness for C17: a 2 x 2 uncompressed 24-bit picture whose header announces
twelve bytes of pixels but which stops after the header and four bytes. -/
theorem C17_tga_header_witness :
    IMG_LoadTGA demo_cfg (demo_tga_header 2 2 2 24 0 ++ [1, 2, 3, 4])
      = .error .Q_ERR_BAD_EXTENT :=
  (C17_tga_header demo_cfg (demo_tga_header 2 2 2 24 0 ++ [1, 2, 3, 4])
    (by decide) (by decide) (by decide) 0 2 2 2 24 0 3
    (by decide) (by decide) (by decide) (by decide) (by decide) (by decide)
    (by decide)).2.2.2.2.1 (by decide) (by decide) (by decide) (by decide) (by decide)
    (by decide) (by decide) |>.2.2 (by decide) (by decide)

/-! ## C20: reads of the run-length TGA decoder -/

/-- C20 fails on the code: the run-length decoders read the packet header with
`*in++` without comparing `in` with `max_in`.  `demo_tga_rle_short` (22 bytes)
is accepted by the header checks as a run-length image of 2 x 1 pixels; after
its raw packet of one pixel the decoder reads the next packet header at index
22, the length of the input. -/
theorem C20_tga_rle_reads_past_end :
    demo_tga_rle_short.length = 22 ∧
    tga_parse demo_cfg demo_tga_rle_short
      = .ok { offset := 18, w := 2, h := 1, bpp := 3, image_type := 10, attributes := 0 } ∧
    IMG_LoadTGA demo_cfg demo_tga_rle_short = .oob_read := by
  refine ⟨by decide, by decide, by decide⟩

/-! ## C18: uncompressed TGA pixels -/

theorem getElem?_eq_some_getD (l : List Nat) (i : Nat) (h : i < l.length) :
    l[i]? = some (l.getD i 0) := by
  rw [List.getD_eq_getElem _ _ h, List.getElem?_eq_getElem h]

theorem tga_read_pixel_ok (rawdata : List Nat) (inn : Nat) (alpha : Bool)
    (h : inn + (if alpha then 4 else 3) ≤ rawdata.length) :
    tga_read_pixel rawdata inn alpha = some (tga_source_pixel rawdata inn alpha) := by
  have h3 : inn + 3 ≤ rawdata.length := by split_ifs at h <;> omega
  unfold tga_read_pixel tga_source_pixel
  rw [getElem?_eq_some_getD rawdata (inn + 2) (by omega),
    getElem?_eq_some_getD rawdata (inn + 1) (by omega),
    getElem?_eq_some_getD rawdata inn (by omega)]
  cases alpha with
  | false => rfl
  | true =>
    simp only [if_true] at h ⊢
    rw [getElem?_eq_some_getD rawdata (inn + 3) (by omega)]

theorem tga_row_ptr_small (row cols : Nat) (h : row * cols * 4 < 2147483648) :
    tga_row_ptr row cols = ((row * cols * 4 : Nat) : Int) := by
  have e : (row : Int) * (cols : Int) * 4 = ((row * cols * 4 : Nat) : Int) := by
    push_cast
    rfl
  unfold tga_row_ptr
  rw [e]
  unfold int32
  omega

theorem tga_flip_count_small (cols rows : Nat) (h : rows * cols < 2147483648) :
    tga_flip_count cols rows = rows * cols := by
  have e : (rows : Int) * (cols : Int) = ((rows * cols : Nat) : Int) := by
    push_cast
    rfl
  unfold tga_flip_count
  rw [e]
  unfold int32
  omega

theorem tga_small (w h : Nat) (hw : w ≤ 23170) (hh : h ≤ 23170) :
    w * h * 4 < 2147483648 := by
  have h1 : w * h ≤ 23170 * 23170 := Nat.mul_le_mul hw hh
  omega

theorem tga_store_ok (out : List Nat) (idx : Nat) (px : rgba) (h : idx + 4 ≤ out.length) :
    ∃ out1, tga_store out (idx : Int) px = some out1 := by
  unfold tga_store
  rw [if_pos ⟨by omega, by omega⟩]
  exact ⟨_, rfl⟩

theorem getD_set_eq (l : List Nat) (i v : Nat) (h : i < l.length) :
    (l.set i v).getD i 0 = v := by
  simp [List.getD_eq_getElem?_getD, List.getElem?_set, h]

theorem getD_set_ne (l : List Nat) (i j v : Nat) (h : i ≠ j) :
    (l.set i v).getD j 0 = l.getD j 0 := by
  simp [List.getD_eq_getElem?_getD, List.getElem?_set, h]

theorem tga_store_spec (out : List Nat) (idx : Nat) (px : rgba) (out1 : List Nat)
    (h : tga_store out (idx : Int) px = some out1) :
    out1.length = out.length ∧ raster_pixel out1 idx = px ∧
      ∀ i, (i + 4 ≤ idx ∨ idx + 4 ≤ i) → raster_pixel out1 i = raster_pixel out i := by
  unfold tga_store at h
  split_ifs at h with hb
  simp only [Option.some.injEq, Int.toNat_ofNat] at h
  subst h
  have hb : idx + 4 ≤ out.length := by omega
  refine ⟨by simp, ?_, ?_⟩
  · cases px with
    | mk r g b a =>
      simp only [raster_pixel, rgba.mk.injEq]
      refine ⟨?_, ?_, ?_, ?_⟩
      · rw [getD_set_ne _ _ _ _ (by omega), getD_set_ne _ _ _ _ (by omega),
          getD_set_ne _ _ _ _ (by omega), getD_set_eq _ _ _ (by omega)]
      · rw [getD_set_ne _ _ _ _ (by omega), getD_set_ne _ _ _ _ (by omega),
          getD_set_eq _ _ _ (by simp; omega)]
      · rw [getD_set_ne _ _ _ _ (by omega), getD_set_eq _ _ _ (by simp; omega)]
      · rw [getD_set_eq _ _ _ (by simp; omega)]
  · intro i hi
    simp only [raster_pixel, rgba.mk.injEq]
    refine ⟨?_, ?_, ?_, ?_⟩ <;>
      rw [getD_set_ne _ _ _ _ (by omega), getD_set_ne _ _ _ _ (by omega),
        getD_set_ne _ _ _ _ (by omega), getD_set_ne _ _ _ _ (by omega)]

theorem tga_decode_cols_spec (rawdata : List Nat) (stride : Nat) (alpha : Bool)
    (hstride : (if alpha then 4 else 3) ≤ stride)
    (n inn out_row : Nat) (out : List Nat)
    (hin : inn + n * stride ≤ rawdata.length) (hout : out_row + n * 4 ≤ out.length) :
    ∃ out1, tga_decode_cols rawdata stride alpha n inn out_row out
        = .next (inn + n * stride) out1 ∧
      out1.length = out.length ∧
      (∀ i, (i + 4 ≤ out_row ∨ out_row + n * 4 ≤ i) →
        raster_pixel out1 i = raster_pixel out i) ∧
      (∀ j, j < n → raster_pixel out1 (out_row + j * 4)
        = tga_source_pixel rawdata (inn + j * stride) alpha) := by
  induction n generalizing inn out_row out with
  | zero =>
    refine ⟨out, ?_, rfl, fun _ _ => rfl, fun j hj => absurd hj (by omega)⟩
    simp [tga_decode_cols]
  | succ n ih =>
    have hmul : (n + 1) * stride = n * stride + stride := Nat.succ_mul n stride
    rw [hmul] at hin
    have hread := tga_read_pixel_ok rawdata inn alpha (by omega)
    obtain ⟨outA, hstore⟩ := tga_store_ok out out_row (tga_source_pixel rawdata inn alpha)
      (by omega)
    obtain ⟨hlA, hpxA, hunA⟩ := tga_store_spec _ _ _ _ hstore
    obtain ⟨out1, hrec, hl1, hun1, hpx1⟩ := ih (inn + stride) (out_row + 4) outA
      (by omega) (by rw [hlA]; omega)
    have ecast : ((out_row + 4 : Nat) : Int) = (out_row : Int) + 4 := Nat.cast_add out_row 4
    rw [ecast] at hrec
    refine ⟨out1, ?_, hl1.trans hlA, ?_, ?_⟩
    · simp only [tga_decode_cols, hread, hstore, hrec, hmul]
      congr 1
      omega
    · intro i hi
      rw [hun1 i (by omega), hunA i (by omega)]
    · intro j hj
      cases j with
      | zero =>
        have := hun1 out_row (Or.inl (le_refl _))
        simp only [Nat.zero_mul, Nat.add_zero]
        rw [this, hpxA]
      | succ j =>
        have := hpx1 j (by omega)
        have e1 : out_row + (j + 1) * 4 = out_row + 4 + j * 4 := by omega
        have e2 : inn + (j + 1) * stride = inn + stride + j * stride := by
          rw [Nat.succ_mul]; omega
        rw [e1, e2]
        exact this

theorem tga_decode_rows_spec (rawdata : List Nat) (stride : Nat) (alpha : Bool)
    (hstride : (if alpha then 4 else 3) ≤ stride) (cols : Nat)
    (k inn : Nat) (out : List Nat)
    (hin : inn + k * cols * stride ≤ rawdata.length) (hout : k * cols * 4 ≤ out.length)
    (hsmall : k * cols * 4 < 2147483648) :
    ∃ out1, tga_decode_rows rawdata stride alpha cols k inn out = .ok out1 ∧
      out1.length = out.length ∧
      (∀ i, k * cols * 4 ≤ i → raster_pixel out1 i = raster_pixel out i) ∧
      (∀ r c, r < k → c < cols → raster_pixel out1 ((r * cols + c) * 4)
        = tga_source_pixel rawdata (inn + ((k - 1 - r) * cols + c) * stride) alpha) := by
  induction k generalizing inn out with
  | zero =>
    refine ⟨out, ?_, rfl, fun _ _ => rfl, fun r c hr => absurd hr (by omega)⟩
    simp [tga_decode_rows]
  | succ k ih =>
    have hmul1 : (k + 1) * cols * stride = k * cols * stride + cols * stride := by ring
    have hmul2 : (k + 1) * cols * 4 = k * cols * 4 + cols * 4 := by ring
    rw [hmul1] at hin
    rw [hmul2] at hout hsmall
    obtain ⟨outA, hcols, hlA, hunA, hpxA⟩ := tga_decode_cols_spec rawdata stride alpha hstride
      cols inn (k * cols * 4) out (by omega) (by omega)
    obtain ⟨out1, hrec, hl1, hun1, hpx1⟩ := ih (inn + cols * stride) outA
      (by omega) (by rw [hlA]; omega) (by omega)
    refine ⟨out1, ?_, hl1.trans hlA, ?_, ?_⟩
    · simp only [tga_decode_rows, tga_row_ptr_small k cols (by omega), hcols, hrec]
    · intro i hi
      rw [hmul2] at hi
      rw [hun1 i (by omega), hunA i (by omega)]
    · intro r c hr hc
      by_cases hrk : r = k
      · subst hrk
        have e0 : r + 1 - 1 - r = 0 := by omega
        have e1 : (r * cols + c) * 4 = r * cols * 4 + c * 4 := by ring
        rw [e0, Nat.zero_mul, Nat.zero_add, hun1 _ (by rw [e1]; omega), e1, hpxA c hc]
      · have hlt : r < k := by omega
        have := hpx1 r c hlt hc
        rw [this]
        congr 1
        obtain ⟨m, hm⟩ : ∃ m, k - 1 - r = m := ⟨_, rfl⟩
        have e0 : k + 1 - 1 - r = m + 1 := by omega
        rw [hm, e0]
        ring

theorem tga_alloc_length (w h : Nat) (hw : w ≤ 32767) (hh : h ≤ 32767) :
    (List.replicate ((w * h * 4) % 4294967296) 0 : List Nat).length = w * h * 4 := by
  have h1 : w * h ≤ 32767 * 32767 := Nat.mul_le_mul hw hh
  rw [List.length_replicate]
  exact Nat.mod_eq_of_lt (by omega)

theorem tga_pixel_index_lt (w h r col : Nat) (hr : r < h) (hc : col < w) :
    (h - 1 - r) * w + col + 1 ≤ w * h := by
  have h1 : (h - 1 - r) + 1 ≤ h := by omega
  have h2 : ((h - 1 - r) + 1) * w ≤ h * w := Nat.mul_le_mul_right w h1
  rw [Nat.succ_mul] at h2
  rw [Nat.mul_comm w h]
  omega

/-- C18: for every input that `IMG_LoadTGA` accepts as an uncompressed (type 2)
image without the vertical-flip attribute (with `MAX_TEXTURE_SIZE` at most
23170, so that the row offset `row * cols * 4` fits in an `int`, a `size_t`
of at least 32 bits and an input of bytes), where `hd` holds the
checked header values (`offset` is 18 plus the comment length, `w` and `h` the
width and height, `bpp` 4 for 32-bit and 3 for 24-bit pixels): loading
succeeds with a raster of `w * h * 4` bytes, and for every row `r < h` and
column `col < w` the source pixel with index `(h - 1 - r) * w + col` after the
header and comment lies inside the input, and the output pixel whose four
bytes start at `(r * w + col) * 4` is (R, G, B, A) where that source pixel
stores the bytes B, G, R (and A for 32-bit); A is 255 for 24-bit input. -/
theorem C18_tga_uncompressed (c : Cfg) (rawdata : List Nat) (hd : tga_header)
    (hT : c.MAX_TEXTURE_SIZE ≤ 23170) (hbits : 32 ≤ c.size_t_bits)
    (hbytes : ∀ b ∈ rawdata, b < 256)
    (hp : tga_parse c rawdata = .ok hd) (hty : hd.image_type = 2)
    (hflip : hd.attributes &&& 32 = 0) :
    hd.offset = 18 + rawdata.getD 0 0 ∧
    hd.w = le_field rawdata 12 2 ∧ hd.h = le_field rawdata 14 2 ∧
    ((rawdata.getD 16 0 = 32 ∧ hd.bpp = 4) ∨ (rawdata.getD 16 0 = 24 ∧ hd.bpp = 3)) ∧
    ∃ pic, IMG_LoadTGA c rawdata = .ok pic hd.w hd.h ∧ pic.length = hd.w * hd.h * 4 ∧
      ∀ r col, r < hd.h → col < hd.w →
        hd.offset + ((hd.h - 1 - r) * hd.w + col) * hd.bpp + hd.bpp ≤ rawdata.length ∧
        raster_pixel pic ((r * hd.w + col) * 4)
          = { r := rawdata.getD (hd.offset + ((hd.h - 1 - r) * hd.w + col) * hd.bpp + 2) 0,
              g := rawdata.getD (hd.offset + ((hd.h - 1 - r) * hd.w + col) * hd.bpp + 1) 0,
              b := rawdata.getD (hd.offset + ((hd.h - 1 - r) * hd.w + col) * hd.bpp) 0,
              a := if hd.bpp = 4 then
                  rawdata.getD (hd.offset + ((hd.h - 1 - r) * hd.w + col) * hd.bpp + 3) 0
                else 255 } := by
  obtain ⟨hlen, hoff, _, hw, hh, _, hw1, hw2, hh1, hh2, hbpp, htype⟩ :=
    tga_parse_ok c rawdata hd hp
  have hidlt : rawdata.getD 0 0 < 256 := by
    have hpos : 0 < rawdata.length := by
      simp only [TARGA_HEADER_SIZE] at hlen
      omega
    rw [List.getD_eq_getElem _ _ hpos]
    exact hbytes _ (List.getElem_mem _)
  have hoff18 : hd.offset = 18 + rawdata.getD 0 0 := by
    simpa only [TARGA_HEADER_SIZE] using hoff
  have hbpp4 : hd.bpp ≤ 4 := by rcases hbpp with ⟨_, h⟩ | ⟨_, h⟩ <;> omega
  have hext : hd.offset + hd.w * hd.h * hd.bpp ≤ rawdata.length := by
    rcases htype with ⟨_, _, h⟩ | ⟨h, _, _⟩
    · rwa [tga_extent_mod c hd.offset hd.w hd.h hd.bpp hbits (by omega) (by omega) (by omega)
        hbpp4] at h
    · omega
  have hal := tga_alloc_length hd.w hd.h (by omega) (by omega)
  have hcomm : hd.h * hd.w = hd.w * hd.h := Nat.mul_comm _ _
  refine ⟨hoff18, hw, hh, hbpp, ?_⟩
  have hfl : ¬ (hd.attributes &&& 32 ≠ 0) := by simp [hflip]
  -- the decoder selected, as the row loop with the stride of the pixel size
  have hsel : tga_decode rawdata hd (List.replicate ((hd.w * hd.h * 4) % 4294967296) 0)
      = tga_decode_rows rawdata hd.bpp (decide (hd.bpp = 4)) hd.w hd.h hd.offset
          (List.replicate ((hd.w * hd.h * 4) % 4294967296) 0) := by
    unfold tga_decode
    rw [if_pos hty, if_neg hfl]
    rcases hbpp with ⟨_, h⟩ | ⟨_, h⟩
    · rw [if_pos h, h]; rfl
    · rw [if_neg (by omega), h]; rfl
  have hstride : (if decide (hd.bpp = 4) = true then 4 else 3) ≤ hd.bpp := by
    rcases hbpp with ⟨_, h⟩ | ⟨_, h⟩ <;> simp [h]
  obtain ⟨pic, hrows, hl, _, hpx⟩ := tga_decode_rows_spec rawdata hd.bpp (decide (hd.bpp = 4))
    hstride hd.w hd.h hd.offset (List.replicate ((hd.w * hd.h * 4) % 4294967296) 0)
    (by rw [hcomm]; exact hext) (by rw [hal, hcomm])
    (by rw [hcomm]; exact tga_small hd.w hd.h (by omega) (by omega))
  refine ⟨pic, ?_, hl.trans hal, ?_⟩
  · simp only [IMG_LoadTGA, hp, hsel, hrows]
  · intro r col hr hc
    have hq := tga_pixel_index_lt hd.w hd.h r col hr hc
    have hq2 := Nat.mul_le_mul_right hd.bpp hq
    rw [Nat.succ_mul] at hq2
    refine ⟨by omega, ?_⟩
    rw [hpx r col hr hc]
    simp only [tga_source_pixel, decide_eq_true_eq]

/-- Witness for C18: the 2 x 2 uncompressed 24-bit picture; its pixel in row 0,
column 1 comes from the source pixel with index 3. -/
theorem C18_tga_uncompressed_witness :
    ∃ pic, IMG_LoadTGA demo_cfg demo_tga_raw = .ok pic 2 2 ∧ pic.length = 2 * 2 * 4 ∧
      ∀ r col, r < 2 → col < 2 →
        18 + ((2 - 1 - r) * 2 + col) * 3 + 3 ≤ demo_tga_raw.length ∧
        raster_pixel pic ((r * 2 + col) * 4)
          = { r := demo_tga_raw.getD (18 + ((2 - 1 - r) * 2 + col) * 3 + 2) 0,
              g := demo_tga_raw.getD (18 + ((2 - 1 - r) * 2 + col) * 3 + 1) 0,
              b := demo_tga_raw.getD (18 + ((2 - 1 - r) * 2 + col) * 3) 0,
              a := if 3 = 4 then
                  demo_tga_raw.getD (18 + ((2 - 1 - r) * 2 + col) * 3 + 3) 0
                else 255 } :=
  (C18_tga_uncompressed demo_cfg demo_tga_raw
    { offset := 18, w := 2, h := 2, bpp := 3, image_type := 2, attributes := 0 }
    (by decide) (by decide) (by decide) (by decide) rfl (by decide)).2.2.2.2

/-! ## C12: PCX pixels -/

theorem pcx_expand_run (b v : Nat) (rest : List Nat) (hrun : b &&& 0xC0 = 0xC0) :
    pcx_expand (b :: v :: rest) = List.replicate (b &&& 0x3F) v ++ pcx_expand rest := by
  rw [pcx_expand.eq_def]
  simp [hrun]

theorem pcx_expand_literal (b : Nat) (rest : List Nat) (hrun : ¬ b &&& 0xC0 = 0xC0) :
    pcx_expand (b :: rest) = b :: pcx_expand rest := by
  rw [pcx_expand.eq_def]
  simp [hrun]

theorem pcx_store_spec (out : List Nat) (rowN x v : Nat) (out1 : List Nat)
    (h : pcx_store out (rowN : Int) x v = some out1) :
    rowN + x < out.length ∧ out1 = out.set (rowN + x) v := by
  unfold pcx_store at h
  split_ifs at h with hb
  simp only [Option.some.injEq] at h
  have e : ((rowN : Int) + (x : Int)).toNat = rowN + x := by omega
  rw [e] at h
  exact ⟨by omega, h.symm⟩

theorem pcx_run_spec (w : Int) (rowN v n x : Nat) (out : List Nat) (x1 : Nat)
    (out1 : List Nat) (h : pcx_run w (rowN : Int) v n x out = some (x1, out1)) :
    x1 = x + n ∧ out1.length = out.length ∧
      (∀ i, x ≤ i → i < x + n → (i : Int) < w → out1.getD (rowN + i) 0 = v) ∧
      (∀ j, j < rowN + x → out1.getD j 0 = out.getD j 0) := by
  induction n generalizing x out with
  | zero =>
    simp only [pcx_run, Option.some.injEq, Prod.mk.injEq] at h
    obtain ⟨h1, h2⟩ := h
    subst h1 h2
    exact ⟨rfl, rfl, fun i h1 h2 => absurd h2 (by omega), fun _ _ => rfl⟩
  | succ n ih =>
    simp only [pcx_run] at h
    by_cases hx : (x : Int) < w
    · rw [if_pos hx] at h
      cases hs : pcx_store out (rowN : Int) x v with
      | none => rw [hs] at h; exact absurd h (by simp)
      | some outA =>
        rw [hs] at h
        simp only at h
        obtain ⟨hlt, hA⟩ := pcx_store_spec _ _ _ _ _ hs
        obtain ⟨e1, hl, hpx, hun⟩ := ih (x + 1) outA h
        refine ⟨by omega, by rw [hl, hA]; simp, ?_, ?_⟩
        · intro i hi1 hi2 hi3
          by_cases hix : i = x
          · subst hix
            rw [hun (rowN + i) (by omega), hA]
            exact getD_set_eq _ _ _ hlt
          · exact hpx i (by omega) (by omega) hi3
        · intro j hj
          rw [hun j (by omega), hA]
          exact getD_set_ne _ _ _ _ (by omega)
    · rw [if_neg hx] at h
      obtain ⟨e1, hl, hpx, hun⟩ := ih (x + 1) out h
      refine ⟨by omega, hl, ?_, ?_⟩
      · intro i hi1 hi2 hi3
        by_cases hix : i = x
        · subst hix
          exact absurd hi3 hx
        · exact hpx i (by omega) (by omega) hi3
      · intro j hj
        exact hun j (by omega)

theorem pcx_scanline_expand (rawdata : List Nat) (w scan : Int) (rowN : Nat)
    (fuel raw x : Nat) (out : List Nat) (raw1 : Nat) (out1 : List Nat)
    (hx : (x : Int) ≤ scan)
    (h : pcx_scanline rawdata w scan (rowN : Int) fuel raw x out = .next raw1 out1) :
    ∃ seg, pcx_expand (rawdata.drop raw) = seg ++ pcx_expand (rawdata.drop raw1) ∧
      seg.length = scan.toNat - x ∧ out1.length = out.length ∧
      (∀ i, x ≤ i → (i : Int) < scan → (i : Int) < w →
        out1.getD (rowN + i) 0 = seg.getD (i - x) 0) ∧
      (∀ j, j < rowN + x → out1.getD j 0 = out.getD j 0) := by
  induction fuel generalizing raw x out with
  | zero => simp [pcx_scanline] at h
  | succ fuel ih =>
    simp only [pcx_scanline] at h
    by_cases hxs : (x : Int) < scan
    · rw [if_pos hxs] at h
      by_cases hend : raw ≥ rawdata.length
      · rw [if_pos hend] at h
        exact absurd h (by simp)
      · rw [if_neg hend] at h
        have hlt : raw < rawdata.length := by omega
        have hget : rawdata[raw]? = some rawdata[raw] := List.getElem?_eq_getElem hlt
        have hdrop : rawdata.drop raw = rawdata[raw] :: rawdata.drop (raw + 1) :=
          List.drop_eq_getElem_cons hlt
        rw [hget] at h
        simp only at h
        by_cases hrun : rawdata[raw] &&& 0xC0 = 0xC0
        · rw [if_pos hrun] at h
          by_cases hover : (x : Int) + ((rawdata[raw] &&& 0x3F : Nat) : Int) > scan
          · rw [if_pos hover] at h
            exact absurd h (by simp)
          · rw [if_neg hover] at h
            by_cases hend2 : raw + 1 ≥ rawdata.length
            · rw [if_pos hend2] at h
              exact absurd h (by simp)
            · rw [if_neg hend2] at h
              have hlt2 : raw + 1 < rawdata.length := by omega
              have hget2 : rawdata[raw + 1]? = some rawdata[raw + 1] :=
                List.getElem?_eq_getElem hlt2
              have hdrop2 : rawdata.drop (raw + 1)
                  = rawdata[raw + 1] :: rawdata.drop (raw + 2) :=
                List.drop_eq_getElem_cons hlt2
              rw [hget2] at h
              simp only at h
              cases hr : pcx_run w (rowN : Int) rawdata[raw + 1] (rawdata[raw] &&& 0x3F)
                  x out with
              | none => rw [hr] at h; exact absurd h (by simp)
              | some p =>
                obtain ⟨x1, outA⟩ := p
                rw [hr] at h
                simp only at h
                obtain ⟨e1, hlA, hpxA, hunA⟩ := pcx_run_spec _ _ _ _ _ _ _ _ hr
                subst e1
                obtain ⟨seg, hseg, hsl, hl1, hpx1, hun1⟩ :=
                  ih (raw + 2) (x + (rawdata[raw] &&& 0x3F)) outA (by omega) h
                refine ⟨List.replicate (rawdata[raw] &&& 0x3F) rawdata[raw + 1] ++ seg,
                  ?_, ?_, hl1.trans hlA, ?_, ?_⟩
                · rw [hdrop, hdrop2, pcx_expand_run _ _ _ hrun, hseg, List.append_assoc]
                · rw [List.length_append, List.length_replicate, hsl]
                  omega
                · intro i hi1 hi2 hi3
                  by_cases hin : i < x + (rawdata[raw] &&& 0x3F)
                  · rw [hun1 (rowN + i) (by omega), hpxA i hi1 hin hi3,
                      List.getD_append _ _ _ _ (by rw [List.length_replicate]; omega)]
                    rw [List.getD_eq_getElem _ _ (by rw [List.length_replicate]; omega)]
                    simp
                  · rw [hpx1 i (by omega) hi2 hi3,
                      List.getD_append_right _ _ _ _ (by rw [List.length_replicate]; omega),
                      List.length_replicate]
                    congr 1
                    omega
                · intro j hj
                  rw [hun1 j (by omega), hunA j hj]
        · rw [if_neg hrun] at h
          cases hr : pcx_run w (rowN : Int) rawdata[raw] 1 x out with
          | none => rw [hr] at h; exact absurd h (by simp)
          | some p =>
            obtain ⟨x1, outA⟩ := p
            rw [hr] at h
            simp only at h
            obtain ⟨e1, hlA, hpxA, hunA⟩ := pcx_run_spec _ _ _ _ _ _ _ _ hr
            subst e1
            obtain ⟨seg, hseg, hsl, hl1, hpx1, hun1⟩ :=
              ih (raw + 1) (x + 1) outA (by omega) h
            refine ⟨rawdata[raw] :: seg, ?_, ?_, hl1.trans hlA, ?_, ?_⟩
            · rw [hdrop, pcx_expand_literal _ _ hrun, hseg, List.cons_append]
            · rw [List.length_cons, hsl]
              omega
            · intro i hi1 hi2 hi3
              by_cases hin : i = x
              · subst hin
                rw [hun1 (rowN + i) (by omega), hpxA i hi1 (by omega) hi3]
                simp
              · rw [hpx1 i (by omega) hi2 hi3]
                obtain ⟨m, hm⟩ : ∃ m, i - x = m + 1 := ⟨i - x - 1, by omega⟩
                rw [hm, List.getD_cons_succ]
                congr 1
                omega
            · intro j hj
              rw [hun1 j (by omega), hunA j hj]
    · rw [if_neg hxs] at h
      simp only [pcx_step.next.injEq] at h
      obtain ⟨h1, h2⟩ := h
      subst h1 h2
      refine ⟨[], by simp, by simp; omega, rfl, ?_, fun _ _ => rfl⟩
      intro i hi1 hi2
      omega

theorem pcx_rows_expand (rawdata : List Nat) (scan : Int) (wN : Nat)
    (hws : (wN : Int) ≤ scan)
    (k y raw : Nat) (out : List Nat) (raw1 : Nat) (out1 : List Nat)
    (h : pcx_rows rawdata (wN : Int) scan k y raw out = .next raw1 out1) :
    ∃ seg, pcx_expand (rawdata.drop raw) = seg ++ pcx_expand (rawdata.drop raw1) ∧
      seg.length = k * scan.toNat ∧ out1.length = out.length ∧
      (∀ yy xx, yy < k → xx < wN →
        out1.getD ((y + yy) * wN + xx) 0 = seg.getD (yy * scan.toNat + xx) 0) ∧
      (∀ j, j < y * wN → out1.getD j 0 = out.getD j 0) := by
  induction k generalizing y raw out with
  | zero =>
    simp only [pcx_rows, pcx_step.next.injEq] at h
    obtain ⟨h1, h2⟩ := h
    subst h1 h2
    exact ⟨[], by simp, by simp, rfl, fun yy xx hyy => absurd hyy (by omega), fun _ _ => rfl⟩
  | succ k ih =>
    simp only [pcx_rows] at h
    have hrow : (y : Int) * (wN : Int) = ((y * wN : Nat) : Int) := by push_cast; rfl
    rw [hrow] at h
    cases hs : pcx_scanline rawdata (wN : Int) scan ((y * wN : Nat) : Int)
        (rawdata.length - raw + 1) raw 0 out with
    | next rawA outA =>
      rw [hs] at h
      simp only at h
      have hscan0 : (0 : Int) ≤ scan := by omega
      obtain ⟨seg0, hseg0, hsl0, hlA, hpxA, hunA⟩ :=
        pcx_scanline_expand rawdata (wN : Int) scan (y * wN) _ raw 0 out rawA outA
          (by simpa using hscan0) hs
      obtain ⟨seg1, hseg1, hsl1, hl1, hpx1, hun1⟩ := ih (y + 1) rawA outA h
      have hs0 : seg0.length = scan.toNat := by omega
      refine ⟨seg0 ++ seg1, ?_, ?_, hl1.trans hlA, ?_, ?_⟩
      · rw [hseg0, hseg1, List.append_assoc]
      · rw [List.length_append, hs0, hsl1, Nat.succ_mul]
        omega
      · intro yy xx hyy hxx
        have hxs : xx < scan.toNat := by omega
        cases yy with
        | zero =>
          have hlt : y * wN + xx < (y + 1) * wN := by rw [Nat.succ_mul]; omega
          rw [Nat.add_zero, hun1 _ hlt, hpxA xx (Nat.zero_le _) (by omega) (by omega),
            Nat.zero_mul, Nat.zero_add, Nat.sub_zero,
            List.getD_append _ _ _ _ (by omega)]
        | succ yy =>
          have e1 : y + (yy + 1) = y + 1 + yy := by omega
          rw [e1, hpx1 yy xx (by omega) hxx,
            List.getD_append_right _ _ _ _ (by rw [hs0, Nat.succ_mul]; omega)]
          congr 1
          rw [hs0, Nat.succ_mul]
          omega
      · intro j hj
        have hlt : j < (y + 1) * wN := by rw [Nat.succ_mul]; omega
        rw [hun1 j hlt, hunA j (by omega)]
    | fail => rw [hs] at h; exact absurd h (by simp)
    | oob_read => rw [hs] at h; exact absurd h (by simp)
    | oob_write => rw [hs] at h; exact absurd h (by simp)
    | out_of_fuel => rw [hs] at h; exact absurd h (by simp)

/-- C12: for every PCX input whose header passes validation (`pcx_parse` gives
the dimensions `d`) with width `w ≥ 1`, height `h ≥ 1` and a well-formed
run-length stream (the reference walk meets no bad packet), `_IMG_LoadPCX`
succeeds with a raster of `w * h` bytes in which pixel (x, y), for `x < w` and
`y < h`, is the byte at index `y * bytes_per_line + x` of the run-length
expansion of the data after the header: the x-th byte of the y-th scanline,
each scanline being `bytes_per_line` expanded bytes long, so the bytes at
columns `w .. bytes_per_line - 1` are discarded.  The expansion holds at
least `h * bytes_per_line` bytes. -/
theorem C12_pcx_pixels (c : Cfg) (rawdata : List Nat) (d : pcx_dims) (want_palette : Bool)
    (hhdr : pcx_parse c rawdata = .ok d)
    (hpal : want_palette = true → 768 ≤ rawdata.length)
    (hw : 1 ≤ d.w) (hh : 1 ≤ d.h)
    (hrle : pcx_bad_rle d.scan.toNat (rawdata.drop dpcx_data) d.h.toNat 0 = false) :
    ∃ out, _IMG_LoadPCX c rawdata true want_palette
        = .ok { pic := some out,
                palette := if want_palette then some (rawdata.drop (rawdata.length - 768))
                  else none,
                width := d.w, height := d.h } ∧
      out.length = d.w.toNat * d.h.toNat ∧
      d.h.toNat * d.scan.toNat ≤ (pcx_expand (rawdata.drop dpcx_data)).length ∧
      ∀ x y, x < d.w.toNat → y < d.h.toNat →
        out.getD (y * d.w.toNat + x) 0
          = (pcx_expand (rawdata.drop dpcx_data)).getD (y * d.scan.toNat + x) 0 := by
  obtain ⟨hw640, hh480, hws⟩ := pcx_parse_ok c rawdata d hhdr
  have hrows := pcx_rows_of_parse c rawdata d hhdr
  have hp : ¬ (want_palette = true ∧ rawdata.length < 768) := by
    rintro ⟨a, b⟩
    have := hpal a
    omega
  have hwN : d.w = ((d.w.toNat : Nat) : Int) := by omega
  have hhN : d.h = ((d.h.toNat : Nat) : Int) := by omega
  have hprod : d.w * d.h = ((d.w.toNat * d.h.toNat : Nat) : Int) := by
    push_cast
    rw [← hwN, ← hhN]
  have hbound : d.w.toNat * d.h.toNat ≤ 640 * 480 :=
    Nat.mul_le_mul (by omega) (by omega)
  have h32 : (int32 (d.w * d.h)).toNat = d.w.toNat * d.h.toNat := by
    rw [int32_of_small _ (by rw [hprod]; omega) (by rw [hprod]; omega), hprod]
    omega
  unfold _IMG_LoadPCX
  simp only [hhdr, hp, if_false, if_true]
  revert hrows
  cases hr : pcx_rows rawdata d.w d.scan d.h.toNat 0 dpcx_data
      (List.replicate (int32 (d.w * d.h)).toNat 0) with
  | next raw1 out1 =>
    intro hrows
    rw [hwN] at hr
    obtain ⟨seg, hseg, hsl, hl, hpx, _⟩ := pcx_rows_expand rawdata d.scan d.w.toNat
      (by omega) d.h.toNat 0 dpcx_data _ raw1 out1 hr
    refine ⟨out1, rfl, ?_, ?_, ?_⟩
    · rw [hl, List.length_replicate, ← hwN, h32]
    · rw [hseg, List.length_append, hsl]
      omega
    · intro x y hx hy
      have := hpx y x hy hx
      rw [Nat.zero_add] at this
      have hlt : y * d.scan.toNat + x < seg.length := by
        rw [hsl]
        have h1 : (y + 1) * d.scan.toNat ≤ d.h.toNat * d.scan.toNat :=
          Nat.mul_le_mul_right _ (by omega)
        rw [Nat.succ_mul] at h1
        omega
      rw [this, hseg, List.getD_append _ _ _ _ hlt]
  | fail =>
    intro hrows
    simp only [rows_post] at hrows
    rw [hrows] at hrle
    exact absurd hrle (by simp)
  | oob_read => intro hrows; exact absurd hrows (by simp [rows_post])
  | oob_write => intro hrows; exact absurd hrows (by simp [rows_post])
  | out_of_fuel => intro hrows; exact absurd hrows (by simp [rows_post])

set_option maxRecDepth 100000 in
/-- Witness for C12: the 3 x 2 picture with 4 bytes per scanline expands to
7, 9, 9, 5 and 3, 3, 3, 3; the raster holds the first three bytes of each
scanline. -/
theorem C12_pcx_pixels_witness :
    pcx_expand (demo_pcx_good.drop dpcx_data) = [7, 9, 9, 5, 3, 3, 3, 3] ∧
    _IMG_LoadPCX demo_cfg demo_pcx_good true false
      = .ok { pic := some [7, 9, 9, 3, 3, 3], palette := none, width := 3, height := 2 } ∧
    ∃ out, _IMG_LoadPCX demo_cfg demo_pcx_good true false
        = .ok { pic := some out,
                palette := if false = true
                  then some (demo_pcx_good.drop (demo_pcx_good.length - 768)) else none,
                width := 3, height := 2 } ∧
      out.length = (3 : Int).toNat * (2 : Int).toNat ∧
      (2 : Int).toNat * (4 : Int).toNat ≤ (pcx_expand (demo_pcx_good.drop dpcx_data)).length ∧
      ∀ x y, x < (3 : Int).toNat → y < (2 : Int).toNat →
        out.getD (y * (3 : Int).toNat + x) 0
          = (pcx_expand (demo_pcx_good.drop dpcx_data)).getD (y * (4 : Int).toNat + x) 0 :=
  ⟨by decide, by decide,
    C12_pcx_pixels demo_cfg demo_pcx_good { w := 3, h := 2, scan := 4 } false
      (by decide) (by decide) (by decide) (by decide) (by decide)⟩

/-! ## C19: run-length TGA pixels -/

theorem succ_div_mod_wrap (W k : Nat) (hW : 0 < W) (h : k % W + 1 = W) :
    (k + 1) / W = k / W + 1 ∧ (k + 1) % W = 0 := by
  have hk := Nat.div_add_mod k W
  have e : k + 1 = W * (k / W + 1) := by rw [Nat.mul_add, Nat.mul_one]; omega
  rw [e]
  exact ⟨Nat.mul_div_cancel_left _ hW, Nat.mul_mod_right _ _⟩

theorem succ_div_mod_stay (W k : Nat) (hW : 0 < W) (h : k % W + 1 ≠ W) :
    (k + 1) / W = k / W ∧ (k + 1) % W = k % W + 1 := by
  have hk := Nat.div_add_mod k W
  have hlt : k % W < W := Nat.mod_lt _ hW
  have hlt1 : k % W + 1 < W := by omega
  have e : k + 1 = W * (k / W) + (k % W + 1) := by omega
  constructor
  · conv_lhs => rw [e]
    rw [Nat.mul_add_div hW, Nat.div_eq_of_lt hlt1]
    rfl
  · conv_lhs => rw [e]
    rw [Nat.mul_add_mod, Nat.mod_eq_of_lt hlt1]

theorem tga_stream_index_bound (W H k : Nat) (hW : 0 < W) (hk : k < W * H) :
    tga_stream_index W H k + 4 ≤ W * H * 4 := by
  have hdiv : k / W < H := Nat.div_lt_of_lt_mul hk
  have hmod : k % W < W := Nat.mod_lt _ hW
  have := tga_pixel_index_lt W H (k / W) (k % W) hdiv hmod
  unfold tga_stream_index
  omega

theorem tga_stream_index_inj (W H i k : Nat) (hW : 0 < W) (hi : i < W * H)
    (hk : k < W * H) (hne : i ≠ k) :
    tga_stream_index W H i + 4 ≤ tga_stream_index W H k ∨
      tga_stream_index W H k + 4 ≤ tga_stream_index W H i := by
  have hdi : i / W < H := Nat.div_lt_of_lt_mul hi
  have hdk : k / W < H := Nat.div_lt_of_lt_mul hk
  have hmi : i % W < W := Nat.mod_lt _ hW
  have hmk : k % W < W := Nat.mod_lt _ hW
  have hq : (H - 1 - i / W) * W + i % W ≠ (H - 1 - k / W) * W + k % W := by
    intro heq
    rw [Nat.mul_comm _ W, Nat.mul_comm _ W] at heq
    have h1 := congrArg (fun n => n % W) heq
    have h2 := congrArg (fun n => n / W) heq
    simp only at h1 h2
    rw [Nat.mul_add_mod, Nat.mul_add_mod, Nat.mod_mod, Nat.mod_mod] at h1
    rw [Nat.mul_add_div hW, Nat.mul_add_div hW, Nat.div_eq_of_lt hmi,
      Nat.div_eq_of_lt hmk] at h2
    have h3 : i / W = k / W := by omega
    apply hne
    rw [← Nat.div_add_mod i W, ← Nat.div_add_mod k W, h3, h1]
  unfold tga_stream_index
  omega

theorem tga_store_stream (W H k : Nat) (hW : 0 < W) (hk : k < W * H) (out : List Nat)
    (hlen : out.length = W * H * 4) (px : rgba) :
    ∃ out1, tga_store out (tga_stream_index W H k) px = some out1 ∧
      out1.length = out.length ∧
      raster_pixel out1 (tga_stream_index W H k) = px ∧
      ∀ i, i < W * H → i ≠ k →
        raster_pixel out1 (tga_stream_index W H i)
          = raster_pixel out (tga_stream_index W H i) := by
  obtain ⟨out1, hs⟩ := tga_store_ok out (tga_stream_index W H k) px
    (by rw [hlen]; exact tga_stream_index_bound W H k hW hk)
  obtain ⟨hl, hpx, hun⟩ := tga_store_spec _ _ _ _ hs
  exact ⟨out1, hs, hl, hpx, fun i hi hne => hun _ (tga_stream_index_inj W H i k hW hi hk hne)⟩

theorem tga_stream_step_wrap (W H k : Nat) (hW : 0 < W)
    (hcol : k % W + 1 = W) (hrow : H - 1 - k / W > 0) :
    k + 1 < W * H ∧ H - 1 - k / W - 1 = H - 1 - (k + 1) / W ∧ 0 = (k + 1) % W ∧
      (H - 1 - k / W - 1) * W * 4 = tga_stream_index W H (k + 1) := by
  obtain ⟨e1, e2⟩ := succ_div_mod_wrap W k hW hcol
  have hlt : (k + 1) / W < H := by omega
  refine ⟨(Nat.div_lt_iff_lt_mul hW).mp hlt |> fun h => by rw [Nat.mul_comm]; exact h,
    by omega, e2.symm, ?_⟩
  unfold tga_stream_index
  rw [e2, e1, Nat.add_zero]
  congr 2

theorem tga_stream_step_last (W H k : Nat) (hW : 0 < W) (hk : k < W * H)
    (hcol : k % W + 1 = W) (hrow : ¬ H - 1 - k / W > 0) : W * H ≤ k + 1 := by
  obtain ⟨e1, _⟩ := succ_div_mod_wrap W k hW hcol
  have hdk : k / W < H := Nat.div_lt_of_lt_mul hk
  by_contra hcon
  have hlt : (k + 1) / W < H := Nat.div_lt_of_lt_mul (by omega)
  omega

theorem tga_stream_step_stay (W H k : Nat) (hW : 0 < W) (hk : k < W * H)
    (hcol : k % W + 1 ≠ W) :
    k + 1 < W * H ∧ H - 1 - k / W = H - 1 - (k + 1) / W ∧ k % W + 1 = (k + 1) % W ∧
      tga_stream_index W H k + 4 = tga_stream_index W H (k + 1) := by
  obtain ⟨e1, e2⟩ := succ_div_mod_stay W k hW hcol
  have hdk : k / W < H := Nat.div_lt_of_lt_mul hk
  have hlt : (k + 1) / W < H := by omega
  refine ⟨(Nat.div_lt_iff_lt_mul hW).mp hlt |> fun h => by rw [Nat.mul_comm]; exact h,
    by rw [e1], e2.symm, ?_⟩
  unfold tga_stream_index
  rw [e2, e1]
  omega

theorem tga_row_ptr_stream (W H k row : Nat) (hW : 0 < W) (hsmall : W * H * 4 < 2147483648)
    (hk : k < W * H) (h : row * W * 4 = tga_stream_index W H k) :
    tga_row_ptr row W = (tga_stream_index W H k : Int) := by
  have hb := tga_stream_index_bound W H k hW hk
  rw [tga_row_ptr_small row W (by omega), h]

theorem tga_rle_run_spec (W H : Nat) (hW : 0 < W) (hsmall : W * H * 4 < 2147483648)
    (color : rgba) (inn : Nat)
    (j k row col : Nat) (out_row : Int) (out : List Nat)
    (hk : k < W * H) (hrow : row = H - 1 - k / W) (hcol : col = k % W)
    (hor : out_row = tga_stream_index W H k) (hlen : out.length = W * H * 4) :
    ∃ out1, out1.length = out.length ∧
      (∀ i, i < W * H → (i < k ∨ k + j ≤ i) →
        raster_pixel out1 (tga_stream_index W H i)
          = raster_pixel out (tga_stream_index W H i)) ∧
      (∀ i, k ≤ i → i < k + j → i < W * H →
        raster_pixel out1 (tga_stream_index W H i) = color) ∧
      tga_rle_run W color inn j row col out_row out
        = (if k + j < W * H then
            .cont inn (H - 1 - (k + j) / W) ((k + j) % W) (tga_stream_index W H (k + j)) out1
          else .break_out out1) := by
  induction j generalizing k row col out_row out with
  | zero =>
    subst hrow hcol hor
    refine ⟨out, rfl, fun _ _ _ => rfl, fun i h1 h2 => absurd h2 (by omega), ?_⟩
    simp only [tga_rle_run, Nat.add_zero, hk, if_true]
  | succ j ih =>
    subst hrow hcol hor
    obtain ⟨outA, hs, hlA, hpxA, hunA⟩ := tga_store_stream W H k hW hk out hlen color
    simp only [tga_rle_run, hs]
    have ekj : k + (j + 1) = k + 1 + j := by omega
    by_cases hc : k % W + 1 = W
    · rw [if_pos hc]
      by_cases hr : H - 1 - k / W > 0
      · rw [if_pos hr]
        obtain ⟨hk1, e1, e2, e3⟩ := tga_stream_step_wrap W H k hW hc hr
        have e4 := tga_row_ptr_stream W H (k + 1) _ hW hsmall hk1 e3
        obtain ⟨out1, hl1, hun1, hpx1, hres⟩ := ih (k + 1) (H - 1 - k / W - 1) 0
          (tga_row_ptr (H - 1 - k / W - 1) W) outA hk1 e1 e2 e4 (hlA.trans hlen)
        refine ⟨out1, hl1.trans hlA, ?_, ?_, ?_⟩
        · intro i hi hik
          rw [hun1 i hi (by omega), hunA i hi (by omega)]
        · intro i hi1 hi2 hi3
          by_cases hik : i = k
          · subst hik
            rw [hun1 i hi3 (by omega), hpxA]
          · exact hpx1 i (by omega) (by omega) hi3
        · rw [hres, ekj]
      · rw [if_neg hr]
        have hlast := tga_stream_step_last W H k hW hk hc hr
        refine ⟨outA, hlA, ?_, ?_, ?_⟩
        · intro i hi hik
          exact hunA i hi (by omega)
        · intro i hi1 hi2 hi3
          have hik : i = k := by omega
          subst hik
          exact hpxA
        · rw [if_neg (by omega)]
    · rw [if_neg hc]
      obtain ⟨hk1, e1, e2, e3⟩ := tga_stream_step_stay W H k hW hk hc
      obtain ⟨out1, hl1, hun1, hpx1, hres⟩ := ih (k + 1) (H - 1 - k / W) (k % W + 1)
        ((tga_stream_index W H k : Int) + 4) outA hk1 e1 e2 (by omega) (hlA.trans hlen)
      refine ⟨out1, hl1.trans hlA, ?_, ?_, ?_⟩
      · intro i hi hik
        rw [hun1 i hi (by omega), hunA i hi (by omega)]
      · intro i hi1 hi2 hi3
        by_cases hik : i = k
        · subst hik
          rw [hun1 i hi3 (by omega), hpxA]
        · exact hpx1 i (by omega) (by omega) hi3
      · rw [hres, ekj]

theorem tga_rle_raw_spec (rawdata : List Nat) (alpha : Bool) (bpp : Nat)
    (hbpp : (if alpha then 4 else 3) ≤ bpp) (W H : Nat) (hW : 0 < W)
    (hsmall : W * H * 4 < 2147483648)
    (j inn k row col : Nat) (out_row : Int) (out : List Nat)
    (hin : inn + bpp * j ≤ rawdata.length)
    (hk : k < W * H) (hrow : row = H - 1 - k / W) (hcol : col = k % W)
    (hor : out_row = tga_stream_index W H k) (hlen : out.length = W * H * 4) :
    ∃ out1, out1.length = out.length ∧
      (∀ i, i < W * H → (i < k ∨ k + j ≤ i) →
        raster_pixel out1 (tga_stream_index W H i)
          = raster_pixel out (tga_stream_index W H i)) ∧
      (∀ i, k ≤ i → i < k + j → i < W * H →
        raster_pixel out1 (tga_stream_index W H i)
          = tga_source_pixel rawdata (inn + bpp * (i - k)) alpha) ∧
      tga_rle_raw rawdata alpha bpp W j inn row col out_row out
        = (if k + j < W * H then
            .cont (inn + bpp * j) (H - 1 - (k + j) / W) ((k + j) % W)
              (tga_stream_index W H (k + j)) out1
          else .break_out out1) := by
  induction j generalizing inn k row col out_row out with
  | zero =>
    subst hrow hcol hor
    refine ⟨out, rfl, fun _ _ _ => rfl, fun i h1 h2 => absurd h2 (by omega), ?_⟩
    simp only [tga_rle_raw, Nat.add_zero, Nat.mul_zero, hk, if_true]
  | succ j ih =>
    subst hrow hcol hor
    have hmul : bpp * (j + 1) = bpp * j + bpp := Nat.mul_succ bpp j
    rw [hmul] at hin
    have hread := tga_read_pixel_ok rawdata inn alpha (by omega)
    obtain ⟨outA, hs, hlA, hpxA, hunA⟩ := tga_store_stream W H k hW hk out hlen
      (tga_source_pixel rawdata inn alpha)
    simp only [tga_rle_raw, hread, hs]
    have ekj : k + (j + 1) = k + 1 + j := by omega
    have einn : inn + bpp * (j + 1) = inn + bpp + bpp * j := by omega
    have hsrc : ∀ i, k ≤ i → i ≠ k → inn + bpp + bpp * (i - (k + 1)) = inn + bpp * (i - k) := by
      intro i h1 h2
      obtain ⟨m, hm⟩ : ∃ m, i - k = m + 1 := ⟨i - k - 1, by omega⟩
      have hm2 : i - (k + 1) = m := by omega
      rw [hm, hm2, Nat.mul_succ]
      omega
    by_cases hc : k % W + 1 = W
    · rw [if_pos hc]
      by_cases hr : H - 1 - k / W > 0
      · rw [if_pos hr]
        obtain ⟨hk1, e1, e2, e3⟩ := tga_stream_step_wrap W H k hW hc hr
        have e4 := tga_row_ptr_stream W H (k + 1) _ hW hsmall hk1 e3
        obtain ⟨out1, hl1, hun1, hpx1, hres⟩ := ih (inn + bpp) (k + 1) (H - 1 - k / W - 1) 0
          (tga_row_ptr (H - 1 - k / W - 1) W) outA (by omega) hk1 e1 e2 e4 (hlA.trans hlen)
        refine ⟨out1, hl1.trans hlA, ?_, ?_, ?_⟩
        · intro i hi hik
          rw [hun1 i hi (by omega), hunA i hi (by omega)]
        · intro i hi1 hi2 hi3
          by_cases hik : i = k
          · subst hik
            rw [hun1 i hi3 (by omega), hpxA, Nat.sub_self, Nat.mul_zero, Nat.add_zero]
          · rw [hpx1 i (by omega) (by omega) hi3, hsrc i hi1 hik]
        · rw [hres, ekj, einn]
      · rw [if_neg hr]
        have hlast := tga_stream_step_last W H k hW hk hc hr
        refine ⟨outA, hlA, ?_, ?_, ?_⟩
        · intro i hi hik
          exact hunA i hi (by omega)
        · intro i hi1 hi2 hi3
          have hik : i = k := by omega
          subst hik
          rw [hpxA, Nat.sub_self, Nat.mul_zero, Nat.add_zero]
        · rw [if_neg (by omega)]
    · rw [if_neg hc]
      obtain ⟨hk1, e1, e2, e3⟩ := tga_stream_step_stay W H k hW hk hc
      obtain ⟨out1, hl1, hun1, hpx1, hres⟩ := ih (inn + bpp) (k + 1) (H - 1 - k / W)
        (k % W + 1) ((tga_stream_index W H k : Int) + 4) outA (by omega) hk1 e1 e2 (by omega)
        (hlA.trans hlen)
      refine ⟨out1, hl1.trans hlA, ?_, ?_, ?_⟩
      · intro i hi hik
        rw [hun1 i hi (by omega), hunA i hi (by omega)]
      · intro i hi1 hi2 hi3
        by_cases hik : i = k
        · subst hik
          rw [hun1 i hi3 (by omega), hpxA, Nat.sub_self, Nat.mul_zero, Nat.add_zero]
        · rw [hpx1 i (by omega) (by omega) hi3, hsrc i hi1 hik]
      · rw [hres, ekj, einn]

theorem tga_rle_loop_spec (rawdata : List Nat) (alpha : Bool) (bpp : Nat)
    (hbpp : (if alpha then 4 else 3) ≤ bpp) (W H : Nat) (hW : 0 < W)
    (hsmall : W * H * 4 < 2147483648)
    (fe fl inn k : Nat) (out : List Nat) (rest : List rgba)
    (hk : k < W * H) (hlen : out.length = W * H * 4) (hfl : W * H - k ≤ fl)
    (hexp : tga_expand rawdata alpha bpp fe inn (W * H - k) = some rest) :
    ∃ out1, tga_rle_loop rawdata alpha bpp W fl inn (H - 1 - k / W) (k % W)
          (tga_stream_index W H k) out = .ok out1 ∧
      out1.length = out.length ∧
      (∀ i, i < k → raster_pixel out1 (tga_stream_index W H i)
          = raster_pixel out (tga_stream_index W H i)) ∧
      (∀ i, k ≤ i → i < W * H →
        rest[i - k]? = some (raster_pixel out1 (tga_stream_index W H i))) := by
  induction fe generalizing fl inn k out rest with
  | zero =>
    obtain ⟨m, hm⟩ : ∃ m, W * H - k = m + 1 := ⟨W * H - k - 1, by omega⟩
    rw [hm] at hexp
    simp [tga_expand] at hexp
  | succ fe ih =>
    obtain ⟨m, hm⟩ : ∃ m, W * H - k = m + 1 := ⟨W * H - k - 1, by omega⟩
    obtain ⟨fl1, hfl1⟩ : ∃ fl1, fl = fl1 + 1 := ⟨fl - 1, by omega⟩
    rw [hm] at hexp
    simp only [tga_expand] at hexp
    subst hfl1
    have hcolW : k % W < W := Nat.mod_lt _ hW
    simp only [tga_rle_loop]
    rw [if_pos hcolW]
    cases hget : rawdata[inn]? with
    | none => rw [hget] at hexp; exact absurd hexp (by simp)
    | some p =>
      rw [hget] at hexp
      simp only at hexp ⊢
      have hcnt : 1 + (p &&& 0x7f) = (p &&& 0x7F) + 1 := Nat.add_comm _ _
      by_cases hbit : p &&& 0x80 ≠ 0
      · rw [if_pos hbit] at hexp ⊢
        by_cases hfit : inn + 1 + bpp ≤ rawdata.length
        · rw [if_pos hfit] at hexp
          rw [if_neg (by omega)]
          have hread := tga_read_pixel_ok rawdata (inn + 1) alpha (by omega)
          rw [hread]
          simp only
          cases he : tga_expand rawdata alpha bpp fe (inn + 1 + bpp)
              (m + 1 - ((p &&& 0x7F) + 1)) with
          | none => rw [he] at hexp; exact absurd hexp (by simp)
          | some rest1 =>
            rw [he] at hexp
            simp only [Option.some.injEq] at hexp
            obtain ⟨outA, hlA, hunA, hpxA, hres⟩ := tga_rle_run_spec W H hW hsmall
              (tga_source_pixel rawdata (inn + 1) alpha) (inn + 1 + bpp)
              ((p &&& 0x7F) + 1) k (H - 1 - k / W) (k % W) (tga_stream_index W H k) out
              hk rfl rfl rfl hlen
            rw [hcnt, hres]
            by_cases hlt : k + ((p &&& 0x7F) + 1) < W * H
            · rw [if_pos hlt]
              simp only
              have hneed : m + 1 - ((p &&& 0x7F) + 1) = W * H - (k + ((p &&& 0x7F) + 1)) := by
                omega
              rw [hneed] at he
              obtain ⟨out1, hok, hl1, hun1, hpx1⟩ := ih fl1 (inn + 1 + bpp)
                (k + ((p &&& 0x7F) + 1)) outA rest1 hlt (hlA.trans hlen) (by omega) he
              refine ⟨out1, hok, hl1.trans hlA, ?_, ?_⟩
              · intro i hi
                rw [hun1 i (by omega), hunA i (by omega) (Or.inl hi)]
              · intro i hi1 hi2
                rw [← hexp]
                by_cases hin : i < k + ((p &&& 0x7F) + 1)
                · rw [List.getElem?_append_left (by rw [List.length_replicate]; omega),
                    List.getElem?_replicate, if_pos (by omega),
                    hun1 i hin, hpxA i hi1 hin hi2]
                · rw [List.getElem?_append_right (by rw [List.length_replicate]; omega),
                    List.length_replicate, ← hpx1 i (by omega) hi2]
                  congr 1
                  omega
            · rw [if_neg hlt]
              simp only
              refine ⟨outA, rfl, hlA, ?_, ?_⟩
              · intro i hi
                exact hunA i (by omega) (Or.inl hi)
              · intro i hi1 hi2
                rw [← hexp, List.getElem?_append_left (by rw [List.length_replicate]; omega),
                  List.getElem?_replicate, if_pos (by omega), hpxA i hi1 (by omega) hi2]
        · rw [if_neg hfit] at hexp
          exact absurd hexp (by simp)
      · rw [if_neg hbit] at hexp ⊢
        by_cases hfit : inn + 1 + bpp * ((p &&& 0x7F) + 1) ≤ rawdata.length
        · rw [if_pos hfit] at hexp
          rw [hcnt, if_neg (by omega)]
          cases he : tga_expand rawdata alpha bpp fe (inn + 1 + bpp * ((p &&& 0x7F) + 1))
              (m + 1 - ((p &&& 0x7F) + 1)) with
          | none => rw [he] at hexp; exact absurd hexp (by simp)
          | some rest1 =>
            rw [he] at hexp
            simp only [Option.some.injEq] at hexp
            obtain ⟨outA, hlA, hunA, hpxA, hres⟩ := tga_rle_raw_spec rawdata alpha bpp hbpp
              W H hW hsmall ((p &&& 0x7F) + 1) (inn + 1) k (H - 1 - k / W) (k % W)
              (tga_stream_index W H k) out (by omega) hk rfl rfl rfl hlen
            rw [hres]
            have hsrc : ∀ i, k ≤ i → i < k + ((p &&& 0x7F) + 1) →
                ((List.range ((p &&& 0x7F) + 1)).map
                  (fun t => tga_source_pixel rawdata (inn + 1 + bpp * t) alpha))[i - k]?
                  = some (tga_source_pixel rawdata (inn + 1 + bpp * (i - k)) alpha) := by
              intro i h1 h2
              rw [List.getElem?_map, List.getElem?_range (by omega)]
              rfl
            by_cases hlt : k + ((p &&& 0x7F) + 1) < W * H
            · rw [if_pos hlt]
              simp only
              have hneed : m + 1 - ((p &&& 0x7F) + 1) = W * H - (k + ((p &&& 0x7F) + 1)) := by
                omega
              rw [hneed] at he
              obtain ⟨out1, hok, hl1, hun1, hpx1⟩ := ih fl1
                (inn + 1 + bpp * ((p &&& 0x7F) + 1))
                (k + ((p &&& 0x7F) + 1)) outA rest1 hlt (hlA.trans hlen) (by omega) he
              refine ⟨out1, hok, hl1.trans hlA, ?_, ?_⟩
              · intro i hi
                rw [hun1 i (by omega), hunA i (by omega) (Or.inl hi)]
              · intro i hi1 hi2
                rw [← hexp]
                by_cases hin : i < k + ((p &&& 0x7F) + 1)
                · rw [List.getElem?_append_left
                      (by rw [List.length_map, List.length_range]; omega),
                    hsrc i hi1 hin, hun1 i hin, hpxA i hi1 hin hi2]
                · rw [List.getElem?_append_right
                      (by rw [List.length_map, List.length_range]; omega),
                    List.length_map, List.length_range, ← hpx1 i (by omega) hi2]
                  congr 1
                  omega
            · rw [if_neg hlt]
              simp only
              refine ⟨outA, rfl, hlA, ?_, ?_⟩
              · intro i hi
                exact hunA i (by omega) (Or.inl hi)
              · intro i hi1 hi2
                rw [← hexp, List.getElem?_append_left
                    (by rw [List.length_map, List.length_range]; omega),
                  hsrc i hi1 (by omega), hpxA i hi1 (by omega) hi2]
        · rw [if_neg hfit] at hexp
          exact absurd hexp (by simp)

/-- C19: for every input that `IMG_LoadTGA` accepts as a run-length (type 10)
image of width `w` and height `h` (with `MAX_TEXTURE_SIZE` at most 23170, so
that the row offset `row * cols * 4` fits in an `int`) whose
packets lie inside the input, that is, for which the reference expansion of
the packets from `offset` yields a pixel stream `stream` covering `w * h`
pixels: loading succeeds with a raster of `w * h * 4` bytes, and for every
`k < w * h` the `k`-th pixel of the stream, with channels reordered BGR[A] to
RGBA, is the output pixel in row `h - 1 - k / w`, column `k % w`.  These
`w * h` places lie inside the raster and are distinct, so the `w * h` pixels
of the raster are exactly the first `w * h` pixels of the stream; pixels of
the stream beyond them, implied by the last packet, are discarded. -/
theorem C19_tga_rle (c : Cfg) (rawdata : List Nat) (hd : tga_header) (stream : List rgba)
    (hT : c.MAX_TEXTURE_SIZE ≤ 23170)
    (hp : tga_parse c rawdata = .ok hd) (hty : hd.image_type = 10)
    (hstream : tga_expand rawdata (decide (hd.bpp = 4)) hd.bpp (hd.w * hd.h) hd.offset
      (hd.w * hd.h) = some stream) :
    ∃ pic, IMG_LoadTGA c rawdata = .ok pic hd.w hd.h ∧ pic.length = hd.w * hd.h * 4 ∧
      (∀ k, k < hd.w * hd.h →
        stream[k]? = some (raster_pixel pic (tga_stream_index hd.w hd.h k)) ∧
        tga_stream_index hd.w hd.h k + 4 ≤ pic.length) ∧
      (∀ i k, i < hd.w * hd.h → k < hd.w * hd.h →
        tga_stream_index hd.w hd.h i = tga_stream_index hd.w hd.h k → i = k) := by
  obtain ⟨hlen, hoff, _, hw, hh, _, hw1, hw2, hh1, hh2, hbpp, htype⟩ :=
    tga_parse_ok c rawdata hd hp
  have hal := tga_alloc_length hd.w hd.h (by omega) (by omega)
  have hW : 0 < hd.w := by omega
  have hN : 0 < hd.w * hd.h := Nat.mul_pos hW (by omega)
  have hstride : (if decide (hd.bpp = 4) = true then 4 else 3) ≤ hd.bpp := by
    rcases hbpp with ⟨_, h⟩ | ⟨_, h⟩ <;> simp [h]
  have hsel : tga_decode rawdata hd (List.replicate ((hd.w * hd.h * 4) % 4294967296) 0)
      = tga_decode_rle rawdata (decide (hd.bpp = 4)) hd.bpp hd.offset
          (List.replicate ((hd.w * hd.h * 4) % 4294967296) 0) hd.w hd.h := by
    unfold tga_decode
    rw [if_neg (by omega)]
    rcases hbpp with ⟨_, h⟩ | ⟨_, h⟩
    · rw [if_pos h, h]; rfl
    · rw [if_neg (by omega), h]; rfl
  have hidx0 : tga_stream_index hd.w hd.h 0 = (hd.h - 1) * hd.w * 4 := by
    simp [tga_stream_index]
  have hstream0 : tga_expand rawdata (decide (hd.bpp = 4)) hd.bpp (hd.w * hd.h) hd.offset
      (hd.w * hd.h - 0) = some stream := hstream
  have hsmall := tga_small hd.w hd.h (by omega) (by omega)
  have hptr := tga_row_ptr_stream hd.w hd.h 0 (hd.h - 1) hW hsmall hN hidx0.symm
  obtain ⟨pic, hok, hl, _, hpx⟩ := tga_rle_loop_spec rawdata (decide (hd.bpp = 4)) hd.bpp
    hstride hd.w hd.h hW hsmall (hd.w * hd.h) (hd.h * hd.w + hd.h + 1) hd.offset 0
    (List.replicate ((hd.w * hd.h * 4) % 4294967296) 0) stream hN hal
    (by rw [Nat.mul_comm hd.h hd.w]; omega) hstream0
  rw [Nat.zero_div, Nat.zero_mod, Nat.sub_zero] at hok
  refine ⟨pic, ?_, hl.trans hal, ?_, ?_⟩
  · simp only [IMG_LoadTGA, hp, hsel, tga_decode_rle]
    rw [if_pos (by omega), hptr, hok]
  · intro k hk
    refine ⟨?_, ?_⟩
    · have := hpx k (Nat.zero_le _) hk
      rwa [Nat.sub_zero] at this
    · rw [hl, hal]
      exact tga_stream_index_bound hd.w hd.h k hW hk
  · intro i k hi hk heq
    by_contra hne
    have := tga_stream_index_inj hd.w hd.h i k hW hi hk hne
    omega

/-- Witness for C19: the 2 x 2 run-length picture; its run of three pixels
fills the bottom row and the first pixel of the top row, its raw pixel the
rest. -/
theorem C19_tga_rle_witness :
    IMG_LoadTGA demo_cfg demo_tga_rle_good
      = .ok [3, 2, 1, 255, 9, 8, 7, 255, 3, 2, 1, 255, 3, 2, 1, 255] 2 2 ∧
    ∃ pic, IMG_LoadTGA demo_cfg demo_tga_rle_good = .ok pic 2 2 ∧ pic.length = 2 * 2 * 4 ∧
      (∀ k, k < 2 * 2 →
        ([{ r := 3, g := 2, b := 1, a := 255 }, { r := 3, g := 2, b := 1, a := 255 },
          { r := 3, g := 2, b := 1, a := 255 }, { r := 9, g := 8, b := 7, a := 255 }]
            : List rgba)[k]?
          = some (raster_pixel pic (tga_stream_index 2 2 k)) ∧
        tga_stream_index 2 2 k + 4 ≤ pic.length) ∧
      (∀ i k, i < 2 * 2 → k < 2 * 2 →
        tga_stream_index 2 2 i = tga_stream_index 2 2 k → i = k) :=
  ⟨by decide,
    C19_tga_rle demo_cfg demo_tga_rle_good
      { offset := 18, w := 2, h := 2, bpp := 3, image_type := 10, attributes := 0 }
      [{ r := 3, g := 2, b := 1, a := 255 }, { r := 3, g := 2, b := 1, a := 255 },
        { r := 3, g := 2, b := 1, a := 255 }, { r := 9, g := 8, b := 7, a := 255 }]
      (by decide) (by decide) rfl (by decide)⟩

/-! ## C21: bad run-length packets in TGA -/

theorem tga_bad_packet_done (rawdata : List Nat) (bpp fuel inn : Nat) :
    tga_bad_packet rawdata bpp fuel inn 0 = false := by
  cases fuel <;> simp [tga_bad_packet]

theorem tga_rle_loop_bad (rawdata : List Nat) (alpha : Bool) (bpp : Nat)
    (hbpp : (if alpha then 4 else 3) ≤ bpp) (W H : Nat) (hW : 0 < W)
    (hsmall : W * H * 4 < 2147483648)
    (fe fl inn k : Nat) (out : List Nat)
    (hk : k < W * H) (hlen : out.length = W * H * 4) (hfl : W * H - k ≤ fl)
    (hfe : W * H - k ≤ fe) :
    (tga_rle_loop rawdata alpha bpp W fl inn (H - 1 - k / W) (k % W)
        (tga_stream_index W H k) out = .error .Q_ERR_BAD_RLE_PACKET ↔
      tga_bad_packet rawdata bpp fe inn (W * H - k) = true) := by
  induction fe generalizing fl inn k out with
  | zero => omega
  | succ fe ih =>
    obtain ⟨m, hm⟩ : ∃ m, W * H - k = m + 1 := ⟨W * H - k - 1, by omega⟩
    obtain ⟨fl1, hfl1⟩ : ∃ fl1, fl = fl1 + 1 := ⟨fl - 1, by omega⟩
    subst hfl1
    rw [hm]
    have hcolW : k % W < W := Nat.mod_lt _ hW
    simp only [tga_rle_loop, tga_bad_packet]
    rw [if_pos hcolW]
    cases hget : rawdata[inn]? with
    | none => simp
    | some p =>
      simp only
      have hcnt : 1 + (p &&& 0x7f) = (p &&& 0x7F) + 1 := Nat.add_comm _ _
      by_cases hbit : p &&& 0x80 ≠ 0
      · rw [if_pos hbit, if_pos hbit]
        by_cases hfit : inn + 1 + bpp > rawdata.length
        · rw [if_pos hfit, if_pos hfit]
          simp
        · rw [if_neg hfit, if_neg hfit]
          have hread := tga_read_pixel_ok rawdata (inn + 1) alpha (by omega)
          rw [hread]
          simp only
          obtain ⟨outA, hlA, _, _, hres⟩ := tga_rle_run_spec W H hW hsmall
            (tga_source_pixel rawdata (inn + 1) alpha) (inn + 1 + bpp)
            ((p &&& 0x7F) + 1) k (H - 1 - k / W) (k % W) (tga_stream_index W H k) out
            hk rfl rfl rfl hlen
          rw [hcnt, hres]
          by_cases hlt : k + ((p &&& 0x7F) + 1) < W * H
          · rw [if_pos hlt]
            simp only
            have hneed : m + 1 - ((p &&& 0x7F) + 1) = W * H - (k + ((p &&& 0x7F) + 1)) := by
              omega
            rw [hneed]
            exact ih fl1 (inn + 1 + bpp) (k + ((p &&& 0x7F) + 1)) outA hlt
              (hlA.trans hlen) (by omega) (by omega)
          · rw [if_neg hlt]
            have hneed : m + 1 - ((p &&& 0x7F) + 1) = 0 := by omega
            rw [hneed, tga_bad_packet_done]
            simp
      · rw [if_neg hbit, if_neg hbit, hcnt]
        by_cases hfit : inn + 1 + bpp * ((p &&& 0x7F) + 1) > rawdata.length
        · rw [if_pos hfit, if_pos hfit]
          simp
        · rw [if_neg hfit, if_neg hfit]
          obtain ⟨outA, hlA, _, _, hres⟩ := tga_rle_raw_spec rawdata alpha bpp hbpp
            W H hW hsmall ((p &&& 0x7F) + 1) (inn + 1) k (H - 1 - k / W) (k % W)
            (tga_stream_index W H k) out (by omega) hk rfl rfl rfl hlen
          rw [hres]
          by_cases hlt : k + ((p &&& 0x7F) + 1) < W * H
          · rw [if_pos hlt]
            simp only
            have hneed : m + 1 - ((p &&& 0x7F) + 1) = W * H - (k + ((p &&& 0x7F) + 1)) := by
              omega
            rw [hneed]
            exact ih fl1 (inn + 1 + bpp * ((p &&& 0x7F) + 1)) (k + ((p &&& 0x7F) + 1)) outA hlt
              (hlA.trans hlen) (by omega) (by omega)
          · rw [if_neg hlt]
            have hneed : m + 1 - ((p &&& 0x7F) + 1) = 0 := by omega
            rw [hneed, tga_bad_packet_done]
            simp

/-- C21: for every input that `IMG_LoadTGA` accepts as a run-length (type 10)
image of width `w` and height `h` (with `MAX_TEXTURE_SIZE` at most 23170, so
that the row offset `row * cols * 4` fits in an `int`; `hd` holds the
checked header values): the result is `Q_ERR_BAD_RLE_PACKET`, an
outcome that carries no pixel buffer, exactly when the reference walk of the
packets meets, before the raster of `w * h` pixels is complete, a run packet
whose single pixel or a raw packet whose `count * bytes_per_pixel` payload
would extend beyond the end of the input. -/
theorem C21_tga_bad_rle (c : Cfg) (rawdata : List Nat) (hd : tga_header)
    (hT : c.MAX_TEXTURE_SIZE ≤ 23170)
    (hp : tga_parse c rawdata = .ok hd) (hty : hd.image_type = 10) :
    (IMG_LoadTGA c rawdata = .error .Q_ERR_BAD_RLE_PACKET ↔
      tga_bad_packet rawdata hd.bpp (hd.w * hd.h) hd.offset (hd.w * hd.h) = true) := by
  obtain ⟨hlen, hoff, _, hw, hh, _, hw1, hw2, hh1, hh2, hbpp, htype⟩ :=
    tga_parse_ok c rawdata hd hp
  have hal := tga_alloc_length hd.w hd.h (by omega) (by omega)
  have hW : 0 < hd.w := by omega
  have hN : 0 < hd.w * hd.h := Nat.mul_pos hW (by omega)
  have hstride : (if decide (hd.bpp = 4) = true then 4 else 3) ≤ hd.bpp := by
    rcases hbpp with ⟨_, h⟩ | ⟨_, h⟩ <;> simp [h]
  have hsel : tga_decode rawdata hd (List.replicate ((hd.w * hd.h * 4) % 4294967296) 0)
      = tga_decode_rle rawdata (decide (hd.bpp = 4)) hd.bpp hd.offset
          (List.replicate ((hd.w * hd.h * 4) % 4294967296) 0) hd.w hd.h := by
    unfold tga_decode
    rw [if_neg (by omega)]
    rcases hbpp with ⟨_, h⟩ | ⟨_, h⟩
    · rw [if_pos h, h]; rfl
    · rw [if_neg (by omega), h]; rfl
  have hidx0 : tga_stream_index hd.w hd.h 0 = (hd.h - 1) * hd.w * 4 := by
    simp [tga_stream_index]
  have hsmall := tga_small hd.w hd.h (by omega) (by omega)
  have hptr := tga_row_ptr_stream hd.w hd.h 0 (hd.h - 1) hW hsmall hN hidx0.symm
  have hloop := tga_rle_loop_bad rawdata (decide (hd.bpp = 4)) hd.bpp hstride hd.w hd.h hW
    hsmall (hd.w * hd.h) (hd.h * hd.w + hd.h + 1) hd.offset 0
    (List.replicate ((hd.w * hd.h * 4) % 4294967296) 0) hN hal
    (by rw [Nat.mul_comm hd.h hd.w]; omega) (by omega)
  rw [Nat.zero_div, Nat.zero_mod, Nat.sub_zero, Nat.sub_zero] at hloop
  rw [← hloop]
  simp only [IMG_LoadTGA, hp, hsel, tga_decode_rle]
  rw [if_pos (by omega), hptr]
  cases tga_rle_loop rawdata (decide (hd.bpp = 4)) hd.bpp hd.w (hd.h * hd.w + hd.h + 1)
      hd.offset (hd.h - 1) 0 (tga_stream_index hd.w hd.h 0 : Int)
      (List.replicate ((hd.w * hd.h * 4) % 4294967296) 0) <;> simp

/-- Witness for C21: after a raw packet of one pixel the run packet of
`demo_tga_rle_cut` has one byte of its pixel; the load ends with
`Q_ERR_BAD_RLE_PACKET`. -/
theorem C21_tga_bad_rle_witness :
    IMG_LoadTGA demo_cfg demo_tga_rle_cut = .error .Q_ERR_BAD_RLE_PACKET :=
  (C21_tga_bad_rle demo_cfg demo_tga_rle_cut
    { offset := 18, w := 2, h := 2, bpp := 3, image_type := 10, attributes := 0 }
    (by decide) (by decide) rfl).mpr (by decide)

/-! ## C22: the TGA encoder -/

theorem tga_save_header_nat (w h : Nat) :
    tga_save_header (w : Int) (h : Int)
      = [0, 0, 2, 0, 0, 0, 0, 0, 0, 0, 0, 0, w % 256, w / 256 % 256, h % 256, h / 256 % 256,
          24, 0] := by
  unfold tga_save_header
  have e1 : ((w : Int) % 256).toNat = w % 256 := by omega
  have e2 : (((w : Int) / 256) % 256).toNat = w / 256 % 256 := by omega
  have e3 : ((h : Int) % 256).toNat = h % 256 := by omega
  have e4 : (((h : Int) / 256) % 256).toNat = h / 256 % 256 := by omega
  rw [e1, e2, e3, e4]

theorem tga_save_len (c : Cfg) (w h : Nat) (hbits : 32 ≤ c.size_t_bits)
    (hfit : w * h * 3 < 2147483648) :
    to_size_t c (int32 (int32 ((w : Int) * (h : Int)) * 3)) = w * h * 3 := by
  have hp := pow_size_t_bits_ge c hbits
  have e0 : (w : Int) * (h : Int) = ((w * h : Nat) : Int) := by push_cast; rfl
  rw [e0]
  generalize w * h = n at hfit
  have e1 : int32 (n : Int) = n := by unfold int32; omega
  rw [e1]
  have e2 : int32 ((n : Int) * 3) = ((n * 3 : Nat) : Int) := by unfold int32; omega
  rw [e2]
  unfold to_size_t
  have hlt : ((n * 3 : Nat) : Int) < ((2 ^ c.size_t_bits : Nat) : Int) := by
    have : n * 3 < 2 ^ c.size_t_bits := by omega
    exact_mod_cast this
  rw [Int.emod_eq_of_lt (by omega) hlt]
  omega

theorem IMG_SaveTGA_eq (c : Cfg) (FS_Write : List Nat → List Nat → Except qerror_t Unit)
    (pic : List Nat) (w h : Nat) (hbits : 32 ≤ c.size_t_bits)
    (hfit : w * h * 3 < 2147483648) (hpic : pic.length = w * h * 3) :
    IMG_SaveTGA c FS_Write pic (w : Int) (h : Int)
      = match FS_Write [] (tga_save_header w h) with
        | .error e => .error e []
        | .ok _ =>
          match FS_Write (tga_save_header w h) pic with
          | .error e => .error e (tga_save_header w h)
          | .ok _ => .ok (tga_save_header w h ++ pic) := by
  unfold IMG_SaveTGA
  simp only
  rw [tga_save_len c w h hbits hfit, ← hpic, if_neg (by omega), List.take_length]

set_option maxRecDepth 100000 in
/-- C22 is not true of every width and height up to 65535: `len` is computed as
`width * height * 3` on `int`.  For a 32768 x 32768 picture the product is
3 * 2^30, which as an `int` is -2^30 and as a `size_t` of 64 bits exceeds the
length of the pixel array; the second write is not handed the
`width * height * 3` pixel bytes. -/
theorem C22_counterexample :
    (List.replicate (32768 * 32768 * 3) 0 : List Nat).length = 32768 * 32768 * 3 ∧
    IMG_SaveTGA demo_cfg demo_write (List.replicate (32768 * 32768 * 3) 0) 32768 32768
      = .oob_read (tga_save_header 32768 32768) := by
  refine ⟨List.length_replicate _ _, ?_⟩
  unfold IMG_SaveTGA
  simp only [demo_write, List.length_replicate]
  rw [if_pos (by decide)]

/-- C22: for every width and height in 0..65535 whose product times 3 is below
2^31 (so that `width * height * 3` fits in an `int`; `size_t` has at least 32
bits) and every pixel array of `width * height * 3` bytes: when both writes
succeed `IMG_SaveTGA` returns success and emits exactly `18 + width * height * 3`
bytes, the 18-byte header followed by the pixel bytes unchanged and in the
order given; byte 2 of the header is 2, bytes 12-13 are the width and bytes
14-15 the height in little-endian order, byte 16 is 24 and every other header
byte is 0.  If the first or the second write reports an error, that error is
returned. -/
theorem C22_tga_save (c : Cfg) (FS_Write : List Nat → List Nat → Except qerror_t Unit)
    (pic : List Nat) (w h : Nat) (hbits : 32 ≤ c.size_t_bits)
    (hw : w ≤ 65535) (hh : h ≤ 65535)
    (hfit : w * h * 3 < 2147483648) (hpic : pic.length = w * h * 3) :
    (FS_Write [] (tga_save_header w h) = .ok () → FS_Write (tga_save_header w h) pic = .ok () →
      IMG_SaveTGA c FS_Write pic w h = .ok (tga_save_header w h ++ pic)) ∧
    (tga_save_header w h ++ pic).length = 18 + w * h * 3 ∧
    (tga_save_header w h ++ pic).take 18 = tga_save_header w h ∧
    (tga_save_header w h ++ pic).drop 18 = pic ∧
    tga_save_header w h
      = [0, 0, 2, 0, 0, 0, 0, 0, 0, 0, 0, 0, w % 256, w / 256, h % 256, h / 256, 24, 0] ∧
    le_field (tga_save_header w h) 12 2 = w ∧ le_field (tga_save_header w h) 14 2 = h ∧
    (∀ e, FS_Write [] (tga_save_header w h) = .error e →
      IMG_SaveTGA c FS_Write pic w h = .error e []) ∧
    (∀ e, FS_Write [] (tga_save_header w h) = .ok () →
      FS_Write (tga_save_header w h) pic = .error e →
      IMG_SaveTGA c FS_Write pic w h = .error e (tga_save_header w h)) := by
  have heq := IMG_SaveTGA_eq c FS_Write pic w h hbits hfit hpic
  have hhdr := tga_save_header_nat w h
  have hw8 : w / 256 % 256 = w / 256 := Nat.mod_eq_of_lt (by omega)
  have hh8 : h / 256 % 256 = h / 256 := Nat.mod_eq_of_lt (by omega)
  rw [hw8, hh8] at hhdr
  have hl : (tga_save_header (w : Int) (h : Int)).length = 18 := by rw [hhdr]; rfl
  refine ⟨?_, ?_, ?_, ?_, hhdr, ?_, ?_, ?_, ?_⟩
  · intro h1 h2
    rw [heq, h1]
    simp only [h2]
  · rw [List.length_append, hl, hpic]
  · rw [← hl, List.take_left]
  · rw [← hl, List.drop_left]
  · rw [hhdr]
    simp only [le_field, List.getD_cons_succ, List.getD_cons_zero]
    omega
  · rw [hhdr]
    simp only [le_field, List.getD_cons_succ, List.getD_cons_zero]
    omega
  · intro e h1
    rw [heq, h1]
  · intro e h1 h2
    rw [heq, h1]
    simp only [h2]

/-- Witness for C22: a 2 x 1 picture; the file is the header followed by the
six pixel bytes. -/
theorem C22_tga_save_witness :
    IMG_SaveTGA demo_cfg demo_write [1, 2, 3, 4, 5, 6] (2 : Nat) (1 : Nat)
      = .ok (tga_save_header (2 : Nat) (1 : Nat) ++ [1, 2, 3, 4, 5, 6]) :=
  (C22_tga_save demo_cfg demo_write [1, 2, 3, 4, 5, 6] 2 1 (by decide) (by decide) (by decide)
    (by decide) (by decide)).1 rfl rfl

/-! ## C23: TGA round trip -/

theorem tga_parse_saved (c : Cfg) (pic : List Nat) (w h : Nat)
    (hbits : 32 ≤ c.size_t_bits) (hT : c.MAX_TEXTURE_SIZE ≤ 26754)
    (hw1 : 1 ≤ w) (hw2 : w ≤ c.MAX_TEXTURE_SIZE) (hh1 : 1 ≤ h) (hh2 : h ≤ c.MAX_TEXTURE_SIZE)
    (hpic : pic.length = w * h * 3) (h2 : 2 ≤ w * h) :
    tga_parse c (tga_save_header w h ++ pic)
      = .ok { offset := 18, w := w, h := h, bpp := 3, image_type := 2, attributes := 0 } := by
  have hhdr := tga_save_header_nat w h
  have hw8 : w / 256 % 256 = w / 256 := Nat.mod_eq_of_lt (by omega)
  have hh8 : h / 256 % 256 = h / 256 := Nat.mod_eq_of_lt (by omega)
  rw [hw8, hh8] at hhdr
  rw [hhdr]
  have hwh : w * h ≤ 26754 * 26754 := Nat.mul_le_mul (by omega) (by omega)
  have hmod := tga_extent_mod c 18 w h 3 hbits (by omega) (by omega) (by omega) (by omega)
  have hlen : ([0, 0, 2, 0, 0, 0, 0, 0, 0, 0, 0, 0, w % 256, w / 256, h % 256, h / 256,
      24, 0] ++ pic).length = 18 + w * h * 3 := by
    rw [List.length_append, hpic]; rfl
  have hfw : le_field ([0, 0, 2, 0, 0, 0, 0, 0, 0, 0, 0, 0, w % 256, w / 256, h % 256,
      h / 256, 24, 0] ++ pic) 12 2 = w := by
    simp only [le_field, List.cons_append, List.getD_cons_succ, List.getD_cons_zero]
    omega
  have hfh : le_field ([0, 0, 2, 0, 0, 0, 0, 0, 0, 0, 0, 0, w % 256, w / 256, h % 256,
      h / 256, 24, 0] ++ pic) 14 2 = h := by
    simp only [le_field, List.cons_append, List.getD_cons_succ, List.getD_cons_zero]
    omega
  unfold tga_parse
  simp only [hlen, hfw, hfh, TARGA_HEADER_SIZE]
  simp only [List.cons_append, List.getD_cons_succ, List.getD_cons_zero]
  rw [if_neg (by omega), if_neg (by omega), if_neg (by decide), if_neg (by omega)]
  rw [if_pos trivial]
  have e24 : (if (24 : Nat) = 32 then 4 else 3) = 3 := by decide
  rw [e24, Nat.add_zero, hmod, if_neg (by omega)]

theorem tga_saved_getD (pic : List Nat) (w h j : Nat) :
    (tga_save_header w h ++ pic).getD (18 + j) 0 = pic.getD j 0 := by
  have hl : (tga_save_header (w : Int) (h : Int)).length = 18 := rfl
  rw [List.getD_append_right _ _ _ _ (by rw [hl]; omega), hl]
  congr 1
  omega

theorem tga_round_trip (c : Cfg) (FS_Write : List Nat → List Nat → Except qerror_t Unit)
    (pic file : List Nat) (w h : Nat)
    (hbits : 32 ≤ c.size_t_bits) (hT : c.MAX_TEXTURE_SIZE ≤ 23170)
    (hw1 : 1 ≤ w) (hw2 : w ≤ c.MAX_TEXTURE_SIZE) (hh1 : 1 ≤ h) (hh2 : h ≤ c.MAX_TEXTURE_SIZE)
    (hpic : pic.length = w * h * 3) (h2 : 2 ≤ w * h)
    (hsave : IMG_SaveTGA c FS_Write pic w h = .ok file) :
    ∃ out, IMG_LoadTGA c file = .ok out w h ∧ out.length = w * h * 4 ∧
      ∀ r col, r < h → col < w →
        raster_pixel out ((r * w + col) * 4)
          = { r := pic.getD (((h - 1 - r) * w + col) * 3 + 2) 0,
              g := pic.getD (((h - 1 - r) * w + col) * 3 + 1) 0,
              b := pic.getD (((h - 1 - r) * w + col) * 3) 0,
              a := 255 } := by
  have hwh : w * h ≤ 26754 * 26754 := Nat.mul_le_mul (by omega) (by omega)
  have hfile : file = tga_save_header w h ++ pic := by
    rw [IMG_SaveTGA_eq c FS_Write pic w h hbits (by omega) hpic] at hsave
    cases h1 : FS_Write [] (tga_save_header w h) with
    | error e => rw [h1] at hsave; exact absurd hsave (by simp)
    | ok u =>
      rw [h1] at hsave
      simp only at hsave
      cases h2 : FS_Write (tga_save_header w h) pic with
      | error e => rw [h2] at hsave; exact absurd hsave (by simp)
      | ok u2 =>
        rw [h2] at hsave
        simp only [tga_saved.ok.injEq] at hsave
        exact hsave.symm
  subst hfile
  have hp := tga_parse_saved c pic w h hbits (by omega) hw1 hw2 hh1 hh2 hpic h2
  have hal := tga_alloc_length w h (by omega) (by omega)
  have hl : (tga_save_header (w : Int) (h : Int) ++ pic).length = 18 + w * h * 3 := by
    rw [List.length_append, hpic]; rfl
  have hcomm : h * w = w * h := Nat.mul_comm _ _
  obtain ⟨out, hrows, hlo, _, hpx⟩ := tga_decode_rows_spec (tga_save_header w h ++ pic) 3 false
    (by decide) w h 18 (List.replicate ((w * h * 4) % 4294967296) 0)
    (by rw [hl, hcomm]) (by rw [hal, hcomm])
    (by rw [hcomm]; exact tga_small w h (by omega) (by omega))
  refine ⟨out, ?_, hlo.trans hal, ?_⟩
  · simp only [IMG_LoadTGA, hp, tga_decode]
    rw [if_pos trivial, if_neg (by decide), if_neg (by decide)]
    simp only [tga_decode_bgr, hrows]
  · intro r col hr hc
    rw [hpx r col hr hc]
    simp only [tga_source_pixel, Nat.add_assoc, tga_saved_getD]
    rfl

set_option maxRecDepth 100000 in
/-- C23 fails on the code for a picture of one pixel: `IMG_SaveTGA` writes the
1 x 1 picture as 21 bytes, and `IMG_LoadTGA` rejects that file with
`Q_ERR_BAD_EXTENT`, because its first extent check asks for four bytes after
the header and comment (`offset + 4 > rawlen`) while a 24-bit pixel has
three.  For every other size the round trip holds: for `w` and `h` in
`1 .. MAX_TEXTURE_SIZE` with `w * h ≥ 2` (`MAX_TEXTURE_SIZE` at most 23170,
so that `w * h * 3` in the encoder and the row offset `row * cols * 4` in
the decoder fit in an `int`) and every pixel array of `w * h * 3` bytes, loading the file that `IMG_SaveTGA` wrote succeeds with width `w` and
height `h`, and the pixel at row `r`, column `col` has (R, G, B) equal to
bytes (2, 1, 0) of the encoder's input pixel with index `(h - 1 - r) * w + col`
and alpha 255. -/
theorem C23_tga_round_trip :
    (IMG_SaveTGA demo_cfg demo_write [1, 2, 3] 1 1 = .ok (tga_save_header 1 1 ++ [1, 2, 3]) ∧
      (tga_save_header 1 1 ++ [1, 2, 3]).length = 21 ∧
      IMG_LoadTGA demo_cfg (tga_save_header 1 1 ++ [1, 2, 3]) = .error .Q_ERR_BAD_EXTENT) ∧
    (∀ (c : Cfg) (FS_Write : List Nat → List Nat → Except qerror_t Unit)
      (pic file : List Nat) (w h : Nat),
      32 ≤ c.size_t_bits → c.MAX_TEXTURE_SIZE ≤ 23170 →
      1 ≤ w → w ≤ c.MAX_TEXTURE_SIZE → 1 ≤ h → h ≤ c.MAX_TEXTURE_SIZE →
      pic.length = w * h * 3 → 2 ≤ w * h →
      IMG_SaveTGA c FS_Write pic w h = .ok file →
      ∃ out, IMG_LoadTGA c file = .ok out w h ∧ out.length = w * h * 4 ∧
        ∀ r col, r < h → col < w →
          raster_pixel out ((r * w + col) * 4)
            = { r := pic.getD (((h - 1 - r) * w + col) * 3 + 2) 0,
                g := pic.getD (((h - 1 - r) * w + col) * 3 + 1) 0,
                b := pic.getD (((h - 1 - r) * w + col) * 3) 0,
                a := 255 }) :=
  ⟨⟨by decide, by decide, by decide⟩,
    fun c FS_Write pic file w h hbits hT hw1 hw2 hh1 hh2 hpic h2 hsave =>
      tga_round_trip c FS_Write pic file w h hbits hT hw1 hw2 hh1 hh2 hpic h2 hsave⟩

set_option maxRecDepth 100000 in
/-- Witness for C23: the round trip of a 2 x 1 picture. -/
theorem C23_tga_round_trip_witness :
    ∃ out, IMG_LoadTGA demo_cfg (tga_save_header 2 1 ++ [1, 2, 3, 4, 5, 6]) = .ok out 2 1 ∧
      out.length = 2 * 1 * 4 ∧
      ∀ r col, r < 1 → col < 2 →
        raster_pixel out ((r * 2 + col) * 4)
          = { r := [1, 2, 3, 4, 5, 6].getD (((1 - 1 - r) * 2 + col) * 3 + 2) 0,
              g := [1, 2, 3, 4, 5, 6].getD (((1 - 1 - r) * 2 + col) * 3 + 1) 0,
              b := [1, 2, 3, 4, 5, 6].getD (((1 - 1 - r) * 2 + col) * 3) 0,
              a := 255 } :=
  C23_tga_round_trip.2 demo_cfg demo_write [1, 2, 3, 4, 5, 6]
    (tga_save_header 2 1 ++ [1, 2, 3, 4, 5, 6]) 2 1 (by decide) (by decide) (by decide)
    (by decide) (by decide) (by decide) (by decide) (by decide) (by decide)

/-! ## C24: a decode error under the original extension is terminal -/

theorem try_image_format_decode_error (w : World) (fmt : Nat) (filename : List Char)
    (data : List Nat) (e : qerror_t) (hfile : w.FS_LoadFile filename = .ok data)
    (hdec : w.load fmt data filename = .error e) :
    try_image_format w fmt filename
      = (.error e, [Event.FS_LoadFile filename, Event.decode fmt filename]) := by
  unfold try_image_format
  rw [hfile]
  simp only [hdec]

theorem try_image_format_noent (w : World) (fmt : Nat) (filename : List Char)
    (hfile : w.FS_LoadFile filename = .error .Q_ERR_NOENT) :
    try_image_format w fmt filename
      = (.error .Q_ERR_NOENT, [Event.FS_LoadFile filename]) := by
  unfold try_image_format
  rw [hfile]

theorem load_pic_known (c : Cfg) (w : World) (name : List Char) (type : Nat)
    (hknown : find_format (name.drop (name.length - 3)) IM_MAX 0 ≠ IM_MAX)
    (hov : w.r_override_textures = false) :
    load_pic c w name type
      = match (try_image_format w (find_format (name.drop (name.length - 3)) IM_MAX 0)
            name).1 with
        | .error .Q_ERR_NOENT =>
          try_other_formats c w (find_format (name.drop (name.length - 3)) IM_MAX 0) type
            (name.length - 3) w.img_search name
            (try_image_format w (find_format (name.drop (name.length - 3)) IM_MAX 0) name).2
        | ret =>
          { ret := ret, buffer := name,
            trace := (try_image_format w (find_format (name.drop (name.length - 3)) IM_MAX 0)
              name).2 } := by
  unfold load_pic
  simp only
  rw [if_neg hknown, hov]
  simp only [Bool.false_eq_true, if_false]

/-- C24: with override mode off, for a request whose extension names a known
decoder `fmt` and which misses the cache: if the file under the requested
name exists but decoder `fmt` fails on it with an error `e` other than
`Q_ERR_NOENT`, then `find_or_load_image` returns `e`, the slot table is
unchanged, and the only collaborator calls are the load of the requested
file and its decode: no other extension is probed. -/
theorem C24_decode_error_terminal (c : Cfg) (w : World) (s : State) (name : List Char)
    (type flags fmt : Nat) (data : List Nat) (e : qerror_t)
    (hlen : 4 < name.length) (hdot : name.getD (name.length - 4) ' ' = '.')
    (hmiss : lookup_image s name type (name_hash c name) (name.length - 4) = none)
    (hfmt : find_format (name.drop (name.length - 3)) IM_MAX 0 = fmt)
    (hknown : fmt ≠ IM_MAX) (hov : w.r_override_textures = false)
    (hfile : w.FS_LoadFile name = .ok data)
    (hdec : w.load fmt data name = .error e) (hne : e ≠ .Q_ERR_NOENT) :
    (find_or_load_image c w s name type flags).ret = .error e ∧
    (find_or_load_image c w s name type flags).state = s ∧
    (find_or_load_image c w s name type flags).trace
      = [Event.FS_LoadFile name, Event.decode fmt name] := by
  subst hfmt
  have hpic : load_pic c w name type
      = { ret := .error e, buffer := name,
          trace := [Event.FS_LoadFile name,
            Event.decode (find_format (name.drop (name.length - 3)) IM_MAX 0) name] } := by
    rw [load_pic_known c w name type hknown hov,
      try_image_format_decode_error w _ name data e hfile hdec]
    cases e <;> first | exact absurd rfl hne | rfl
  rw [find_or_load_image_miss c w s name type flags hlen hdot hmiss]
  unfold load_image
  simp only [hpic]
  exact ⟨trivial, trivial, trivial⟩

/-- Witness for C24: `bad.pcx` exists but is empty; the lookup reports the
decoder's error and probes nothing else. -/
theorem C24_decode_error_terminal_witness :
    (find_or_load_image demo_cfg demo_world (demo_init 1) name_bad 0 0).ret
        = .error .Q_ERR_FILE_TOO_SMALL ∧
    (find_or_load_image demo_cfg demo_world (demo_init 1) name_bad 0 0).state = demo_init 1 ∧
    (find_or_load_image demo_cfg demo_world (demo_init 1) name_bad 0 0).trace
      = [Event.FS_LoadFile name_bad, Event.decode IM_PCX name_bad] :=
  C24_decode_error_terminal demo_cfg demo_world (demo_init 1) name_bad 0 0 IM_PCX [] _
    (by decide) (by decide) (by decide) (by decide) (by decide) rfl (by decide) (by decide)
    (by decide)

/-! ## C25: the walk of `try_other_formats` -/

theorem try_other_formats_eq_ref (c : Cfg) (w : World) (orig type extpos : Nat)
    (search : List Nat) (buffer : List Char) (tr : List Event)
    (h : extpos ≤ buffer.length) :
    (try_other_formats c w orig type extpos search buffer tr).ret
      = try_other_formats_ref c w orig type (buffer.take extpos) search := by
  induction search generalizing buffer tr with
  | nil =>
    simp only [try_other_formats, try_other_formats_ref, List.filter_nil, List.map_nil,
      List.find?_nil]
    split_ifs <;> rfl
  | cons fmt rest ih =>
    simp only [try_other_formats]
    by_cases ho : fmt = orig
    · rw [if_pos ho, ih buffer tr h]
      simp only [try_other_formats_ref, List.filter_cons, ho, ne_eq, not_true_eq_false,
        decide_False, Bool.false_eq_true, if_false]
    · rw [if_neg ho]
      have hfilter : (fmt :: rest).filter (fun g => decide (g ≠ orig))
          = fmt :: rest.filter (fun g => decide (g ≠ orig)) := by
        simp [List.filter_cons, ho]
      have hrep : replace_ext buffer extpos (img_ext fmt) = buffer.take extpos ++ img_ext fmt :=
        rfl
      cases hr : (try_image_format w fmt (replace_ext buffer extpos (img_ext fmt))).1 with
      | error e =>
        by_cases he : e = .Q_ERR_NOENT
        · subst he
          simp only
          rw [ih _ _ (length_replace_ext _ _ _ h), take_replace_ext _ _ _ h]
          rw [hrep] at hr
          simp only [try_other_formats_ref, hfilter, List.map_cons, hr, List.find?_cons,
            ne_eq, not_true_eq_false, decide_False]
        · have hstop : (match (Except.error e : Except qerror_t Loaded) with
              | .error .Q_ERR_NOENT =>
                try_other_formats c w orig type extpos rest
                  (replace_ext buffer extpos (img_ext fmt))
                  (tr ++ (try_image_format w fmt (replace_ext buffer extpos (img_ext fmt))).2)
              | ret =>
                { ret := ret, buffer := replace_ext buffer extpos (img_ext fmt),
                  trace := tr ++
                    (try_image_format w fmt (replace_ext buffer extpos (img_ext fmt))).2 }).ret
              = .error e := by
            cases e <;> first | exact absurd rfl he | rfl
          rw [hstop]
          rw [hrep] at hr
          have hdec : decide (¬ (Except.error e : Except qerror_t Loaded)
              = .error .Q_ERR_NOENT) = true := by
            simp only [decide_eq_true_eq]
            intro hc
            exact he (by injection hc)
          simp only [try_other_formats_ref, hfilter, List.map_cons, hr, List.find?_cons,
            ne_eq, hdec]
      | ok ld =>
        simp only
        rw [hrep] at hr
        simp only [try_other_formats_ref, hfilter, List.map_cons, hr, List.find?_cons,
          ne_eq, reduceCtorEq, not_false_eq_true, decide_True]

/-- C25: `try_other_formats(orig, type)` returns what the reference gives,
for every search order, every original format `orig` (a format or `IM_MAX`)
and every buffer whose extension starts at `extpos`: walking the search
order, each format other than `orig` is tried under the base name with its
own extension; the first result that is not `Q_ERR_NOENT` (a success or a
decode error) is returned; if every candidate is not found, the result is
that of the type default (WAL for wall textures, PCX otherwise), which is not
tried and counts as not found when it equals `orig`. -/
theorem C25_try_other_formats (c : Cfg) (w : World) (orig type extpos : Nat)
    (search : List Nat) (buffer : List Char) (h : extpos ≤ buffer.length) :
    (try_other_formats c w orig type extpos search buffer []).ret
      = try_other_formats_ref c w orig type (buffer.take extpos) search :=
  try_other_formats_eq_ref c w orig type extpos search buffer [] h

/-- Witness for C25: for `a.png` with the search order png, jpg, tga and
original format png, the walk tries `a.jpg` and `a.tga`, then the default
`a.pcx`, which exists. -/
theorem C25_try_other_formats_witness :
    (try_other_formats demo_cfg demo_world IM_PNG 0 2 demo_world.img_search
        ['a', '.', 'p', 'n', 'g'] []).ret
      = try_other_formats_ref demo_cfg demo_world IM_PNG 0 (['a', '.', 'p', 'n', 'g'].take 2)
          demo_world.img_search ∧
    try_other_formats_ref demo_cfg demo_world IM_PNG 0 ['a', '.'] demo_world.img_search
      = .ok { fmt := IM_PCX, pic := [0], width := 1, height := 1 } :=
  ⟨C25_try_other_formats demo_cfg demo_world IM_PNG 0 2 demo_world.img_search
    ['a', '.', 'p', 'n', 'g'] (by decide), by decide⟩

/-! ## C26: unrecognised extensions -/

theorem load_pic_unknown (c : Cfg) (w : World) (name : List Char) (type : Nat)
    (hfmt : find_format (name.drop (name.length - 3)) IM_MAX 0 = IM_MAX) :
    load_pic c w name type
      = match (try_other_formats c w IM_MAX type (name.length - 3) w.img_search name []).ret
          with
        | .error .Q_ERR_NOENT =>
          { try_other_formats c w IM_MAX type (name.length - 3) w.img_search name [] with
            ret := .error .Q_ERR_INVALID_PATH }
        | _ => try_other_formats c w IM_MAX type (name.length - 3) w.img_search name [] := by
  unfold load_pic
  simp only
  rw [if_pos hfmt]

/-- C26 is not true of the code when high-colour formats are enabled: the
request `c.xyz` has an unrecognised extension, the search order holds three
formats, none of `c.png`, `c.jpg`, `c.tga`, `c.pcx` exists, and the failure
reported is `Q_ERR_INVALID_PATH`, not `Q_ERR_NOENT`. -/
theorem C26_counterexample :
    find_format (name_c_xyz.drop (name_c_xyz.length - 3)) IM_MAX 0 = IM_MAX ∧
    demo_world.img_search = [IM_PNG, IM_JPG, IM_TGA] ∧
    (try_other_formats demo_cfg demo_world IM_MAX 0 (name_c_xyz.length - 3)
      demo_world.img_search name_c_xyz []).ret = .error .Q_ERR_NOENT ∧
    (find_or_load_image demo_cfg demo_world (demo_init 1) name_c_xyz 0 0).ret
      = .error .Q_ERR_INVALID_PATH := by
  decide

/-- C26, amended: for every request whose extension is unrecognised, which
misses the cache and for which the resolver finds no candidate file (the walk
of `try_other_formats` over the search order and the type default ends with
`Q_ERR_NOENT`), `find_or_load_image` reports `Q_ERR_INVALID_PATH` and leaves
the table unchanged, whatever the search order holds: with no format enabled
and with one or more enabled. -/
theorem C26_unknown_extension (c : Cfg) (w : World) (s : State) (name : List Char)
    (type flags : Nat)
    (hlen : 4 < name.length) (hdot : name.getD (name.length - 4) ' ' = '.')
    (hmiss : lookup_image s name type (name_hash c name) (name.length - 4) = none)
    (hfmt : find_format (name.drop (name.length - 3)) IM_MAX 0 = IM_MAX)
    (hnone : (try_other_formats c w IM_MAX type (name.length - 3) w.img_search name []).ret
      = .error .Q_ERR_NOENT) :
    (find_or_load_image c w s name type flags).ret = .error .Q_ERR_INVALID_PATH ∧
    (find_or_load_image c w s name type flags).state = s := by
  have hpic : (load_pic c w name type).ret = .error .Q_ERR_INVALID_PATH := by
    rw [load_pic_unknown c w name type hfmt, hnone]
  rw [find_or_load_image_miss c w s name type flags hlen hdot hmiss]
  unfold load_image
  simp only [hpic]
  exact ⟨trivial, trivial⟩

/-- Witness for C26: the request `c.xyz` with three formats enabled. -/
theorem C26_unknown_extension_witness :
    (find_or_load_image demo_cfg demo_world (demo_init 1) name_c_xyz 0 0).ret
        = .error .Q_ERR_INVALID_PATH ∧
    (find_or_load_image demo_cfg demo_world (demo_init 1) name_c_xyz 0 0).state
      = demo_init 1 :=
  C26_unknown_extension demo_cfg demo_world (demo_init 1) name_c_xyz 0 0
    (by decide) (by decide) (by decide) (by decide) (by decide)

/-! ## C27: override mode -/

theorem replace_ext_idem (buffer : List Char) (extpos : Nat) (e1 e2 : List Char)
    (h : extpos ≤ buffer.length) :
    replace_ext (replace_ext buffer extpos e1) extpos e2 = replace_ext buffer extpos e2 := by
  have := take_replace_ext buffer extpos e1 h
  unfold replace_ext at this ⊢
  rw [this]

theorem try_other_formats_walk (c : Cfg) (w : World) (orig type : Nat) (name : List Char)
    (pre : List Nat) (f : Nat) (post : List Nat) (buffer : List Char) (tr : List Event)
    (hbuf : buffer.take (name.length - 3) = name.take (name.length - 3))
    (hpre : ∀ g ∈ pre, g ≠ orig ∧
      w.FS_LoadFile (replace_ext name (name.length - 3) (img_ext g)) = .error .Q_ERR_NOENT)
    (hf : f ≠ orig)
    (hres : (try_image_format w f (replace_ext name (name.length - 3) (img_ext f))).1
      ≠ .error .Q_ERR_NOENT) :
    try_other_formats c w orig type (name.length - 3) (pre ++ f :: post) buffer tr
      = { ret := (try_image_format w f (replace_ext name (name.length - 3) (img_ext f))).1,
          buffer := replace_ext name (name.length - 3) (img_ext f),
          trace := tr ++ probe_trace name pre ++
            (try_image_format w f (replace_ext name (name.length - 3) (img_ext f))).2 } := by
  induction pre generalizing buffer tr with
  | nil =>
    have hrep : ∀ e, replace_ext buffer (name.length - 3) e
        = replace_ext name (name.length - 3) e := by
      intro e
      unfold replace_ext
      rw [hbuf]
    simp only [List.nil_append, try_other_formats, probe_trace, List.map_nil, List.append_nil]
    rw [if_neg hf, hrep]
    cases hr : (try_image_format w f (replace_ext name (name.length - 3) (img_ext f))).1 with
    | error e =>
      rw [hr] at hres
      cases e <;> first | exact absurd rfl hres | rfl
    | ok ld => rfl
  | cons g pre ih =>
    have hrep : ∀ e, replace_ext buffer (name.length - 3) e
        = replace_ext name (name.length - 3) e := by
      intro e
      unfold replace_ext
      rw [hbuf]
    obtain ⟨hg, hgfile⟩ := hpre g (List.mem_cons_self _ _)
    simp only [List.cons_append, try_other_formats, List.append_eq]
    rw [if_neg hg, hrep, try_image_format_noent w g _ hgfile]
    simp only
    rw [ih (replace_ext name (name.length - 3) (img_ext g)) _
      (take_replace_ext name _ _ (Nat.sub_le _ _))
      (fun g1 hg1 => hpre g1 (List.mem_cons_of_mem _ hg1))]
    simp only [probe_trace, List.map_cons, List.append_assoc, List.singleton_append]

theorem fill_image_no_decode (c : Cfg) (w : World) (old : image_t) (name : List Char)
    (type flags epoch : Nat) (a : Attempt) (ld : Loaded) (g : Nat) (p : List Char) :
    Event.decode g p ∉ (fill_image c w old name type flags epoch a ld).2 := by
  unfold fill_image get_image_dimensions
  simp only
  split_ifs <;> simp

theorem load_image_trace_decode (c : Cfg) (w : World) (s : State) (name : List Char)
    (type flags hash g : Nat) (p : List Char)
    (h : Event.decode g p ∈ (load_image c w s name type flags hash).trace) :
    Event.decode g p ∈ (load_pic c w name type).trace := by
  unfold load_image at h
  simp only at h
  cases hr : (load_pic c w name type).ret with
  | error e => simpa only [hr] using h
  | ok ld =>
    simp only [hr] at h
    cases ha : alloc_image c s with
    | none => simpa only [ha] using h
    | some q =>
      obtain ⟨i, n⟩ := q
      simp only [ha, List.mem_append, List.mem_singleton] at h
      rcases h with (h | h) | h
      · exact h
      · exact absurd h (fill_image_no_decode c w _ name type flags _ _ ld g p)
      · exact absurd h (by simp)

theorem try_image_format_file (w : World) (fmt : Nat) (filename : List Char)
    (data : List Nat) (hfile : w.FS_LoadFile filename = .ok data) :
    (try_image_format w fmt filename).1
        = (match w.load fmt data filename with
          | .error e => .error e
          | .ok (pic, wd, ht) => .ok { fmt := fmt, pic := pic, width := wd, height := ht }) ∧
      (try_image_format w fmt filename).2
        = [Event.FS_LoadFile filename, Event.decode fmt filename] := by
  unfold try_image_format
  rw [hfile]
  simp only
  cases w.load fmt data filename with
  | error e => exact ⟨rfl, rfl⟩
  | ok r =>
    obtain ⟨pic, wd, ht⟩ := r
    exact ⟨rfl, rfl⟩

theorem load_image_ret_error (c : Cfg) (w : World) (s : State) (name : List Char)
    (type flags hash : Nat) (e : qerror_t) (h : (load_pic c w name type).ret = .error e) :
    (load_image c w s name type flags hash).ret = .error e ∧
      (load_image c w s name type flags hash).state = s ∧
      (load_image c w s name type flags hash).trace = (load_pic c w name type).trace := by
  unfold load_image
  simp only [h]
  exact ⟨trivial, trivial, trivial⟩

theorem load_image_ok_name (c : Cfg) (w : World) (s : State) (name : List Char)
    (type flags hash i : Nat)
    (h : (load_image c w s name type flags hash).ret = .ok i) :
    ((load_image c w s name type flags hash).state.r_images i).name
      = (load_pic c w name type).buffer := by
  obtain ⟨n, ld, _, _, heq⟩ := load_image_ok c w s name type flags hash i h
  rw [heq]
  simp only [set_image, Function.update_same]
  exact (fill_image_fields c w _ name type flags _ _ ld).1

/-- C27 is not true of the code in its last clause: in override mode, with the
search order png, jpg, tga and the files `a.pcx` and `a.tga`, the request
`a.tga` resolves to the first format of the search order that has a file,
which is tga, and the file under the original extension is decoded. -/
theorem C27_counterexample :
    demo_world_override.r_override_textures = true ∧
    find_format (name_a_tga.drop (name_a_tga.length - 3)) IM_MAX 0 = IM_TGA ∧
    demo_world_override.img_search = [IM_PNG, IM_JPG, IM_TGA] ∧
    demo_world_override.FS_LoadFile name_a_tga = .ok [1] ∧
    Event.decode IM_TGA name_a_tga ∈
      (find_or_load_image demo_cfg demo_world_override (demo_init 1) name_a_tga 0 0).trace := by
  decide

/-- C27, amended: with override mode on, for a request whose extension names a
known decoder and which misses the cache: if the search order is
`pre ++ f :: post`, no file is found for the base name under the formats of
`pre` (each load reports `Q_ERR_NOENT`), a file exists under format `f` and
its decoder does not report `Q_ERR_NOENT`, then the resolver returns the
result of decoding that file (the success or the decode error) and leaves its
name in the buffer; the only calls before it are the probes of `pre`.  A
decode error is the result of the lookup, a record created carries the name
of the file of `f`, and the only decoder call of the lookup is that of `f` on
that file: the file under the original extension is decoded only if it is
that very file, whether or not it exists and would decode. -/
theorem C27_override (c : Cfg) (w : World) (s : State) (name : List Char)
    (type flags : Nat) (pre : List Nat) (f : Nat) (post : List Nat) (data : List Nat)
    (hlen : 4 < name.length) (hdot : name.getD (name.length - 4) ' ' = '.')
    (hmiss : lookup_image s name type (name_hash c name) (name.length - 4) = none)
    (hknown : find_format (name.drop (name.length - 3)) IM_MAX 0 ≠ IM_MAX)
    (hov : w.r_override_textures = true)
    (hsearch : w.img_search = pre ++ f :: post)
    (hpre : ∀ g ∈ pre, g ≠ IM_MAX ∧
      w.FS_LoadFile (replace_ext name (name.length - 3) (img_ext g)) = .error .Q_ERR_NOENT)
    (hf : f ≠ IM_MAX)
    (hfile : w.FS_LoadFile (replace_ext name (name.length - 3) (img_ext f)) = .ok data)
    (hres : w.load f data (replace_ext name (name.length - 3) (img_ext f))
      ≠ .error .Q_ERR_NOENT) :
    (load_pic c w name type).ret
      = (match w.load f data (replace_ext name (name.length - 3) (img_ext f)) with
        | .error e => .error e
        | .ok (pic, wd, ht) => .ok { fmt := f, pic := pic, width := wd, height := ht }) ∧
    (load_pic c w name type).buffer = replace_ext name (name.length - 3) (img_ext f) ∧
    (load_pic c w name type).trace
      = probe_trace name pre ++
        [Event.FS_LoadFile (replace_ext name (name.length - 3) (img_ext f)),
          Event.decode f (replace_ext name (name.length - 3) (img_ext f))] ∧
    (∀ e, w.load f data (replace_ext name (name.length - 3) (img_ext f)) = .error e →
      (find_or_load_image c w s name type flags).ret = .error e ∧
      (find_or_load_image c w s name type flags).state = s) ∧
    (∀ i, (find_or_load_image c w s name type flags).ret = .ok i →
      ((find_or_load_image c w s name type flags).state.r_images i).name
        = replace_ext name (name.length - 3) (img_ext f)) ∧
    (∀ g p, Event.decode g p ∈ (find_or_load_image c w s name type flags).trace →
      g = f ∧ p = replace_ext name (name.length - 3) (img_ext f)) := by
  obtain ⟨hfmt1, hfmt2⟩ := try_image_format_file w f _ data hfile
  have hres1 : (try_image_format w f (replace_ext name (name.length - 3) (img_ext f))).1
      ≠ .error .Q_ERR_NOENT := by
    rw [hfmt1]
    cases hl : w.load f data (replace_ext name (name.length - 3) (img_ext f)) with
    | error e =>
      intro hc
      apply hres
      rw [hl]
      simp only at hc
      have he : e = .Q_ERR_NOENT := by injection hc
      rw [he]
    | ok r =>
      obtain ⟨pic, wd, ht⟩ := r
      simp
  have hpic : load_pic c w name type
      = { ret := (try_image_format w f (replace_ext name (name.length - 3) (img_ext f))).1,
          buffer := replace_ext name (name.length - 3) (img_ext f),
          trace := [] ++ probe_trace name pre ++
            (try_image_format w f (replace_ext name (name.length - 3) (img_ext f))).2 } := by
    unfold load_pic
    simp only
    rw [if_neg hknown, if_pos hov, hsearch]
    exact try_other_formats_walk c w IM_MAX type name pre f post name [] rfl hpre hf hres1
  rw [hfmt2, List.nil_append] at hpic
  rw [find_or_load_image_miss c w s name type flags hlen hdot hmiss]
  refine ⟨?_, ?_, ?_, ?_, ?_, ?_⟩
  · rw [hpic]
    exact hfmt1
  · rw [hpic]
  · rw [hpic]
  · intro e he
    have hr : (load_pic c w name type).ret = .error e := by
      rw [hpic]
      simp only
      rw [hfmt1, he]
    have := load_image_ret_error c w s name type flags (name_hash c name) e hr
    exact ⟨this.1, this.2.1⟩
  · intro i hi
    rw [load_image_ok_name c w s name type flags _ i hi, hpic]
  · intro g p hg
    have := load_image_trace_decode c w s name type flags _ g p hg
    rw [hpic] at this
    simp only [probe_trace, List.mem_append, List.mem_map, List.mem_cons, Event.decode.injEq,
      List.mem_singleton, reduceCtorEq, and_false, exists_false, false_or, List.not_mem_nil,
      or_false] at this
    exact this

/-- Witness for C27: in override mode the request `a.pcx` resolves to `a.tga`,
the first format of the search order png, jpg, tga that has a file; `a.pcx`
exists but is not decoded. -/
theorem C27_override_witness :
    (∀ i, (find_or_load_image demo_cfg demo_world_override (demo_init 1) name_a 0 0).ret
        = .ok i →
      ((find_or_load_image demo_cfg demo_world_override (demo_init 1) name_a 0 0).state.r_images
        i).name = replace_ext name_a (name_a.length - 3) (img_ext IM_TGA)) ∧
    (∀ g p, Event.decode g p ∈
        (find_or_load_image demo_cfg demo_world_override (demo_init 1) name_a 0 0).trace →
      g = IM_TGA ∧ p = replace_ext name_a (name_a.length - 3) (img_ext IM_TGA)) :=
  (C27_override demo_cfg demo_world_override (demo_init 1) name_a 0 0 [IM_PNG, IM_JPG] IM_TGA []
    [1] (by decide) (by decide) (by decide) (by decide) (by decide) (by decide) (by decide)
    (by decide) (by decide) (by decide)).2.2.2.2

/-! ## C28: the record of a cache miss -/

theorem find_format_spec (ext : List Char) (k i r : Nat)
    (h : find_format ext k i = r) (hr : r < i + k) : Q_stricmp ext (img_ext r) = 0 := by
  induction k generalizing i with
  | zero =>
    simp only [find_format] at h
    omega
  | succ k ih =>
    simp only [find_format] at h
    split_ifs at h with h0
    · subst h
      exact h0
    · exact ih (i + 1) h (by omega)

theorem try_image_format_ok (w : World) (fmt : Nat) (filename : List Char) (ld : Loaded)
    (h : (try_image_format w fmt filename).1 = .ok ld) :
    ld.fmt = fmt ∧ Event.decode fmt filename ∈ (try_image_format w fmt filename).2 := by
  unfold try_image_format at h ⊢
  cases hf : w.FS_LoadFile filename with
  | error e => rw [hf] at h; exact absurd h (by simp)
  | ok data =>
    rw [hf] at h
    simp only at h ⊢
    cases hl : w.load fmt data filename with
    | error e => rw [hl] at h; exact absurd h (by simp)
    | ok r =>
      obtain ⟨pic, wd, ht⟩ := r
      rw [hl] at h
      simp only [Except.ok.injEq] at h
      subst h
      exact ⟨rfl, by simp⟩

theorem try_other_formats_ok (c : Cfg) (w : World) (orig type extpos : Nat)
    (search : List Nat) (buffer : List Char) (tr : List Event) (ld : Loaded)
    (hpos : extpos ≤ buffer.length)
    (h : (try_other_formats c w orig type extpos search buffer tr).ret = .ok ld) :
    (try_other_formats c w orig type extpos search buffer tr).buffer
        = replace_ext buffer extpos (img_ext ld.fmt) ∧
      Event.decode ld.fmt (replace_ext buffer extpos (img_ext ld.fmt)) ∈
        (try_other_formats c w orig type extpos search buffer tr).trace := by
  induction search generalizing buffer tr with
  | nil =>
    simp only [try_other_formats] at h ⊢
    generalize (if type = c.IT_WALL then IM_WAL else IM_PCX) = dflt at h ⊢
    by_cases hd : dflt = orig
    · rw [if_pos hd] at h
      exact absurd h (by simp)
    · rw [if_neg hd] at h ⊢
      simp only at h ⊢
      obtain ⟨e1, e2⟩ := try_image_format_ok w _ _ ld h
      rw [e1]
      exact ⟨rfl, List.mem_append_right _ e2⟩
  | cons fmt rest ih =>
    simp only [try_other_formats] at h ⊢
    by_cases ho : fmt = orig
    · rw [if_pos ho] at h ⊢
      exact ih buffer tr hpos h
    · rw [if_neg ho] at h ⊢
      cases hr : (try_image_format w fmt (replace_ext buffer extpos (img_ext fmt))).1 with
      | error e =>
        rw [hr] at h
        by_cases he : e = .Q_ERR_NOENT
        · subst he
          simp only at h ⊢
          have := ih _ _ (length_replace_ext _ _ _ hpos) h
          rw [replace_ext_idem _ _ _ _ hpos] at this
          exact this
        · exfalso
          revert h
          cases e <;> first | exact absurd rfl he | simp
      | ok ld1 =>
        rw [hr] at h
        simp only [Except.ok.injEq] at h ⊢
        subst h
        obtain ⟨e1, e2⟩ := try_image_format_ok w _ _ ld1 hr
        rw [e1]
        exact ⟨rfl, List.mem_append_right _ e2⟩

theorem load_pic_ok (c : Cfg) (w : World) (name : List Char) (type : Nat) (ld : Loaded)
    (h : (load_pic c w name type).ret = .ok ld) :
    Event.decode ld.fmt (load_pic c w name type).buffer ∈ (load_pic c w name type).trace ∧
      (((load_pic c w name type).buffer = name ∧
          ld.fmt = find_format (name.drop (name.length - 3)) IM_MAX 0 ∧ ld.fmt ≠ IM_MAX) ∨
        (load_pic c w name type).buffer
          = replace_ext name (name.length - 3) (img_ext ld.fmt)) := by
  have hpos : name.length - 3 ≤ name.length := Nat.sub_le _ _
  unfold load_pic at h ⊢
  simp only at h ⊢
  by_cases hfmt : find_format (name.drop (name.length - 3)) IM_MAX 0 = IM_MAX
  · rw [if_pos hfmt] at h ⊢
    cases hr : (try_other_formats c w IM_MAX type (name.length - 3) w.img_search name []).ret
      with
    | error e =>
      exfalso
      rw [hr] at h
      revert h
      cases e <;> simp [hr]
    | ok ld1 =>
      rw [hr] at h
      simp only at h ⊢
      obtain ⟨e1, e2⟩ := try_other_formats_ok c w _ type _ _ name [] ld hpos h
      exact ⟨by rw [e1]; exact e2, Or.inr e1⟩
  · rw [if_neg hfmt] at h ⊢
    by_cases hov : w.r_override_textures = true
    · rw [if_pos hov] at h ⊢
      obtain ⟨e1, e2⟩ := try_other_formats_ok c w _ type _ _ name [] ld hpos h
      exact ⟨by rw [e1]; exact e2, Or.inr e1⟩
    · rw [if_neg hov] at h ⊢
      cases hr : (try_image_format w (find_format (name.drop (name.length - 3)) IM_MAX 0)
          name).1 with
      | error e =>
        rw [hr] at h
        by_cases he : e = .Q_ERR_NOENT
        · subst he
          simp only at h ⊢
          obtain ⟨e1, e2⟩ := try_other_formats_ok c w _ type _ _ name _ ld hpos h
          exact ⟨by rw [e1]; exact e2, Or.inr e1⟩
        · exfalso
          revert h
          cases e <;> first | exact absurd rfl he | simp
      | ok ld1 =>
        rw [hr] at h
        simp only [Except.ok.injEq] at h ⊢
        subst h
        obtain ⟨e1, e2⟩ := try_image_format_ok w _ _ ld1 hr
        refine ⟨?_, Or.inl ⟨trivial, e1, by rw [e1]; exact hfmt⟩⟩
        rw [e1]
        exact e2

theorem find_format_le (ext : List Char) (k i : Nat) : find_format ext k i ≤ i + k := by
  induction k generalizing i with
  | zero => simp [find_format]
  | succ k ih =>
    simp only [find_format]
    split_ifs
    · omega
    · have := ih (i + 1)
      omega

theorem get_image_dimensions_flags (c : Cfg) (w : World) (img : image_t) (fmt : Nat)
    (buffer : List Char) (extpos : Nat) :
    (get_image_dimensions c w img fmt buffer extpos).1.flags = img.flags := by
  unfold get_image_dimensions
  simp only
  split_ifs <;> rfl

theorem lor_land_self (a p : Nat) : (a ||| p) &&& p = p := by
  apply Nat.eq_of_testBit_eq
  intro i
  simp only [Nat.testBit_and, Nat.testBit_or]
  cases a.testBit i <;> cases p.testBit i <;> rfl

theorem fill_image_paletted (c : Cfg) (w : World) (old : image_t) (name : List Char)
    (type flags epoch : Nat) (a : Attempt) (ld : Loaded)
    (hup : ∀ img pic wd ht,
      (w.IMG_Load img pic wd ht).1 &&& c.IF_PALETTED = img.flags &&& c.IF_PALETTED) :
    (fill_image c w old name type flags epoch a ld).1.flags &&& c.IF_PALETTED
      = (if ld.fmt ≤ IM_WAL then flags ||| c.IF_PALETTED else flags) &&& c.IF_PALETTED := by
  unfold fill_image
  simp only
  rw [hup]
  split_ifs <;> simp only [get_image_dimensions_flags]

set_option maxRecDepth 100000 in
/-- Counterexample to C28: the caller passes the paletted bit in `flags`.  The
lookup of `a.tga` misses the cache, decodes `a.tga` with the TGA decoder, and
the new record has the paletted flag set, although the file decoded is
neither PCX nor WAL: `image->flags = flags` copies the caller's bits and the
flag is only or-ed in afterwards. -/
theorem C28_counterexample :
    lookup_image (demo_init 1) name_a_tga 0 (name_hash demo_cfg name_a_tga)
      (name_a_tga.length - 4) = none ∧
    (find_or_load_image demo_cfg demo_world_override (demo_init 1) name_a_tga 0
      demo_cfg.IF_PALETTED).ret = .ok 1 ∧
    (load_pic demo_cfg demo_world_override name_a_tga 0).ret
      = .ok { fmt := IM_TGA, pic := [0], width := 1, height := 1 } ∧
    Event.decode IM_TGA name_a_tga ∈
      (find_or_load_image demo_cfg demo_world_override (demo_init 1) name_a_tga 0
        demo_cfg.IF_PALETTED).trace ∧
    ((find_or_load_image demo_cfg demo_world_override (demo_init 1) name_a_tga 0
      demo_cfg.IF_PALETTED).state.r_images 1).flags &&& demo_cfg.IF_PALETTED ≠ 0 := by
  decide

/-- C28 (amended): for every successful cache miss (the renderer upload leaves
the paletted bit of the record as it finds it, and `IF_PALETTED` is a nonzero
bit): the resolver decoded a file of some format, that decoder call is in the
trace with the stored name of the new record as its file name, the record has
the paletted flag set if and only if the format decoded is PCX or WAL or the
caller passed the paletted bit in `flags`, and the stored name is the
requested base name followed by the extension of the format decoded:
it agrees with the request up to the extension, its extension is that of the
format decoded (compared as `find_or_load_image` compares extensions,
ignoring case), and it is either the requested name itself or the request
with its extension replaced by the extension of the format decoded. -/
theorem C28_miss_record (c : Cfg) (w : World) (s : State) (name : List Char)
    (type flags i : Nat)
    (hP : c.IF_PALETTED ≠ 0)
    (hup : ∀ img pic wd ht,
      (w.IMG_Load img pic wd ht).1 &&& c.IF_PALETTED = img.flags &&& c.IF_PALETTED)
    (hmiss : lookup_image s name type (name_hash c name) (name.length - 4) = none)
    (hok : (find_or_load_image c w s name type flags).ret = .ok i) :
    ∃ ld, (load_pic c w name type).ret = .ok ld ∧
      Event.decode ld.fmt ((find_or_load_image c w s name type flags).state.r_images i).name
        ∈ (find_or_load_image c w s name type flags).trace ∧
      (((find_or_load_image c w s name type flags).state.r_images i).flags &&& c.IF_PALETTED ≠ 0
        ↔ ld.fmt = IM_PCX ∨ ld.fmt = IM_WAL ∨ flags &&& c.IF_PALETTED ≠ 0) ∧
      ((find_or_load_image c w s name type flags).state.r_images i).name.take (name.length - 3)
        = name.take (name.length - 3) ∧
      Q_stricmp
        (((find_or_load_image c w s name type flags).state.r_images i).name.drop
          (name.length - 3)) (img_ext ld.fmt) = 0 ∧
      (((find_or_load_image c w s name type flags).state.r_images i).name = name ∨
        ((find_or_load_image c w s name type flags).state.r_images i).name
          = replace_ext name (name.length - 3) (img_ext ld.fmt)) := by
  have hlen : 4 < name.length := by
    by_contra hc
    have := (find_or_load_image_invalid c w s name type flags (Or.inl (by omega))).2.2
    obtain ⟨e, he⟩ := this
    rw [he] at hok
    exact absurd hok (by simp)
  have hdot : name.getD (name.length - 4) ' ' = '.' := by
    by_contra hc
    have := (find_or_load_image_invalid c w s name type flags (Or.inr hc)).2.2
    obtain ⟨e, he⟩ := this
    rw [he] at hok
    exact absurd hok (by simp)
  rw [find_or_load_image_miss c w s name type flags hlen hdot hmiss] at hok ⊢
  obtain ⟨n, ld, hld, _, heq⟩ := load_image_ok c w s name type flags _ i hok
  obtain ⟨hdec, hbuf⟩ := load_pic_ok c w name type ld hld
  have hname : ((load_image c w s name type flags (name_hash c name)).state.r_images i).name
      = (load_pic c w name type).buffer := load_image_ok_name c w s name type flags _ i hok
  have hflagsrec : ((load_image c w s name type flags (name_hash c name)).state.r_images
      i).flags &&& c.IF_PALETTED
      = (if ld.fmt ≤ IM_WAL then flags ||| c.IF_PALETTED else flags) &&& c.IF_PALETTED := by
    rw [heq]
    simp only [set_image, Function.update_same]
    exact fill_image_paletted c w _ name type flags _ _ ld hup
  have hpos : name.length - 3 ≤ name.length := Nat.sub_le _ _
  refine ⟨ld, hld, ?_, ?_, ?_, ?_, ?_⟩
  · rw [hname]
    have htr : (load_image c w s name type flags (name_hash c name)).trace
        = (load_pic c w name type).trace ++
          (fill_image c w (s.r_images i) name type flags s.registration_sequence
            (load_pic c w name type) ld).2 ++ [Event.IMG_Load i] := by
      rw [heq]
    rw [htr]
    exact List.mem_append_left _ (List.mem_append_left _ hdec)
  · rw [hflagsrec]
    by_cases hf : ld.fmt ≤ IM_WAL
    · rw [if_pos hf, lor_land_self]
      simp only [IM_WAL, IM_PCX] at hf ⊢
      constructor
      · intro _
        by_cases h0 : ld.fmt = 0
        · exact Or.inl h0
        · exact Or.inr (Or.inl (by omega))
      · intro _; exact hP
    · rw [if_neg hf]
      simp only [IM_WAL, IM_PCX] at hf ⊢
      constructor
      · intro hc; exact Or.inr (Or.inr hc)
      · rintro (hc | hc | hc)
        · omega
        · omega
        · exact hc
  · rw [hname]
    exact (load_pic_buffer c w name type).1
  · rw [hname]
    rcases hbuf with ⟨hb, hfmt, hne⟩ | hb
    · rw [hb, hfmt]
      apply find_format_spec _ IM_MAX 0 _ rfl
      have := find_format_le (name.drop (name.length - 3)) IM_MAX 0
      rw [hfmt] at hne
      omega
    · rw [hb]
      unfold replace_ext
      rw [List.drop_left' (by rw [List.length_take]; omega)]
      unfold Q_stricmp
      rw [if_pos rfl]
  · rw [hname]
    rcases hbuf with ⟨hb, _, _⟩ | hb
    · exact Or.inl hb
    · exact Or.inr hb

/-- Witness for C28: with override off, the non-wall request `a.png` when only
`a.pcx` exists probes `a.png` (not found), walks the search order (`a.jpg`,
`a.tga`), loads `a.pcx` and yields a record named `a.pcx` with the paletted
flag set. -/
theorem C28_miss_record_witness :
    (find_or_load_image demo_cfg demo_world (demo_init 1) name_a_png 0 0).trace
      = [Event.FS_LoadFile name_a_png, Event.FS_LoadFile ['a', '.', 'j', 'p', 'g'],
          Event.FS_LoadFile name_a_tga, Event.FS_LoadFile name_a, Event.decode IM_PCX name_a,
          Event.IMG_Load 1] ∧
    ((find_or_load_image demo_cfg demo_world (demo_init 1) name_a_png 0 0).state.r_images 1).name
      = name_a ∧
    ((find_or_load_image demo_cfg demo_world (demo_init 1) name_a_png 0 0).state.r_images 1).flags
        &&& demo_cfg.IF_PALETTED = demo_cfg.IF_PALETTED ∧
    ∃ ld, (load_pic demo_cfg demo_world name_a_png 0).ret = .ok ld ∧
      Event.decode ld.fmt
        ((find_or_load_image demo_cfg demo_world (demo_init 1) name_a_png 0 0).state.r_images
          1).name
        ∈ (find_or_load_image demo_cfg demo_world (demo_init 1) name_a_png 0 0).trace ∧
      (((find_or_load_image demo_cfg demo_world (demo_init 1) name_a_png 0 0).state.r_images
          1).flags &&& demo_cfg.IF_PALETTED ≠ 0
        ↔ ld.fmt = IM_PCX ∨ ld.fmt = IM_WAL ∨ 0 &&& demo_cfg.IF_PALETTED ≠ 0) ∧
      ((find_or_load_image demo_cfg demo_world (demo_init 1) name_a_png 0 0).state.r_images
          1).name.take (name_a_png.length - 3)
        = name_a_png.take (name_a_png.length - 3) ∧
      Q_stricmp
        (((find_or_load_image demo_cfg demo_world (demo_init 1) name_a_png 0 0).state.r_images
          1).name.drop (name_a_png.length - 3)) (img_ext ld.fmt) = 0 ∧
      (((find_or_load_image demo_cfg demo_world (demo_init 1) name_a_png 0 0).state.r_images
          1).name = name_a_png ∨
        ((find_or_load_image demo_cfg demo_world (demo_init 1) name_a_png 0 0).state.r_images
          1).name = replace_ext name_a_png (name_a_png.length - 3) (img_ext ld.fmt)) :=
  ⟨by decide, by decide, by decide,
    C28_miss_record demo_cfg demo_world (demo_init 1) name_a_png 0 0 1 (by decide)
      (fun _ _ _ _ => rfl) (by decide) (by decide)⟩

/-! ## C29: dimensions of a substituted low-colour image -/

theorem fill_image_dims (c : Cfg) (w : World) (old : image_t) (name : List Char)
    (type flags epoch : Nat) (a : Attempt) (ld : Loaded)
    (hsub : find_format (name.drop (name.length - 3)) IM_MAX 0 ≤ IM_WAL ∧ ld.fmt > IM_WAL) :
    ((fill_image c w old name type flags epoch a ld).1.width,
      (fill_image c w old name type flags epoch a ld).1.height)
      = (recovered_dimensions c w (find_format (name.drop (name.length - 3)) IM_MAX 0)
          (replace_ext a.buffer (name.length - 3)
            (if find_format (name.drop (name.length - 3)) IM_MAX 0 = IM_WAL
              then img_ext IM_WAL else img_ext IM_PCX))).getD (ld.width, ld.height) := by
  have hnp : ¬ ld.fmt ≤ IM_WAL := by omega
  unfold fill_image
  simp only
  rw [if_neg hnp, if_pos hsub]
  unfold get_image_dimensions recovered_dimensions
  simp only
  split_ifs <;> rfl

theorem recovered_dimensions_none (c : Cfg) (w : World) (fmt : Nat) (path : List Char)
    (h : read_header w path (if fmt = IM_WAL then c.sizeof_miptex_t else c.sizeof_dpcx_t)
      = none) :
    recovered_dimensions c w fmt path = none := by
  have hz : declared_dimensions c w fmt path = (0, 0) := by
    unfold declared_dimensions
    split_ifs at h ⊢ with hf <;> simp only [h]
  unfold recovered_dimensions
  rw [hz]
  exact if_pos (Or.inl (by decide))

set_option maxRecDepth 1000000 in
/-- C29 fails on the code for a PCX original whose window does not start at 0.
In `demo_world_sub` the request `a.pcx` is satisfied by the substitute `a.tga`
(2 x 2); the original `a.pcx` exists and its own decoder reports 4 x 4
(`xmax - xmin + 1` with `xmin = 2`, `xmax = 5`), but `get_image_dimensions`
takes `xmax + 1` and `ymax + 1`, so the record gets the width 6 and the height
4.  What the code does in general: for a successful miss whose request names
PCX or WAL (format `fmt`) and whose decoded format is a 32-bit one, the record
gets the dimensions read from the header of the original file
(`LittleLong` of the width and height fields for WAL, `LittleShort(xmax) + 1`
and `LittleShort(ymax) + 1` for PCX) when both lie in 1..512 and their product
is at most `MAX_PALETTED_PIXELS`, and keeps the dimensions of the substitute
otherwise, in particular when the original is missing or shorter than its
header. -/
theorem C29_substitute_dimensions :
    (_IMG_LoadPCX demo_cfg demo_pcx_window true false
        = .ok { pic := some [1, 1, 1, 1, 2, 2, 2, 2, 3, 3, 3, 3, 4, 4, 4, 4], palette := none,
                width := 4, height := 4 } ∧
      (load_pic demo_cfg demo_world_sub name_a 0).ret
        = .ok { fmt := IM_TGA, pic := [9, 8, 7, 255, 12, 11, 10, 255, 3, 2, 1, 255, 6, 5, 4, 255],
                width := 2, height := 2 } ∧
      (find_or_load_image demo_cfg demo_world_sub (demo_init 1) name_a 0 0).ret = .ok 1 ∧
      ((find_or_load_image demo_cfg demo_world_sub (demo_init 1) name_a 0 0).state.r_images
        1).width = 6 ∧
      ((find_or_load_image demo_cfg demo_world_sub (demo_init 1) name_a 0 0).state.r_images
        1).height = 4) ∧
    (∀ (c : Cfg) (w : World) (s : State) (name : List Char) (type flags i fmt : Nat)
      (ld : Loaded),
      lookup_image s name type (name_hash c name) (name.length - 4) = none →
      (find_or_load_image c w s name type flags).ret = .ok i →
      (load_pic c w name type).ret = .ok ld →
      find_format (name.drop (name.length - 3)) IM_MAX 0 = fmt → fmt ≤ IM_WAL →
      ld.fmt > IM_WAL →
      (((find_or_load_image c w s name type flags).state.r_images i).width,
        ((find_or_load_image c w s name type flags).state.r_images i).height)
        = (recovered_dimensions c w fmt
            (replace_ext name (name.length - 3)
              (if fmt = IM_WAL then img_ext IM_WAL else img_ext IM_PCX))).getD
            (ld.width, ld.height) ∧
      (read_header w
          (replace_ext name (name.length - 3)
            (if fmt = IM_WAL then img_ext IM_WAL else img_ext IM_PCX))
          (if fmt = IM_WAL then c.sizeof_miptex_t else c.sizeof_dpcx_t) = none →
        ((find_or_load_image c w s name type flags).state.r_images i).width = ld.width ∧
        ((find_or_load_image c w s name type flags).state.r_images i).height = ld.height)) := by
  refine ⟨⟨by decide, by decide, by decide, by decide, by decide⟩, ?_⟩
  intro c w s name type flags i fmt ld hmiss hok hld hfmt hle hsub
  subst hfmt
  have hlen : 4 < name.length := by
    by_contra hc
    obtain ⟨e, he⟩ := (find_or_load_image_invalid c w s name type flags (Or.inl (by omega))).2.2
    rw [he] at hok
    exact absurd hok (by simp)
  have hdot : name.getD (name.length - 4) ' ' = '.' := by
    by_contra hc
    obtain ⟨e, he⟩ := (find_or_load_image_invalid c w s name type flags (Or.inr hc)).2.2
    rw [he] at hok
    exact absurd hok (by simp)
  rw [find_or_load_image_miss c w s name type flags hlen hdot hmiss] at hok ⊢
  obtain ⟨n, ld1, hld1, _, heq⟩ := load_image_ok c w s name type flags _ i hok
  rw [hld] at hld1
  simp only [Except.ok.injEq] at hld1
  subst hld1
  have hb := (load_pic_buffer c w name type).1
  have hpath : ∀ e, replace_ext (load_pic c w name type).buffer (name.length - 3) e
      = replace_ext name (name.length - 3) e := by
    intro e
    unfold replace_ext
    rw [hb]
  have hdims := fill_image_dims c w (s.r_images i) name type flags s.registration_sequence
    (load_pic c w name type) ld ⟨hle, hsub⟩
  rw [hpath] at hdims
  have hrec : (load_image c w s name type flags (name_hash c name)).state.r_images i
      = (fill_image c w (s.r_images i) name type flags s.registration_sequence
          (load_pic c w name type) ld).1 := by
    rw [heq]
    simp only [set_image, Function.update_same]
  rw [hrec]
  refine ⟨hdims, ?_⟩
  intro hnone
  rw [recovered_dimensions_none c w _ _ hnone] at hdims
  simp only [Option.getD_none, Prod.mk.injEq] at hdims
  exact hdims

set_option maxRecDepth 1000000 in
/-- Witness for C29: the general statement at the request `a.pcx` of
`demo_world_sub`: the record gets 6 x 4 from the header of `a.pcx`. -/
theorem C29_substitute_dimensions_witness :
    (((find_or_load_image demo_cfg demo_world_sub (demo_init 1) name_a 0 0).state.r_images
        1).width,
      ((find_or_load_image demo_cfg demo_world_sub (demo_init 1) name_a 0 0).state.r_images
        1).height)
      = (recovered_dimensions demo_cfg demo_world_sub IM_PCX
          (replace_ext name_a (name_a.length - 3)
            (if IM_PCX = IM_WAL then img_ext IM_WAL else img_ext IM_PCX))).getD (2, 2) :=
  (C29_substitute_dimensions.2 demo_cfg demo_world_sub (demo_init 1) name_a 0 0 1 IM_PCX
    { fmt := IM_TGA, pic := [9, 8, 7, 255, 12, 11, 10, 255, 3, 2, 1, 255, 6, 5, 4, 255],
      width := 2, height := 2 }
    (by decide) (by decide) (by decide) (by decide) (by decide) (by decide)).1

/-! ## C30: path defaulting of `R_RegisterImage` -/

/-- C30: path defaulting of `R_RegisterImage`, for an initialised table.  An
empty name returns handle 0 with `Q_ERR_NAMETOOSHORT`.  For the non-empty name
`c0 :: rest`: for skin type the path looked up is the normalised name as it
is; otherwise, when the name begins with `/` or `\`, it is the normalised
name without that first character, and neither the directory nor the
extension default is applied; otherwise it is `COM_DefaultExtension` with
`.pcx` (the helper that appends the extension when the path has none) of the
normalised `pics/` + name, provided `pics/` + name is shorter than
`MAX_QPATH`, and handle 0 with `Q_ERR_NAMETOOLONG` if it is not.  A resulting
path of `MAX_QPATH` or more characters returns handle 0 with
`Q_ERR_NAMETOOLONG`; a shorter one is handed to `find_or_load_image`, whose
record or failure is the result.  The failures before the lookup leave the
table as it is and call no collaborator. -/
theorem C30_register_path (c : Cfg) (w : World) (s : State) (type flags : Nat)
    (c0 : Char) (rest : List Char) (hinit : s.r_numImages ≠ 0) :
    R_RegisterImage c w s [] type flags
      = { handle := 0, err := some .Q_ERR_NAMETOOSHORT, state := s, trace := [] } ∧
    (∀ full : List Char,
      (type = c.IT_SKIN ∧ full = c.FS_NormalizePath (c0 :: rest)) ∨
      (type ≠ c.IT_SKIN ∧ (c0 = '/' ∨ c0 = '\\') ∧ full = c.FS_NormalizePath rest) ∨
      (type ≠ c.IT_SKIN ∧ c0 ≠ '/' ∧ c0 ≠ '\\' ∧
        (['p', 'i', 'c', 's', '/'] ++ (c0 :: rest)).length < c.MAX_QPATH ∧
        full = c.COM_DefaultExtension
          (c.FS_NormalizePath (['p', 'i', 'c', 's', '/'] ++ (c0 :: rest)))
          ['.', 'p', 'c', 'x']) →
      (full.length < c.MAX_QPATH →
        R_RegisterImage c w s (c0 :: rest) type flags
          = found_of (find_or_load_image c w s full type flags)) ∧
      (full.length ≥ c.MAX_QPATH →
        R_RegisterImage c w s (c0 :: rest) type flags
          = { handle := 0, err := some .Q_ERR_NAMETOOLONG, state := s, trace := [] })) ∧
    (type ≠ c.IT_SKIN → c0 ≠ '/' → c0 ≠ '\\' →
      (['p', 'i', 'c', 's', '/'] ++ (c0 :: rest)).length ≥ c.MAX_QPATH →
      R_RegisterImage c w s (c0 :: rest) type flags
        = { handle := 0, err := some .Q_ERR_NAMETOOLONG, state := s, trace := [] }) := by
  refine ⟨rfl, ?_, ?_⟩
  · intro full hfull
    have hreg : register_fullname c c0 rest type = .ok full := by
      unfold register_fullname
      rcases hfull with ⟨h1, h2⟩ | ⟨h1, h2, h3⟩ | ⟨h1, h2, h3, h4, h5⟩
      · rw [if_pos h1, h2]
      · rw [if_neg h1, if_pos h2, h3]
      · rw [if_neg h1, if_neg (by rintro (h | h); exact h2 h; exact h3 h)]
        simp only
        rw [if_neg (by omega), h5]
    constructor
    · intro hlt
      simp only [R_RegisterImage]
      rw [if_neg hinit, hreg]
      simp only
      rw [if_neg (by omega)]
    · intro hge
      simp only [R_RegisterImage]
      rw [if_neg hinit, hreg]
      simp only
      rw [if_pos hge]
  · intro h1 h2 h3 h4
    have hreg : register_fullname c c0 rest type = .error .Q_ERR_NAMETOOLONG := by
      unfold register_fullname
      rw [if_neg h1, if_neg (by rintro (h | h); exact h2 h; exact h3 h)]
      simp only
      rw [if_pos h4]
    simp only [R_RegisterImage]
    rw [if_neg hinit, hreg]

/-- Witness for C30: the name `a` of a non-skin type is looked up as
`pics/a.pcx`. -/
theorem C30_register_path_witness :
    R_RegisterImage demo_cfg demo_world (demo_init 1) ['a'] 0 0
      = found_of (find_or_load_image demo_cfg demo_world (demo_init 1)
          ['p', 'i', 'c', 's', '/', 'a', '.', 'p', 'c', 'x'] 0 0) :=
  ((C30_register_path demo_cfg demo_world (demo_init 1) 0 0 'a' [] (by decide)).2.1
    ['p', 'i', 'c', 's', '/', 'a', '.', 'p', 'c', 'x']
    (Or.inr (Or.inr ⟨by decide, by decide, by decide, by decide, by decide⟩))).1 (by decide)

/-! ## C31: malformed names -/

/-- C31: `find_or_load_image` rejects malformed names before any cache lookup
or file access.  For every name of length at most 4 it returns
`Q_ERR_NAMETOOSHORT`; for every longer name whose fourth character from the
end is not `.` it returns `Q_ERR_INVALID_PATH`.  In both cases no handle is
returned (the result is the error), no collaborator is called, and the state
(slot table, buckets and slot count) is the one before the call. -/
theorem C31_malformed_name (c : Cfg) (w : World) (s : State) (name : List Char)
    (type flags : Nat) :
    (name.length ≤ 4 →
      (find_or_load_image c w s name type flags).ret = .error .Q_ERR_NAMETOOSHORT ∧
      (find_or_load_image c w s name type flags).state = s ∧
      (find_or_load_image c w s name type flags).trace = []) ∧
    (4 < name.length → name.getD (name.length - 4) ' ' ≠ '.' →
      (find_or_load_image c w s name type flags).ret = .error .Q_ERR_INVALID_PATH ∧
      (find_or_load_image c w s name type flags).state = s ∧
      (find_or_load_image c w s name type flags).trace = []) := by
  constructor
  · intro h
    unfold find_or_load_image
    rw [if_pos h]
    exact ⟨rfl, rfl, rfl⟩
  · intro h1 h2
    unfold find_or_load_image
    rw [if_neg (by omega), if_pos h2]
    exact ⟨rfl, rfl, rfl⟩

/-- Witness for C31: the name `abcde` has length 5 and no `.` at the fourth
place from the end. -/
theorem C31_malformed_name_witness :
    (find_or_load_image demo_cfg demo_world (demo_init 1) ['a', 'b', 'c', 'd', 'e'] 0 0).ret
        = .error .Q_ERR_INVALID_PATH ∧
    (find_or_load_image demo_cfg demo_world (demo_init 1) ['a', 'b', 'c', 'd', 'e'] 0 0).state
        = demo_init 1 ∧
    (find_or_load_image demo_cfg demo_world (demo_init 1) ['a', 'b', 'c', 'd', 'e'] 0 0).trace
        = [] :=
  (C31_malformed_name demo_cfg demo_world (demo_init 1) ['a', 'b', 'c', 'd', 'e'] 0 0).2
    (by decide) (by decide)

/-! ## C32: failures return the sentinel -/

theorem found_of_fields (r : FindResult) :
    (∀ i, r.ret = .ok i → (found_of r).handle = i ∧ (found_of r).err = none) ∧
    (∀ e, r.ret = .error e → (found_of r).handle = 0 ∧ (found_of r).err = some e) := by
  unfold found_of
  constructor
  · intro i h
    rw [h]
    exact ⟨rfl, rfl⟩
  · intro e h
    rw [h]
    exact ⟨rfl, rfl⟩

theorem R_RegisterImage_cases (c : Cfg) (w : World) (s : State) (name : List Char)
    (type flags : Nat) :
    (∃ e, R_RegisterImage c w s name type flags
      = { handle := 0, err := some e, state := s, trace := [] }) ∨
    (∃ fullname, R_RegisterImage c w s name type flags
      = found_of (find_or_load_image c w s fullname type flags)) := by
  unfold R_RegisterImage
  cases name with
  | nil => exact Or.inl ⟨_, rfl⟩
  | cons c0 rest =>
    simp only
    by_cases h1 : s.r_numImages = 0
    · rw [if_pos h1]
      exact Or.inl ⟨_, rfl⟩
    · rw [if_neg h1]
      cases register_fullname c c0 rest type with
      | error e1 => exact Or.inl ⟨_, rfl⟩
      | ok fullname =>
        simp only
        by_cases h2 : fullname.length ≥ c.MAX_QPATH
        · rw [if_pos h2]
          exact Or.inl ⟨_, rfl⟩
        · rw [if_neg h2]
          exact Or.inr ⟨fullname, rfl⟩

theorem R_RegisterImage_failure (c : Cfg) (w : World) (s : State) (name : List Char)
    (type flags : Nat) (e : qerror_t)
    (h : (R_RegisterImage c w s name type flags).err = some e) :
    (R_RegisterImage c w s name type flags).handle = 0 := by
  rcases R_RegisterImage_cases c w s name type flags with ⟨e1, h1⟩ | ⟨fullname, h1⟩
  · rw [h1]
  · rw [h1] at h ⊢
    cases hf : (find_or_load_image c w s fullname type flags).ret with
    | ok i =>
      rw [((found_of_fields _).1 i hf).2] at h
      exact absurd h (by simp)
    | error e2 => exact ((found_of_fields _).2 e2 hf).1

/-- C32: for every name shorter than `MAX_QPATH` and every type, `IMG_Find`
does not take the fatal path: it returns the record of
`find_or_load_image` (loaded or cached) when that succeeds, and slot 0, the
"missing texture" record, together with the error for every failure,
whatever the failure is.  `R_RegisterImage` likewise returns handle 0
whenever it reports an error, and it reports the error of
`find_or_load_image` when the lookup it makes fails. -/
theorem C32_no_fatal_path (c : Cfg) (w : World) (s : State) (name : List Char)
    (type flags : Nat) (hlen : name.length < c.MAX_QPATH) :
    (∃ r, IMG_Find c w s name type = some r ∧
      (∀ i, (find_or_load_image c w s name type 0).ret = .ok i →
        r.handle = i ∧ r.err = none) ∧
      (∀ e, (find_or_load_image c w s name type 0).ret = .error e →
        r.handle = 0 ∧ r.err = some e)) ∧
    (∀ e, (R_RegisterImage c w s name type flags).err = some e →
      (R_RegisterImage c w s name type flags).handle = 0) ∧
    ((R_RegisterImage c w s name type flags).err = none →
      ∃ fullname, (find_or_load_image c w s fullname type flags).ret
        = .ok (R_RegisterImage c w s name type flags).handle) := by
  refine ⟨?_, ?_, ?_⟩
  · refine ⟨found_of (find_or_load_image c w s name type 0), ?_, ?_, ?_⟩
    · unfold IMG_Find
      rw [if_neg (by omega)]
    · exact (found_of_fields _).1
    · exact (found_of_fields _).2
  · intro e h
    exact R_RegisterImage_failure c w s name type flags e h
  · intro h
    rcases R_RegisterImage_cases c w s name type flags with ⟨e1, h1⟩ | ⟨fullname, h1⟩
    · rw [h1] at h
      exact absurd h (by simp)
    · rw [h1] at h ⊢
      refine ⟨fullname, ?_⟩
      cases hf : (find_or_load_image c w s fullname type flags).ret with
      | ok i => rw [((found_of_fields _).1 i hf).1]
      | error e2 =>
        rw [((found_of_fields _).2 e2 hf).2] at h
        exact absurd h (by simp)

/-- Witness for C32: the lookup of the corrupt `bad.pcx` returns the sentinel
slot 0 with the decoder's error. -/
theorem C32_no_fatal_path_witness :
    ∃ r, IMG_Find demo_cfg demo_world (demo_init 1) name_bad 0 = some r ∧
      (∀ i, (find_or_load_image demo_cfg demo_world (demo_init 1) name_bad 0 0).ret = .ok i →
        r.handle = i ∧ r.err = none) ∧
      (∀ e, (find_or_load_image demo_cfg demo_world (demo_init 1) name_bad 0 0).ret
          = .error e →
        r.handle = 0 ∧ r.err = some e) :=
  (C32_no_fatal_path demo_cfg demo_world (demo_init 1) name_bad 0 0 (by decide)).1

/-! ## C33: the search order -/

theorem take_set_succ (l : List Nat) (k i : Nat) (h : k < l.length) :
    (l.set k i).take (k + 1) = l.take k ++ [i] := by
  induction l generalizing k with
  | nil => simp at h
  | cons a l ih =>
    cases k with
    | zero => simp
    | succ k => simp [ih k (by simpa using h)]

theorem r_texture_formats_loop_spec (s : List Char) (st : search_t)
    (hlen : st.img_search.length = IM_MAX) (htot : st.img_total < IM_MAX) :
    ∃ st1, r_texture_formats_loop s st = .done st1 ∧
      st1.img_search.length = IM_MAX ∧ st1.img_total ≤ IM_MAX ∧
      search_order st1
        = (search_order st ++ s.filterMap format_letter).take IM_MAX := by
  have hsolen : ∀ t : search_t, t.img_total ≤ t.img_search.length →
      (search_order t).length = t.img_total := by
    intro t ht
    simp only [search_order, List.length_take]
    omega
  induction s generalizing st with
  | nil =>
    refine ⟨st, rfl, hlen, by omega, ?_⟩
    rw [List.filterMap_nil, List.append_nil, List.take_of_length_le]
    rw [hsolen st (by omega)]
    omega
  | cons ch rest ih =>
    simp only [r_texture_formats_loop]
    cases hl : format_letter ch with
    | none =>
      simp only
      obtain ⟨st1, h1, h2, h3, h4⟩ := ih st hlen htot
      refine ⟨st1, h1, h2, h3, ?_⟩
      rw [h4, List.filterMap_cons, hl]
    | some i =>
      simp only
      rw [if_pos (by omega)]
      have hso : search_order
          { img_search := st.img_search.set st.img_total i, img_total := st.img_total + 1 }
          = search_order st ++ [i] := by
        simp only [search_order]
        exact take_set_succ _ _ _ (by omega)
      have hfm : (ch :: rest).filterMap format_letter = i :: rest.filterMap format_letter := by
        rw [List.filterMap_cons, hl]
      by_cases hfull : st.img_total + 1 = IM_MAX
      · rw [if_pos hfull]
        refine ⟨_, rfl, by simp [hlen], by simp only; omega, ?_⟩
        rw [hso, hfm]
        have hl1 : (search_order st ++ [i]).length = IM_MAX := by
          rw [List.length_append, hsolen st (by omega)]
          exact hfull
        have happ : search_order st ++ i :: rest.filterMap format_letter
            = (search_order st ++ [i]) ++ rest.filterMap format_letter := by simp
        rw [happ, List.take_left' hl1]
      · rw [if_neg hfull]
        obtain ⟨st1, h1, h2, h3, h4⟩ := ih
          { img_search := st.img_search.set st.img_total i, img_total := st.img_total + 1 }
          (by simp [hlen]) (by simp only; omega)
        refine ⟨st1, h1, h2, h3, ?_⟩
        rw [h4, hso, hfm]
        simp

theorem tga_decode_cols_reads (rawdata : List Nat) (stride : Nat) (alpha : Bool)
    (n inn out_row : Nat) (out : List Nat)
    (hin : ∀ j, j < n → inn + j * stride + (if alpha then 4 else 3) ≤ rawdata.length)
    (hout : out_row + n * 4 ≤ out.length) :
    ∃ out1, tga_decode_cols rawdata stride alpha n inn out_row out
        = .next (inn + n * stride) out1 ∧
      out1.length = out.length ∧
      (∀ i, (i + 4 ≤ out_row ∨ out_row + n * 4 ≤ i) →
        raster_pixel out1 i = raster_pixel out i) ∧
      (∀ j, j < n → raster_pixel out1 (out_row + j * 4)
        = tga_source_pixel rawdata (inn + j * stride) alpha) := by
  induction n generalizing inn out_row out with
  | zero =>
    refine ⟨out, ?_, rfl, fun _ _ => rfl, fun j hj => absurd hj (by omega)⟩
    simp [tga_decode_cols]
  | succ n ih =>
    have hmul : (n + 1) * stride = n * stride + stride := Nat.succ_mul n stride
    have h0 := hin 0 (by omega)
    rw [Nat.zero_mul, Nat.add_zero] at h0
    have hread := tga_read_pixel_ok rawdata inn alpha h0
    obtain ⟨outA, hstore⟩ := tga_store_ok out out_row (tga_source_pixel rawdata inn alpha)
      (by omega)
    obtain ⟨hlA, hpxA, hunA⟩ := tga_store_spec _ _ _ _ hstore
    obtain ⟨out1, hrec, hl1, hun1, hpx1⟩ := ih (inn + stride) (out_row + 4) outA
      (by
        intro j hj
        have := hin (j + 1) (by omega)
        rw [Nat.succ_mul] at this
        omega)
      (by rw [hlA]; omega)
    have ecast : ((out_row + 4 : Nat) : Int) = (out_row : Int) + 4 := Nat.cast_add out_row 4
    rw [ecast] at hrec
    refine ⟨out1, ?_, hl1.trans hlA, ?_, ?_⟩
    · simp only [tga_decode_cols, hread, hstore, hrec, hmul]
      congr 1
      omega
    · intro i hi
      rw [hun1 i (by omega), hunA i (by omega)]
    · intro j hj
      cases j with
      | zero =>
        have := hun1 out_row (Or.inl (le_refl _))
        simp only [Nat.zero_mul, Nat.add_zero]
        rw [this, hpxA]
      | succ j =>
        have := hpx1 j (by omega)
        have e1 : out_row + (j + 1) * 4 = out_row + 4 + j * 4 := by omega
        have e2 : inn + (j + 1) * stride = inn + stride + j * stride := by
          rw [Nat.succ_mul]; omega
        rw [e1, e2]
        exact this

theorem tga_decode_bgra_flip_eq (rawdata : List Nat) (inn : Nat) (out : List Nat)
    (cols rows : Nat) :
    tga_decode_bgra_flip rawdata inn out cols rows
      = tga_decoded_of_loop
          (tga_decode_cols rawdata 3 true (tga_flip_count cols rows) inn 0 out) := rfl

theorem tga_flip32_pixels (c : Cfg) (rawdata : List Nat) (hd : tga_header)
    (hT : c.MAX_TEXTURE_SIZE ≤ 32767) (hbits : 32 ≤ c.size_t_bits)
    (hbytes : ∀ b ∈ rawdata, b < 256)
    (hp : tga_parse c rawdata = .ok hd) (hty : hd.image_type = 2)
    (hflip : hd.attributes &&& 32 ≠ 0) (hbpp4 : hd.bpp = 4) :
    ∃ pic, IMG_LoadTGA c rawdata = .ok pic hd.w hd.h ∧ pic.length = hd.w * hd.h * 4 ∧
      ∀ i, i < hd.w * hd.h →
        raster_pixel pic (i * 4)
          = { r := rawdata.getD (hd.offset + i * 3 + 2) 0,
              g := rawdata.getD (hd.offset + i * 3 + 1) 0,
              b := rawdata.getD (hd.offset + i * 3) 0,
              a := rawdata.getD (hd.offset + i * 3 + 3) 0 } := by
  obtain ⟨hlen, hoff, _, hw, hh, _, hw1, hw2, hh1, hh2, hbpp, htype⟩ :=
    tga_parse_ok c rawdata hd hp
  have hidlt : rawdata.getD 0 0 < 256 := by
    have hpos : 0 < rawdata.length := by
      simp only [TARGA_HEADER_SIZE] at hlen
      omega
    rw [List.getD_eq_getElem _ _ hpos]
    exact hbytes _ (List.getElem_mem _)
  have hoff18 : hd.offset = 18 + rawdata.getD 0 0 := by
    simpa only [TARGA_HEADER_SIZE] using hoff
  have hext : hd.offset + hd.w * hd.h * hd.bpp ≤ rawdata.length := by
    rcases htype with ⟨_, _, h⟩ | ⟨h, _, _⟩
    · rwa [tga_extent_mod c hd.offset hd.w hd.h hd.bpp hbits (by omega) (by omega) (by omega)
        (by omega)] at h
    · omega
  rw [hbpp4] at hext
  have hal := tga_alloc_length hd.w hd.h (by omega) (by omega)
  have hcomm : hd.h * hd.w = hd.w * hd.h := Nat.mul_comm _ _
  obtain ⟨pic, hcols, hl, _, hpx⟩ := tga_decode_cols_reads rawdata 3 true (hd.h * hd.w)
    hd.offset 0 (List.replicate ((hd.w * hd.h * 4) % 4294967296) 0)
    (by
      intro j hj
      rw [hcomm] at hj
      simp only [if_true]
      omega)
    (by rw [hal, hcomm]; omega)
  rw [Nat.cast_zero] at hcols
  have hwh : hd.w * hd.h ≤ 32767 * 32767 := Nat.mul_le_mul (by omega) (by omega)
  have hcnt := tga_flip_count_small hd.w hd.h (by rw [hcomm]; omega)
  refine ⟨pic, ?_, hl.trans hal, ?_⟩
  · simp only [IMG_LoadTGA, hp, tga_decode]
    rw [if_pos hty, if_pos hflip, if_pos hbpp4]
    rw [tga_decode_bgra_flip_eq, hcnt, hcols]
    simp only [tga_decoded_of_loop]
  · intro i hi
    have := hpx i (by rw [hcomm]; exact hi)
    rw [Nat.zero_add] at this
    rw [this]
    simp only [tga_source_pixel, if_true]

set_option maxRecDepth 100000 in
theorem IMG_LoadTGA_demo_flip32 :
    IMG_LoadTGA demo_cfg demo_tga_flip32 = .ok [3, 2, 1, 4, 6, 5, 4, 7] 2 1 := by
  have hp : tga_parse demo_cfg demo_tga_flip32
      = .ok { offset := 18, w := 2, h := 1, bpp := 4, image_type := 2, attributes := 32 } := by
    decide
  have hc : tga_flip_count 2 1 = 2 := by decide
  have hd : tga_decoded_of_loop (tga_decode_cols demo_tga_flip32 3 true 2 18 0
      (List.replicate ((2 * 1 * 4) % 4294967296) 0)) = .ok [3, 2, 1, 4, 6, 5, 4, 7] := by
    decide
  unfold IMG_LoadTGA
  rw [hp]
  simp only []
  unfold tga_decode
  simp only []
  rw [if_pos trivial, if_pos (by decide), if_pos trivial]
  rw [tga_decode_bgra_flip_eq, hc, hd]

set_option maxRecDepth 100000 in
/-- C37 fails on the code: `tga_decode_bgra_flip` reads four bytes per pixel
but advances the input by three (`in += 3`).  The 2 x 1 picture
`demo_tga_flip32` with the source pixels (1, 2, 3, 4) and (5, 6, 7, 8) is
accepted, and its second output pixel is (6, 5, 4, 7), taken from the source
bytes 5, 4, 3 and 6 after the header, where the claim gives (7, 6, 5, 8) from
the bytes 6, 5, 4 and 7.  What the code does in general: for every accepted
32-bit type 2 image with the flip attribute (`MAX_TEXTURE_SIZE` below 32768,
`size_t` of at least 32 bits, an input of bytes) the load succeeds and output
pixel `i` is taken from the source bytes `3i + 2`, `3i + 1`, `3i` and
`3i + 3` after the header and comment. -/
theorem C37_tga_flip32 :
    (tga_parse demo_cfg demo_tga_flip32
        = .ok { offset := 18, w := 2, h := 1, bpp := 4, image_type := 2, attributes := 32 } ∧
      IMG_LoadTGA demo_cfg demo_tga_flip32 = .ok [3, 2, 1, 4, 6, 5, 4, 7] 2 1) ∧
    (∀ (c : Cfg) (rawdata : List Nat) (hd : tga_header),
      c.MAX_TEXTURE_SIZE ≤ 32767 → 32 ≤ c.size_t_bits → (∀ b ∈ rawdata, b < 256) →
      tga_parse c rawdata = .ok hd → hd.image_type = 2 → hd.attributes &&& 32 ≠ 0 →
      hd.bpp = 4 →
      ∃ pic, IMG_LoadTGA c rawdata = .ok pic hd.w hd.h ∧ pic.length = hd.w * hd.h * 4 ∧
        ∀ i, i < hd.w * hd.h →
          raster_pixel pic (i * 4)
            = { r := rawdata.getD (hd.offset + i * 3 + 2) 0,
                g := rawdata.getD (hd.offset + i * 3 + 1) 0,
                b := rawdata.getD (hd.offset + i * 3) 0,
                a := rawdata.getD (hd.offset + i * 3 + 3) 0 }) :=
  ⟨⟨by decide, IMG_LoadTGA_demo_flip32⟩,
    fun c rawdata hd hT hbits hbytes hp hty hflip hbpp4 =>
      tga_flip32_pixels c rawdata hd hT hbits hbytes hp hty hflip hbpp4⟩

set_option maxRecDepth 100000 in
/-- Witness for C37: the general statement at `demo_tga_flip32`. -/
theorem C37_tga_flip32_witness :
    ∃ pic, IMG_LoadTGA demo_cfg demo_tga_flip32 = .ok pic 2 1 ∧ pic.length = 2 * 1 * 4 ∧
      ∀ i, i < 2 * 1 →
        raster_pixel pic (i * 4)
          = { r := demo_tga_flip32.getD (18 + i * 3 + 2) 0,
              g := demo_tga_flip32.getD (18 + i * 3 + 1) 0,
              b := demo_tga_flip32.getD (18 + i * 3) 0,
              a := demo_tga_flip32.getD (18 + i * 3 + 3) 0 } :=
  C37_tga_flip32.2 demo_cfg demo_tga_flip32
    { offset := 18, w := 2, h := 1, bpp := 4, image_type := 2, attributes := 32 }
    (by decide) (by decide) (by decide) (by decide) rfl (by decide) rfl

/-! ## C39: termination of the PCX pixel decoder -/

theorem pcx_scanline_fuel (rawdata : List Nat) (w scan row : Int) (fuel raw x : Nat)
    (out : List Nat) (hfuel : rawdata.length - raw < fuel) :
    pcx_scanline rawdata w scan row fuel raw x out ≠ .out_of_fuel := by
  induction fuel generalizing raw x out with
  | zero => omega
  | succ fuel ih =>
    simp only [pcx_scanline]
    by_cases hx : (x : Int) < scan
    · rw [if_pos hx]
      by_cases hend : raw ≥ rawdata.length
      · rw [if_pos hend]
        intro h
        cases h
      · rw [if_neg hend]
        cases hg : rawdata[raw]? with
        | none => intro h; cases h
        | some b =>
          simp only []
          by_cases hrun : b &&& 0xC0 = 0xC0
          · rw [if_pos hrun]
            by_cases h1 : (x : Int) + ((b &&& 0x3F : Nat) : Int) > scan
            · rw [if_pos h1]
              intro h
              cases h
            · rw [if_neg h1]
              by_cases h2 : raw + 1 ≥ rawdata.length
              · rw [if_pos h2]
                intro h
                cases h
              · rw [if_neg h2]
                cases hg1 : rawdata[raw + 1]? with
                | none => intro h; cases h
                | some v =>
                  simp only []
                  cases hr : pcx_run w row v (b &&& 0x3F) x out with
                  | none => intro h; cases h
                  | some p =>
                    obtain ⟨x1, out1⟩ := p
                    exact ih (raw + 2) x1 out1 (by omega)
          · rw [if_neg hrun]
            cases hr : pcx_run w row b 1 x out with
            | none => intro h; cases h
            | some p =>
              obtain ⟨x1, out1⟩ := p
              exact ih (raw + 1) x1 out1 (by omega)
    · rw [if_neg hx]
      intro h
      cases h

theorem pcx_scanline_fuel_eq (rawdata : List Nat) (w scan row : Int) (fuel fuel2 raw x : Nat)
    (out : List Nat) (hfuel : rawdata.length - raw < fuel)
    (hfuel2 : rawdata.length - raw < fuel2) :
    pcx_scanline rawdata w scan row fuel raw x out
      = pcx_scanline rawdata w scan row fuel2 raw x out := by
  induction fuel generalizing fuel2 raw x out with
  | zero => omega
  | succ fuel ih =>
    cases fuel2 with
    | zero => omega
    | succ fuel2 =>
      simp only [pcx_scanline]
      by_cases hx : (x : Int) < scan
      · rw [if_pos hx, if_pos hx]
        by_cases hend : raw ≥ rawdata.length
        · rw [if_pos hend, if_pos hend]
        · rw [if_neg hend, if_neg hend]
          cases hg : rawdata[raw]? with
          | none => rfl
          | some b =>
            simp only []
            by_cases hrun : b &&& 0xC0 = 0xC0
            · rw [if_pos hrun, if_pos hrun]
              by_cases h1 : (x : Int) + ((b &&& 0x3F : Nat) : Int) > scan
              · rw [if_pos h1, if_pos h1]
              · rw [if_neg h1, if_neg h1]
                by_cases h2 : raw + 1 ≥ rawdata.length
                · rw [if_pos h2, if_pos h2]
                · rw [if_neg h2, if_neg h2]
                  cases hg1 : rawdata[raw + 1]? with
                  | none => rfl
                  | some v =>
                    simp only []
                    cases hr : pcx_run w row v (b &&& 0x3F) x out with
                    | none => rfl
                    | some p =>
                      obtain ⟨x1, out1⟩ := p
                      exact ih fuel2 (raw + 2) x1 out1 (by omega) (by omega)
            · rw [if_neg hrun, if_neg hrun]
              cases hr : pcx_run w row b 1 x out with
              | none => rfl
              | some p =>
                obtain ⟨x1, out1⟩ := p
                exact ih fuel2 (raw + 1) x1 out1 (by omega) (by omega)
      · rw [if_neg hx, if_neg hx]

theorem pcx_scanline_mono (rawdata : List Nat) (w scan row : Int) (fuel fuel2 raw x : Nat)
    (out : List Nat) (hle : fuel ≤ fuel2)
    (h : pcx_scanline rawdata w scan row fuel raw x out ≠ .out_of_fuel) :
    pcx_scanline rawdata w scan row fuel2 raw x out
      = pcx_scanline rawdata w scan row fuel raw x out := by
  induction fuel generalizing fuel2 raw x out with
  | zero =>
    simp only [pcx_scanline] at h
    exact absurd rfl h
  | succ fuel ih =>
    cases fuel2 with
    | zero => omega
    | succ fuel2 =>
      simp only [pcx_scanline] at h ⊢
      by_cases hx : (x : Int) < scan
      · rw [if_pos hx] at h
        rw [if_pos hx, if_pos hx]
        by_cases hend : raw ≥ rawdata.length
        · rw [if_pos hend, if_pos hend]
        · rw [if_neg hend] at h
          rw [if_neg hend, if_neg hend]
          cases hg : rawdata[raw]? with
          | none => rfl
          | some b =>
            rw [hg] at h
            simp only [] at h ⊢
            by_cases hrun : b &&& 0xC0 = 0xC0
            · rw [if_pos hrun] at h
              rw [if_pos hrun, if_pos hrun]
              by_cases h1 : (x : Int) + ((b &&& 0x3F : Nat) : Int) > scan
              · rw [if_pos h1, if_pos h1]
              · rw [if_neg h1] at h
                rw [if_neg h1, if_neg h1]
                by_cases h2 : raw + 1 ≥ rawdata.length
                · rw [if_pos h2, if_pos h2]
                · rw [if_neg h2] at h
                  rw [if_neg h2, if_neg h2]
                  cases hg1 : rawdata[raw + 1]? with
                  | none => rfl
                  | some v =>
                    rw [hg1] at h
                    simp only [] at h ⊢
                    cases hr : pcx_run w row v (b &&& 0x3F) x out with
                    | none => rfl
                    | some p =>
                      obtain ⟨x1, out1⟩ := p
                      rw [hr] at h
                      exact ih fuel2 (raw + 2) x1 out1 (by omega) h
            · rw [if_neg hrun] at h
              rw [if_neg hrun, if_neg hrun]
              cases hr : pcx_run w row b 1 x out with
              | none => rfl
              | some p =>
                obtain ⟨x1, out1⟩ := p
                rw [hr] at h
                exact ih fuel2 (raw + 1) x1 out1 (by omega) h
      · rw [if_neg hx, if_neg hx]

theorem pcx_scanline_consumes (rawdata : List Nat) (w scan row : Int) (fuel raw x : Nat)
    (out : List Nat) (raw1 : Nat) (out1 : List Nat)
    (h : pcx_scanline rawdata w scan row fuel raw x out = .next raw1 out1) :
    raw ≤ raw1 ∧
      pcx_scanline rawdata w scan row (raw1 - raw + 1) raw x out = .next raw1 out1 := by
  induction fuel generalizing raw x out with
  | zero =>
    simp only [pcx_scanline] at h
    cases h
  | succ fuel ih =>
    simp only [pcx_scanline] at h ⊢
    by_cases hx : (x : Int) < scan
    · rw [if_pos hx] at h ⊢
      by_cases hend : raw ≥ rawdata.length
      · rw [if_pos hend] at h
        cases h
      · rw [if_neg hend] at h ⊢
        cases hg : rawdata[raw]? with
        | none =>
          rw [hg] at h
          cases h
        | some b =>
          rw [hg] at h
          simp only [] at h ⊢
          by_cases hrun : b &&& 0xC0 = 0xC0
          · rw [if_pos hrun] at h ⊢
            by_cases h1 : (x : Int) + ((b &&& 0x3F : Nat) : Int) > scan
            · rw [if_pos h1] at h
              cases h
            · rw [if_neg h1] at h ⊢
              by_cases h2 : raw + 1 ≥ rawdata.length
              · rw [if_pos h2] at h
                cases h
              · rw [if_neg h2] at h ⊢
                cases hg1 : rawdata[raw + 1]? with
                | none =>
                  rw [hg1] at h
                  cases h
                | some v =>
                  rw [hg1] at h
                  simp only [] at h ⊢
                  cases hr : pcx_run w row v (b &&& 0x3F) x out with
                  | none =>
                    rw [hr] at h
                    cases h
                  | some p =>
                    obtain ⟨x1, out2⟩ := p
                    rw [hr] at h
                    simp only [] at h ⊢
                    obtain ⟨hle, hrec⟩ := ih (raw + 2) x1 out2 h
                    refine ⟨by omega, ?_⟩
                    rw [pcx_scanline_mono rawdata w scan row (raw1 - (raw + 2) + 1) (raw1 - raw)
                      (raw + 2) x1 out2 (by omega) (by rw [hrec]; intro h0; cases h0)]
                    exact hrec
          · rw [if_neg hrun] at h ⊢
            cases hr : pcx_run w row b 1 x out with
            | none =>
              rw [hr] at h
              cases h
            | some p =>
              obtain ⟨x1, out2⟩ := p
              rw [hr] at h
              simp only [] at h ⊢
              obtain ⟨hle, hrec⟩ := ih (raw + 1) x1 out2 h
              refine ⟨by omega, ?_⟩
              have e : raw1 - raw = raw1 - (raw + 1) + 1 := by omega
              rw [e]
              exact hrec
    · rw [if_neg hx] at h ⊢
      injection h with h1 h2
      exact ⟨by omega, by rw [h1, h2]⟩

theorem pcx_rows_fuel (rawdata : List Nat) (w scan : Int) (k y raw : Nat) (out : List Nat) :
    pcx_rows rawdata w scan k y raw out ≠ .out_of_fuel := by
  induction k generalizing y raw out with
  | zero =>
    simp only [pcx_rows]
    intro h
    cases h
  | succ k ih =>
    simp only [pcx_rows]
    have hs := pcx_scanline_fuel rawdata w scan (y * w) (rawdata.length - raw + 1) raw 0 out
      (by omega)
    cases hr : pcx_scanline rawdata w scan (y * w) (rawdata.length - raw + 1) raw 0 out with
    | next raw1 out1 => exact ih (y + 1) raw1 out1
    | fail => intro h; cases h
    | oob_read => intro h; cases h
    | oob_write => intro h; cases h
    | out_of_fuel => exact absurd hr hs

theorem IMG_LoadPCX_fuel (c : Cfg) (rawdata : List Nat) (want_pic want_palette : Bool) :
    _IMG_LoadPCX c rawdata want_pic want_palette ≠ .out_of_fuel := by
  simp only [_IMG_LoadPCX]
  cases hp : pcx_parse c rawdata with
  | error e => intro h; cases h
  | ok d =>
    simp only []
    have hs := pcx_rows_fuel rawdata d.w d.scan d.h.toNat 0 dpcx_data
      (List.replicate (int32 (d.w * d.h)).toNat 0)
    by_cases h1 : want_palette = true ∧ rawdata.length < 768
    · rw [if_pos h1]
      intro h
      cases h
    · rw [if_neg h1]
      by_cases h2 : want_pic = true
      · rw [if_pos h2]
        cases hr : pcx_rows rawdata d.w d.scan d.h.toNat 0 dpcx_data
          (List.replicate (int32 (d.w * d.h)).toNat 0) with
        | next raw1 out1 => intro h; cases h
        | fail => intro h; cases h
        | oob_read => intro h; cases h
        | oob_write => intro h; cases h
        | out_of_fuel => exact absurd hr hs
      · rw [if_neg h2]
        intro h
        cases h

theorem pcx_scanline_zero_run (rawdata : List Nat) (w scan row : Int) (fuel raw x : Nat)
    (out : List Nat) (hx : (x : Int) < scan) (hb : rawdata[raw]? = some 0xC0)
    (hv : raw + 1 < rawdata.length) :
    pcx_scanline rawdata w scan row (fuel + 1) raw x out
      = pcx_scanline rawdata w scan row fuel (raw + 2) x out := by
  have hlt : raw < rawdata.length := by omega
  have hg1 : rawdata[raw + 1]? = some (rawdata.getD (raw + 1) 0) :=
    getElem?_eq_some_getD rawdata (raw + 1) hv
  simp only [pcx_scanline]
  rw [if_pos hx, if_neg (by omega), hb]
  simp only []
  rw [if_pos (by decide)]
  have e0 : (0xC0 : Nat) &&& 0x3F = 0 := by decide
  rw [e0, if_neg (by omega), if_neg (by omega), hg1]
  simp only [pcx_run]

set_option maxRecDepth 100000 in
/-- C39: the PCX pixel decoder terminates on every input, with a number of
iterations of the scanline loop bounded by the source length.  For every
source, geometry, position and raster: (1) `pcx_scanline` given more
iterations than the source bytes left from `raw` never runs out of them, and
its result is the one for `rawdata.length - raw + 1` iterations; (2) a scanline
that completes with the source at `raw1` has `raw ≤ raw1` and completes
within `raw1 - raw + 1` iterations, one per source byte consumed at least;
(3) a run packet of length zero (byte 0xC0 followed by its value byte) at a
column below `scan` takes one iteration, after which the loop stands two
bytes further in the source with the column and the raster unchanged;
(4) `pcx_rows` never runs out of iterations; (5) `_IMG_LoadPCX` never ends as
`out_of_fuel`; and (6) the picture `demo_pcx_zero_runs`, whose stream is three
runs of length zero, is rejected with `Q_ERR_BAD_RLE_PACKET`. -/
theorem C39_pcx_terminates :
    (∀ (rawdata : List Nat) (w scan row : Int) (fuel raw x : Nat) (out : List Nat),
      rawdata.length - raw < fuel →
      pcx_scanline rawdata w scan row fuel raw x out ≠ .out_of_fuel ∧
      pcx_scanline rawdata w scan row fuel raw x out
        = pcx_scanline rawdata w scan row (rawdata.length - raw + 1) raw x out) ∧
    (∀ (rawdata : List Nat) (w scan row : Int) (fuel raw x : Nat) (out : List Nat)
      (raw1 : Nat) (out1 : List Nat),
      pcx_scanline rawdata w scan row fuel raw x out = .next raw1 out1 →
      raw ≤ raw1 ∧
        pcx_scanline rawdata w scan row (raw1 - raw + 1) raw x out = .next raw1 out1) ∧
    (∀ (rawdata : List Nat) (w scan row : Int) (fuel raw x : Nat) (out : List Nat),
      (x : Int) < scan → rawdata[raw]? = some 0xC0 → raw + 1 < rawdata.length →
      pcx_scanline rawdata w scan row (fuel + 1) raw x out
        = pcx_scanline rawdata w scan row fuel (raw + 2) x out) ∧
    (∀ (rawdata : List Nat) (w scan : Int) (k y raw : Nat) (out : List Nat),
      pcx_rows rawdata w scan k y raw out ≠ .out_of_fuel) ∧
    (∀ (c : Cfg) (rawdata : List Nat) (want_pic want_palette : Bool),
      _IMG_LoadPCX c rawdata want_pic want_palette ≠ .out_of_fuel) ∧
    IMG_LoadPCX demo_cfg demo_pcx_zero_runs = .error .Q_ERR_BAD_RLE_PACKET :=
  ⟨fun rawdata w scan row fuel raw x out h =>
      ⟨pcx_scanline_fuel rawdata w scan row fuel raw x out h,
        pcx_scanline_fuel_eq rawdata w scan row fuel _ raw x out h (by omega)⟩,
    fun rawdata w scan row fuel raw x out raw1 out1 h =>
      pcx_scanline_consumes rawdata w scan row fuel raw x out raw1 out1 h,
    fun rawdata w scan row fuel raw x out hx hb hv =>
      pcx_scanline_zero_run rawdata w scan row fuel raw x out hx hb hv,
    fun rawdata w scan k y raw out => pcx_rows_fuel rawdata w scan k y raw out,
    fun c rawdata want_pic want_palette => IMG_LoadPCX_fuel c rawdata want_pic want_palette,
    by decide⟩

set_option maxRecDepth 100000 in
/-- Witness for C39: the scanline loop on `demo_pcx_zero_runs` from the first
stream byte, given 7 iterations for the 6 bytes left. -/
theorem C39_pcx_terminates_witness :
    demo_pcx_zero_runs.length - 128 < 7 ∧
    pcx_scanline demo_pcx_zero_runs 1 1 0 7 128 0 [0] ≠ .out_of_fuel ∧
    pcx_scanline demo_pcx_zero_runs 1 1 0 7 128 0 [0]
      = pcx_scanline demo_pcx_zero_runs 1 1 0 (demo_pcx_zero_runs.length - 128 + 1) 128 0 [0] :=
  ⟨by decide, C39_pcx_terminates.1 demo_pcx_zero_runs 1 1 0 7 128 0 [0] (by decide)⟩

/-! ## C40: the digit array of `SCR_ParseColor` -/

theorem SCR_ParseColor_loop_overrun (Q : Char → Int) (s : List Char) (i : Nat) (c : List Int)
    (hi : i ≤ c.length) (hlen : c.length - i < s.length)
    (hhex : ∀ ch ∈ s.take (c.length - i), Q ch ≠ -1) :
    SCR_ParseColor_loop Q s i c = .oob_write := by
  induction s generalizing i c with
  | nil => simp at hlen
  | cons ch rest ih =>
    simp only [SCR_ParseColor_loop]
    by_cases hlt : i < c.length
    · rw [if_pos hlt]
      have hk : c.length - i = (c.length - (i + 1)) + 1 := by omega
      have hq : Q ch ≠ -1 := by
        apply hhex
        rw [hk, List.take_succ_cons]
        exact List.mem_cons_self _ _
      have hget : (c.set i (Q ch)).getD i 0 = Q ch := by
        rw [List.getD_eq_getElem _ _ (by rw [List.length_set]; exact hlt)]
        exact List.getElem_set_self _
      simp only [hget]
      rw [if_neg hq]
      apply ih
      · rw [List.length_set]
        omega
      · rw [List.length_set]
        simp only [List.length_cons] at hlen
        omega
      · intro x hx
        apply hhex
        rw [List.length_set] at hx
        rw [hk, List.take_succ_cons]
        exact List.mem_cons_of_mem _ hx
    · rw [if_neg hlt]

theorem SCR_ParseColor_loop_digits (Q : Char → Int) (s : List Char) (i : Nat) (c : List Int)
    (hlen : i + s.length ≤ c.length) (hhex : ∀ ch ∈ s, Q ch ≠ -1) :
    ∃ c1, SCR_ParseColor_loop Q s i c = .done (i + s.length) c1 ∧ c1.length = c.length ∧
      (∀ k, k < i → c1.getD k 0 = c.getD k 0) ∧
      (∀ k, k < s.length → c1.getD (i + k) 0 = (s.map Q).getD k 0) := by
  induction s generalizing i c with
  | nil =>
    refine ⟨c, ?_, rfl, fun _ _ => rfl, fun k hk => ?_⟩
    · simp only [SCR_ParseColor_loop, List.length_nil, Nat.add_zero]
    · simp at hk
  | cons ch rest ih =>
    simp only [List.length_cons] at hlen
    have hlt : i < c.length := by omega
    have hq : Q ch ≠ -1 := hhex ch (List.mem_cons_self _ _)
    have hget : (c.set i (Q ch)).getD i 0 = Q ch := by
      rw [List.getD_eq_getElem _ _ (by rw [List.length_set]; exact hlt)]
      exact List.getElem_set_self _
    obtain ⟨c1, hrun, hl1, hlo, hhi⟩ := ih (i + 1) (c.set i (Q ch))
      (by rw [List.length_set]; omega) (fun x hx => hhex x (List.mem_cons_of_mem _ hx))
    refine ⟨c1, ?_, ?_, ?_, ?_⟩
    · simp only [SCR_ParseColor_loop]
      rw [if_pos hlt]
      simp only [hget]
      rw [if_neg hq, hrun]
      simp only [List.length_cons]
      congr 1
      omega
    · rw [hl1, List.length_set]
    · intro k hk
      rw [hlo k (by omega)]
      simp only [List.getD_eq_getElem?_getD]
      rw [List.getElem?_set_ne (by omega)]
    · intro k hk
      cases k with
      | zero =>
        rw [Nat.add_zero, hlo i (by omega), hget]
        rfl
      | succ k =>
        simp only [List.length_cons] at hk
        have := hhi k (by omega)
        have e : i + (k + 1) = i + 1 + k := by omega
        rw [e, this]
        rfl

theorem hex_pair_digits (hi lo : Nat) (hhi : hi < 16) (hlo : lo < 16) :
    hex_pair (hi : Int) (lo : Int) = hi * 16 + lo := by
  interval_cases hi <;> interval_cases lo <;> rfl

theorem hex_digits_getD (Q : Char → Int) (s : List Char) (d : List Nat)
    (hd : s.map Q = d.map (fun n : Nat => (n : Int))) (hr : ∀ x ∈ d, x < 16) (k : Nat)
    (hk : k < s.length) :
    (s.map Q).getD k 0 = ((d.getD k 0 : Nat) : Int) ∧ d.getD k 0 < 16 := by
  have hlen : d.length = s.length := by
    have := congrArg List.length hd
    simp only [List.length_map] at this
    exact this.symm
  have hkd : k < d.length := by omega
  refine ⟨?_, ?_⟩
  · rw [hd, List.getD_eq_getElem _ _ (by rw [List.length_map]; exact hkd),
      List.getD_eq_getElem _ _ hkd, List.getElem_map]
  · rw [List.getD_eq_getElem _ _ hkd]
    exact hr _ (List.getElem_mem _)

theorem hex_digits_ne (Q : Char → Int) (s : List Char) (d : List Nat)
    (hd : s.map Q = d.map (fun n : Nat => (n : Int))) : ∀ ch ∈ s, Q ch ≠ -1 := by
  intro ch hch hq
  have hm : Q ch ∈ d.map (fun n : Nat => (n : Int)) := by
    rw [← hd]
    exact List.mem_map_of_mem _ hch
  obtain ⟨n, _, hn⟩ := List.mem_map.mp hm
  rw [hq] at hn
  omega

theorem SCR_ParseColor_digits (e : ScrEnv) (s : List Char) (d : List Nat) (color : List Nat)
    (hd : s.map e.Q_charhex = d.map (fun n : Nat => (n : Int))) (hr : ∀ x ∈ d, x < 16)
    (hlen : s.length ≤ 8) :
    ∃ c, SCR_ParseColor e ('#' :: s) color = SCR_ParseColor_switch s.length c color ∧
      ∀ k, k < s.length → c.getD k 0 = ((d.getD k 0 : Nat) : Int) ∧ d.getD k 0 < 16 := by
  obtain ⟨c1, hrun, _, _, hhi⟩ := SCR_ParseColor_loop_digits e.Q_charhex s 0
    [0, 0, 0, 0, 0, 0, 0, 0] (by simp only [List.length_cons, List.length_nil]; omega)
    (hex_digits_ne e.Q_charhex s d hd)
  rw [Nat.zero_add] at hrun
  refine ⟨c1, ?_, ?_⟩
  · simp only [SCR_ParseColor]
    rw [if_pos trivial, hrun]
  · intro k hk
    have := hhi k hk
    rw [Nat.zero_add] at this
    rw [this]
    exact hex_digits_getD e.Q_charhex s d hd hr k hk

theorem SCR_ParseColor_overrun (e : ScrEnv) (s : List Char) (color : List Nat)
    (hlen : 8 < s.length) (hhex : ∀ ch ∈ s.take 8, e.Q_charhex ch ≠ -1) :
    SCR_ParseColor e ('#' :: s) color = .oob_write := by
  have := SCR_ParseColor_loop_overrun e.Q_charhex s 0 [0, 0, 0, 0, 0, 0, 0, 0]
    (Nat.zero_le _) hlen hhex
  simp only [SCR_ParseColor]
  rw [if_pos trivial, this]

theorem SCR_ParseColor_loop_inside (Q : Char → Int) (s : List Char) (i : Nat) (c : List Int)
    (hlen : i + s.length ≤ c.length) : SCR_ParseColor_loop Q s i c ≠ .oob_write := by
  induction s generalizing i c with
  | nil =>
    simp only [SCR_ParseColor_loop]
    intro h
    cases h
  | cons ch rest ih =>
    simp only [List.length_cons] at hlen
    simp only [SCR_ParseColor_loop]
    rw [if_pos (by omega)]
    split
    · intro h
      cases h
    · exact ih (i + 1) _ (by rw [List.length_set]; omega)

theorem SCR_ParseColor_inside (e : ScrEnv) (s : List Char) (color : List Nat)
    (hlen : s.length ≤ 8) : SCR_ParseColor e ('#' :: s) color ≠ .oob_write := by
  have := SCR_ParseColor_loop_inside e.Q_charhex s 0 [0, 0, 0, 0, 0, 0, 0, 0]
    (by simp only [List.length_cons, List.length_nil]; omega)
  simp only [SCR_ParseColor]
  rw [if_pos trivial]
  cases hr : SCR_ParseColor_loop e.Q_charhex s 0 [0, 0, 0, 0, 0, 0, 0, 0] with
  | done i c =>
    simp only [SCR_ParseColor_switch]
    split_ifs <;> (intro h; cases h)
  | reject =>
    intro h
    cases h
  | oob_write => exact absurd hr this

theorem SCR_ParseColor_forms (e : ScrEnv) (s : List Char) (d : List Nat) (color : List Nat)
    (hd : s.map e.Q_charhex = d.map (fun n : Nat => (n : Int))) (hr : ∀ x ∈ d, x < 16) :
    (s.length = 3 → SCR_ParseColor e ('#' :: s) color
      = .ret true [d.getD 0 0 * 17, d.getD 1 0 * 17, d.getD 2 0 * 17, 255]) ∧
    (s.length = 6 → SCR_ParseColor e ('#' :: s) color
      = .ret true [d.getD 0 0 * 16 + d.getD 1 0, d.getD 2 0 * 16 + d.getD 3 0,
          d.getD 4 0 * 16 + d.getD 5 0, 255]) ∧
    (s.length = 8 → SCR_ParseColor e ('#' :: s) color
      = .ret true [d.getD 0 0 * 16 + d.getD 1 0, d.getD 2 0 * 16 + d.getD 3 0,
          d.getD 4 0 * 16 + d.getD 5 0, d.getD 6 0 * 16 + d.getD 7 0]) := by
  refine ⟨?_, ?_, ?_⟩
  · intro h3
    obtain ⟨c, hrun, hc⟩ := SCR_ParseColor_digits e s d color hd hr (by omega)
    obtain ⟨h0, l0⟩ := hc 0 (by omega)
    obtain ⟨h1, l1⟩ := hc 1 (by omega)
    obtain ⟨h2, l2⟩ := hc 2 (by omega)
    rw [hrun, h3]
    simp only [SCR_ParseColor_switch]
    rw [if_pos trivial, h0, h1, h2, hex_pair_digits _ _ l0 l0, hex_pair_digits _ _ l1 l1,
      hex_pair_digits _ _ l2 l2]
    have e17 : ∀ n : Nat, n * 16 + n = n * 17 := fun n => by omega
    rw [e17, e17, e17]
  · intro h6
    obtain ⟨c, hrun, hc⟩ := SCR_ParseColor_digits e s d color hd hr (by omega)
    obtain ⟨h0, l0⟩ := hc 0 (by omega)
    obtain ⟨h1, l1⟩ := hc 1 (by omega)
    obtain ⟨h2, l2⟩ := hc 2 (by omega)
    obtain ⟨h3, l3⟩ := hc 3 (by omega)
    obtain ⟨h4, l4⟩ := hc 4 (by omega)
    obtain ⟨h5, l5⟩ := hc 5 (by omega)
    rw [hrun, h6]
    simp only [SCR_ParseColor_switch]
    rw [if_neg (by decide), if_pos trivial, h0, h1, h2, h3, h4, h5, hex_pair_digits _ _ l0 l1,
      hex_pair_digits _ _ l2 l3, hex_pair_digits _ _ l4 l5]
  · intro h8
    obtain ⟨c, hrun, hc⟩ := SCR_ParseColor_digits e s d color hd hr (by omega)
    obtain ⟨h0, l0⟩ := hc 0 (by omega)
    obtain ⟨h1, l1⟩ := hc 1 (by omega)
    obtain ⟨h2, l2⟩ := hc 2 (by omega)
    obtain ⟨h3, l3⟩ := hc 3 (by omega)
    obtain ⟨h4, l4⟩ := hc 4 (by omega)
    obtain ⟨h5, l5⟩ := hc 5 (by omega)
    obtain ⟨h6, l6⟩ := hc 6 (by omega)
    obtain ⟨h7, l7⟩ := hc 7 (by omega)
    rw [hrun, h8]
    simp only [SCR_ParseColor_switch]
    rw [if_neg (by decide), if_neg (by decide), if_pos trivial, h0, h1, h2, h3, h4, h5, h6, h7,
      hex_pair_digits _ _ l0 l1, hex_pair_digits _ _ l2 l3, hex_pair_digits _ _ l4 l5,
      hex_pair_digits _ _ l6 l7]

set_option maxRecDepth 100000 in
/-- C40 fails on the code: the loop of `SCR_ParseColor` stores `c[i]` for every
character of the string before it looks at the count, and the array has 8
entries.  On the string `#123456789` the ninth digit is stored to `c[8]`,
outside the array, where the claim has the function return false without that
store; the same holds for every string `#` followed by more than 8 characters
of which the first 8 have a hexadecimal value.  What holds: for `#` followed
by at most 8 characters no store leaves the array; and with the
characters after `#` having the hexadecimal values `d` (each below 16), a
string of 3 digits gives true and the colour `(17 d0, 17 d1, 17 d2, 255)`, of
6 digits true and `(16 d0 + d1, 16 d2 + d3, 16 d4 + d5, 255)`, of 8 digits
true and `(16 d0 + d1, 16 d2 + d3, 16 d4 + d5, 16 d6 + d7)`. -/
theorem C40_parse_color_overrun :
    SCR_ParseColor demo_scr color_nine_digits [0, 0, 0, 0] = .oob_write ∧
    (∀ (e : ScrEnv) (s : List Char) (color : List Nat),
      8 < s.length → (∀ ch ∈ s.take 8, e.Q_charhex ch ≠ -1) →
      SCR_ParseColor e ('#' :: s) color = .oob_write) ∧
    (∀ (e : ScrEnv) (s : List Char) (color : List Nat),
      s.length ≤ 8 → SCR_ParseColor e ('#' :: s) color ≠ .oob_write) ∧
    (∀ (e : ScrEnv) (s : List Char) (d : List Nat) (color : List Nat),
      s.map e.Q_charhex = d.map (fun n : Nat => (n : Int)) → (∀ x ∈ d, x < 16) →
      (s.length = 3 → SCR_ParseColor e ('#' :: s) color
        = .ret true [d.getD 0 0 * 17, d.getD 1 0 * 17, d.getD 2 0 * 17, 255]) ∧
      (s.length = 6 → SCR_ParseColor e ('#' :: s) color
        = .ret true [d.getD 0 0 * 16 + d.getD 1 0, d.getD 2 0 * 16 + d.getD 3 0,
            d.getD 4 0 * 16 + d.getD 5 0, 255]) ∧
      (s.length = 8 → SCR_ParseColor e ('#' :: s) color
        = .ret true [d.getD 0 0 * 16 + d.getD 1 0, d.getD 2 0 * 16 + d.getD 3 0,
            d.getD 4 0 * 16 + d.getD 5 0, d.getD 6 0 * 16 + d.getD 7 0])) :=
  ⟨by decide,
    fun e s color hlen hhex => SCR_ParseColor_overrun e s color hlen hhex,
    fun e s color hlen => SCR_ParseColor_inside e s color hlen,
    fun e s d color hd hr => SCR_ParseColor_forms e s d color hd hr⟩

set_option maxRecDepth 100000 in
/-- Witness for C40: the three-digit form at the string `#f80`. -/
theorem C40_parse_color_overrun_witness :
    SCR_ParseColor demo_scr ['#', 'f', '8', '0'] [0, 0, 0, 0]
      = .ret true [[15, 8, 0].getD 0 0 * 17, [15, 8, 0].getD 1 0 * 17,
          [15, 8, 0].getD 2 0 * 17, 255] :=
  (C40_parse_color_overrun.2.2.2 demo_scr ['f', '8', '0'] [15, 8, 0] [0, 0, 0, 0]
    (by decide) (by decide)).1 rfl

/-! ## C34: the palette -/

theorem palette_entry_ok (pal : List Nat) (off a : Nat) (h : off + 3 ≤ pal.length) :
    palette_entry pal off a
      = some { r := pal.getD off 0, g := pal.getD (off + 1) 0, b := pal.getD (off + 2) 0,
               a := a } := by
  simp only [palette_entry]
  rw [getElem?_eq_some_getD pal off (by omega), getElem?_eq_some_getD pal (off + 1) (by omega),
    getElem?_eq_some_getD pal (off + 2) (by omega)]

theorem palette_loop_spec (pal : List Nat) (k i : Nat) (table : List rgba)
    (hpal : 3 * (i + k) ≤ pal.length) (htab : i + k ≤ table.length) :
    ∃ t1, palette_loop pal k i table = .next t1 ∧ t1.length = table.length ∧
      (∀ j, j < i → t1[j]? = table[j]?) ∧
      (∀ j, i ≤ j → j < i + k →
        t1[j]? = some { r := pal.getD (3 * j) 0, g := pal.getD (3 * j + 1) 0,
                        b := pal.getD (3 * j + 2) 0, a := 255 }) := by
  induction k generalizing i table with
  | zero =>
    refine ⟨table, ?_, rfl, fun _ _ => rfl, fun j h1 h2 => absurd h2 (by omega)⟩
    simp only [palette_loop]
  | succ k ih =>
    have hent := palette_entry_ok pal (3 * i) 255 (by omega)
    obtain ⟨t1, hrun, hl, hlo, hhi⟩ := ih (i + 1)
      (table.set i { r := pal.getD (3 * i) 0, g := pal.getD (3 * i + 1) 0,
                     b := pal.getD (3 * i + 2) 0, a := 255 })
      (by omega) (by rw [List.length_set]; omega)
    refine ⟨t1, ?_, ?_, ?_, ?_⟩
    · simp only [palette_loop, hent]
      rw [if_pos (by omega), hrun]
    · rw [hl, List.length_set]
    · intro j hj
      rw [hlo j (by omega), List.getElem?_set_ne (by omega)]
    · intro j h1 h2
      by_cases hj : j = i
      · rw [hj, hlo i (by omega), List.getElem?_set_self (by omega)]
      · exact hhi j (by omega) (by omega)

theorem IMG_LoadPCX_palette (c : Cfg) (data : List Nat) :
    _IMG_LoadPCX c data false true
      = match pcx_parse c data with
        | .error e => .error e
        | .ok d =>
          if data.length < 768 then .error .Q_ERR_FILE_TOO_SMALL
          else .ok { pic := none, palette := some (data.drop (data.length - 768)),
                     width := d.w, height := d.h } := by
  simp only [_IMG_LoadPCX]
  cases pcx_parse c data with
  | error e => rfl
  | ok d =>
    simp only []
    by_cases h : data.length < 768
    · rw [if_pos ⟨trivial, h⟩, if_pos h]
    · rw [if_neg (fun hh => h hh.2), if_neg h]
      simp

theorem IMG_GetPalette_ok (c : Cfg) (w : World) (table : List rgba)
    (htable : table.length = 256) (data : List Nat) (d : pcx_dims)
    (hfile : w.FS_LoadFile colormap = .ok data) (hparse : pcx_parse c data = .ok d)
    (hlen : 768 ≤ data.length) :
    ∃ t, IMG_GetPalette c w table = .ok t ∧ t.length = 256 ∧
      (∀ i, i < 255 → t[i]? = some
        { r := (data.drop (data.length - 768)).getD (3 * i) 0,
          g := (data.drop (data.length - 768)).getD (3 * i + 1) 0,
          b := (data.drop (data.length - 768)).getD (3 * i + 2) 0, a := 255 }) ∧
      t[255]? = some
        { r := (data.drop (data.length - 768)).getD 765 0,
          g := (data.drop (data.length - 768)).getD 766 0,
          b := (data.drop (data.length - 768)).getD 767 0, a := 0 } := by
  have hpl : (data.drop (data.length - 768)).length = 768 := by
    rw [List.length_drop]
    omega
  obtain ⟨t1, hrun, hl, _, hhi⟩ := palette_loop_spec (data.drop (data.length - 768)) 255 0 table
    (by omega) (by omega)
  have hent := palette_entry_ok (data.drop (data.length - 768)) (3 * 255) 0 (by omega)
  refine ⟨t1.set 255 (rgba.mk ((data.drop (data.length - 768)).getD 765 0)
      ((data.drop (data.length - 768)).getD 766 0)
      ((data.drop (data.length - 768)).getD 767 0) 0), ?_, ?_, ?_, ?_⟩
  · simp only [IMG_GetPalette, hfile, IMG_LoadPCX_palette, hparse]
    rw [if_neg (by omega)]
    simp only [Option.getD_some, hrun, hent]
    rw [if_pos (by omega)]
  · rw [List.length_set, hl, htable]
  · intro i hi
    rw [List.getElem?_set_ne (by omega)]
    exact hhi i (Nat.zero_le _) (by omega)
  · rw [List.getElem?_set_self (by omega)]

theorem IMG_GetPalette_fatal (c : Cfg) (w : World) (table : List rgba)
    (htable : table.length = 256) :
    (∃ e, IMG_GetPalette c w table = .fatal e) ↔
      ((∃ e, w.FS_LoadFile colormap = .error e) ∨
        ∃ data, w.FS_LoadFile colormap = .ok data ∧
          ((∃ e, pcx_parse c data = .error e) ∨ data.length < 768)) := by
  cases hfile : w.FS_LoadFile colormap with
  | error e0 =>
    constructor
    · intro _
      exact Or.inl ⟨e0, rfl⟩
    · intro _
      refine ⟨e0, ?_⟩
      simp only [IMG_GetPalette, hfile]
  | ok data =>
    cases hparse : pcx_parse c data with
    | error e0 =>
      constructor
      · intro _
        exact Or.inr ⟨data, rfl, Or.inl ⟨e0, hparse⟩⟩
      · intro _
        refine ⟨e0, ?_⟩
        simp only [IMG_GetPalette, hfile, IMG_LoadPCX_palette, hparse]
    | ok d =>
      by_cases hlen : data.length < 768
      · constructor
        · intro _
          exact Or.inr ⟨data, rfl, Or.inr hlen⟩
        · intro _
          refine ⟨.Q_ERR_FILE_TOO_SMALL, ?_⟩
          simp only [IMG_GetPalette, hfile, IMG_LoadPCX_palette, hparse]
          rw [if_pos hlen]
      · obtain ⟨t, hok, _⟩ := IMG_GetPalette_ok c w table htable data d hfile hparse (by omega)
        constructor
        · rintro ⟨e, he⟩
          rw [hok] at he
          cases he
        · rintro (⟨e, he⟩ | ⟨data1, hd1, hbad⟩)
          · cases he
          · injection hd1 with hd1
            subst hd1
            rcases hbad with ⟨e, he⟩ | hshort
            · rw [hparse] at he
              cases he
            · exact absurd hshort hlen

/-- C34: with `d_8to24table` of 256 entries, `IMG_GetPalette` takes the fatal
path exactly when loading "pics/colormap.pcx" fails, or the file fails the
header checks of `_IMG_LoadPCX` or is shorter than the 768 bytes of a palette.
Otherwise it returns, and with `p` the last 768 bytes of the file, entry `i`
of the table for `i < 255` is `(p[3i], p[3i+1], p[3i+2])` with alpha 255 and
entry 255 is `(p[765], p[766], p[767])` with alpha 0. -/
theorem C34_get_palette (c : Cfg) (w : World) (table : List rgba)
    (htable : table.length = 256) :
    ((∃ e, IMG_GetPalette c w table = .fatal e) ↔
      ((∃ e, w.FS_LoadFile colormap = .error e) ∨
        ∃ data, w.FS_LoadFile colormap = .ok data ∧
          ((∃ e, pcx_parse c data = .error e) ∨ data.length < 768))) ∧
    (∀ (data : List Nat) (d : pcx_dims),
      w.FS_LoadFile colormap = .ok data → pcx_parse c data = .ok d → 768 ≤ data.length →
      ∃ t, IMG_GetPalette c w table = .ok t ∧ t.length = 256 ∧
        (∀ i, i < 255 → t[i]? = some
          { r := (data.drop (data.length - 768)).getD (3 * i) 0,
            g := (data.drop (data.length - 768)).getD (3 * i + 1) 0,
            b := (data.drop (data.length - 768)).getD (3 * i + 2) 0, a := 255 }) ∧
        t[255]? = some
          { r := (data.drop (data.length - 768)).getD 765 0,
            g := (data.drop (data.length - 768)).getD 766 0,
            b := (data.drop (data.length - 768)).getD 767 0, a := 0 }) :=
  ⟨IMG_GetPalette_fatal c w table htable,
    fun data d hfile hparse hlen => IMG_GetPalette_ok c w table htable data d hfile hparse hlen⟩

set_option maxRecDepth 1000000 in
/-- Witness for C34: the palette file `demo_colormap` and a table of 256
zero entries. -/
theorem C34_get_palette_witness :
    (List.replicate 256 ({ r := 0, g := 0, b := 0, a := 0 } : rgba)).length = 256 ∧
    ∃ t, IMG_GetPalette demo_cfg demo_world_palette
        (List.replicate 256 { r := 0, g := 0, b := 0, a := 0 }) = .ok t ∧ t.length = 256 ∧
      (∀ i, i < 255 → t[i]? = some
        { r := (demo_colormap.drop (demo_colormap.length - 768)).getD (3 * i) 0,
          g := (demo_colormap.drop (demo_colormap.length - 768)).getD (3 * i + 1) 0,
          b := (demo_colormap.drop (demo_colormap.length - 768)).getD (3 * i + 2) 0,
          a := 255 }) ∧
      t[255]? = some
        { r := (demo_colormap.drop (demo_colormap.length - 768)).getD 765 0,
          g := (demo_colormap.drop (demo_colormap.length - 768)).getD 766 0,
          b := (demo_colormap.drop (demo_colormap.length - 768)).getD 767 0, a := 0 } :=
  ⟨by decide,
    (C34_get_palette demo_cfg demo_world_palette
      (List.replicate 256 { r := 0, g := 0, b := 0, a := 0 }) (by decide)).2
      demo_colormap { w := 1, h := 1, scan := 1 } (by decide) (by decide) (by decide)⟩

/-! ## C36: override mode and the original file -/

theorem loaded_paths_append (a b : List Event) :
    loaded_paths (a ++ b) = loaded_paths a ++ loaded_paths b := by
  simp only [loaded_paths, List.filterMap_append]

theorem loaded_paths_try_image_format (w : World) (fmt : Nat) (filename : List Char) :
    loaded_paths (try_image_format w fmt filename).2 = [filename] := by
  simp only [try_image_format]
  cases w.FS_LoadFile filename with
  | error e => rfl
  | ok data =>
    simp only []
    cases w.load fmt data filename with
    | error e => rfl
    | ok r => rfl

theorem try_other_formats_paths (c : Cfg) (w : World) (orig type extpos : Nat)
    (search : List Nat) (buffer : List Char) (tr : List Event)
    (h : extpos ≤ buffer.length) :
    ∃ L, loaded_paths (try_other_formats c w orig type extpos search buffer tr).trace
        = loaded_paths tr ++ L ∧
      List.Sublist L (candidate_paths c orig type (buffer.take extpos) search) := by
  induction search generalizing buffer tr with
  | nil =>
    simp only [try_other_formats, candidate_paths, List.filter_nil, List.map_nil,
      List.nil_append]
    generalize (if type = c.IT_WALL then IM_WAL else IM_PCX) = dflt
    by_cases hd : dflt = orig
    · rw [if_pos hd, if_pos hd]
      exact ⟨[], (List.append_nil _).symm, List.Sublist.refl _⟩
    · rw [if_neg hd, if_neg hd]
      refine ⟨[replace_ext buffer extpos (img_ext dflt)], ?_, List.Sublist.refl _⟩
      simp only [loaded_paths_append, loaded_paths_try_image_format]
  | cons fmt rest ih =>
    simp only [try_other_formats]
    split
    · next heq =>
      obtain ⟨L, hL, hsub⟩ := ih buffer tr h
      refine ⟨L, hL, ?_⟩
      simp only [candidate_paths] at hsub ⊢
      rw [List.filter_cons_of_neg (by simpa using heq)]
      exact hsub
    · next hne =>
      have hcand : candidate_paths c orig type (buffer.take extpos) (fmt :: rest)
          = replace_ext buffer extpos (img_ext fmt)
            :: candidate_paths c orig type (buffer.take extpos) rest := by
        simp only [candidate_paths]
        rw [List.filter_cons_of_pos (by simpa using hne)]
        rfl
      rw [hcand]
      split
      · obtain ⟨L, hL, hsub⟩ := ih (replace_ext buffer extpos (img_ext fmt))
          (tr ++ (try_image_format w fmt (replace_ext buffer extpos (img_ext fmt))).2)
          (length_replace_ext _ _ _ h)
        rw [take_replace_ext _ _ _ h] at hsub
        refine ⟨replace_ext buffer extpos (img_ext fmt) :: L, ?_, List.Sublist.cons₂ _ hsub⟩
        rw [hL, loaded_paths_append, loaded_paths_try_image_format, List.append_assoc]
        rfl
      · refine ⟨[replace_ext buffer extpos (img_ext fmt)], ?_,
          List.Sublist.cons₂ _ (List.nil_sublist _)⟩
        simp only [loaded_paths_append, loaded_paths_try_image_format]

theorem img_ext_inj : ∀ g, g < 5 → ∀ g1, g1 < 5 → img_ext g = img_ext g1 → g = g1 := by
  decide

theorem find_format_img_ext : ∀ g, g < 5 → find_format (img_ext g) IM_MAX 0 = g := by
  decide

theorem candidate_paths_nodup (c : Cfg) (orig type : Nat) (base : List Char)
    (search : List Nat) (hnd : search.Nodup)
    (hs : ∀ g ∈ search, g = IM_TGA ∨ g = IM_JPG ∨ g = IM_PNG) :
    (candidate_paths c orig type base search).Nodup := by
  have hlt : ∀ g ∈ search, g < 5 := by
    intro g hg
    rcases hs g hg with h | h | h <;> rw [h] <;> decide
  have hd : (if type = c.IT_WALL then IM_WAL else IM_PCX) < 2 := by
    split_ifs <;> decide
  simp only [candidate_paths]
  generalize (if type = c.IT_WALL then IM_WAL else IM_PCX) = dflt at hd ⊢
  apply List.Nodup.append
  · apply List.Nodup.map_on
    · intro x hx y hy hxy
      have hx1 := hlt x (List.mem_filter.mp hx).1
      have hy1 := hlt y (List.mem_filter.mp hy).1
      exact img_ext_inj x hx1 y hy1 (List.append_cancel_left hxy)
    · exact hnd.filter _
  · by_cases h0 : dflt = orig
    · rw [if_pos h0]
      exact List.nodup_nil
    · rw [if_neg h0]
      exact List.nodup_singleton _
  · intro p hp1 hp2
    obtain ⟨g, hg, hgp⟩ := List.mem_map.mp hp1
    have hg1 := (List.mem_filter.mp hg).1
    by_cases h0 : dflt = orig
    · rw [if_pos h0] at hp2
      simp at hp2
    · rw [if_neg h0, List.mem_singleton] at hp2
      rw [hp2] at hgp
      have := img_ext_inj g (hlt g hg1) dflt (by omega) (List.append_cancel_left hgp)
      have h3 := hs g hg1
      simp only [IM_TGA, IM_JPG, IM_PNG] at h3
      omega

theorem name_not_candidate (c : Cfg) (type : Nat) (name : List Char) (search : List Nat)
    (hs : ∀ g ∈ search, g = IM_TGA ∨ g = IM_JPG ∨ g = IM_PNG) :
    name ∉ candidate_paths c (find_format (name.drop (name.length - 3)) IM_MAX 0) type
      (name.take (name.length - 3)) search := by
  have key : ∀ g, g < 5 → g ≠ find_format (name.drop (name.length - 3)) IM_MAX 0 →
      name.take (name.length - 3) ++ img_ext g ≠ name := by
    intro g hg hne heq
    have h1 : name.take (name.length - 3) ++ img_ext g
        = name.take (name.length - 3) ++ name.drop (name.length - 3) := by
      rw [heq, List.take_append_drop]
    have h2 := List.append_cancel_left h1
    rw [← h2, find_format_img_ext g hg] at hne
    exact hne rfl
  intro hmem
  simp only [candidate_paths] at hmem
  rcases List.mem_append.mp hmem with h | h
  · obtain ⟨g, hg, hgp⟩ := List.mem_map.mp h
    rw [List.mem_filter] at hg
    have hlt : g < 5 := by
      rcases hs g hg.1 with h | h | h <;> rw [h] <;> decide
    exact key g hlt (by simpa using hg.2) hgp
  · have hd : (if type = c.IT_WALL then IM_WAL else IM_PCX) < 5 := by
      split_ifs <;> decide
    generalize (if type = c.IT_WALL then IM_WAL else IM_PCX) = dflt at hd h
    by_cases h0 : dflt = find_format (name.drop (name.length - 3)) IM_MAX 0
    · rw [if_pos h0] at h
      simp at h
    · rw [if_neg h0, List.mem_singleton] at h
      exact key dflt hd h0 h.symm

theorem load_pic_paths_nodup (c : Cfg) (w : World) (name : List Char) (type : Nat)
    (hnd : w.img_search.Nodup)
    (hs : ∀ g ∈ w.img_search, g = IM_TGA ∨ g = IM_JPG ∨ g = IM_PNG) :
    (loaded_paths (load_pic c w name type).trace).Nodup := by
  have h : name.length - 3 ≤ name.length := Nat.sub_le _ _
  have hoth : ∀ orig, (loaded_paths (try_other_formats c w orig type (name.length - 3)
      w.img_search name []).trace).Nodup := by
    intro orig
    obtain ⟨L, hL, hsub⟩ := try_other_formats_paths c w orig type (name.length - 3)
      w.img_search name [] h
    rw [hL]
    exact (candidate_paths_nodup c orig type _ _ hnd hs).sublist hsub
  unfold load_pic
  simp only
  split
  · split <;> exact hoth IM_MAX
  · split
    · exact hoth IM_MAX
    · split
      · obtain ⟨L, hL, hsub⟩ := try_other_formats_paths c w
          (find_format (name.drop (name.length - 3)) IM_MAX 0) type (name.length - 3)
          w.img_search name
          (try_image_format w (find_format (name.drop (name.length - 3)) IM_MAX 0) name).2 h
        rw [hL, loaded_paths_try_image_format]
        apply List.Nodup.cons
        · intro hmem
          exact name_not_candidate c type name w.img_search hs (hsub.subset hmem)
        · exact (candidate_paths_nodup c _ type _ _ hnd hs).sublist hsub
      · rw [loaded_paths_try_image_format]
        exact List.nodup_singleton _

theorem loaded_paths_get_image_dimensions (c : Cfg) (w : World) (image : image_t)
    (fmt : Nat) (buffer : List Char) (extpos : Nat) :
    loaded_paths (get_image_dimensions c w image fmt buffer extpos).2 = [] := by
  simp only [get_image_dimensions]
  split_ifs <;> rfl

theorem loaded_paths_fill_image (c : Cfg) (w : World) (old : image_t) (name : List Char)
    (type flags epoch : Nat) (a : Attempt) (ld : Loaded) :
    loaded_paths (fill_image c w old name type flags epoch a ld).2 = [] := by
  simp only [fill_image]
  split_ifs <;> first
    | rfl
    | exact loaded_paths_get_image_dimensions _ _ _ _ _ _

theorem loaded_paths_find_or_load_image (c : Cfg) (w : World) (s : State) (name : List Char)
    (type flags : Nat) :
    loaded_paths (find_or_load_image c w s name type flags).trace = [] ∨
    loaded_paths (find_or_load_image c w s name type flags).trace
      = loaded_paths (load_pic c w name type).trace := by
  simp only [find_or_load_image]
  split
  · exact Or.inl rfl
  · split
    · exact Or.inl rfl
    · split
      · exact Or.inl rfl
      · refine Or.inr ?_
        simp only [load_image]
        split
        · rfl
        · split
          · rfl
          · simp only [loaded_paths_append, loaded_paths_fill_image, List.append_nil]
            exact List.append_nil _

theorem search_order_formats (cfgstr : List Char) (old st : search_t)
    (hold : old.img_search.length = IM_MAX)
    (hcfg : r_texture_formats_changed cfgstr old = .done st) :
    ∀ g ∈ search_order st, g = IM_TGA ∨ g = IM_JPG ∨ g = IM_PNG := by
  have h0 : (0 : Nat) < IM_MAX := by decide
  obtain ⟨st1, hrun, _, _, hord⟩ := r_texture_formats_loop_spec cfgstr
    { old with img_total := 0 } hold h0
  simp only [r_texture_formats_changed] at hcfg
  rw [hrun] at hcfg
  injection hcfg with hst
  subst hst
  intro g hg
  rw [hord] at hg
  have hg1 := List.mem_of_mem_take hg
  simp only [search_order, List.take_zero, List.nil_append] at hg1
  obtain ⟨ch, _, hch⟩ := List.mem_filterMap.mp hg1
  simp only [format_letter] at hch
  split_ifs at hch <;> injection hch with hch <;> simp [← hch]

set_option maxRecDepth 100000 in
/-- Counterexample to C35: the configuration string `tt` gives the search order
TGA, TGA, and the lookup of `c.pcx` in an empty file system with that search
order hands `c.tga` to `FS_LoadFile` twice. -/
theorem C35_counterexample :
    demo_search_tt = .done { img_search := [IM_TGA, IM_TGA, 0, 0, 0], img_total := 2 } ∧
    demo_world_tt.img_search
      = search_order { img_search := [IM_TGA, IM_TGA, 0, 0, 0], img_total := 2 } ∧
    lookup_image (demo_init 1) ['c', '.', 'p', 'c', 'x'] 0
      (name_hash demo_cfg ['c', '.', 'p', 'c', 'x']) 1 = none ∧
    (find_or_load_image demo_cfg demo_world_tt (demo_init 1) ['c', '.', 'p', 'c', 'x'] 0 0).trace
      = [Event.FS_LoadFile ['c', '.', 'p', 'c', 'x'], Event.FS_LoadFile ['c', '.', 't', 'g', 'a'],
         Event.FS_LoadFile ['c', '.', 't', 'g', 'a']] ∧
    ¬ (loaded_paths (find_or_load_image demo_cfg demo_world_tt (demo_init 1)
        ['c', '.', 'p', 'c', 'x'] 0 0).trace).Nodup := by
  decide

/-- C35, amended: when the search order that `r_texture_formats_changed` parsed
from the configuration string names no format twice, one call of
`find_or_load_image` hands no path to `FS_LoadFile` more than once, for every
request, table, file system and override setting.  (The only format the
resolver skips as already tried is that of the request's own extension; a
configuration string that repeats a letter repeats the candidate.) -/
theorem C35_no_repeated_candidate (c : Cfg) (w : World) (s : State) (name : List Char)
    (type flags : Nat) (cfgstr : List Char) (old st : search_t)
    (hold : old.img_search.length = IM_MAX)
    (hcfg : r_texture_formats_changed cfgstr old = .done st)
    (hsearch : w.img_search = search_order st)
    (hnodup : (search_order st).Nodup) :
    (loaded_paths (find_or_load_image c w s name type flags).trace).Nodup := by
  have hs := search_order_formats cfgstr old st hold hcfg
  rw [← hsearch] at hs hnodup
  rcases loaded_paths_find_or_load_image c w s name type flags with h | h
  · rw [h]
    exact List.nodup_nil
  · rw [h]
    exact load_pic_paths_nodup c w name type hnodup hs

set_option maxRecDepth 100000 in
/-- Witness for C35: the configuration string `pjt` and the lookup of `c.pcx`
in `demo_world`, whose search order is PNG, JPG, TGA. -/
theorem C35_no_repeated_candidate_witness :
    (loaded_paths (find_or_load_image demo_cfg demo_world (demo_init 1)
      ['c', '.', 'p', 'c', 'x'] 0 0).trace).Nodup :=
  C35_no_repeated_candidate demo_cfg demo_world (demo_init 1) ['c', '.', 'p', 'c', 'x'] 0 0
    ['p', 'j', 't'] { img_search := [0, 0, 0, 0, 0], img_total := 0 }
    { img_search := [IM_PNG, IM_JPG, IM_TGA, 0, 0], img_total := 3 }
    (by decide) (by decide) (by decide) (by decide)

/-! ## C38: linked slots and live slots -/

theorem ReachableNonzero_Reachable (c : Cfg) (s : State) (hs : ReachableNonzero c s) :
    Reachable c s := by
  induction hs with
  | init epoch s h => exact Reachable.init epoch s h
  | find w s name type r _ _ h ih => exact Reachable.find w s name type r ih h
  | register w s name type flags _ _ ih => exact Reachable.register w s name type flags ih
  | advance s _ ih => exact Reachable.advance s ih
  | freeUnused s _ ih => exact Reachable.freeUnused s ih
  | freeAll s _ ih => exact Reachable.freeAll s ih

theorem alloc_image_unlinked (c : Cfg) (s : State) (hinv : Inv c s) (hlink : LinkInv c s)
    (i n : Nat) (h : alloc_image c s = some (i, n)) : ∀ b, i ∉ s.r_imageHash b := by
  intro b hmem
  have hrange := hinv.bucket_range b i hmem
  have hlive := hlink.linked_live b i hmem
  have hpos := hinv.count_pos
  have hfree := alloc_image_scan_free s.r_images (s.r_numImages - 1) 1
  simp only [alloc_image] at h
  split at h
  · split at h
    · exact absurd h (by simp)
    · simp only [Option.some.injEq, Prod.mk.injEq] at h
      omega
  · rename_i hne
    simp only [Option.some.injEq, Prod.mk.injEq] at h
    have hle := alloc_image_scan_le s.r_images (s.r_numImages - 1) 1
    have hz := hfree (by omega)
    rw [h.1] at hz
    exact hlive hz

theorem LinkInv_init (c : Cfg) (epoch : Nat) (s : State)
    (h : IMG_Init (boot epoch) = some s) : LinkInv c s := by
  simp only [IMG_Init, boot, ne_eq, not_true_eq_false, if_false, Option.some.injEq] at h
  subst h
  refine ⟨?_, ?_, ?_⟩
  · intro b i hi; simp at hi
  · intro b i hi; simp at hi
  · intro b; exact List.nodup_nil

theorem LinkInv_find_or_load_image (c : Cfg) (w : World) (s : State) (name : List Char)
    (type flags : Nat) (hinv : Inv c s) (hlink : LinkInv c s)
    (hnz : s.registration_sequence ≠ 0) :
    LinkInv c (find_or_load_image c w s name type flags).state := by
  cases hr : (find_or_load_image c w s name type flags).ret with
  | error e => rw [find_or_load_image_error c w s name type flags e hr]; exact hlink
  | ok i =>
    obtain ⟨_, _, hcase⟩ := find_or_load_image_ok c w s name type flags i hr
    rcases hcase with ⟨hl, _, hst⟩ | ⟨hl, n, img, halloc, hst, hty, hbl, hseq, hnb, hle, _⟩
    · -- hit: only the flags and the stamp of slot i change
      rw [hst]
      have hkey : ∀ j, ((set_image s i (hit_image c s i flags)).r_images j).name
            = (s.r_images j).name ∧
          ((set_image s i (hit_image c s i flags)).r_images j).baselen
            = (s.r_images j).baselen := by
        intro j
        by_cases hji : j = i
        · subst hji; simp [set_image, hit_image]
        · simp [set_image, Function.update_apply, hji]
      refine ⟨?_, ?_, hlink.nodup⟩
      · intro b j hj
        by_cases hji : j = i
        · subst hji
          simpa [set_image, hit_image] using hnz
        · have := hlink.linked_live b j hj
          simpa [set_image, Function.update_apply, hji] using this
      · intro b j hj
        unfold hashOf
        rw [(hkey j).1, (hkey j).2]
        exact hlink.linked_own b j hj
    · -- miss: slot i is filled and appended to the bucket of the name
      rw [hst]
      have hfree := alloc_image_unlinked c s hinv hlink i n halloc
      have himg : ∀ j, j ≠ i →
          (set_image (List_Append { s with r_numImages := n } (name_hash c name) i) i img).r_images j
            = s.r_images j := by
        intro j hji
        simp [set_image, List_Append, Function.update_apply, hji]
      have himgi :
          (set_image (List_Append { s with r_numImages := n } (name_hash c name) i) i img).r_images i
            = img := by
        simp [set_image, List_Append]
      have hbucket : ∀ b,
          (set_image (List_Append { s with r_numImages := n } (name_hash c name) i) i
            img).r_imageHash b
            = if b = name_hash c name then s.r_imageHash b ++ [i] else s.r_imageHash b := by
        intro b
        by_cases hb : b = name_hash c name
        · subst hb; simp [set_image, List_Append]
        · simp [set_image, List_Append, Function.update_apply, hb]
      have hhash : hashOf c img = name_hash c name := by
        unfold hashOf name_hash FS_HashPathLen
        rw [hbl, hnb]
      have hmem : ∀ b j, j ∈ (set_image (List_Append { s with r_numImages := n }
            (name_hash c name) i) i img).r_imageHash b →
          (j = i ∧ b = name_hash c name) ∨ (j ≠ i ∧ j ∈ s.r_imageHash b) := by
        intro b j hj
        rw [hbucket] at hj
        by_cases hb : b = name_hash c name
        · rw [if_pos hb, List.mem_append, List.mem_singleton] at hj
          rcases hj with hj | hj
          · exact Or.inr ⟨fun hji => hfree b (hji ▸ hj), hj⟩
          · exact Or.inl ⟨hj, hb⟩
        · rw [if_neg hb] at hj
          exact Or.inr ⟨fun hji => hfree b (hji ▸ hj), hj⟩
      refine ⟨?_, ?_, ?_⟩
      · intro b j hj
        rcases hmem b j hj with ⟨hji, _⟩ | ⟨hji, hold⟩
        · rw [hji, himgi, hseq]
          exact hnz
        · rw [himg j hji]
          exact hlink.linked_live b j hold
      · intro b j hj
        rcases hmem b j hj with ⟨hji, hb⟩ | ⟨hji, hold⟩
        · rw [hji, himgi, hhash]
          exact hb
        · rw [himg j hji]
          exact hlink.linked_own b j hold
      · intro b
        rw [hbucket]
        by_cases hb : b = name_hash c name
        · rw [if_pos hb]
          apply List.Nodup.append (hlink.nodup b) (List.nodup_singleton i)
          intro j hj1 hj2
          rw [List.mem_singleton] at hj2
          exact hfree b (hj2 ▸ hj1)
        · rw [if_neg hb]
          exact hlink.nodup b

theorem LinkInv_IMG_FreeUnused (c : Cfg) (s : State) (hlink : LinkInv c s) :
    LinkInv c (IMG_FreeUnused c s) := by
  obtain ⟨_, _, h3, h4⟩ := IMG_FreeUnused_spec c s
  have hkeep : ∀ b j, j ∈ (IMG_FreeUnused c s).r_imageHash b →
      j ∈ s.r_imageHash b ∧ (IMG_FreeUnused c s).r_images j = s.r_images j := by
    intro b j hj
    rw [h4, List.mem_filter] at hj
    have hns : swept_in_range c s j = false := by simpa using hj.2
    refine ⟨hj.1, ?_⟩
    rw [h3, hns]
    simp
  refine ⟨?_, ?_, ?_⟩
  · intro b j hj
    obtain ⟨hm, he⟩ := hkeep b j hj
    rw [he]
    exact hlink.linked_live b j hm
  · intro b j hj
    obtain ⟨hm, he⟩ := hkeep b j hj
    rw [he]
    exact hlink.linked_own b j hm
  · intro b
    rw [h4]
    exact (hlink.nodup b).filter _

theorem LinkInv_IMG_FreeAll (c : Cfg) (s : State) : LinkInv c (IMG_FreeAll s) := by
  obtain ⟨_, _, h3, _⟩ := IMG_FreeAll_spec s
  refine ⟨?_, ?_, ?_⟩
  · intro b j hj; rw [h3] at hj; simp at hj
  · intro b j hj; rw [h3] at hj; simp at hj
  · intro b; rw [h3]; exact List.nodup_nil

theorem ReachableNonzero_LinkInv (c : Cfg) (s : State) (hs : ReachableNonzero c s) :
    LinkInv c s := by
  induction hs with
  | init epoch s h => exact LinkInv_init c epoch s h
  | find w s name type r hs hnz h ih =>
    rw [IMG_Find_state c w s name type r h]
    exact LinkInv_find_or_load_image c w s name type 0
      (Reachable_Inv c s (ReachableNonzero_Reachable c s hs)) ih hnz
  | register w s name type flags hs hnz ih =>
    rcases R_RegisterImage_state c w s name type flags with h | ⟨fullname, h⟩
    · rw [h]; exact ih
    · rw [h]
      exact LinkInv_find_or_load_image c w s fullname type flags
        (Reachable_Inv c s (ReachableNonzero_Reachable c s hs)) ih hnz
  | advance s _ ih => exact ⟨ih.linked_live, ih.linked_own, ih.nodup⟩
  | freeUnused s _ ih => exact LinkInv_IMG_FreeUnused c s ih
  | freeAll s _ ih => exact LinkInv_IMG_FreeAll c s

/-- C38: in every state reachable from `IMG_Init` by lookups through either
entry point, epoch advances, `IMG_FreeUnused` and `IMG_FreeAll`, with the epoch
counter nonzero at every lookup: a slot with index at least 1 is linked in a
hash bucket exactly when it is live (nonzero stamp); a linked slot is linked
in one bucket only, the one selected by the hash of the first `baselen`
characters of its name, and once in it; and the slot that `alloc_image`
returns is linked in no bucket. -/
theorem C38_linked_iff_live (c : Cfg) (s : State) (hs : ReachableNonzero c s) :
    (∀ i, 1 ≤ i →
      ((∃ b, i ∈ s.r_imageHash b) ↔ (s.r_images i).registration_sequence ≠ 0)) ∧
    (∀ i b, i ∈ s.r_imageHash b →
      b = FS_HashPathLen c (s.r_images i).name (s.r_images i).baselen RIMAGES_HASH ∧
        (s.r_imageHash b).count i = 1) ∧
    (∀ i n, alloc_image c s = some (i, n) → ∀ b, i ∉ s.r_imageHash b) := by
  have hinv := Reachable_Inv c s (ReachableNonzero_Reachable c s hs)
  have hlink := ReachableNonzero_LinkInv c s hs
  refine ⟨?_, ?_, ?_⟩
  · intro i _
    constructor
    · rintro ⟨b, hb⟩
      exact hlink.linked_live b i hb
    · intro hlive
      exact ⟨_, hinv.live_linked i hlive⟩
  · intro i b hb
    exact ⟨hlink.linked_own b i hb, List.count_eq_one_of_mem (hlink.nodup b) hb⟩
  · intro i n h
    exact alloc_image_unlinked c s hinv hlink i n h

set_option maxRecDepth 100000 in
/-- Witness for C38: the table after `a.pcx` was loaded into slot 1 at epoch 1;
slot 1 is live and linked in the bucket of its base name. -/
theorem C38_linked_iff_live_witness :
    ((∃ b, 1 ∈ demo_loaded.r_imageHash b) ↔
      (demo_loaded.r_images 1).registration_sequence ≠ 0) ∧
    (demo_loaded.r_images 1).registration_sequence ≠ 0 ∧
    1 ∈ demo_loaded.r_imageHash 1 :=
  ⟨(C38_linked_iff_live demo_cfg demo_loaded
      (ReachableNonzero.find demo_world (demo_init 1) name_a 0 _
        (ReachableNonzero.init 1 (demo_init 1) rfl) (by decide)
        (IMG_Find_eq _ _ _ _ _ (by decide)))).1 1 (le_refl 1),
    by decide, by decide⟩

end Q2pro
